import Mathlib

/-!
# CanSimulator: signal codec, frame assembly, sending and receiving

A shallow embedding of the signal codec of the CAN simulator
(`src/lib/value.cpp`, `src/lib/cansignal.cpp`, `src/lib/canmessage.cpp`,
`src/lib/unitconversion.cpp`) and of the parts of `src/lib/configuration.cpp`,
`src/lib/cantransceiver.cpp` and `src/lib/cansimulatorcore.cpp` that set
variables, send messages, schedule them and classify received frames,
together with theorems about them.

Conventions of the embedding

* C integers are `ℕ`/`ℤ`; every conversion to a narrower or differently
  signed machine type is written out (`% 2 ^ w`, `wrapInt`).
* A finite C `double` is the rational number it denotes.  Every arithmetic
  operation rounds its exact result to the nearest binary64 value, ties to
  even (`rnd`); `long double` is the x87 extended format (`rndL`).  A NaN is
  a value of its own, both as the `double` held by a `Value` (`Value.NaN`)
  and as the result of `std::stold` (`LongDouble.nan`): every comparison with
  it is false, every arithmetic operation on it gives NaN, and `llround` of it
  gives the x86-64 value `-2^63`.  Infinities, signed zero, overflow and
  division by zero (a signal with factor `0`) are outside the model.
* A `std::string` is the Lean string whose characters have the codes of its
  bytes (all string literals of the program are ASCII), so a `char` with the
  code `b` is the one character `Char.ofNat b`.
* The data bytes of a `canfd_frame` are a map from byte index to byte value
  (the C array has 64 entries).
* The `int` temporaries of the codec loops (`startBit`, `startIndex`, `index`)
  are unbounded integers, which is exact for `1 ≤ dlc` and the 16-bit start
  bit and length of a signal.
* A `while` loop is a function with a fuel argument that returns `none` when
  the fuel runs out before the loop condition fails.
* A `std::map` or `std::set` is the list of its entries in iteration order; a
  write through a pointer into a map is a replacement of the entry
  (`storeSignal`, `storeMessage`).
* What the program obtains from outside is a parameter: the results of
  `std::stold` and `std::stoi` (`none` when they throw), the native-units
  switch, the outcome of `CANTransceiver::sendCANFrame` on a frame, and the
  frame delivered by `CANTransceiver::readCANFrame`.
* A time point is its number of clock ticks (`millisecondTicks` per
  millisecond); `uint64_t` counters wrap at `2 ^ 64`.
-/

attribute [local semireducible] Rat.add Rat.mul Rat.inv Rat.sub

namespace CanSimulator

/-! ## Binary floating point -/

/-- The rational `2 ^ e` for an integer exponent. -/
def pow2 (e : ℤ) : ℚ :=
  if 0 ≤ e then ((2 ^ e.toNat : ℕ) : ℚ) else 1 / ((2 ^ (-e).toNat : ℕ) : ℚ)

/-- Floor of the binary logarithm of a natural number (`0` for `0` and `1`),
by repeated halving; the first argument bounds the number of halvings. -/
def log2Aux : ℕ → ℕ → ℕ
  | 0, _ => 0
  | fuel + 1, n => if n < 2 then 0 else log2Aux fuel (n / 2) + 1

/-- Floor of the binary logarithm of `|x|` for a rational `x ≠ 0`. -/
def ilog2 (x : ℚ) : ℤ :=
  let e0 : ℤ := (log2Aux x.num.natAbs x.num.natAbs : ℤ) - (log2Aux x.den x.den : ℤ)
  if pow2 e0 ≤ |x| then e0 else e0 - 1

/-- Nearest integer, ties to the even neighbour. -/
def roundEven (x : ℚ) : ℤ :=
  let f := ⌊x⌋
  let r := x - f
  if r < 1 / 2 then f else if 1 / 2 < r then f + 1 else if f % 2 = 0 then f else f + 1

/-- Rounding to the nearest binary floating-point number with `p` significant
bits and least exponent `emin` (the exponent of the smallest subnormal). -/
def roundBin (p : ℕ) (emin : ℤ) (x : ℚ) : ℚ :=
  if x = 0 then 0 else
    let u := max (ilog2 x - ((p : ℤ) - 1)) emin
    (roundEven (x / pow2 u) : ℚ) * pow2 u

/-- Rounding to `double` (binary64). -/
def rnd (x : ℚ) : ℚ := roundBin 53 (-1074) x

/-- Rounding to `long double` (x87 extended precision, 64 significant bits). -/
def rndL (x : ℚ) : ℚ := roundBin 64 (-16445) x

/-- `std::numeric_limits<double>::epsilon()`. -/
def dblEpsilon : ℚ := pow2 (-52)

/-- Conversion of an integer to a fixed-width two's-complement signed type
of `w` bits (`(int8_t)x`, `(int)x`, ...). -/
def wrapInt (w : ℕ) (x : ℤ) : ℤ :=
  let r := x % 2 ^ w
  if r < 2 ^ (w - 1) then r else r - 2 ^ w

/-- Conversion of an integer to an unsigned type of `w` bits. -/
def wrapNat (w : ℕ) (x : ℤ) : ℕ := (x % 2 ^ w).toNat

/-- `llround`/`lround` (both return 64-bit integers on the target): nearest
integer, halfway cases away from zero.  A result that does not fit in 64 bits
is unspecified in C; the model returns the x86-64 value `-2^63`. -/
def llround (x : ℚ) : ℤ :=
  let r : ℤ := if 0 ≤ x then ⌊x + 1 / 2⌋ else -⌊-x + 1 / 2⌋
  if -(2 ^ 63 : ℤ) ≤ r ∧ r < 2 ^ 63 then r else -(2 ^ 63 : ℤ)

/-! ## Value (`value.h`, `value.cpp`) -/

/-- `Value`: a tagged numeric union.  `NaN` is the value of type `Double`
whose `double` is a NaN; `Double d` holds the finite `double` `d`. -/
inductive Value where
  | Integer (i : ℤ)
  | Double (d : ℚ)
  | Unsigned (u : ℕ)
  | NaN
  deriving DecidableEq, Repr

/-- `Value::Type`. -/
inductive ValueType where
  | Integer
  | Double
  | Unsigned
  deriving DecidableEq, Repr

namespace Value

/-- `Value::Value()`. -/
def default : Value := Integer 0

/-- `Value::type`. -/
def type : Value → ValueType
  | Integer _ => ValueType.Integer
  | Double _ => ValueType.Double
  | Unsigned _ => ValueType.Unsigned
  | NaN => ValueType.Double

/-- Whether the `double` returned by `Value::toDouble` is a NaN. -/
def isNaN : Value → Bool
  | NaN => true
  | _ => false

/-- `Value::toDouble` for a value that is not a NaN.  A NaN is no rational
number: the functions that read the `double` of a value (`getRawValue`,
`testValue`) treat it first, and the `0` given here is not used by them. -/
def toDouble : Value → ℚ
  | Integer i => rnd i
  | Double d => d
  | Unsigned u => rnd u
  | NaN => 0

/-- `Value::toInt`. -/
def toInt : Value → ℤ
  | Integer i => i
  | Double d => wrapInt 32 (llround d)
  | Unsigned u => wrapInt 32 u
  | NaN => wrapInt 32 (-(2 ^ 63 : ℤ))

/-- `Value::toUnsigned`. -/
def toUnsigned : Value → ℕ
  | Integer i => wrapNat 64 i
  | Double d => wrapNat 64 (llround d)
  | Unsigned u => u
  | NaN => wrapNat 64 (-(2 ^ 63 : ℤ))

/-- `Value::operator==`: a NaN is equal to nothing, not even to itself. -/
def eq : Value → Value → Bool
  | Integer a, Integer b => decide (a = b)
  | Double a, Double b => decide (a = b)
  | Unsigned a, Unsigned b => decide (a = b)
  | _, _ => false

/-- `Value::operator!=`. -/
def ne (a b : Value) : Bool := !(eq a b)

end Value

/-- The `long double` returned by `std::stold`: a finite number, or a NaN
(for the strings `nan`, `NAN`, `nan(...)`).  An infinite result (the strings
`inf`, `infinity`) is outside the model. -/
inductive LongDouble where
  | num (x : ℚ)
  | nan
  deriving DecidableEq, Repr

/-! ## Unit conversion (`unitconversion.h`, `unitconversion.cpp`) -/

/-- `ConvertTo`. -/
inductive ConvertTo where
  | NONE | MI | KM | KMH | MPH | MS | F | K
  deriving DecidableEq, Repr

/-- `convertFromMeters`: the converted `long double` and whether a conversion
happened.  The constants are `double` literals. -/
def convertFromMeters (value : ℚ) (conversion : ConvertTo) : ℚ × Bool :=
  match conversion with
  | ConvertTo.MI => (rndL (value * rnd (621371 / 1000000000)), true)
  | ConvertTo.KM => (rndL (value * rnd (1 / 1000)), true)
  | _ => (value, false)

/-- `convertFromMetersPerHours`. -/
def convertFromMetersPerHours (value : ℚ) (conversion : ConvertTo) : ℚ × Bool :=
  match conversion with
  | ConvertTo.KMH => (rndL (value * rnd (1 / 1000)), true)
  | ConvertTo.MPH => (rndL (value * rnd (621371 / 1000000000)), true)
  | ConvertTo.MS => (rndL (value * rnd (277778 / 1000000000)), true)
  | _ => (value, false)

/-- `convertFromCelcius`. -/
def convertFromCelcius (value : ℚ) (conversion : ConvertTo) : ℚ × Bool :=
  match conversion with
  | ConvertTo.F => (rndL (rndL (value * rnd (18 / 10)) + 32), true)
  | ConvertTo.K => (rndL (value + rnd (27315 / 100)), true)
  | _ => (value, false)

/-- `unitConversion`. -/
def unitConversion (value : ℚ) (conversion : ConvertTo) : ℚ × Bool :=
  if conversion = ConvertTo.NONE then (value, false) else
  match conversion with
  | ConvertTo.MI | ConvertTo.KM => convertFromMeters value conversion
  | ConvertTo.KMH | ConvertTo.MPH | ConvertTo.MS => convertFromMetersPerHours value conversion
  | ConvertTo.F | ConvertTo.K => convertFromCelcius value conversion
  | _ => (value, false)

/-! ## Signals (`signal.hpp`, `cansignal.h`, `cansignal.cpp`) -/

/-- `ByteOrder`. -/
inductive ByteOrder where
  | MOTOROLA | INTEL
  deriving DecidableEq, Repr

/-- `Sign`. -/
inductive Sign where
  | UNSIGNED | SIGNED
  deriving DecidableEq, Repr

/-- `CANSignal` (with the members it inherits from `Signal`). -/
structure CANSignal where
  name : String
  order : ByteOrder
  startBit : ℕ
  length : ℕ
  sign : Sign
  minimum : ℚ
  maximum : ℚ
  factor : ℚ
  offset : ℚ
  attributeList : List (String × String)
  m_isValueSet : Bool
  m_modified : Bool
  m_conversion : ConvertTo
  m_valueType : String
  m_value : Value
  m_defaultValue : Value
  deriving DecidableEq, Repr

namespace CANSignal

/-- `Signal::getAttribute` (the value of the attribute, when present). -/
def getAttribute (s : CANSignal) (name : String) : Option String :=
  (s.attributeList.find? (fun a => a.1 = name)).map (fun a => a.2)

/-- `CANSignal::getRawValue`.  For a NaN the quotient is a NaN, of which
`llround` gives `-2^63`. -/
def getRawValue (s : CANSignal) : ℕ :=
  let q := if s.m_value.isNaN then -(2 ^ 63 : ℤ)
    else llround (rnd (rnd (s.m_value.toDouble - s.offset) / s.factor))
  if s.sign = Sign.SIGNED then
    if s.length = 8 then wrapNat 8 q
    else if s.length = 16 then wrapNat 16 q
    else if s.length = 32 then wrapNat 32 q
    else wrapNat 64 q
  else wrapNat 64 q

/-- `CANSignal::testValue`.  For a NaN both comparisons of the first test are
false, so the function takes the `else` branch and returns `true`. -/
def testValue (s : CANSignal) (value : Value) : Bool :=
  if value.isNaN then true else
  let v := value.toDouble
  if v < s.minimum ∨ v > s.maximum then
    if |rnd (v - s.minimum)| ≤ rnd (|min v s.minimum| * dblEpsilon) ∨
        |rnd (v - s.maximum)| ≤ rnd (|min v s.maximum| * dblEpsilon) then
      true
    else false
  else true

/-- `CANSignal::setValue(Value &)`. -/
def setValue (s : CANSignal) (value : Value) : Bool × CANSignal :=
  if s.testValue value then
    (true, { s with m_isValueSet := true, m_modified := true, m_value := value })
  else (false, s)

/-- The `double` computed by `setValueFromRaw` from the raw bits of a signed
signal, `none` where the function returns `false` at once. -/
def signedPhysical (s : CANSignal) (rawValue : ℕ) : Option ℚ :=
  if s.length = 8 then some (rnd (rnd (wrapInt 8 rawValue * s.factor) + s.offset))
  else if s.length = 16 then some (rnd (rnd (wrapInt 16 rawValue * s.factor) + s.offset))
  else if s.length = 32 then some (rnd (rnd (wrapInt 32 rawValue * s.factor) + s.offset))
  else none

/-- The `double` computed by `setValueFromRaw` from the raw bits of an
unsigned signal. -/
def unsignedPhysical (s : CANSignal) (rawValue : ℕ) : ℚ :=
  rnd (rnd (rnd rawValue * s.factor) + s.offset)

/-- The candidate `val` of `CANSignal::setValueFromRaw`, `none` where the
function returns `false` before the range test. -/
def valueFromRaw (s : CANSignal) (rawValue : ℕ) : Option Value :=
  match s.m_value.type with
  | ValueType.Double =>
    if s.sign = Sign.SIGNED then (s.signedPhysical rawValue).map Value.Double
    else some (Value.Double (s.unsignedPhysical rawValue))
  | ValueType.Unsigned =>
    some (Value.Unsigned (wrapNat 64 (llround (s.unsignedPhysical rawValue))))
  | ValueType.Integer =>
    if s.sign = Sign.SIGNED then
      (s.signedPhysical rawValue).map (fun d => Value.Integer (wrapInt 32 (llround d)))
    else some (Value.Integer (wrapInt 32 (llround (s.unsignedPhysical rawValue))))

/-- `CANSignal::setValueFromRaw`. -/
def setValueFromRaw (s : CANSignal) (rawValue : ℕ) : Bool × CANSignal :=
  match s.valueFromRaw rawValue with
  | none => (false, s)
  | some val =>
    if s.testValue val then
      (true, { s with m_isValueSet := true, m_modified := true, m_value := val })
    else (false, s)

/-- The `long double` that `parseValue` converts: the parsed number, sent
through `unitConversion` unless native units are in use. -/
def convertedNumber (s : CANSignal) (useNativeUnits : Bool) (parsed : ℚ) : ℚ :=
  if useNativeUnits then parsed else (unitConversion parsed s.m_conversion).1

/-- The `Value` that `parseValue` builds from the converted number, by the
declared value type of the signal.  The calls `llround(parsedValue)` and
`lround(parsedValue)` are unqualified, so they are the functions of
`<math.h>` that take a `double`: the `long double` is converted to `double`
before it is rounded to an integer. -/
def typedValue (s : CANSignal) (parsedValue : ℚ) : Value :=
  if s.m_valueType = "double" then Value.Double (rnd parsedValue)
  else if s.m_valueType = "unsigned" then
    Value.Unsigned (wrapNat 64 (llround (rnd parsedValue)))
  else Value.Integer (wrapInt 32 (llround (rnd parsedValue)))

/-- The `Value` that `parseValue` builds when `std::stold` returns a NaN: the
unit conversion leaves a NaN a NaN, the conversion to `double` too, and
`llround`/`lround` of it give `-2^63`. -/
def typedNaN (s : CANSignal) : Value :=
  if s.m_valueType = "double" then Value.NaN
  else if s.m_valueType = "unsigned" then Value.Unsigned (wrapNat 64 (-(2 ^ 63 : ℤ)))
  else Value.Integer (wrapInt 32 (-(2 ^ 63 : ℤ)))

/-- `CANSignal::parseValue`: the returned flag and the content of the
reference parameter `value` afterwards.  `stold` is the result of
`std::stold` on the string (`none` when it throws); `useNativeUnits` is
`CANSimulatorCore::getUseNativeUnits()`. -/
def parseValue (s : CANSignal) (stold : String → Option LongDouble) (useNativeUnits : Bool)
    (valueString : String) (value : Value) : Bool × Value :=
  match stold valueString with
  | none => (false, value)
  | some LongDouble.nan =>
    let value := s.typedNaN
    (s.testValue value, value)
  | some (LongDouble.num parsed) =>
    let value := s.typedValue (s.convertedNumber useNativeUnits parsed)
    (s.testValue value, value)

/-- `CANSignal::setDefaultValue`. -/
def setDefaultValue (s : CANSignal) (stold : String → Option LongDouble) (useNativeUnits : Bool)
    (valueString : String) : Bool × CANSignal :=
  let r := s.parseValue stold useNativeUnits valueString Value.default
  if r.1 then (true, { s with m_defaultValue := r.2 }) else (false, s)

/-- `CANSignal::setValue(const std::string &)`. -/
def setValueString (s : CANSignal) (stold : String → Option LongDouble) (useNativeUnits : Bool)
    (valueString : String) : Bool × CANSignal :=
  let r := s.parseValue stold useNativeUnits valueString Value.default
  if r.1 then (true, { s with m_isValueSet := true, m_modified := true, m_value := r.2 })
  else (false, s)

/-- `CANSignal::resetValue`. -/
def resetValue (s : CANSignal) (setValue : Bool) : Bool × CANSignal :=
  let s1 := { s with m_isValueSet := setValue }
  if Value.ne s1.m_value s1.m_defaultValue then
    (true, { s1 with m_value := s1.m_defaultValue, m_modified := false })
  else (false, s1)

end CANSignal

/-! ## Frames and messages (`canmessage.h`, `canmessage.cpp`) -/

/-- `struct canfd_frame`: identifier, payload length and payload bytes. -/
structure canfd_frame where
  can_id : ℕ
  len : ℕ
  data : ℕ → ℕ

/-- The frame after `memset(frame, 0, sizeof(struct canfd_frame))`. -/
def canfd_frame.zero : canfd_frame := { can_id := 0, len := 0, data := fun _ => 0 }

/-- Assignment `data[i] = b` to one byte of the payload. -/
def setByte (data : ℕ → ℕ) (i : ℕ) (b : ℕ) : ℕ → ℕ :=
  fun j => if j = i then b else data j

/-- `MessageDirection`. -/
inductive MessageDirection where
  | SEND | RECEIVE
  deriving DecidableEq, Repr

/-- `CANMessage` (with the members it inherits from `Message`); `m_signals`
lists the signals in the iteration order of the `std::map`. -/
structure CANMessage where
  name : String
  id : ℕ
  dlc : ℕ
  attributeList : List (String × String)
  m_modified : Bool
  m_sendTime : ℤ
  m_signals : List CANSignal
  m_transferSuccessful : ℕ
  m_transferFailed : ℕ
  m_transferFalseDirection : ℕ
  m_direction : MessageDirection
  deriving DecidableEq, Repr

/-- The `int startBit` computed at the head of both codec loops. -/
def codecStartBit (dlc : ℕ) (s : CANSignal) : ℤ :=
  match s.order with
  | ByteOrder.INTEL => (s.startBit : ℤ)
  | ByteOrder.MOTOROLA =>
    ((dlc : ℤ) - 1) * 8 - ((s.length : ℤ) - 1) - ((s.startBit / 8 : ℕ) : ℤ) * 8
      + ((s.startBit % 8 : ℕ) : ℤ)

/-- The `int startIndex` computed at the head of both codec loops (`/` on
`int` truncates towards zero). -/
def codecStartIndex (dlc : ℕ) (s : CANSignal) : ℤ :=
  match s.order with
  | ByteOrder.INTEL => Int.tdiv (codecStartBit dlc s) 8
  | ByteOrder.MOTOROLA => Int.tdiv (codecStartBit dlc s) 8 - ((dlc : ℤ) - 1)

/-- `unsigned int startOffset = abs(startBit) % 8`. -/
def codecStartOffset (dlc : ℕ) (s : CANSignal) : ℕ := (codecStartBit dlc s).natAbs % 8

/-- The `while (dataLeft > 0)` loop of `assembleCANFrame`, acting on the
payload bytes. -/
def packLoop (value : ℕ) (startOffset : ℕ) (startIndex : ℤ) :
    ℕ → ℕ → ℕ → ℤ → (ℕ → ℕ) → Option (ℕ → ℕ)
  | 0, dataLeft, _, _, data => if dataLeft = 0 then some data else none
  | fuel + 1, dataLeft, offset, index, data =>
    if dataLeft = 0 then some data else
      let currentSize := if 8 - offset ≥ dataLeft then dataLeft else 8 - offset
      let bitmask := (1 <<< currentSize) - 1
      let i := index.natAbs
      let data1 :=
        if startOffset ≠ 0 ∧ startIndex - index = 0 then
          setByte data i ((data i ||| (((value &&& bitmask) <<< startOffset) % 2 ^ 64)) % 256)
        else
          setByte data i
            ((data i ||| ((value >>> (8 * (startIndex - index).natAbs - startOffset)) &&& bitmask))
              % 256)
      packLoop value startOffset startIndex fuel (dataLeft - currentSize) 0 (index + 1) data1

/-- The `while (dataLeft > 0)` loop of `parseCANFrame`, accumulating `value`.
The shifted operand of the second branch has type `unsigned int`, so the
shift result is kept to 32 bits.  A shift by 32 or more, which happens for
the bytes of a field beyond its first 32 bits, is undefined in C++; the model
gives it the same formula, so that such a byte contributes nothing, whereas
an x86-64 build shifts by the count modulo 32.  The statements about values
read from a frame are restricted to fields of at most 32 bits, and those about
longer fields do not depend on what such a shift gives. -/
def unpackLoop (data : ℕ → ℕ) (startOffset : ℕ) (startIndex : ℤ) :
    ℕ → ℕ → ℕ → ℤ → ℕ → Option ℕ
  | 0, dataLeft, _, _, value => if dataLeft = 0 then some value else none
  | fuel + 1, dataLeft, offset, index, value =>
    if dataLeft = 0 then some value else
      let currentSize := if 8 - offset ≥ dataLeft then dataLeft else 8 - offset
      let bitmask := (1 <<< currentSize) - 1
      let i := index.natAbs
      let value1 :=
        if startOffset ≠ 0 ∧ startIndex - index = 0 then
          value ||| ((data i >>> startOffset) &&& bitmask)
        else
          value |||
            (((data i &&& bitmask) <<< (8 * (startIndex - index).natAbs - startOffset)) % 2 ^ 32)
      unpackLoop data startOffset startIndex fuel (dataLeft - currentSize) 0 (index + 1) value1

/-- The body of the `for` loop of `assembleCANFrame` for one signal holding
raw value `value`. -/
def packSignal (dlc : ℕ) (s : CANSignal) (value : ℕ) (data : ℕ → ℕ) : Option (ℕ → ℕ) :=
  packLoop value (codecStartOffset dlc s) (codecStartIndex dlc s)
    s.length s.length (codecStartOffset dlc s) (codecStartIndex dlc s) data

/-- The extraction part of the body of the `for` loop of `parseCANFrame` for
one signal. -/
def unpackSignal (dlc : ℕ) (s : CANSignal) (data : ℕ → ℕ) : Option ℕ :=
  unpackLoop data (codecStartOffset dlc s) (codecStartIndex dlc s)
    s.length s.length (codecStartOffset dlc s) (codecStartIndex dlc s) 0

/-- The `for` loop of `assembleCANFrame` over the signals. -/
def packSignals (dlc : ℕ) : List CANSignal → (ℕ → ℕ) → Option (ℕ → ℕ)
  | [], data => some data
  | s :: rest, data =>
    match packSignal dlc s s.getRawValue data with
    | none => none
    | some data1 => packSignals dlc rest data1

namespace CANMessage

/-- `CANMessage::assembleCANFrame`. -/
def assembleCANFrame (m : CANMessage) : Option canfd_frame :=
  match packSignals m.dlc m.m_signals canfd_frame.zero.data with
  | none => none
  | some data => some { can_id := m.id, len := m.dlc % 256, data := data }

/-- The body of the `for` loop of `parseCANFrame` for one signal: whether
`ret` is set by it, and the signal afterwards. -/
def parseSignal (dlc : ℕ) (data : ℕ → ℕ) (s : CANSignal) : Option (Bool × CANSignal) :=
  match unpackSignal dlc s data with
  | none => none
  | some value =>
    if !s.m_isValueSet || value != s.getRawValue then some (s.setValueFromRaw value)
    else some (false, s)

/-- The `for` loop of `parseCANFrame` over the signals: the flag `ret` and
the updated signals. -/
def parseSignals (dlc : ℕ) (data : ℕ → ℕ) :
    List CANSignal → Bool → Option (Bool × List CANSignal)
  | [], ret => some (ret, [])
  | s :: rest, ret =>
    match parseSignal dlc data s with
    | none => none
    | some (changed, s1) =>
      match parseSignals dlc data rest (ret || changed) with
      | none => none
      | some (ret1, rest1) => some (ret1, s1 :: rest1)

/-- `CANMessage::parseCANFrame`: the returned flag and the message afterwards. -/
def parseCANFrame (m : CANMessage) (frame : canfd_frame) : Option (Bool × CANMessage) :=
  match parseSignals m.dlc frame.data m.m_signals false with
  | none => none
  | some (ret, sigs) => some (ret, { m with m_signals := sigs })

end CANMessage


/-! ## Fields of a frame -/

/-- State of the codec loops before an iteration: `k` iterations done, `p`
raw bits transferred, `offset` the current offset. -/
def LoopInv (so offset k p : ℕ) : Prop :=
  so + p = 8 * k + offset ∧ offset < 8 ∧ (k = 0 → offset = so) ∧ (1 ≤ k → offset = 0)

/-- The byte index from which the reflected addressing is taken: `0` for
Intel signals, `dlc - 1` for Motorola signals. -/
def codecBase (dlc : ℕ) (s : CANSignal) : ℤ :=
  match s.order with
  | ByteOrder.INTEL => 0
  | ByteOrder.MOTOROLA => (dlc : ℤ) - 1

/-- The payload byte that holds raw bit `t` of a signal whose start bit, as
computed by the codec, is `S`. -/
def fieldByte (dlc : ℕ) (s : CANSignal) (S t : ℕ) : ℕ :=
  ((((S + t) / 8 : ℕ) : ℤ) - codecBase dlc s).natAbs

/-- Bit `b` of payload byte `j` belongs to the field of signal `s`. -/
def fieldHas (dlc : ℕ) (s : CANSignal) (j b : ℕ) : Prop :=
  ∃ t, t < s.length ∧ fieldByte dlc s (codecStartBit dlc s).toNat t = j ∧
    ((codecStartBit dlc s).toNat + t) % 8 = b

instance (dlc : ℕ) (s : CANSignal) (j b : ℕ) : Decidable (fieldHas dlc s j b) := by
  unfold fieldHas
  infer_instance

/-- The fields of the signals of `m` cover every bit of the `dlc` data bytes. -/
def Covers (m : CANMessage) : Prop :=
  ∀ j, j < m.dlc → ∀ b, b < 8 → ∃ s, s ∈ m.m_signals ∧ fieldHas m.dlc s j b

instance (m : CANMessage) : Decidable (Covers m) := by
  unfold Covers
  infer_instance

/-- No bit of the payload (of at most 64 bytes) belongs to the fields of two
signals of `m`. -/
def DisjointFields (m : CANMessage) : Prop :=
  m.m_signals.Pairwise (fun s s' =>
    ∀ j, j < 64 → ∀ b, b < 8 → ¬ (fieldHas m.dlc s j b ∧ fieldHas m.dlc s' j b))

instance (m : CANMessage) : Decidable (DisjointFields m) := by
  unfold DisjointFields
  infer_instance

/-- After the parsing step of signal `s` on `data`, the raw value of the
signal agrees in its low `length` bits with the bits extracted from `data`. -/
def reencodes (dlc : ℕ) (data : ℕ → ℕ) (s : CANSignal) : Bool :=
  match unpackSignal dlc s data, CANMessage.parseSignal dlc data s with
  | some v, some r => r.2.getRawValue % 2 ^ s.length == v
  | _, _ => false

/-- The raw value extracted from `data` for signal `s` decodes to a value that
`setValueFromRaw` accepts. -/
def decodesAccepted (dlc : ℕ) (data : ℕ → ℕ) (s : CANSignal) : Bool :=
  match unpackSignal dlc s data with
  | some v => (s.setValueFromRaw v).1
  | none => false


/-! ## Concrete signals and messages used in examples -/

/-- A signal with the given layout, scaling, bounds, value type and current
value; not yet set, unmodified, no attributes, no unit conversion. -/
def mkSignal (order : ByteOrder) (startBit length : ℕ) (sign : Sign)
    (minimum maximum factor offset : ℚ) (valueType : String) (value : Value) : CANSignal :=
  { name := "SIG", order := order, startBit := startBit, length := length, sign := sign,
    minimum := minimum, maximum := maximum, factor := factor, offset := offset,
    attributeList := [], m_isValueSet := false, m_modified := false,
    m_conversion := ConvertTo.NONE, m_valueType := valueType, m_value := value,
    m_defaultValue := value }

/-- A send-direction message with the given identifier, length and signals. -/
def mkMessage (id dlc : ℕ) (signals : List CANSignal) : CANMessage :=
  { name := "MSG", id := id, dlc := dlc, attributeList := [], m_modified := false,
    m_sendTime := 0, m_signals := signals, m_transferSuccessful := 0, m_transferFailed := 0,
    m_transferFalseDirection := 0, m_direction := MessageDirection.SEND }

/-- A signed 12-bit signal holding `-1`. -/
def signed12 : CANSignal :=
  mkSignal ByteOrder.INTEL 0 12 Sign.SIGNED (-2048) 2047 1 0 "int" (Value.Integer (-1))

/-- A signed 8-bit signal with bounds `[-128, 127]` holding `v`. -/
def signed8 (v : ℤ) : CANSignal :=
  mkSignal ByteOrder.INTEL 0 8 Sign.SIGNED (-128) 127 1 0 "int" (Value.Integer v)

/-- A signed 32-bit signal with factor `0.1` (the nearest `double`), offset
`0` and value type `double`, initially holding `0.0`. -/
def tenthSignal : CANSignal :=
  mkSignal ByteOrder.INTEL 0 32 Sign.SIGNED (-214748365) 214748365 (rnd (1 / 10)) 0 "double"
    (Value.Double 0)

/-- The same signal with factor `0.01`. -/
def hundredthSignal : CANSignal :=
  mkSignal ByteOrder.INTEL 0 32 Sign.SIGNED (-21474837) 21474837 (rnd (1 / 100)) 0 "double"
    (Value.Double 0)

/-- The `double` obtained from a decimal literal through `long double`, as
`setValue(string)` does for a signal of value type `double`. -/
def decimalDouble (x : ℚ) : ℚ := rnd (rndL x)

/-- The factor-`0.1` signal holding the `double` nearest to `12.7`. -/
def tenthSignalAt127 : CANSignal :=
  { tenthSignal with m_value := Value.Double (rnd (127 / 10)) }

/-- An unsigned 8-bit signal with factor `2`, offset `-40`, bounds
`[-40, 470]`, holding `10`. -/
def scaled8 : CANSignal :=
  mkSignal ByteOrder.INTEL 0 8 Sign.UNSIGNED (-40) 470 2 (-40) "int" (Value.Integer 10)

/-- An unsigned 33-bit Intel signal at start bit 1. -/
def wide33 : CANSignal :=
  mkSignal ByteOrder.INTEL 1 33 Sign.UNSIGNED 0 8589934591 1 0 "unsigned" (Value.Unsigned 0)

/-- An unsigned 3-bit Intel signal at start bit 0 holding `1`. -/
def intel3 : CANSignal :=
  mkSignal ByteOrder.INTEL 0 3 Sign.UNSIGNED 0 7 1 0 "int" (Value.Integer 1)

/-- A message of one byte that contains only `intel3`. -/
def intel3Message : CANMessage := mkMessage 1 1 [intel3]

/-- An unsigned Motorola signal that spans the only byte of its message,
holding `127`. -/
def motorola8 : CANSignal :=
  mkSignal ByteOrder.MOTOROLA 7 8 Sign.UNSIGNED 0 255 1 0 "int" (Value.Integer 127)

/-- A message of one byte that contains only `motorola8`. -/
def motorola8Message : CANMessage := mkMessage 2 1 [motorola8]

/-- An unsigned 8-bit signal with factor `0.5` and value type `int`. -/
def halfSignal : CANSignal :=
  mkSignal ByteOrder.INTEL 0 8 Sign.UNSIGNED 0 255 (1 / 2) 0 "int" (Value.Integer 0)

/-- A message of one byte that contains only `halfSignal`. -/
def halfMessage : CANMessage := mkMessage 1 1 [halfSignal]

/-- A frame whose first data byte is `byte0`, all others `0`. -/
def frameOfByte (id byte0 : ℕ) : canfd_frame :=
  { can_id := id, len := 1, data := fun j => if j = 0 then byte0 else 0 }

/-- A message of one byte with an Intel signal in bits 0..2 and a Motorola
signal in bits 7..3, both unsigned with factor `1` and offset `0`. -/
def twoSignalMessage : CANMessage :=
  mkMessage 291 1
    [mkSignal ByteOrder.INTEL 0 3 Sign.UNSIGNED 0 7 1 0 "int" (Value.Integer 0),
     mkSignal ByteOrder.MOTOROLA 7 5 Sign.UNSIGNED 0 31 1 0 "int" (Value.Integer 0)]


/-! ## Scheduling, flags and counters of a message (`canmessage.cpp`) -/

/-- The number of ticks of `std::chrono::system_clock` in one millisecond
(the clock of libstdc++ counts nanoseconds); time points are tick counts. -/
def millisecondTicks : ℤ := 1000000

/-- Assignment through the pointer returned by `getSignalPrivate`: the signal
stored under `name` is replaced by `s1`. -/
def storeSignal (name : String) (s1 : CANSignal) : List CANSignal → List CANSignal
  | [] => []
  | s :: rest => if s.name = name then s1 :: rest else s :: storeSignal name s1 rest

namespace CANMessage

/-- `Message::getAttribute` (the value of the attribute, when present). -/
def getAttribute (m : CANMessage) (name : String) : Option String :=
  (m.attributeList.find? (fun a => a.1 = name)).map (fun a => a.2)

/-- `CANMessage::isModified`. -/
def isModified (m : CANMessage) : Bool := m.m_modified

/-- The `for` loop over the signals in `isSendScheduled`, entered with both
flags `false`: the flags `updateSendTime` and `ret` when it ends. -/
def scheduledBySignals (sendTime now : ℤ) : List CANSignal → Bool × Bool
  | [] => (false, false)
  | s :: rest =>
    match s.getAttribute "GenSigSendType" with
    | some sigSendType =>
      if sigSendType = "Cyclic" ∧ now ≥ sendTime then (true, true)
      else if sigSendType = "OnChange" ∨ sigSendType = "OnChangeWithRepetition" then
        if s.m_modified then (false, true) else scheduledBySignals sendTime now rest
      else scheduledBySignals sendTime now rest
    | none => scheduledBySignals sendTime now rest

/-- The flags `updateSendTime` and `ret` after the check of the message-level
send type in `isSendScheduled`. -/
def scheduledByMessage (m : CANMessage) (cycleTime now : ℤ) : Bool × Bool :=
  match m.getAttribute "GenMsgSendType" with
  | some msgSendType =>
    if msgSendType = "Cyclic" ∧ cycleTime > 0 ∧ now ≥ m.m_sendTime then (true, true)
    else if msgSendType = "OnChange" ∨ msgSendType = "OnChangeWithRepetition" then
      if m.isModified then (false, true) else (false, false)
    else (false, false)
  | none => (false, false)

/-- `CANMessage::isSendScheduled`: the returned flag and the message
afterwards.  `stoi` is the result of `std::stoi` on the string (`none` when it
throws, which the function catches and answers with `false`). -/
def isSendScheduled (stoi : String → Option ℤ) (m : CANMessage) (now : ℤ) :
    Bool × CANMessage :=
  let parsedCycleTime : Option ℤ :=
    match m.getAttribute "GenMsgCycleTime" with
    | some value => stoi value
    | none => some 0
  match parsedCycleTime with
  | none => (false, m)
  | some cycleTime =>
    let byMessage := scheduledByMessage m cycleTime now
    let flags := if !byMessage.2 then scheduledBySignals m.m_sendTime now m.m_signals
      else byMessage
    (flags.2,
      if flags.1 then { m with m_sendTime := now + cycleTime * millisecondTicks } else m)

/-- `CANMessage::setModified`. -/
def setModified (m : CANMessage) (modified : Bool) : CANMessage :=
  let m1 := { m with m_modified := modified }
  if !modified then
    { m1 with m_signals := m1.m_signals.map (fun s => { s with m_modified := modified }) }
  else m1

/-- `CANMessage::getSignalPrivate`. -/
def getSignalPrivate (m : CANMessage) (name : String) : Option CANSignal :=
  m.m_signals.find? (fun s => s.name = name)

/-- `CANMessage::setValue(const std::string &, Value &)`. -/
def setValue (m : CANMessage) (key : String) (value : Value) : Bool × CANMessage :=
  match m.getSignalPrivate key with
  | some signal =>
    let r := signal.setValue value
    let m1 := { m with m_signals := storeSignal key r.2 m.m_signals }
    if r.1 then (true, { m1 with m_modified := true }) else (false, m1)
  | none => (false, m)

/-- `CANMessage::setValue(const std::string &, const std::string &)`. -/
def setValueString (m : CANMessage) (stold : String → Option LongDouble) (useNativeUnits : Bool)
    (key : String) (value : String) : Bool × CANMessage :=
  match m.getSignalPrivate key with
  | some signal =>
    let r := signal.setValueString stold useNativeUnits value
    let m1 := { m with m_signals := storeSignal key r.2 m.m_signals }
    if r.1 then (true, { m1 with m_modified := true }) else (false, m1)
  | none => (false, m)

/-- `CANMessage::updateTransfer`; the counters are `uint64_t`. -/
def updateTransfer (m : CANMessage) (successful : Bool) (direction : MessageDirection) :
    CANMessage :=
  if direction ≠ m.m_direction then
    { m with m_transferFalseDirection := (m.m_transferFalseDirection + 1) % 2 ^ 64 }
  else if successful then
    { m with m_transferSuccessful := (m.m_transferSuccessful + 1) % 2 ^ 64 }
  else { m with m_transferFailed := (m.m_transferFailed + 1) % 2 ^ 64 }

/-- `CANMessage::setDirection`. -/
def setDirection (m : CANMessage) (direction : MessageDirection) : CANMessage :=
  { m with m_direction := direction }

end CANMessage

/-! ## Transceiver (`cantransceiver.cpp`) -/

namespace CANTransceiver

/-- `CANTransceiver::sendCANMessage`: the returned flag and the message
afterwards.  `sendCANFrame` is the result of `CANTransceiver::sendCANFrame`
on the assembled frame (state of the socket and outcome of `write`). -/
def sendCANMessage (sendCANFrame : canfd_frame → Bool) (message : CANMessage) :
    Option (Bool × CANMessage) :=
  match message.assembleCANFrame with
  | none => none
  | some frame =>
    if !sendCANFrame frame then
      some (false, message.updateTransfer false MessageDirection.SEND)
    else
      some (true, (message.updateTransfer true MessageDirection.SEND).setModified false)

end CANTransceiver

/-! ## Configuration (`configuration.h`, `configuration.cpp`) -/

/-- One member of the `"signals"` object of the mapping file: the integer
under `"id"` (when that member exists), the string under `"signal"` and the
string under `"direction"` (when that member exists). -/
structure VariableMapping where
  id : Option ℤ
  signal : String
  direction : Option String
  deriving DecidableEq, Repr

/-- The members of `Configuration` that decide which variables can be set:
the `"signals"` object of `m_canMapping` as a list of its members, the two
sets of identifiers in iteration order, the messages of `m_messages`
(each stored under its own identifier), and the set `m_variables` of the
variable names that `initSignalSettings` found a signal for. -/
structure Configuration where
  m_canMapping : List (String × VariableMapping)
  m_ignoreDirections : Bool
  m_sendIDs : List ℕ
  m_receiveIDs : List ℕ
  m_messages : List CANMessage
  m_variables : List String
  deriving DecidableEq, Repr

/-- Assignment through the pointer returned by `Configuration::getMessage`:
the message stored under `msgId` is replaced by `m1`. -/
def storeMessage (msgId : ℕ) (m1 : CANMessage) : List CANMessage → List CANMessage
  | [] => []
  | m :: rest => if m.id = msgId then m1 :: rest else m :: storeMessage msgId m1 rest

namespace Configuration

/-- `std::set<std::uint32_t>::insert`. -/
def insertID (id : ℕ) (ids : List ℕ) : List ℕ :=
  if id ∈ ids then ids else List.orderedInsert (fun a b => a ≤ b) id ids

/-- The `std::uint32_t` made from `json_integer_value(json_object_get(.., "id"))`,
which is `0` when there is no such member. -/
def jsonID (v : VariableMapping) : ℕ := wrapNat 32 (v.id.getD 0)

/-- The body of the loop of `Configuration::initMessageDirections` for one
member of the `"signals"` object. -/
def initDirection (cfg : Configuration) (value : VariableMapping) : Configuration :=
  match value.id with
  | some _ =>
    if cfg.m_ignoreDirections then
      { cfg with m_sendIDs := insertID (jsonID value) cfg.m_sendIDs,
                 m_receiveIDs := insertID (jsonID value) cfg.m_receiveIDs }
    else if value.direction = none ∨ value.direction = some "out" then
      { cfg with m_sendIDs := insertID (jsonID value) cfg.m_sendIDs }
    else if value.direction = some "in" then
      { cfg with m_receiveIDs := insertID (jsonID value) cfg.m_receiveIDs }
    else cfg
  | none => cfg

/-- `Configuration::initMessageDirections`. -/
def initMessageDirections (cfg : Configuration) : Configuration :=
  cfg.m_canMapping.foldl (fun c kv => initDirection c kv.2) cfg

/-- The member of the `"signals"` object stored under `key`. -/
def mappingOf (cfg : Configuration) (key : String) : Option VariableMapping :=
  (cfg.m_canMapping.find? (fun kv => kv.1 = key)).map (fun kv => kv.2)

/-- `Configuration::isVariableSupported`. -/
def isVariableSupported (cfg : Configuration) (key : String) : Bool :=
  (cfg.mappingOf key).isSome

/-- `Configuration::getMessageId`: `none` where it returns `false`. -/
def getMessageId (cfg : Configuration) (key : String) : Option ℕ :=
  if cfg.isVariableSupported key then (cfg.mappingOf key).map jsonID else none

/-- `Configuration::getSignalName`: `none` where it returns `false`. -/
def getSignalName (cfg : Configuration) (key : String) : Option String :=
  if cfg.isVariableSupported key then (cfg.mappingOf key).map (fun v => v.signal) else none

/-- `Configuration::getMessage(const std::uint32_t &)`. -/
def getMessage (cfg : Configuration) (msgId : ℕ) : Option CANMessage :=
  cfg.m_messages.find? (fun m => m.id = msgId)

/-- `Configuration::initCANMessageDirections`. -/
def initCANMessageDirections (cfg : Configuration) : Configuration :=
  cfg.m_receiveIDs.foldl (fun c id =>
    match c.getMessage id with
    | some msg =>
      { c with m_messages :=
          storeMessage id (msg.setDirection MessageDirection.RECEIVE) c.m_messages }
    | none => c) cfg

/-- `Configuration::getMessage(const std::string &)`: the message and the
identifier it is stored under. -/
def getMessageByKey (cfg : Configuration) (key : String) : Option (ℕ × CANMessage) :=
  match cfg.getMessageId key with
  | some msgId => (cfg.getMessage msgId).map (fun m => (msgId, m))
  | none => none

/-- `Configuration::setValue(const std::string &, Value)`: the returned flag
and the configuration afterwards. -/
def setValue (cfg : Configuration) (key : String) (value : Value) : Bool × Configuration :=
  match cfg.getMessageByKey key with
  | some (stored, message) =>
    match cfg.getSignalName key with
    | some signalName =>
      match cfg.getMessageId key with
      | some msgId =>
        if !cfg.m_sendIDs.contains msgId then (false, cfg)
        else
          let r := message.setValue signalName value
          (r.1, { cfg with m_messages := storeMessage stored r.2 cfg.m_messages })
      | none => (false, cfg)
    | none => (false, cfg)
  | none => (false, cfg)

/-- `Configuration::setValue(const std::string &, std::string)`. -/
def setValueString (cfg : Configuration) (stold : String → Option LongDouble) (useNativeUnits : Bool)
    (key : String) (value : String) : Bool × Configuration :=
  match cfg.getMessageByKey key with
  | some (stored, message) =>
    match cfg.getSignalName key with
    | some signalName =>
      match cfg.getMessageId key with
      | some msgId =>
        if !cfg.m_sendIDs.contains msgId then (false, cfg)
        else
          let r := message.setValueString stold useNativeUnits signalName value
          (r.1, { cfg with m_messages := storeMessage stored r.2 cfg.m_messages })
      | none => (false, cfg)
    | none => (false, cfg)
  | none => (false, cfg)

end Configuration

/-! ## Simulator core (`cansimulatorcore.h`, `cansimulatorcore.cpp`) -/

/-- `CAN_ERR_FLAG` of `linux/can.h`. -/
def CAN_ERR_FLAG : ℕ := 0x20000000

/-- `CAN_EFF_FLAG` of `linux/can.h`. -/
def CAN_EFF_FLAG : ℕ := 0x80000000

/-- `CAN_SFF_ID_BITS` of `linux/can.h`. -/
def CAN_SFF_ID_BITS : ℕ := 11

/-- `CAN_EFF_ID_BITS` of `linux/can.h`. -/
def CAN_EFF_ID_BITS : ℕ := 29

/-- `FRAME_SIZE` of `cansimulatorcore.cpp`. -/
def FRAME_SIZE : ℕ := 33

/-- `struct errorMetrics`; all members are `uint64_t`. -/
structure errorMetrics where
  errorMessages : ℕ
  unknownMessages : ℕ
  errorSize : ℕ
  unknownSize : ℕ
  deriving DecidableEq, Repr

/-- The members of `CANSimulatorCore` used by sending and receiving. -/
structure CANSimulatorCore where
  m_config : Configuration
  m_filterList : List (ℕ × Bool)
  m_errorMetrics : errorMetrics
  deriving DecidableEq, Repr

namespace CANSimulatorCore

/-- `CANSimulatorCore::isMessageFiltered`. -/
def isMessageFiltered (core : CANSimulatorCore) (id : ℕ) : Bool :=
  match core.m_filterList.find? (fun e => e.1 = id) with
  | some e => e.2
  | none => false

/-- The core after a write through a message pointer obtained from
`m_config->getMessage(id)`. -/
def withMessage (core : CANSimulatorCore) (id : ℕ) (m1 : CANMessage) : CANSimulatorCore :=
  { core with m_config :=
      { core.m_config with m_messages := storeMessage id m1 core.m_config.m_messages } }

/-- `CANSimulatorCore::sendCANMessage(std::uint32_t, bool)`: the returned flag
and the core afterwards. -/
def sendCANMessage (sendCANFrame : canfd_frame → Bool) (core : CANSimulatorCore) (id : ℕ)
    (forceSend : Bool) : Option (Bool × CANSimulatorCore) :=
  match core.m_config.getMessage id with
  | some message =>
    if !core.isMessageFiltered message.id then
      if forceSend || message.isModified then
        match CANTransceiver.sendCANMessage sendCANFrame message with
        | none => none
        | some (sent, message1) => some (sent, core.withMessage id message1)
      else some (false, core)
    else some (false, core)
  | none => some (false, core)

/-- The `for` loop of `sendCANMessages` over the copied set of identifiers. -/
def sendLoop (sendCANFrame : canfd_frame → Bool) (sendAll : Bool) :
    List ℕ → CANSimulatorCore → Bool → Option (Bool × CANSimulatorCore)
  | [], core, ret => some (ret, core)
  | id :: rest, core, ret =>
    match sendCANMessage sendCANFrame core id sendAll with
    | none => none
    | some (sent, core1) => sendLoop sendCANFrame sendAll rest core1 (if !sent then false else ret)

/-- `CANSimulatorCore::sendCANMessages`. -/
def sendCANMessages (sendCANFrame : canfd_frame → Bool) (core : CANSimulatorCore)
    (sendAll : Bool) : Option (Bool × CANSimulatorCore) :=
  sendLoop sendCANFrame sendAll core.m_config.m_sendIDs core true

/-- The summand `FRAME_SIZE + frame.len + (.. ? CAN_EFF_ID_BITS : CAN_SFF_ID_BITS)`. -/
def frameBits (frame : canfd_frame) : ℕ :=
  FRAME_SIZE + frame.len +
    (if frame.can_id &&& CAN_EFF_FLAG ≠ 0 then CAN_EFF_ID_BITS else CAN_SFF_ID_BITS)

/-- The two statements at the end of `readCANMessage` that count an unknown
message. -/
def countUnknown (core : CANSimulatorCore) (frame : canfd_frame) : CANSimulatorCore :=
  { core with m_errorMetrics :=
      { core.m_errorMetrics with
        unknownMessages := (core.m_errorMetrics.unknownMessages + 1) % 2 ^ 64,
        unknownSize := (core.m_errorMetrics.unknownSize + frameBits frame) % 2 ^ 64 } }

/-- `CANSimulatorCore::readCANMessage`: the returned identifier and the core
afterwards.  `received` is the frame filled by
`CANTransceiver::readCANFrame`, `none` when that call returns `false`. -/
def readCANMessage (core : CANSimulatorCore) (received : Option canfd_frame) :
    Option (ℕ × CANSimulatorCore) :=
  match received with
  | none => some (0, core)
  | some frame =>
    if frame.can_id &&& CAN_ERR_FLAG = CAN_ERR_FLAG then
      some (0, { core with m_errorMetrics :=
        { core.m_errorMetrics with
          errorMessages := (core.m_errorMetrics.errorMessages + 1) % 2 ^ 64,
          errorSize := (core.m_errorMetrics.errorSize + frameBits frame) % 2 ^ 64 } })
    else if !core.isMessageFiltered frame.can_id then
      if core.m_config.m_receiveIDs.contains frame.can_id then
        match core.m_config.getMessage frame.can_id with
        | some message =>
          match (message.updateTransfer true MessageDirection.RECEIVE).parseCANFrame frame with
          | none => none
          | some (changed, message1) =>
            some (if changed then frame.can_id else 0, core.withMessage frame.can_id message1)
        | none => some (0, core.countUnknown frame)
      else if core.m_config.m_sendIDs.contains frame.can_id then
        match core.m_config.getMessage frame.can_id with
        | some message =>
          some (0, core.withMessage frame.can_id
            (message.updateTransfer true MessageDirection.RECEIVE))
        | none => some (0, core.countUnknown frame)
      else some (0, core.countUnknown frame)
    else some (0, core.countUnknown frame)

end CANSimulatorCore


/-! ## Definitions for the examples of configuration, sending and scheduling -/

/-- A configuration with an outgoing variable `speed` on message 1 and an
incoming variable `temperature` on message 2, its identifier sets and message
directions initialised as the constructor does. -/
def exampleConfiguration (ignoreDirections : Bool) : Configuration :=
  Configuration.initCANMessageDirections (Configuration.initMessageDirections
    { m_canMapping :=
        [("speed", { id := some 1, signal := "SIG", direction := some "out" }),
         ("temperature", { id := some 2, signal := "SIG", direction := some "in" })],
      m_ignoreDirections := ignoreDirections, m_sendIDs := [], m_receiveIDs := [],
      m_messages := [intel3Message, motorola8Message],
      m_variables := ["speed", "temperature"] })

/-- The message `halfMessage` after parsing a frame whose first byte is `1`:
the signal holds `1`, which encodes back to raw value `2`. -/
def halfMessageParsed : CANMessage :=
  { halfMessage with
    m_signals := [{ halfSignal with m_isValueSet := true, m_modified := true,
                                    m_value := Value.Integer 1 }] }

/-- A core over `exampleConfiguration false` with an empty filter list and
all counters at zero. -/
def exampleCore : CANSimulatorCore :=
  { m_config := exampleConfiguration false, m_filterList := [],
    m_errorMetrics := { errorMessages := 0, unknownMessages := 0, errorSize := 0,
                        unknownSize := 0 } }

/-- A core with two outgoing variables, on messages 1 and 2, after a value
was set for the first of them: message 1 is modified, message 2 is not. -/
def twoSendCore : CANSimulatorCore :=
  { m_config :=
      ((Configuration.initCANMessageDirections (Configuration.initMessageDirections
        { m_canMapping :=
            [("speed", { id := some 1, signal := "SIG", direction := some "out" }),
             ("level", { id := some 2, signal := "SIG", direction := none })],
          m_ignoreDirections := false, m_sendIDs := [], m_receiveIDs := [],
          m_messages := [intel3Message, motorola8Message],
          m_variables := ["level", "speed"] })).setValue "speed"
            (Value.Integer 3)).2,
    m_filterList := [],
    m_errorMetrics := { errorMessages := 0, unknownMessages := 0, errorSize := 0,
                        unknownSize := 0 } }

/-- The core `exampleCore` with message 2 filtered. -/
def filteredCore : CANSimulatorCore :=
  { exampleCore with m_filterList := [(1, false), (2, true)] }

/-- Successive calls of `isSendScheduled` at the given times: the answers in
order, and the message after the last call. -/
def pollSchedule (stoi : String → Option ℤ) : CANMessage → List ℤ → List Bool × CANMessage
  | m, [] => ([], m)
  | m, now :: rest =>
    let r := m.isSendScheduled stoi now
    let q := pollSchedule stoi r.2 rest
    (r.1 :: q.1, q.2)

/-- The values of `std::stoi` on the strings of the examples: `"100"` is
parsed to `100`; on the empty string `std::stoi` throws. -/
def stoiExample (value : String) : Option ℤ :=
  if value = "100" then some 100 else none

/-- A message of one 3-bit signal that is sent cyclically every 100 ms. -/
def cyclicMessage : CANMessage :=
  { intel3Message with
    attributeList := [("GenMsgCycleTime", "100"), ("GenMsgSendType", "Cyclic")] }

/-- A message of one 3-bit signal that is sent on change, with a cycle time
attribute of 100 ms. -/
def onChangeMessage : CANMessage :=
  { intel3Message with
    attributeList := [("GenMsgCycleTime", "100"), ("GenMsgSendType", "OnChange")] }

/-- A message of one 3-bit signal that is sent on change, whose cycle time
attribute holds no value. -/
def onChangeNoCycle : CANMessage :=
  { intel3Message with
    attributeList := [("GenMsgCycleTime", ""), ("GenMsgSendType", "OnChange")] }

/-- A message whose message-level send type is `OnChange` or
`OnChangeWithRepetition`, whose cycle time attribute, if present, is a number
for `std::stoi`, and whose signals carry no signal-level send type. -/
def OnChangeOnly (stoi : String → Option ℤ) (m : CANMessage) : Prop :=
  (m.getAttribute "GenMsgSendType" = some "OnChange" ∨
    m.getAttribute "GenMsgSendType" = some "OnChangeWithRepetition") ∧
  (∀ value, m.getAttribute "GenMsgCycleTime" = some value → (stoi value).isSome = true) ∧
  (∀ s, s ∈ m.m_signals → s.getAttribute "GenSigSendType" = none)


/-! ## Single precision and string tools (`stringtools.cpp`) -/

/-- Rounding to `float` (binary32). -/
def rndF (x : ℚ) : ℚ := roundBin 24 (-149) x

/-- Conversion of a floating-point number to `int`: the fractional part is
discarded.  The conversion is undefined in C when the result does not fit in
an `int`; the model gives the integral part there as well. -/
def truncateToInt (x : ℚ) : ℤ := if 0 ≤ x then ⌊x⌋ else -⌊-x⌋

/-- The `while (std::getline(ss, item, delim))` loop of `split` on the
characters still to be read; `item` holds the characters of the current item
in reverse.  At the end of the input an item is delivered only if something
was extracted. -/
def splitLoop (delim : Char) : List Char → List Char → List String
  | [], item => if item = [] then [] else [String.mk item.reverse]
  | c :: rest, item =>
    if c = delim then String.mk item.reverse :: splitLoop delim rest []
    else splitLoop delim rest (c :: item)

/-- `split(const std::string &, char)`. -/
def split (str : String) (delim : Char) : List String := splitLoop delim str.data []

/-- `std::set<std::string>::insert`. -/
def insertName (name : String) (names : List String) : List String :=
  if name ∈ names then names else List.orderedInsert (fun a b => a.data ≤ b.data) name names

/-! ## Flood mode (`flood.h`, `flood.cpp`) -/

/-- `FLOODER_DEFAULT_INTERVAL`. -/
def FLOODER_DEFAULT_INTERVAL : ℤ := 100

/-- `CANSimulatorCore::getVariables`. -/
def CANSimulatorCore.getVariables (core : CANSimulatorCore) : List String :=
  core.m_config.m_variables

/-- `CANSimulatorCore::getMessage(const std::string &)`. -/
def CANSimulatorCore.getMessage (core : CANSimulatorCore) (key : String) : Option CANMessage :=
  (core.m_config.getMessageByKey key).map (fun r => r.2)

/-- The data members of `CANSimulatorFloodMode` other than the pointers to
the simulator core and to the metrics collector and the start time;
`m_rateFactor` is a `float`, `m_variables` lists the set in iteration
order. -/
structure CANSimulatorFloodMode where
  m_bitrate : ℤ
  m_delay : ℤ
  m_rate : ℤ
  m_rateFactor : ℚ
  m_useInterval : ℤ
  m_useRate : Bool
  m_waitTime : ℕ
  m_burstDelay : ℤ
  m_burstEnabled : Bool
  m_burstLen : ℤ
  m_burstWaitTime : ℕ
  m_variables : List String
  deriving DecidableEq, Repr

namespace CANSimulatorFloodMode

/-- `CANSimulatorFloodMode::calculateRateFactor`. -/
def calculateRateFactor (fm : CANSimulatorFloodMode) : CANSimulatorFloodMode :=
  let fm1 := { fm with
    m_rate := if fm.m_rate ≤ 0 then 1 else if fm.m_rate > 100 then 100 else fm.m_rate }
  if fm1.m_rate ≠ 0 ∧ fm1.m_bitrate ≠ 0 then
    let uSecFactor := rndF (1000000 / rndF fm1.m_bitrate)
    { fm1 with m_rateFactor := rndF (uSecFactor * rndF (100 / rndF fm1.m_rate)) }
  else { fm1 with m_rateFactor := 0, m_useRate := false }

/-- `CANSimulatorFloodMode::setRate(int)`. -/
def setRate (fm : CANSimulatorFloodMode) (rate : ℤ) : CANSimulatorFloodMode :=
  calculateRateFactor { fm with m_rate := rate, m_useRate := true }

/-- `CANSimulatorFloodMode::setRate(std::string)`: `none` where it throws
`CANSimulatorFloodException`.  `stoi` is the result of `std::stoi` (`none`
when it throws). -/
def setRateString (stoi : String → Option ℤ) (fm : CANSimulatorFloodMode) (rate : String) :
    Option CANSimulatorFloodMode :=
  match stoi rate with
  | some strRate => some (fm.setRate strRate)
  | none => none

/-- `CANSimulatorFloodMode::getRate`. -/
def getRate (fm : CANSimulatorFloodMode) : ℤ := fm.m_rate

/-- `CANSimulatorFloodMode::getUseRate`. -/
def getUseRate (fm : CANSimulatorFloodMode) : Bool := fm.m_useRate

/-- `CANSimulatorFloodMode::getRateFactor`. -/
def getRateFactor (fm : CANSimulatorFloodMode) : ℚ := fm.m_rateFactor

/-- `CANSimulatorFloodMode::setDelay(int)`. -/
def setDelay (fm : CANSimulatorFloodMode) (delay : ℤ) : CANSimulatorFloodMode :=
  { fm with m_delay := delay, m_useInterval := delay, m_useRate := false }

/-- `CANSimulatorFloodMode::setDelay(std::string)`: `none` where it throws
`CANSimulatorFloodException`. -/
def setDelayString (stoi : String → Option ℤ) (fm : CANSimulatorFloodMode) (delay : String) :
    Option CANSimulatorFloodMode :=
  match stoi delay with
  | some strDelay => some (fm.setDelay strDelay)
  | none => none

/-- The `int messageBits` of `calculateDelay`: the sum is formed in `size_t`
and converted to `int`. -/
def messageBits (message : CANMessage) : ℤ :=
  wrapInt 32 (((FRAME_SIZE + message.dlc * 8 +
    (if message.id &&& CAN_EFF_FLAG ≠ 0 then CAN_EFF_ID_BITS else CAN_SFF_ID_BITS)) % 2 ^ 64 : ℕ) : ℤ)

/-- `CANSimulatorFloodMode::calculateDelay`: the returned delay and the flood
mode afterwards. -/
def calculateDelay (fm : CANSimulatorFloodMode) (core : CANSimulatorCore) (key : String) :
    ℤ × CANSimulatorFloodMode :=
  if fm.m_bitrate > 0 then
    match core.getMessage key with
    | some message =>
      let useInterval := truncateToInt (rndF (rndF (messageBits message) * fm.m_rateFactor))
      (useInterval, { fm with m_useInterval := useInterval })
    | none => (0, fm)
  else (0, fm)

/-- `CANSimulatorFloodMode::setBurstLen(int)`. -/
def setBurstLen (fm : CANSimulatorFloodMode) (len : ℤ) : CANSimulatorFloodMode :=
  let fm1 := { fm with m_burstLen := len }
  let fm2 := if fm1.m_burstDelay = 0 then { fm1 with m_burstDelay := len } else fm1
  { fm2 with m_burstEnabled := true }

/-- `CANSimulatorFloodMode::setBurstLen(std::string)`: `none` where it throws
`CANSimulatorFloodException`. -/
def setBurstLenString (stoi : String → Option ℤ) (fm : CANSimulatorFloodMode) (len : String) :
    Option CANSimulatorFloodMode :=
  match stoi len with
  | some strLen => some (fm.setBurstLen strLen)
  | none => none

/-- `CANSimulatorFloodMode::getBurstLen`. -/
def getBurstLen (fm : CANSimulatorFloodMode) : ℤ := fm.m_burstLen

/-- `CANSimulatorFloodMode::setBurstDelay(int)`. -/
def setBurstDelay (fm : CANSimulatorFloodMode) (delay : ℤ) : CANSimulatorFloodMode :=
  let fm1 := { fm with m_burstDelay := delay }
  let fm2 := if fm1.m_burstLen = 0 then { fm1 with m_burstLen := delay } else fm1
  { fm2 with m_burstEnabled := true }

/-- `CANSimulatorFloodMode::setBurstDelay(std::string)`: `none` where it
throws `CANSimulatorFloodException`. -/
def setBurstDelayString (stoi : String → Option ℤ) (fm : CANSimulatorFloodMode)
    (delay : String) : Option CANSimulatorFloodMode :=
  match stoi delay with
  | some strDelay => some (fm.setBurstDelay strDelay)
  | none => none

/-- `CANSimulatorFloodMode::getBurstDelay`. -/
def getBurstDelay (fm : CANSimulatorFloodMode) : ℤ := fm.m_burstDelay

/-- `CANSimulatorFloodMode::getBurstEnabled`. -/
def getBurstEnabled (fm : CANSimulatorFloodMode) : Bool := fm.m_burstEnabled

/-- `CANSimulatorFloodMode::getMessageExists`. -/
def getMessageExists (fm : CANSimulatorFloodMode) (name : String) : Bool :=
  fm.m_variables.contains name

/-- `CANSimulatorFloodMode::isSignalFiltered`. -/
def isSignalFiltered (core : CANSimulatorCore) (key : String) : Bool :=
  match core.getMessage key with
  | some message => core.isMessageFiltered message.id
  | none => true

/-- The loop of `filterSignals` over the source set. -/
def filterLoop (core : CANSimulatorCore) : List String → List String → List String
  | [], active => active
  | name :: rest, active =>
    if !isSignalFiltered core name then filterLoop core rest (insertName name active)
    else filterLoop core rest active

/-- `CANSimulatorFloodMode::filterSignals`. -/
def filterSignals (fm : CANSimulatorFloodMode) (core : CANSimulatorCore)
    (source : List String) : Bool × CANSimulatorFloodMode :=
  let fm1 := { fm with m_variables := filterLoop core source fm.m_variables }
  (if fm1.m_variables.length = 0 then false else true, fm1)

/-- The loop of `checkIncludedMessages` over the include list. -/
def includeLoop (core : CANSimulatorCore) (source : List String) :
    List String → List String → List String
  | [], active => active
  | name :: rest, active =>
    if source.contains name then
      if !isSignalFiltered core name then includeLoop core source rest (insertName name active)
      else includeLoop core source rest active
    else includeLoop core source rest active

/-- `CANSimulatorFloodMode::checkIncludedMessages`. -/
def checkIncludedMessages (fm : CANSimulatorFloodMode) (core : CANSimulatorCore)
    (includeList : List String) (source : List String) : Bool × CANSimulatorFloodMode :=
  let fm1 := { fm with m_variables := includeLoop core source includeList fm.m_variables }
  (if fm1.m_variables.length = 0 then false else true, fm1)

/-- The loop of `removeExcludedMessages` over the source set. -/
def excludeLoop (core : CANSimulatorCore) (excludeList : List String) :
    List String → List String → List String
  | [], active => active
  | name :: rest, active =>
    if !excludeList.contains name then
      if !isSignalFiltered core name then
        excludeLoop core excludeList rest (insertName name active)
      else excludeLoop core excludeList rest active
    else excludeLoop core excludeList rest active

/-- `CANSimulatorFloodMode::removeExcludedMessages` (the call of
`verifySignalsExist` only writes warnings). -/
def removeExcludedMessages (fm : CANSimulatorFloodMode) (core : CANSimulatorCore)
    (excludeList : List String) (source : List String) : Bool × CANSimulatorFloodMode :=
  let fm1 := { fm with m_variables := excludeLoop core excludeList source fm.m_variables }
  (if fm1.m_variables.length = 0 then false else true, fm1)

/-- The body of the loop of `processFloodParams` for one parameter, acting on
the flags `ret` and `variablesInited` and on the flood mode; `none` where a
setter throws `CANSimulatorFloodException`. -/
def processFloodParam (stoi : String → Option ℤ) (core : CANSimulatorCore)
    (state : Bool × Bool × CANSimulatorFloodMode) (param : String) :
    Option (Bool × Bool × CANSimulatorFloodMode) :=
  if param.length = 0 then some state else
  match split param '=' with
  | [name, value] =>
    if name = "delay" then
      (state.2.2.setDelayString stoi value).map (fun fm => (state.1, state.2.1, fm))
    else if name = "rate" then
      (state.2.2.setRateString stoi value).map (fun fm => (state.1, state.2.1, fm))
    else if name = "burst-len" then
      (state.2.2.setBurstLenString stoi value).map (fun fm => (state.1, state.2.1, fm))
    else if name = "burst-delay" then
      (state.2.2.setBurstDelayString stoi value).map (fun fm => (state.1, state.2.1, fm))
    else if name = "include" then
      let r := state.2.2.checkIncludedMessages core (split value ',') core.getVariables
      some (state.1, r.1, r.2)
    else if name = "exclude" then
      let r := state.2.2.removeExcludedMessages core (split value ',') core.getVariables
      some (state.1, r.1, r.2)
    else some (false, state.2.1, state.2.2)
  | _ => (state.2.2.setDelayString stoi param).map (fun fm => (false, state.2.1, fm))

/-- The `for` loop of `processFloodParams`. -/
def processLoop (stoi : String → Option ℤ) (core : CANSimulatorCore) :
    List String → Bool × Bool × CANSimulatorFloodMode →
      Option (Bool × Bool × CANSimulatorFloodMode)
  | [], state => some state
  | param :: rest, state =>
    match processFloodParam stoi core state param with
    | some state1 => processLoop stoi core rest state1
    | none => none

/-- `CANSimulatorFloodMode::processFloodParams`: the returned flag and the
flood mode afterwards, `none` where it throws `CANSimulatorFloodException`. -/
def processFloodParams (stoi : String → Option ℤ) (core : CANSimulatorCore)
    (fm : CANSimulatorFloodMode) (input : List String) :
    Option (Bool × CANSimulatorFloodMode) :=
  match processLoop stoi core input (true, false, fm) with
  | some (ret, variablesInited, fm1) =>
    if !variablesInited then some (ret, (fm1.filterSignals core core.getVariables).2)
    else some (ret, fm1)
  | none => none

/-- The member initialisers of the constructor; `bitrate` is what
`getCANBitrate()` returns. -/
def initial (bitrate : ℤ) : CANSimulatorFloodMode :=
  { m_bitrate := bitrate, m_delay := FLOODER_DEFAULT_INTERVAL, m_rate := 0, m_rateFactor := 0,
    m_useInterval := FLOODER_DEFAULT_INTERVAL, m_useRate := false, m_waitTime := 0,
    m_burstDelay := 0, m_burstEnabled := false, m_burstLen := 0, m_burstWaitTime := 0,
    m_variables := [] }

/-- `CANSimulatorFloodMode::CANSimulatorFloodMode`: the object constructed,
`none` where the constructor throws `CANSimulatorFloodException`.
`canSimulator` is `none` for a null pointer, `input` is `none` for a null
pointer, `bitrate` is what `getCANBitrate()` returns. -/
def construct (stoi : String → Option ℤ) (canSimulator : Option CANSimulatorCore)
    (bitrate : ℤ) (input : Option (List String)) : Option CANSimulatorFloodMode :=
  match canSimulator with
  | none => none
  | some core =>
    let processed : Option CANSimulatorFloodMode :=
      match input with
      | some params => (processFloodParams stoi core (initial bitrate) params).map (fun r => r.2)
      | none => some ((initial bitrate).filterSignals core core.getVariables).2
    match processed with
    | some fm => if fm.m_variables.length = 0 then none else some fm
    | none => none

end CANSimulatorFloodMode

/-! ## Filter list and replay of a log (`ascreader.h`, `cansimulatorcore.cpp`) -/

/-- `struct canFrameQueueItem`; `inbound` is the member `in`. -/
structure canFrameQueueItem where
  timestamp : ℕ
  inbound : Bool
  frame : canfd_frame

/-- The outcome of `std::stoul`: the number, or one of its two exceptions. -/
inductive StoulResult where
  | value (n : ℕ)
  | invalid_argument
  | out_of_range
  deriving DecidableEq, Repr

/-- `std::map<std::uint32_t, bool>::insert` of the pair `(id, false)`: no
effect when the key is present. -/
def insertFilter (id : ℕ) (list : List (ℕ × Bool)) : List (ℕ × Bool) :=
  if list.any (fun e => e.1 = id) then list
  else List.orderedInsert (fun a b => a.1 ≤ b.1) (id, false) list

/-- `ASCReader::createFilterList` on the frame queue of the reader: the
returned flag and the list afterwards. -/
def ASCReader.createFilterList (m_frameQueue : List canFrameQueueItem)
    (list : List (ℕ × Bool)) : Bool × List (ℕ × Bool) :=
  let list1 := m_frameQueue.foldl (fun l item => insertFilter item.frame.can_id l) list
  (decide (list1.length > 0), list1)

/-- `Configuration::createFilterList`. -/
def Configuration.createFilterList (cfg : Configuration) (list : List (ℕ × Bool)) :
    Bool × List (ℕ × Bool) :=
  let list1 := cfg.m_messages.foldl (fun l message => insertFilter message.id l) list
  (decide (list1.length > 0), list1)

/-- Assignment `message->second = filterState` to the entry of the filter
list found under `id`. -/
def storeFilter (id : ℕ) (filterState : Bool) : List (ℕ × Bool) → List (ℕ × Bool)
  | [] => []
  | e :: rest =>
    if e.1 = id then (e.1, filterState) :: rest else e :: storeFilter id filterState rest

namespace CANSimulatorCore

/-- `CANSimulatorCore::setMessageFilterState`. -/
def setMessageFilterState (core : CANSimulatorCore) (id : ℕ) (filterState : Bool) :
    Bool × CANSimulatorCore :=
  match core.m_filterList.find? (fun e => e.1 = id) with
  | some _ => (true, { core with m_filterList := storeFilter id filterState core.m_filterList })
  | none => (false, core)

/-- The loop of `initializeMessageFilterList` over the given identifiers:
whether it ran to its end (`false` where the function returns `false` from
inside the loop) and the core afterwards; `none` where `std::stoul` throws
`std::out_of_range`, which the function does not catch.  `stoul str base` is
the outcome of `std::stoul(str, NULL, base)`. -/
def filterIdsLoop (stoul : String → ℕ → StoulResult) (filterState : Bool) :
    List String → CANSimulatorCore → Option (Bool × CANSimulatorCore)
  | [], core => some (true, core)
  | id :: rest, core =>
    match stoul id (if id.data.take 2 = ['0', 'x'] then 16 else 10) with
    | StoulResult.value n =>
      let r := core.setMessageFilterState (n % 2 ^ 32) filterState
      if !r.1 then some (false, r.2) else filterIdsLoop stoul filterState rest r.2
    | StoulResult.invalid_argument => some (false, core)
    | StoulResult.out_of_range => none

/-- The first part of `initializeMessageFilterList`: the list is cleared on
`reset` and, when it is empty, read from the source; the flag is `false`
where the function returns `false` at this point.  `ascFrameQueue` is the
frame queue of `m_ascReader`, `none` when there is no reader. -/
def readFilterList (ascFrameQueue : Option (List canFrameQueueItem)) (core : CANSimulatorCore)
    (reset : Bool) : Bool × CANSimulatorCore :=
  let core1 := if reset then { core with m_filterList := [] } else core
  if core1.m_filterList.length = 0 then
    let r := match ascFrameQueue with
      | some queue => ASCReader.createFilterList queue core1.m_filterList
      | none => core1.m_config.createFilterList core1.m_filterList
    (r.1, { core1 with m_filterList := r.2 })
  else (true, core1)

/-- The number `includeCount` of entries of the filter list that are not
filtered. -/
def includeCount (core : CANSimulatorCore) : ℕ :=
  (core.m_filterList.filter (fun e => !e.2)).length

/-- `CANSimulatorCore::initializeMessageFilterList`: the returned flag and
the core afterwards, `none` where an exception leaves the function; `ids` is
`none` for a null pointer. -/
def initializeMessageFilterList (stoul : String → ℕ → StoulResult)
    (ascFrameQueue : Option (List canFrameQueueItem)) (core : CANSimulatorCore)
    (ids : Option (List String)) (filterState : Bool) (reset : Bool) :
    Option (Bool × CANSimulatorCore) :=
  let created := readFilterList ascFrameQueue core reset
  if !created.1 then some (false, created.2) else
  match ids with
  | some (id :: rest) =>
    match filterIdsLoop stoul filterState (id :: rest)
      { created.2 with
        m_filterList := created.2.m_filterList.map (fun e => (e.1, !filterState)) } with
    | none => none
    | some (false, core3) => some (false, core3)
    | some (true, core3) =>
      if core3.includeCount = 0 then some (false, core3)
      else some (decide (core3.m_filterList.length > 0), core3)
  | _ =>
    some (decide (created.2.m_filterList.length > 0),
      { created.2 with
        m_filterList := created.2.m_filterList.map (fun e => (e.1, filterState)) })

end CANSimulatorCore

/-- The members of `CANSimulatorCore` and the locals of `CANSenderThread`
that drive the replay of a log: the copied frame queue in iteration order,
the position of the iterator `it` in it, the simulated clock and the running
flag. -/
structure ReplayState where
  queue : List canFrameQueueItem
  it : ℕ
  m_simulationTime : ℕ
  m_simulationRunning : Bool

namespace CANSimulatorCore

/-- The inner `while` loop of `CANSenderThread` in replay mode, on the queue
items from the iterator on: the positions of the items handed to
`sendCANFrame`, in order, and the position of the iterator afterwards. -/
def replayDue (core : CANSimulatorCore) (m_simulationTime : ℕ) :
    List canFrameQueueItem → ℕ → List ℕ × ℕ
  | [], it => ([], it)
  | item :: rest, it =>
    if item.timestamp ≤ m_simulationTime then
      let r := replayDue core m_simulationTime rest (it + 1)
      (if item.inbound && !core.isMessageFiltered item.frame.can_id then it :: r.1 else r.1, r.2)
    else ([], it)

/-- One pass of the outer loop of `CANSenderThread` in replay mode (with the
socket ready): the positions of the items transmitted and the state
afterwards.  `m_interval` and `m_runTime` are `int` members. -/
def replayTick (core : CANSimulatorCore) (m_interval m_runTime : ℤ) (state : ReplayState) :
    List ℕ × ReplayState :=
  let r := replayDue core state.m_simulationTime (state.queue.drop state.it) state.it
  let time := (state.m_simulationTime + wrapNat 64 m_interval) % 2 ^ 64
  let stop : Bool := decide (r.2 ≥ state.queue.length) ||
    (decide (m_runTime > 0) && decide (time > (wrapNat 32 m_runTime * 1000) % 2 ^ 32))
  (r.1, { state with it := r.2, m_simulationTime := time,
                     m_simulationRunning := if stop then false else state.m_simulationRunning })

/-- The state of the replay when `CANSenderThread` enters its loop. -/
def replayStart (queue : List canFrameQueueItem) : ReplayState :=
  { queue := queue, it := 0, m_simulationTime := 0, m_simulationRunning := true }

/-- The passes of the outer loop of `CANSenderThread` while the replay is
running, at most `passes` of them: the positions of all items transmitted, in
order of transmission, and the state afterwards. -/
def replayRun (core : CANSimulatorCore) (m_interval m_runTime : ℤ) :
    ℕ → ReplayState → List ℕ × ReplayState
  | 0, state => ([], state)
  | passes + 1, state =>
    if state.m_simulationRunning then
      let r := replayTick core m_interval m_runTime state
      let q := replayRun core m_interval m_runTime passes r.2
      (r.1 ++ q.1, q.2)
    else ([], state)

end CANSimulatorCore

/-! ## Error frames (`canerror.cpp`, `linux/can/error.h`) -/

/-- `CAN_ERR_MASK` of `linux/can.h`. -/
def CAN_ERR_MASK : ℕ := 0x1FFFFFFF

/-- `CAN_ERR_LOSTARB` of `linux/can/error.h`. -/
def CAN_ERR_LOSTARB : ℕ := 0x2

/-- `CAN_ERR_CRTL` of `linux/can/error.h`. -/
def CAN_ERR_CRTL : ℕ := 0x4

/-- `CAN_ERR_PROT` of `linux/can/error.h`. -/
def CAN_ERR_PROT : ℕ := 0x8

/-- `CAN_ERR_TRX` of `linux/can/error.h`. -/
def CAN_ERR_TRX : ℕ := 0x10

/-- `CAN_ERR_LOSTARB_UNSPEC` of `linux/can/error.h`. -/
def CAN_ERR_LOSTARB_UNSPEC : ℕ := 0x00

/-- `errorClasses`. -/
def errorClasses : List String :=
  ["TX timeout", "Lost arbitration", "Controller error:", "Protocol violation:",
   "Transceiver error:", "Received no ACK on transmission", "Bus off", "Bus error",
   "Controller restarted"]

/-- `controllerErrors`. -/
def controllerErrors : List String :=
  [" RX buffer overflow", " TX buffer overflow", " Reached warning level for RX errors",
   " Reached warning level for TX errors", " Reached error passive status RX",
   " Reached error passive status TX", " Recovered to error active state"]

/-- `protocolErrorTypes`. -/
def protocolErrorTypes : List String :=
  [" Single bit error", " Frame format error", " Bit stuffing error",
   " Unable to send dominant bit", " Unable to send recessive bit", " Bus overload",
   " Active error announcement", " Error occured on transmission"]

/-- `protocolErrorPositions`. -/
def protocolErrorPositions : List String :=
  ["unspecified", "unspecified", "ID bits 28-21 (SFF: 10-3)", "start of frame",
   "substitute RTR (SFF: RTR)", "identifier extension", "ID bits 20-18 (SFF: 2-0)",
   "ID bits 17-13", "CRC sequence", "reserved bit 0", "data section", "data length code",
   "RTR", "reserved bit 1", "ID bits 4-0", "ID bits 12-5", "unspecified", "unspecified",
   "intermission", "unspecified", "unspecified", "unspecified", "unspecified", "unspecified",
   "CRC delimiter", "ACK slot", "end of frame", "ACK delimiter", "unspecified", "unspecified",
   "unspecified", "unspecified"]

/-- What `operator<<` writes for an `unsigned int` under `std::hex`: the
hexadecimal digits, lower case, without leading zeros. -/
def hexString (n : ℕ) : String := String.mk (Nat.toDigits 16 n)

/-- What `operator<<` writes for an `unsigned char`: the one `char` with that
code (a `char` of a `std::string` is the Lean character with the same code,
so the text has one character more, also for a code of 128 or above). -/
def charString (byte : ℕ) : String := String.singleton (Char.ofNat byte)

/-- The `for` loop of `handleError` from index `i` on, `errors` being the
strings from that index on: the text written. -/
def handleErrorLoop (errorFlags : ℕ) : ℕ → List String → String
  | _, [] => ""
  | i, e :: rest =>
    (if errorFlags &&& (1 <<< i) ≠ 0 then e else "") ++ handleErrorLoop errorFlags (i + 1) rest

/-- `handleError`: the text written to the stream. -/
def handleError (errorFlags : ℕ) (errors : List String) : String :=
  if errorFlags = 0 ∨ errors.length ≤ 0 then "" else handleErrorLoop errorFlags 0 errors

/-- `handleTransceiverError`: the text written to the stream. -/
def handleTransceiverError (errorFlags : ℕ) : String :=
  (if errorFlags &&& 0x7 = 0x04 then " CAN_H No wire"
   else if errorFlags &&& 0x7 = 0x05 then " CAN_H short to BAT"
   else if errorFlags &&& 0x7 = 0x06 then " CAN_H short to VCC"
   else if errorFlags &&& 0x7 = 0x07 then " CAN_H short to GND"
   else "") ++
  (if errorFlags &&& 0x70 = 0x40 then " CAN_L no wire"
   else if errorFlags &&& 0x70 = 0x50 then " CAN_L short to BAT"
   else if errorFlags &&& 0x70 = 0x60 then " CAN_L short to VCC"
   else if errorFlags &&& 0x70 = 0x70 then " CAN_L short to GND"
   else "") ++
  (if errorFlags &&& 0x80 = 0x80 then " CAN_L short to CAN_H" else "")

/-- The text that `analyzeErrorFrame` writes after the name of the error
class with bit mask `mask`. -/
def errorDetail (frame : canfd_frame) (mask : ℕ) : String :=
  if mask = CAN_ERR_LOSTARB then
    if frame.data 0 ≠ CAN_ERR_LOSTARB_UNSPEC then " at bit " ++ charString (frame.data 0) else ""
  else if mask = CAN_ERR_CRTL then handleError (frame.data 1) controllerErrors
  else if mask = CAN_ERR_PROT then
    handleError (frame.data 2) protocolErrorTypes ++
      (if frame.data 2 ≠ 0 ∧ frame.data 3 ≠ 0 ∧ frame.data 3 < protocolErrorPositions.length then
        " at " ++ protocolErrorPositions.getD (frame.data 3) ""
      else "")
  else if mask = CAN_ERR_TRX then handleTransceiverError (frame.data 4)
  else ""

/-- The `for` loop of `analyzeErrorFrame` from index `i` on, `classes` being
the class names from that index on: the text written. -/
def analyzeLoop (frame : canfd_frame) (errorClass : ℕ) : ℕ → List String → String
  | _, [] => ""
  | i, name :: rest =>
    (if errorClass &&& ((1 <<< i) % 2 ^ 32) ≠ 0 then
      name ++ errorDetail frame ((1 <<< i) % 2 ^ 32) ++ "\n"
    else "") ++ analyzeLoop frame errorClass (i + 1) rest

/-- `analyzeErrorFrame`. -/
def analyzeErrorFrame (frame : canfd_frame) : String :=
  let errorClass := frame.can_id &&& CAN_ERR_MASK
  "errorframe=0x" ++ hexString errorClass ++ "\n" ++ analyzeLoop frame errorClass 0 errorClasses


/-! ## Definitions for the statements on filters, flood mode, replay and error frames -/

/-- The `try` block of the loop of `initializeMessageFilterList`: the value of
`targetId` for an identifier, `none` where `std::stoul` throws. -/
def targetId (stoul : String → ℕ → StoulResult) (id : String) : Option ℕ :=
  match stoul id (if id.data.take 2 = ['0', 'x'] then 16 else 10) with
  | StoulResult.value n => some (n % 2 ^ 32)
  | _ => none

/-- An outcome of `std::stoul` on a few identifiers: decimal and `0x` numbers
are read, `"motor"` is not a number. -/
def stoulExample (str : String) (base : ℕ) : StoulResult :=
  if str = "1" ∧ base = 10 then StoulResult.value 1
  else if str = "2" ∧ base = 10 then StoulResult.value 2
  else if str = "0x2" ∧ base = 16 then StoulResult.value 2
  else if str = "70" ∧ base = 10 then StoulResult.value 70
  else if str = "99999999999999999999" ∧ base = 10 then StoulResult.out_of_range
  else StoulResult.invalid_argument

/-- The configured variables whose message is found and is not filtered, in
the order of `getVariables`. -/
def eligible (core : CANSimulatorCore) : List String :=
  core.getVariables.filter (fun name => !CANSimulatorFloodMode.isSignalFiltered core name)

/-- Whether `processFloodParams` hands a parameter to `checkIncludedMessages`
or `removeExcludedMessages`. -/
def selectsSignals (param : String) : Bool :=
  match split param '=' with
  | [name, _] => name = "include" || name = "exclude"
  | _ => false

/-- A queue item with the given timestamp, direction and CAN ID and no data. -/
def queueItem (timestamp : ℕ) (inbound : Bool) (id : ℕ) : canFrameQueueItem :=
  { timestamp := timestamp, inbound := inbound,
    frame := { can_id := id, len := 0, data := fun _ => 0 } }

/-- The concatenation of a list of strings, first to last. -/
def concatLines (lines : List String) : String := lines.foldr (fun a b => a ++ b) ""

/-- An error frame with class bits `classBits` and the given data bytes 0 to 4. -/
def errorFrameOf (classBits d0 d1 d2 d3 d4 : ℕ) : canfd_frame :=
  { can_id := CAN_ERR_FLAG ||| classBits, len := 8,
    data := fun j => if j = 0 then d0 else if j = 1 then d1 else if j = 2 then d2
      else if j = 3 then d3 else if j = 4 then d4 else 0 }

/-! ## Reader thread, run time and defaults (`cansimulatorcore.cpp`, `configuration.cpp`) -/

/-- `CANMessage::CANMessage(const CANMessage &)`: every member is copied but
`m_sendTime`, which is left default-initialised (the epoch). -/
def CANMessage.copy (message : CANMessage) : CANMessage := { message with m_sendTime := 0 }

/-- The body of `if (FD_ISSET(canSocket, &input_set))` in `CANReaderThread`:
the core and the content of `m_messageQueue` (front first) afterwards.
`none` where the extraction loop runs out of fuel or where the pointer from
`getMessage(id)` is null and dereferenced. -/
def CANSimulatorCore.readerStep (core : CANSimulatorCore) (received : Option canfd_frame)
    (m_messageQueue : List CANMessage) : Option (CANSimulatorCore × List CANMessage) :=
  match core.readCANMessage received with
  | none => none
  | some (id, core1) =>
    if id ≠ 0 then
      match core1.m_config.getMessage id with
      | some msg =>
        some (core1.withMessage id (msg.setModified false), m_messageQueue ++ [msg.copy])
      | none => none
    else some (core1, m_messageQueue)

/-- `CANSimulatorCore::isDataSimulatorRunning`. -/
def ReplayState.isDataSimulatorRunning (state : ReplayState) : Bool := state.m_simulationRunning

/-- `CANSimulatorCore::getRunTimeRemaining`: the difference is formed in
`uint64_t` and converted to `int`. -/
def ReplayState.getRunTimeRemaining (m_runTime : ℤ) (state : ReplayState) : ℤ :=
  wrapInt 32 (if m_runTime > 0 then
    (((wrapNat 64 m_runTime + 2 ^ 64 - (state.m_simulationTime / 1000) % 2 ^ 64) % 2 ^ 64 : ℕ) : ℤ)
  else ((2 ^ 64 - 1 : ℕ) : ℤ))

/-- `CANSignal::setValueType`. -/
def CANSignal.setValueType (s : CANSignal) (type : String) : CANSignal :=
  { s with m_valueType := type }

/-- The body of the loop of `Configuration::initSignalSettings` for a signal
that is found: `type` and `default` are the string members of the JSON object
(`none` when absent), `toString` is `std::to_string(double)`. -/
def CANSignal.initSignalSettings (s : CANSignal) (stold : String → Option LongDouble)
    (useNativeUnits : Bool) (toString : ℚ → String) (type default : Option String) :
    CANSignal :=
  let s1 := match type with
    | some t => s.setValueType t
    | none => s
  let r := match default with
    | some d => s1.setDefaultValue stold useNativeUnits d
    | none => (false, s1)
  if !r.1 then
    let r0 := r.2.setDefaultValue stold useNativeUnits "0"
    if !r0.1 then (r0.2.setDefaultValue stold useNativeUnits (toString r0.2.minimum)).2
    else r0.2
  else r.2

/-- The loop of `CANMessage::resetValues` over the signals: whether a signal
changed, and the signals afterwards. -/
def resetLoop (setValues : Bool) : List CANSignal → Bool × List CANSignal
  | [] => (false, [])
  | s :: rest =>
    let r := s.resetValue setValues
    let q := resetLoop setValues rest
    (r.1 || q.1, r.2 :: q.2)

/-- `CANMessage::resetValues`. -/
def CANMessage.resetValues (m : CANMessage) (setValues : Bool) : CANMessage :=
  let r := resetLoop setValues m.m_signals
  { m with m_signals := r.2, m_modified := if r.1 then false else m.m_modified }

/-- `Configuration::setDefaultValues`; `m_suppressDefaults` is a member of the
configuration. -/
def Configuration.setDefaultValues (cfg : Configuration) (m_suppressDefaults : Bool) :
    Configuration :=
  { cfg with m_messages := cfg.m_messages.map (fun m => m.resetValues m_suppressDefaults) }

/-! ## Flood mode: random values and bursts (`flood.cpp`) -/

/-- `RAND_MAX` of the C library (glibc). -/
def RAND_MAX : ℕ := 2147483647

/-- The conversion `(int)x` of a `double`: `none` where the integral part is
outside the range of `int` and the conversion is undefined. -/
def doubleToInt (x : ℚ) : Option ℤ :=
  if -(2 ^ 31) ≤ truncateToInt x ∧ truncateToInt x < 2 ^ 31 then some (truncateToInt x) else none

/-- An `int` result: `none` where it is outside the range of `int` (signed
overflow is undefined). -/
def checkedInt (x : ℤ) : Option ℤ :=
  if -(2 ^ 31) ≤ x ∧ x < 2 ^ 31 then some x else none

namespace CANSimulatorFloodMode

/-- `CANSimulatorFloodMode::randomValue` for the signal that `getSignal(key)`
points to; `rand` is what `rand()` returns.  `none` where the computation is
undefined: a conversion to `int` or an `int` operation out of range, or a
remainder by zero. -/
def randomValue (signal : CANSignal) (rand : ℕ) : Option Value :=
  if signal.m_value.type = ValueType.Integer then
    match doubleToInt signal.minimum, doubleToInt signal.maximum with
    | some min, some max =>
      match checkedInt (max - min) with
      | some range =>
        if range = 0 then none
        else (checkedInt (Int.tmod rand range + min)).map Value.Integer
      | none => none
    | _, _ => none
  else
    some (Value.Double (rnd (rnd (rnd (rnd rand / rnd RAND_MAX) *
      rnd (signal.maximum - signal.minimum)) + signal.minimum)))

/-- `CANSimulatorFloodMode::checkBurstSleep`: the argument of `nanoSleep`
(`none` when it is not called) and the flood mode afterwards.  `difference`
is the number of microseconds since `m_start`, a `uint64_t`; the members
`m_burstLen` and `m_burstDelay` are `int`, the timers `uint64_t`. -/
def checkBurstSleep (fm : CANSimulatorFloodMode) (difference : ℕ) :
    Option ℕ × CANSimulatorFloodMode :=
  if fm.m_burstWaitTime = 0 then
    (none, { fm with
      m_burstWaitTime := (fm.m_burstWaitTime + wrapNat 64 fm.m_burstLen) % 2 ^ 64 })
  else if difference ≥ fm.m_burstWaitTime then
    let burstWaitTime := (fm.m_burstWaitTime + wrapNat 64 fm.m_burstDelay) % 2 ^ 64
    (some ((burstWaitTime + 2 ^ 64 - difference % 2 ^ 64) % 2 ^ 64),
      { fm with
        m_burstWaitTime := (burstWaitTime + wrapNat 64 fm.m_burstLen) % 2 ^ 64,
        m_waitTime := (fm.m_waitTime + wrapNat 64 fm.m_burstDelay) % 2 ^ 64 })
  else (none, fm)

/-- `waitUntil(m_start, waitTime)`: the argument of `nanoSleep`, `none` when
it is not called. -/
def waitUntil (difference waitTime : ℕ) : Option ℕ :=
  if difference < waitTime then some ((waitTime + 2 ^ 64 - difference % 2 ^ 64) % 2 ^ 64)
  else none

end CANSimulatorFloodMode

/-- A message of one 3-bit signal whose signal-level send type is `Cyclic`,
without message-level attributes. -/
def signalCyclicMessage : CANMessage :=
  { intel3Message with
    m_signals := [{ intel3 with attributeList := [("GenSigSendType", "Cyclic")] }] }

/-- The same message with a cycle time attribute of 100 ms. -/
def signalCyclicMessage100 : CANMessage :=
  { signalCyclicMessage with attributeList := [("GenMsgCycleTime", "100")] }

/-- A core whose only message has the identifier 0 and is received. -/
def zeroIdCore : CANSimulatorCore :=
  { m_config :=
      { m_canMapping := [("level", { id := some 0, signal := "SIG", direction := some "in" })],
        m_ignoreDirections := false, m_sendIDs := [], m_receiveIDs := [0],
        m_messages := [{ mkMessage 0 1 [intel3] with m_direction := MessageDirection.RECEIVE }],
        m_variables := ["level"] },
    m_filterList := [],
    m_errorMetrics := { errorMessages := 0, unknownMessages := 0, errorSize := 0,
                        unknownSize := 0 } }

/-- The type tag that `parseValue` gives to a `Value` of the signal, by its
declared value type: `Double` for `"double"`, `Unsigned` for `"unsigned"`,
`Integer` otherwise. -/
def declaredType (s : CANSignal) : ValueType :=
  if s.m_valueType = "double" then ValueType.Double
  else if s.m_valueType = "unsigned" then ValueType.Unsigned
  else ValueType.Integer

/-- A call of one of the functions that write the value of a signal;
`useNativeUnits` is `CANSimulatorCore::getUseNativeUnits()` at the time of
the call. -/
inductive SignalCall where
  | setValue (value : Value)
  | setValueString (useNativeUnits : Bool) (valueString : String)
  | setValueFromRaw (rawValue : ℕ)
  | resetValue (setValue : Bool)

/-- The signal after one call. -/
def CANSignal.call (stold : String → Option LongDouble) (s : CANSignal) : SignalCall → CANSignal
  | SignalCall.setValue value => (s.setValue value).2
  | SignalCall.setValueString useNativeUnits valueString =>
    (s.setValueString stold useNativeUnits valueString).2
  | SignalCall.setValueFromRaw rawValue => (s.setValueFromRaw rawValue).2
  | SignalCall.resetValue setValue => (s.resetValue setValue).2

/-- The signal after a sequence of calls. -/
def CANSignal.calls (stold : String → Option LongDouble) (s : CANSignal) (cs : List SignalCall) :
    CANSignal :=
  cs.foldl (CANSignal.call stold) s

/-- The message `twoSignalMessage` with the values `5` and `20` set in its
two signals. -/
def twoSignalValues : CANMessage :=
  mkMessage 291 1
    [mkSignal ByteOrder.INTEL 0 3 Sign.UNSIGNED 0 7 1 0 "int" (Value.Integer 5),
     mkSignal ByteOrder.MOTOROLA 7 5 Sign.UNSIGNED 0 31 1 0 "int" (Value.Integer 20)]

/-- The signals of `twoSignalValues` in the opposite order. -/
def twoSignalSwapped : CANMessage :=
  mkMessage 291 1
    [mkSignal ByteOrder.MOTOROLA 7 5 Sign.UNSIGNED 0 31 1 0 "int" (Value.Integer 20),
     mkSignal ByteOrder.INTEL 0 3 Sign.UNSIGNED 0 7 1 0 "int" (Value.Integer 5)]

/-- An Intel signal in bits 0..3 and an Intel signal in bits 2..5 of one
byte: the two fields share bits 2 and 3. -/
def overlappingMessage : CANMessage :=
  mkMessage 291 1
    [mkSignal ByteOrder.INTEL 0 4 Sign.UNSIGNED 0 15 1 0 "int" (Value.Integer 12),
     mkSignal ByteOrder.INTEL 2 4 Sign.UNSIGNED 0 15 1 0 "int" (Value.Integer 0)]

/-- A signal of value type `int` with bounds `[0, 0.5]`. -/
def halfRangeSignal : CANSignal :=
  mkSignal ByteOrder.INTEL 0 8 Sign.UNSIGNED 0 (1 / 2) 1 0 "int" (Value.Integer 0)

/-- A signed 32-bit signal of value type `int` with the bounds of `int32_t`. -/
def fullRange32 : CANSignal :=
  mkSignal ByteOrder.INTEL 0 32 Sign.SIGNED (-2147483648) 2147483647 1 0 "int" (Value.Integer 0)

/-- A signal of value type `int` with bounds `[0.5, 10]`. -/
def fractionalMinimum : CANSignal :=
  mkSignal ByteOrder.INTEL 0 8 Sign.UNSIGNED (1 / 2) 10 1 0 "int" (Value.Integer 1)

/-- A signal of value type `double` with bounds `[-40.5, 0.1]` (the nearest
`double`s). -/
def doubleRange : CANSignal :=
  mkSignal ByteOrder.INTEL 0 16 Sign.UNSIGNED (-81 / 2) (rnd (1 / 10)) (rnd (1 / 100))
    (-81 / 2) "double" (Value.Double 0)

/-- An error frame with a standard identifier and `len` data bytes that are
all zero. -/
def errorFrameLen (len : ℕ) : canfd_frame :=
  { can_id := CAN_ERR_FLAG, len := len, data := fun _ => 0 }

/-- A flood mode with bursts of 300 µs and pauses of 900 µs whose first burst
ends 300 µs after the start. -/
def burstExample : CANSimulatorFloodMode :=
  { ((CANSimulatorFloodMode.initial 500000).setBurstLen 300).setBurstDelay 900 with
    m_burstWaitTime := 300 }

/-- A temperature signal in Kelvin with bounds `[300, 400]` as the
constructor of `CANSignal` leaves it: value type `int`, value and default
value `Value()`. -/
def kelvinNarrow : CANSignal :=
  { mkSignal ByteOrder.INTEL 0 16 Sign.UNSIGNED 300 400 1 0 "int" Value.default with
    m_conversion := ConvertTo.K }

/-- The values of `std::stold` on the strings of the example. -/
def stoldExample (str : String) : Option LongDouble :=
  if str = "0" then some (LongDouble.num 0)
  else if str = "300.000000" then some (LongDouble.num 300)
  else if str = "50" then some (LongDouble.num 50)
  else if str = "nan" then some LongDouble.nan
  else none

/-- The values of `std::to_string(double)` on the numbers of the example. -/
def toStringExample (x : ℚ) : String :=
  if x = 300 then "300.000000" else "0.000000"

/-- The `Value` that `setDefaultValue` stores for a string, `none` where
`parseValue` rejects the string. -/
def acceptedDefault (s : CANSignal) (stold : String → Option LongDouble) (useNativeUnits : Bool)
    (str : String) : Option Value :=
  if (s.parseValue stold useNativeUnits str Value.default).1 = true then
    some (s.parseValue stold useNativeUnits str Value.default).2
  else none

/-- The default value in the words of the specification: the configured
default when it is valid, otherwise `0` when that is valid, otherwise the
minimum; `previous` where none of the three is accepted. -/
def specDefault (s : CANSignal) (stold : String → Option LongDouble) (useNativeUnits : Bool)
    (toString : ℚ → String) (default : Option String) (previous : Value) : Value :=
  ((default.bind (acceptedDefault s stold useNativeUnits)).orElse (fun _ =>
    (acceptedDefault s stold useNativeUnits "0").orElse (fun _ =>
      acceptedDefault s stold useNativeUnits (toString s.minimum)))).getD previous


/-! ## Definitions for the statements on NaN and on the rounding of parsed numbers -/

/-- The acceptance condition of the specification for `setValue(Value)`:
`minimum ≤ v ≤ maximum`, or `v` within the relative epsilon tolerance of one
of the bounds, with the comparisons and the arithmetic of `double`; a NaN
satisfies no comparison. -/
def specAccepts (s : CANSignal) (v : Value) : Prop :=
  v ≠ Value.NaN ∧
    ((s.minimum ≤ v.toDouble ∧ v.toDouble ≤ s.maximum) ∨
      |rnd (v.toDouble - s.minimum)| ≤ rnd (|min v.toDouble s.minimum| * dblEpsilon) ∨
      |rnd (v.toDouble - s.maximum)| ≤ rnd (|min v.toDouble s.maximum| * dblEpsilon))

/-- The values of `std::stold` on two strings whose numbers lie just below a
half (the nearest `long double`s), on `0` and on `nan`. -/
def stoldBelowHalf (str : String) : Option LongDouble :=
  if str = "0" then some (LongDouble.num 0)
  else if str = "0.49999999999999999" then
    some (LongDouble.num (rndL (49999999999999999 / 100000000000000000)))
  else if str = "7.49999999999999999" then
    some (LongDouble.num (rndL (749999999999999999 / 100000000000000000)))
  else if str = "nan" then some LongDouble.nan
  else none

/-- An unsigned 3-bit signal of value type `int` with bounds `[1, 7]`. -/
def oneToSeven : CANSignal :=
  mkSignal ByteOrder.INTEL 0 3 Sign.UNSIGNED 1 7 1 0 "int" (Value.Integer 1)


/-- A signed 8-bit signal with factor `0.5` and value type `double`, holding
`-12.5` (raw step `-25`). -/
def halfStepSignal : CANSignal :=
  mkSignal ByteOrder.INTEL 0 8 Sign.SIGNED (-64) (127 / 2) (1 / 2) 0 "double"
    (Value.Double (-25 / 2))

/-- The unsigned 33-bit signal `wide33` holding `4294967295`. -/
def wide33Max32 : CANSignal := { wide33 with m_value := Value.Unsigned 4294967295 }

/-- An unsigned 8-bit signal of value type `int` with factor `0.7` (the
nearest `double`), holding `1`. -/
def coarseInt : CANSignal :=
  mkSignal ByteOrder.INTEL 0 8 Sign.UNSIGNED 0 255 (rnd (7 / 10)) 0 "int" (Value.Integer 1)

/-- An unsigned 8-bit signal with factor `1` and value type `double`, holding
`1.5`, a value between the raw steps `1` and `2`. -/
def betweenSteps : CANSignal :=
  mkSignal ByteOrder.INTEL 0 8 Sign.UNSIGNED 0 255 1 0 "double" (Value.Double (3 / 2))

/-- A signed 8-bit signal of value type `int` with bounds `[0, 255]`, holding
`200`, whose raw step `200` is outside the two's-complement range of 8 bits. -/
def signed8At200 : CANSignal :=
  mkSignal ByteOrder.INTEL 0 8 Sign.SIGNED 0 255 1 0 "int" (Value.Integer 200)

/-- An unsigned 8-bit signal of value type `double` with bounds `[-10, 245]`,
holding `-1`, whose raw step `-1` is negative. -/
def unsignedAtMinus1 : CANSignal :=
  mkSignal ByteOrder.INTEL 0 8 Sign.UNSIGNED (-10) 245 1 0 "double" (Value.Double (-1))


/-! ## Exactness of the floating-point model on representable numbers -/

theorem pow2_eq_zpow (e : ℤ) : pow2 e = (2 : ℚ) ^ e := by
  unfold pow2
  split
  · rename_i h
    obtain ⟨n, rfl⟩ := Int.eq_ofNat_of_zero_le h
    simp
  · rename_i h
    have h' : 0 ≤ -e := by omega
    obtain ⟨n, hn⟩ := Int.eq_ofNat_of_zero_le h'
    have he : e = -(n : ℤ) := by omega
    rw [he]
    simp

theorem pow2_pos (e : ℤ) : 0 < pow2 e := by
  rw [pow2_eq_zpow]
  positivity

theorem pow2_add (a b : ℤ) : pow2 (a + b) = pow2 a * pow2 b := by
  rw [pow2_eq_zpow, pow2_eq_zpow, pow2_eq_zpow, zpow_add₀ (by norm_num)]

theorem pow2_lt_pow2 {a b : ℤ} (h : pow2 a < pow2 b) : a < b := by
  rw [pow2_eq_zpow, pow2_eq_zpow] at h
  exact (zpow_lt_zpow_iff_right₀ (by norm_num)).1 h

theorem log2Aux_spec : ∀ (fuel n : ℕ), 1 ≤ n → n ≤ fuel →
    2 ^ log2Aux fuel n ≤ n ∧ n < 2 ^ (log2Aux fuel n + 1) := by
  intro fuel
  induction fuel with
  | zero => intro n h1 h2; omega
  | succ fuel ih =>
    intro n h1 h2
    unfold log2Aux
    by_cases hn : n < 2
    · rw [if_pos hn]
      constructor
      · simpa using h1
      · simpa using hn
    · rw [if_neg hn]
      obtain ⟨i1, i2⟩ := ih (n / 2) (by omega) (by omega)
      constructor
      · rw [pow_succ]; omega
      · rw [pow_succ]; omega

theorem pow2_ilog2_le (x : ℚ) (hx : x ≠ 0) : pow2 (ilog2 x) ≤ |x| := by
  unfold ilog2
  simp only
  split
  · assumption
  · have hnum : 1 ≤ x.num.natAbs := by
      have : x.num ≠ 0 := Rat.num_ne_zero.mpr hx
      omega
    have hden : 1 ≤ x.den := x.den_pos
    obtain ⟨a1, _⟩ := log2Aux_spec x.num.natAbs x.num.natAbs hnum (le_refl _)
    obtain ⟨_, b2⟩ := log2Aux_spec x.den x.den hden (le_refl _)
    have habs : |x| = (x.num.natAbs : ℚ) / (x.den : ℚ) := by
      conv_lhs => rw [← Rat.num_div_den x]
      rw [abs_div, Nat.abs_cast]
      congr 1
      rw [Nat.cast_natAbs, Int.cast_abs]
    rw [habs, pow2_eq_zpow, le_div_iff₀ (by exact_mod_cast hden)]
    have a1' : (2 : ℚ) ^ (log2Aux x.num.natAbs x.num.natAbs) ≤ (x.num.natAbs : ℚ) := by
      exact_mod_cast a1
    have b2' : (x.den : ℚ) ≤ (2 : ℚ) ^ (log2Aux x.den x.den + 1) := by
      exact_mod_cast b2.le
    calc (2 : ℚ) ^ ((log2Aux x.num.natAbs x.num.natAbs : ℤ) - (log2Aux x.den x.den : ℤ) - 1)
          * (x.den : ℚ)
        ≤ (2 : ℚ) ^ ((log2Aux x.num.natAbs x.num.natAbs : ℤ) - (log2Aux x.den x.den : ℤ) - 1)
          * (2 : ℚ) ^ (log2Aux x.den x.den + 1) := by
          apply mul_le_mul_of_nonneg_left b2'
          positivity
      _ = (2 : ℚ) ^ (log2Aux x.num.natAbs x.num.natAbs) := by
          rw [← zpow_natCast (2 : ℚ) (log2Aux x.den x.den + 1), ← zpow_add₀ (by norm_num),
            ← zpow_natCast]
          congr 1
          push_cast
          ring
      _ ≤ (x.num.natAbs : ℚ) := a1'

theorem roundEven_intCast (z : ℤ) : roundEven (z : ℚ) = z := by
  unfold roundEven
  simp

/-- A number `k * 2 ^ e` with `|k| < 2 ^ p` and `emin ≤ e` is representable:
rounding leaves it unchanged. -/
theorem roundBin_exact (p : ℕ) (emin : ℤ) (k e : ℤ) (hk : |k| < 2 ^ p) (he : emin ≤ e) :
    roundBin p emin ((k : ℚ) * pow2 e) = (k : ℚ) * pow2 e := by
  unfold roundBin
  by_cases hx : (k : ℚ) * pow2 e = 0
  · rw [if_pos hx, hx]
  · rw [if_neg hx]
    simp only
    obtain ⟨u, hu⟩ : ∃ u, u = max (ilog2 ((k : ℚ) * pow2 e) - ((p : ℤ) - 1)) emin := ⟨_, rfl⟩
    rw [← hu]
    have hlog := pow2_ilog2_le _ hx
    have hlt : |(k : ℚ) * pow2 e| < pow2 ((p : ℤ) + e) := by
      rw [abs_mul, abs_of_pos (pow2_pos e), pow2_add]
      apply mul_lt_mul_of_pos_right _ (pow2_pos e)
      rw [pow2_eq_zpow, zpow_natCast]
      have : ((|k| : ℤ) : ℚ) < ((2 ^ p : ℤ) : ℚ) := by exact_mod_cast hk
      simpa using this
    have hE : ilog2 ((k : ℚ) * pow2 e) < (p : ℤ) + e := pow2_lt_pow2 (lt_of_le_of_lt hlog hlt)
    have hue : u ≤ e := by
      rw [hu]
      apply max_le
      · omega
      · exact he
    obtain ⟨n, hn⟩ := Int.eq_ofNat_of_zero_le (show 0 ≤ e - u by omega)
    have hpe : pow2 e = ((2 ^ n : ℤ) : ℚ) * pow2 u := by
      have : e = (n : ℤ) + u := by omega
      rw [this, pow2_add, pow2_eq_zpow (n : ℤ), zpow_natCast]
      simp
    have hdiv : (k : ℚ) * pow2 e / pow2 u = ((k * 2 ^ n : ℤ) : ℚ) := by
      rw [hpe]
      have := (pow2_pos u).ne'
      field_simp
      ring
    rw [hdiv, roundEven_intCast, hpe]
    push_cast
    ring

theorem rnd_intCast (z : ℤ) (hz : |z| < 2 ^ 53) : rnd (z : ℚ) = z := by
  have := roundBin_exact 53 (-1074) z 0 hz (by norm_num)
  have h0 : pow2 0 = 1 := by rw [pow2_eq_zpow]; simp
  rw [h0, mul_one] at this
  exact this

theorem rnd_natCast (n : ℕ) (hn : n < 2 ^ 53) : rnd (n : ℚ) = n := by
  have := rnd_intCast (n : ℤ) (by rw [abs_of_nonneg (by positivity)]; exact_mod_cast hn)
  simpa using this


theorem roundBin_exact_rnd (k e : ℤ) (hk : |k| < 2 ^ 53) (he : -1074 ≤ e) :
    rnd ((k : ℚ) * pow2 e) = (k : ℚ) * pow2 e :=
  roundBin_exact 53 (-1074) k e hk he

/-! ## Integer conversions -/

theorem llround_intCast (z : ℤ) (h1 : -(2 ^ 63) ≤ z) (h2 : z < 2 ^ 63) :
    llround (z : ℚ) = z := by
  unfold llround
  have hfl : ⌊(z : ℚ) + 1 / 2⌋ = z := by
    rw [Int.floor_eq_iff]
    constructor <;> norm_num
  have hfl' : ⌊-(z : ℚ) + 1 / 2⌋ = -z := by
    rw [Int.floor_eq_iff]
    constructor <;> push_cast <;> norm_num
  have hr : (if 0 ≤ (z : ℚ) then ⌊(z : ℚ) + 1 / 2⌋ else -⌊-(z : ℚ) + 1 / 2⌋) = z := by
    split
    · exact hfl
    · rw [hfl']; ring
  simp only [hr]
  rw [if_pos ⟨h1, h2⟩]

theorem wrapNat_lt (w : ℕ) (x : ℤ) : wrapNat w x < 2 ^ w := by
  unfold wrapNat
  have h1 : 0 ≤ x % 2 ^ w := Int.emod_nonneg _ (by positivity)
  have h2 : x % 2 ^ w < 2 ^ w := Int.emod_lt_of_pos _ (by positivity)
  have : ((x % 2 ^ w).toNat : ℤ) < ((2 ^ w : ℕ) : ℤ) := by
    rw [Int.toNat_of_nonneg h1]
    exact_mod_cast h2
  exact_mod_cast this

theorem wrapNat_cast (w : ℕ) (x : ℤ) : ((wrapNat w x : ℕ) : ℤ) = x % 2 ^ w := by
  unfold wrapNat
  exact Int.toNat_of_nonneg (Int.emod_nonneg _ (by positivity))

theorem wrapNat_of_range (w : ℕ) (x : ℤ) (h1 : 0 ≤ x) (h2 : x < 2 ^ w) :
    wrapNat w x = x.toNat := by
  unfold wrapNat
  rw [Int.emod_eq_of_lt h1 h2]

theorem wrapInt_of_range (w : ℕ) (hw : 1 ≤ w) (x : ℤ) (h1 : -(2 ^ (w - 1)) ≤ x)
    (h2 : x < 2 ^ (w - 1)) : wrapInt w x = x := by
  unfold wrapInt
  have hpw : (2 : ℤ) ^ w = 2 * 2 ^ (w - 1) := by
    obtain ⟨n, rfl⟩ : ∃ n, w = n + 1 := ⟨w - 1, by omega⟩
    simp [pow_succ]
    ring
  have hpos : (0 : ℤ) < 2 ^ (w - 1) := by positivity
  simp only
  by_cases hx : 0 ≤ x
  · have : x % 2 ^ w = x := Int.emod_eq_of_lt hx (by omega)
    rw [this, if_pos h2]
  · have : x % 2 ^ w = x + 2 ^ w := by
      have e : x % 2 ^ w = (x + 2 ^ w) % 2 ^ w := by simp
      rw [e]
      exact Int.emod_eq_of_lt (by omega) (by omega)
    rw [this, if_neg (by omega)]
    ring

theorem wrapInt_wrapNat (w : ℕ) (hw : 1 ≤ w) (x : ℤ) (h1 : -(2 ^ (w - 1)) ≤ x)
    (h2 : x < 2 ^ (w - 1)) : wrapInt w (wrapNat w x : ℕ) = x := by
  have hmod : wrapInt w (wrapNat w x : ℕ) = wrapInt w x := by
    unfold wrapInt
    rw [wrapNat_cast]
    simp
  rw [hmod, wrapInt_of_range w hw x h1 h2]


/-! ## Bit-level behaviour of the packing loop -/

/-- Bits of the byte that one iteration of the packing loop ORs into the
payload, first branch. -/
theorem testBit_packFirst (v so c b : ℕ) (hc : so + c ≤ 8) :
    ((((v &&& ((1 <<< c) - 1)) <<< so) % 2 ^ 64).testBit b = true) ↔
      (so ≤ b ∧ b < so + c ∧ v.testBit (b - so) = true) := by
  simp only [Nat.one_shiftLeft, Nat.testBit_mod_two_pow, Nat.testBit_shiftLeft, Nat.testBit_and,
    Nat.testBit_two_pow_sub_one, Bool.and_eq_true, decide_eq_true_eq, ge_iff_le]
  constructor
  · rintro ⟨_, h1, h2, h3⟩
    exact ⟨h1, by omega, h2⟩
  · rintro ⟨h1, h2, h3⟩
    exact ⟨by omega, h1, h3, by omega⟩

/-- Bits of the byte that one iteration of the packing loop ORs into the
payload, second branch. -/
theorem testBit_packRest (v sh c b : ℕ) :
    (((v >>> sh) &&& ((1 <<< c) - 1)).testBit b = true) ↔
      (b < c ∧ v.testBit (sh + b) = true) := by
  simp only [Nat.one_shiftLeft, Nat.testBit_shiftRight, Nat.testBit_and,
    Nat.testBit_two_pow_sub_one, Bool.and_eq_true, decide_eq_true_eq]
  tauto

theorem lt_256_of_testBit (x : ℕ) (h : ∀ b, x.testBit b = true → b < 8) : x < 256 := by
  have : x < 2 ^ 8 := by
    apply Nat.lt_pow_two_of_testBit
    intro i hi
    by_contra hne
    have := h i (by simpa using hne)
    omega
  simpa using this

theorem testBit_lt_of_lt_256 (x b : ℕ) (hx : x < 256) (h : x.testBit b = true) : b < 8 := by
  by_contra hb
  have h2 : x < 2 ^ b := lt_of_lt_of_le hx (by
    calc 256 = 2 ^ 8 := by norm_num
      _ ≤ 2 ^ b := Nat.pow_le_pow_right (by norm_num) (by omega))
  rw [Nat.testBit_lt_two_pow h2] at h
  exact Bool.noConfusion h

/-- The packing loop terminates and ORs raw bit `t` of `v` into bit
`(so + t) % 8` of byte `|si + (so + t) / 8|`, and nothing else. -/
theorem packLoop_spec (v so : ℕ) (si : ℤ) :
    ∀ (fuel m offset k p : ℕ) (d : ℕ → ℕ), m ≤ fuel → (∀ j, d j < 256) →
      (m = 0 ∨ LoopInv so offset k p) →
      ∃ d', packLoop v so si fuel m offset (si + k) d = some d' ∧ (∀ j, d' j < 256) ∧
        ∀ j b, ((d' j).testBit b = true ↔ ((d j).testBit b = true ∨
          ∃ t, p ≤ t ∧ t < p + m ∧ (si + (((so + t) / 8 : ℕ) : ℤ)).natAbs = j ∧
            (so + t) % 8 = b ∧ v.testBit t = true)) := by
  intro fuel
  induction fuel with
  | zero =>
    intro m offset k p d hm hd _
    have hm0 : m = 0 := by omega
    subst hm0
    refine ⟨d, by simp [packLoop], hd, ?_⟩
    intro j b
    constructor
    · intro h; exact Or.inl h
    · rintro (h | ⟨t, h1, h2, _⟩)
      · exact h
      · omega
  | succ fuel ih =>
    intro m offset k p d hm hd hinv
    by_cases hm0 : m = 0
    · subst hm0
      refine ⟨d, by simp [packLoop], hd, ?_⟩
      intro j b
      constructor
      · intro h; exact Or.inl h
      · rintro (h | ⟨t, h1, h2, _⟩)
        · exact h
        · omega
    · rcases hinv with h0 | ⟨hsum, hoff, hk0, hk1⟩
      · exact absurd h0 hm0
      · -- the size of the current segment
        obtain ⟨c, hc⟩ : ∃ c, c = (if 8 - offset ≥ m then m else 8 - offset) := ⟨_, rfl⟩
        have hc1 : 1 ≤ c := by rw [hc]; split <;> omega
        have hc2 : c ≤ m := by rw [hc]; split <;> omega
        have hc3 : offset + c ≤ 8 := by rw [hc]; split <;> omega
        have hc4 : c < m → offset + c = 8 := by rw [hc]; split <;> omega
        -- the byte that is ORed in
        obtain ⟨X, hX, hXbit⟩ : ∃ X, (if so ≠ 0 ∧ si - (si + (k : ℤ)) = 0 then
              setByte d (si + (k : ℤ)).natAbs
                ((d (si + (k : ℤ)).natAbs ||| (((v &&& ((1 <<< c) - 1)) <<< so) % 2 ^ 64)) % 256)
            else
              setByte d (si + (k : ℤ)).natAbs
                ((d (si + (k : ℤ)).natAbs |||
                  ((v >>> (8 * (si - (si + (k : ℤ))).natAbs - so)) &&& ((1 <<< c) - 1))) % 256))
              = setByte d (si + (k : ℤ)).natAbs ((d (si + (k : ℤ)).natAbs ||| X) % 256) ∧
            ∀ b, (X.testBit b = true ↔
              (offset ≤ b ∧ b < offset + c ∧ v.testBit (p + (b - offset)) = true)) := by
          by_cases hbr : so ≠ 0 ∧ si - (si + (k : ℤ)) = 0
          · refine ⟨_, if_pos hbr, ?_⟩
            have hk : k = 0 := by omega
            have ho : offset = so := hk0 hk
            have hp : p = 0 := by omega
            intro b
            rw [testBit_packFirst v so c b (by omega), ho, hp]
            simp
          · refine ⟨_, if_neg hbr, ?_⟩
            have hsh : 8 * (si - (si + (k : ℤ))).natAbs - so = p := by omega
            have ho : offset = 0 := by
              by_cases hk : k = 0
              · have := hk0 hk
                subst hk
                simp at hbr
                omega
              · exact hk1 (by omega)
            intro b
            rw [hsh, testBit_packRest, ho]
            simp
        have hXlt : X < 256 := by
          apply lt_256_of_testBit
          intro b hb
          have := (hXbit b).1 hb
          omega
        have hor : (d (si + (k : ℤ)).natAbs ||| X) % 256 = d (si + (k : ℤ)).natAbs ||| X := by
          apply Nat.mod_eq_of_lt
          have : d (si + (k : ℤ)).natAbs ||| X < 2 ^ 8 :=
            Nat.or_lt_two_pow (by simpa using hd _) (by simpa using hXlt)
          simpa using this
        -- the payload after this iteration
        obtain ⟨d1, hd1⟩ : ∃ d1, d1 = setByte d (si + (k : ℤ)).natAbs
            (d (si + (k : ℤ)).natAbs ||| X) := ⟨_, rfl⟩
        have hd1lt : ∀ j, d1 j < 256 := by
          intro j
          rw [hd1]
          unfold setByte
          split
          · rw [← hor]; exact Nat.mod_lt _ (by norm_num)
          · exact hd j
        have hd1bit : ∀ j b, ((d1 j).testBit b = true ↔ ((d j).testBit b = true ∨
            (j = (si + (k : ℤ)).natAbs ∧ offset ≤ b ∧ b < offset + c ∧
              v.testBit (p + (b - offset)) = true))) := by
          intro j b
          rw [hd1]
          unfold setByte
          by_cases hj : j = (si + (k : ℤ)).natAbs
          · rw [if_pos hj, Nat.testBit_or, Bool.or_eq_true, hXbit b, hj]
            simp
          · rw [if_neg hj]
            simp [hj]
        have hstep : packLoop v so si (fuel + 1) m offset (si + k) d
            = packLoop v so si fuel (m - c) 0 (si + ((k + 1 : ℕ) : ℤ)) d1 := by
          rw [packLoop]
          simp only [hm0, if_false]
          rw [← hc, hX, hor, ← hd1]
          congr 1
          push_cast
          ring
        obtain ⟨d', hd', hd'lt, hd'bit⟩ := ih (m - c) 0 (k + 1) (p + c) d1 (by omega) hd1lt
          (by
            by_cases hcm : c < m
            · right
              have := hc4 hcm
              exact ⟨by omega, by omega, by omega, by omega⟩
            · left; omega)
        refine ⟨d', by rw [hstep]; exact hd', hd'lt, ?_⟩
        intro j b
        rw [hd'bit j b, hd1bit j b]
        constructor
        · rintro ((h | ⟨hj, hb1, hb2, hb3⟩) | ⟨t, ht1, ht2, ht3, ht4, ht5⟩)
          · exact Or.inl h
          · right
            refine ⟨p + (b - offset), by omega, by omega, ?_, by omega, hb3⟩
            rw [hj]
            congr 2
            omega
          · right
            exact ⟨t, by omega, by omega, ht3, ht4, ht5⟩
        · rintro (h | ⟨t, ht1, ht2, ht3, ht4, ht5⟩)
          · exact Or.inl (Or.inl h)
          · by_cases htc : t < p + c
            · left; right
              have e1 : (so + t) / 8 = k := by omega
              have e2 : (so + t) % 8 = offset + (t - p) := by omega
              refine ⟨?_, by omega, by omega, ?_⟩
              · rw [← ht3, e1]
              · have : p + (b - offset) = t := by omega
                rw [this]; exact ht5
            · right
              exact ⟨t, by omega, by omega, ht3, ht4, ht5⟩


/-! ## Bit-level behaviour of the extraction loop -/

theorem testBit_unpackFirst (x so c t : ℕ) :
    (((x >>> so) &&& ((1 <<< c) - 1)).testBit t = true) ↔
      (t < c ∧ x.testBit (so + t) = true) := by
  simp only [Nat.one_shiftLeft, Nat.testBit_shiftRight, Nat.testBit_and,
    Nat.testBit_two_pow_sub_one, Bool.and_eq_true, decide_eq_true_eq]
  tauto

theorem testBit_unpackRest (x sh c t : ℕ) :
    ((((x &&& ((1 <<< c) - 1)) <<< sh) % 2 ^ 32).testBit t = true) ↔
      (t < 32 ∧ sh ≤ t ∧ t < sh + c ∧ x.testBit (t - sh) = true) := by
  simp only [Nat.one_shiftLeft, Nat.testBit_mod_two_pow, Nat.testBit_shiftLeft, Nat.testBit_and,
    Nat.testBit_two_pow_sub_one, Bool.and_eq_true, decide_eq_true_eq, ge_iff_le]
  constructor
  · rintro ⟨h0, h1, h2, h3⟩
    exact ⟨h0, h1, by omega, h2⟩
  · rintro ⟨h0, h1, h2, h3⟩
    exact ⟨h0, h1, h3, by omega⟩

/-- For a field of at most 32 bits the extraction loop terminates and sets raw
bit `t` to bit `(so + t) % 8` of byte `|si + (so + t) / 8|`. -/
theorem unpackLoop_spec (data : ℕ → ℕ) (so : ℕ) (si : ℤ) :
    ∀ (fuel m offset k p acc : ℕ), m ≤ fuel → p + m ≤ 32 →
      (m = 0 ∨ LoopInv so offset k p) →
      ∃ v', unpackLoop data so si fuel m offset (si + k) acc = some v' ∧
        ∀ t, (v'.testBit t = true ↔ (acc.testBit t = true ∨
          (p ≤ t ∧ t < p + m ∧
            (data (si + (((so + t) / 8 : ℕ) : ℤ)).natAbs).testBit ((so + t) % 8) = true))) := by
  intro fuel
  induction fuel with
  | zero =>
    intro m offset k p acc hm _ _
    have hm0 : m = 0 := by omega
    subst hm0
    refine ⟨acc, by simp [unpackLoop], ?_⟩
    intro t
    constructor
    · intro h; exact Or.inl h
    · rintro (h | ⟨h1, h2, _⟩)
      · exact h
      · omega
  | succ fuel ih =>
    intro m offset k p acc hm h32 hinv
    by_cases hm0 : m = 0
    · subst hm0
      refine ⟨acc, by simp [unpackLoop], ?_⟩
      intro t
      constructor
      · intro h; exact Or.inl h
      · rintro (h | ⟨h1, h2, _⟩)
        · exact h
        · omega
    · rcases hinv with h0 | ⟨hsum, hoff, hk0, hk1⟩
      · exact absurd h0 hm0
      · obtain ⟨c, hc⟩ : ∃ c, c = (if 8 - offset ≥ m then m else 8 - offset) := ⟨_, rfl⟩
        have hc1 : 1 ≤ c := by rw [hc]; split <;> omega
        have hc2 : c ≤ m := by rw [hc]; split <;> omega
        have hc3 : offset + c ≤ 8 := by rw [hc]; split <;> omega
        have hc4 : c < m → offset + c = 8 := by rw [hc]; split <;> omega
        obtain ⟨Y, hY, hYbit⟩ : ∃ Y, (if so ≠ 0 ∧ si - (si + (k : ℤ)) = 0 then
              acc ||| ((data (si + (k : ℤ)).natAbs >>> so) &&& ((1 <<< c) - 1))
            else
              acc ||| (((data (si + (k : ℤ)).natAbs &&& ((1 <<< c) - 1)) <<<
                  (8 * (si - (si + (k : ℤ))).natAbs - so)) % 2 ^ 32))
              = acc ||| Y ∧
            ∀ t, (Y.testBit t = true ↔
              (p ≤ t ∧ t < p + c ∧
                (data (si + (k : ℤ)).natAbs).testBit (offset + (t - p)) = true)) := by
          by_cases hbr : so ≠ 0 ∧ si - (si + (k : ℤ)) = 0
          · refine ⟨_, if_pos hbr, ?_⟩
            have hk : k = 0 := by omega
            have ho : offset = so := hk0 hk
            have hp : p = 0 := by omega
            intro t
            rw [testBit_unpackFirst, ho, hp]
            simp
          · refine ⟨_, if_neg hbr, ?_⟩
            have hsh : 8 * (si - (si + (k : ℤ))).natAbs - so = p := by omega
            have ho : offset = 0 := by
              by_cases hk : k = 0
              · have := hk0 hk
                subst hk
                simp at hbr
                omega
              · exact hk1 (by omega)
            intro t
            rw [hsh, testBit_unpackRest, ho]
            simp only [Nat.zero_add]
            constructor
            · rintro ⟨_, h1, h2, h3⟩; exact ⟨h1, h2, h3⟩
            · rintro ⟨h1, h2, h3⟩; exact ⟨by omega, h1, h2, h3⟩
        have hstep : unpackLoop data so si (fuel + 1) m offset (si + k) acc
            = unpackLoop data so si fuel (m - c) 0 (si + ((k + 1 : ℕ) : ℤ)) (acc ||| Y) := by
          rw [unpackLoop]
          simp only [hm0, if_false]
          rw [← hc, hY]
          congr 1
          push_cast
          ring
        obtain ⟨v', hv', hv'bit⟩ := ih (m - c) 0 (k + 1) (p + c) (acc ||| Y) (by omega)
          (by omega)
          (by
            by_cases hcm : c < m
            · right
              have := hc4 hcm
              exact ⟨by omega, by omega, by omega, by omega⟩
            · left; omega)
        refine ⟨v', by rw [hstep]; exact hv', ?_⟩
        intro t
        rw [hv'bit t, Nat.testBit_or, Bool.or_eq_true, hYbit t]
        constructor
        · rintro ((h | ⟨h1, h2, h3⟩) | ⟨h1, h2, h3⟩)
          · exact Or.inl h
          · right
            have e1 : (so + t) / 8 = k := by omega
            have e2 : (so + t) % 8 = offset + (t - p) := by omega
            exact ⟨h1, by omega, by rw [e1, e2]; exact h3⟩
          · right
            exact ⟨by omega, by omega, h3⟩
        · rintro (h | ⟨h1, h2, h3⟩)
          · exact Or.inl (Or.inl h)
          · by_cases htc : t < p + c
            · left; right
              have e1 : (so + t) / 8 = k := by omega
              have e2 : (so + t) % 8 = offset + (t - p) := by omega
              rw [e1, e2] at h3
              exact ⟨h1, htc, h3⟩
            · right
              exact ⟨by omega, by omega, h3⟩


/-! ## Bit-level behaviour of the per-signal codec -/

theorem codecStartIndex_eq (dlc : ℕ) (s : CANSignal) (S : ℕ)
    (hS : codecStartBit dlc s = (S : ℤ)) :
    codecStartIndex dlc s = ((S / 8 : ℕ) : ℤ) - codecBase dlc s := by
  have h8 : Int.tdiv (S : ℤ) 8 = ((S / 8 : ℕ) : ℤ) := by
    rw [Int.tdiv_eq_ediv (by omega) (by norm_num)]
    omega
  unfold codecStartIndex codecBase
  cases hord : s.order
  · simp only [hS, h8]
  · simp only [hS, h8]; ring

theorem codecStartOffset_eq (dlc : ℕ) (s : CANSignal) (S : ℕ)
    (hS : codecStartBit dlc s = (S : ℤ)) : codecStartOffset dlc s = S % 8 := by
  unfold codecStartOffset
  rw [hS]
  simp

theorem fieldByte_eq (dlc : ℕ) (s : CANSignal) (S t : ℕ) :
    (((S / 8 : ℕ) : ℤ) - codecBase dlc s + (((S % 8 + t) / 8 : ℕ) : ℤ)).natAbs
      = fieldByte dlc s S t := by
  unfold fieldByte
  congr 1
  omega

/-- Packing one signal: the loop terminates and ORs raw bit `t` (for
`t < length`) into bit `(S + t) % 8` of byte `fieldByte .. t`. -/
theorem packSignal_spec (dlc : ℕ) (s : CANSignal) (S v : ℕ) (d : ℕ → ℕ)
    (hS : codecStartBit dlc s = (S : ℤ)) (hd : ∀ j, d j < 256) :
    ∃ d', packSignal dlc s v d = some d' ∧ (∀ j, d' j < 256) ∧
      ∀ j b, ((d' j).testBit b = true ↔ ((d j).testBit b = true ∨
        ∃ t, t < s.length ∧ fieldByte dlc s S t = j ∧ (S + t) % 8 = b ∧
          v.testBit t = true)) := by
  have hsi := codecStartIndex_eq dlc s S hS
  have hso := codecStartOffset_eq dlc s S hS
  obtain ⟨d', h1, h2, h3⟩ := packLoop_spec v (S % 8) (((S / 8 : ℕ) : ℤ) - codecBase dlc s)
    s.length s.length (S % 8) 0 0 d (le_refl _) hd
    (Or.inr ⟨by omega, by omega, fun _ => rfl, fun h => by omega⟩)
  refine ⟨d', ?_, h2, ?_⟩
  · unfold packSignal
    rw [hsi, hso]
    simpa using h1
  · intro j b
    rw [h3 j b]
    constructor
    · rintro (h | ⟨t, _, ht2, ht3, ht4, ht5⟩)
      · exact Or.inl h
      · right
        refine ⟨t, by omega, ?_, by omega, ht5⟩
        rw [← ht3, fieldByte_eq]
    · rintro (h | ⟨t, ht2, ht3, ht4, ht5⟩)
      · exact Or.inl h
      · right
        refine ⟨t, by omega, by omega, ?_, by omega, ht5⟩
        rw [← ht3, fieldByte_eq]

/-- Extracting one signal of at most 32 bits: the loop terminates and raw
bit `t` of the result is bit `(S + t) % 8` of byte `fieldByte .. t`. -/
theorem unpackSignal_spec (dlc : ℕ) (s : CANSignal) (S : ℕ) (data : ℕ → ℕ)
    (hS : codecStartBit dlc s = (S : ℤ)) (h32 : s.length ≤ 32) :
    ∃ v, unpackSignal dlc s data = some v ∧
      ∀ t, (v.testBit t = true ↔
        (t < s.length ∧ (data (fieldByte dlc s S t)).testBit ((S + t) % 8) = true)) := by
  have hsi := codecStartIndex_eq dlc s S hS
  have hso := codecStartOffset_eq dlc s S hS
  obtain ⟨v, h1, h2⟩ := unpackLoop_spec data (S % 8) (((S / 8 : ℕ) : ℤ) - codecBase dlc s)
    s.length s.length (S % 8) 0 0 0 (le_refl _) (by omega)
    (Or.inr ⟨by omega, by omega, fun _ => rfl, fun h => by omega⟩)
  refine ⟨v, ?_, ?_⟩
  · unfold unpackSignal
    rw [hsi, hso]
    simpa using h1
  · intro t
    rw [h2 t, fieldByte_eq]
    have e : (S % 8 + t) % 8 = (S + t) % 8 := by omega
    rw [e]
    simp

/-- Positions of distinct raw bits of one field are distinct as soon as the
field does not cross byte `0` of the reflected addressing. -/
theorem fieldPos_injective (dlc : ℕ) (s : CANSignal) (S t t' : ℕ)
    (hside : (∀ u, u < s.length → codecBase dlc s ≤ (((S + u) / 8 : ℕ) : ℤ)) ∨
      (∀ u, u < s.length → (((S + u) / 8 : ℕ) : ℤ) ≤ codecBase dlc s))
    (ht : t < s.length) (ht' : t' < s.length)
    (hb : fieldByte dlc s S t = fieldByte dlc s S t') (hm : (S + t) % 8 = (S + t') % 8) :
    t = t' := by
  unfold fieldByte at hb
  rcases hside with h | h
  · have h1 := h t ht
    have h2 := h t' ht'
    omega
  · have h1 := h t ht
    have h2 := h t' ht'
    omega

/-- Round trip on the raw bits of a field of at most 32 bits that does not
cross byte `0` of the reflected addressing: extraction reads back what packing
into an empty payload wrote. -/
theorem unpack_pack_of_le_32 (dlc : ℕ) (s : CANSignal) (S r : ℕ)
    (hS : codecStartBit dlc s = (S : ℤ)) (h32 : s.length ≤ 32)
    (hside : (∀ u, u < s.length → codecBase dlc s ≤ (((S + u) / 8 : ℕ) : ℤ)) ∨
      (∀ u, u < s.length → (((S + u) / 8 : ℕ) : ℤ) ≤ codecBase dlc s))
    (hr : r < 2 ^ s.length) :
    ∃ d, packSignal dlc s r (fun _ => 0) = some d ∧ unpackSignal dlc s d = some r := by
  obtain ⟨d, hd1, _, hd3⟩ := packSignal_spec dlc s S r (fun _ => 0) hS (by intro j; norm_num)
  obtain ⟨v, hv1, hv2⟩ := unpackSignal_spec dlc s S d hS h32
  refine ⟨d, hd1, ?_⟩
  rw [hv1]
  congr 1
  apply Nat.eq_of_testBit_eq
  intro t
  rw [Bool.eq_iff_iff, hv2 t, hd3]
  simp only [Nat.zero_testBit, Bool.false_eq_true, false_or]
  constructor
  · rintro ⟨ht, t', ht', hb, hm, hbit⟩
    have := fieldPos_injective dlc s S t' t hside ht' ht hb hm
    rw [← this]; exact hbit
  · intro hbit
    have ht : t < s.length := by
      by_contra hge
      have : r < 2 ^ t := lt_of_lt_of_le hr (Nat.pow_le_pow_right (by norm_num) (by omega))
      rw [Nat.testBit_lt_two_pow this] at hbit
      exact Bool.noConfusion hbit
    exact ⟨ht, t, ht, rfl, rfl, hbit⟩


/-! ## Frames assembled from a single signal -/

theorem assembleCANFrame_single (m : CANMessage) (s : CANSignal) (hm : m.m_signals = [s]) :
    m.assembleCANFrame =
      (packSignal m.dlc s s.getRawValue (fun _ => 0)).map
        (fun data => { can_id := m.id, len := m.dlc % 256, data := data }) := by
  unfold CANMessage.assembleCANFrame
  rw [hm]
  simp only [packSignals, canfd_frame.zero]
  cases packSignal m.dlc s s.getRawValue (fun _ => 0) <;> rfl

theorem codecStartBit_intel (dlc : ℕ) (s : CANSignal) (hord : s.order = ByteOrder.INTEL) :
    codecStartBit dlc s = (s.startBit : ℤ) := by
  unfold codecStartBit
  rw [hord]

theorem fieldByte_intel (dlc : ℕ) (s : CANSignal) (hord : s.order = ByteOrder.INTEL) (S t : ℕ) :
    fieldByte dlc s S t = (S + t) / 8 := by
  unfold fieldByte codecBase
  rw [hord]
  simp only
  omega

/-- The start bit computed by the codec for a Motorola signal whose field
lies inside the frame. -/
theorem codecStartBit_motorola (dlc : ℕ) (s : CANSignal)
    (hord : s.order = ByteOrder.MOTOROLA)
    (hin : 8 * (s.startBit / 8) + (7 - s.startBit % 8) + s.length ≤ 8 * dlc) :
    codecStartBit dlc s
      = ((8 * dlc - (8 * (s.startBit / 8) + (7 - s.startBit % 8)) - s.length : ℕ) : ℤ) := by
  unfold codecStartBit
  rw [hord]
  simp only
  omega

theorem fieldByte_motorola (dlc : ℕ) (s : CANSignal) (hord : s.order = ByteOrder.MOTOROLA)
    (S t q : ℕ) (hq : S + t + q + 1 = 8 * dlc) :
    fieldByte dlc s S t = q / 8 ∧ (S + t) % 8 = 7 - q % 8 := by
  unfold fieldByte codecBase
  rw [hord]
  simp only
  omega


/-! ## Round trip of fields of at most 32 bits -/

/-- An Intel field of at most 32 bits: every raw value below `2^length` is
read back from the payload it was packed into. -/
theorem unpack_pack_intel_le_32 (dlc : ℕ) (s : CANSignal) (r : ℕ)
    (hord : s.order = ByteOrder.INTEL) (h32 : s.length ≤ 32) (hr : r < 2 ^ s.length) :
    ∃ d, packSignal dlc s r (fun _ => 0) = some d ∧ unpackSignal dlc s d = some r := by
  apply unpack_pack_of_le_32 dlc s s.startBit r (codecStartBit_intel dlc s hord) h32 _ hr
  left
  intro u _
  unfold codecBase
  rw [hord]
  simp only
  omega

/-- A Motorola field of at most 32 bits inside the frame: every raw value
below `2^length` is read back from the payload it was packed into. -/
theorem unpack_pack_motorola_le_32 (dlc : ℕ) (s : CANSignal) (r : ℕ)
    (hord : s.order = ByteOrder.MOTOROLA) (h32 : s.length ≤ 32)
    (hin : 8 * (s.startBit / 8) + (7 - s.startBit % 8) + s.length ≤ 8 * dlc)
    (hr : r < 2 ^ s.length) :
    ∃ d, packSignal dlc s r (fun _ => 0) = some d ∧ unpackSignal dlc s d = some r := by
  apply unpack_pack_of_le_32 dlc s _ r (codecStartBit_motorola dlc s hord hin) h32 _ hr
  right
  intro u hu
  unfold codecBase
  rw [hord]
  simp only
  omega


theorem eq_of_testBit_iff (x y : ℕ) (h : ∀ b, (x.testBit b = true ↔ y.testBit b = true)) :
    x = y := by
  apply Nat.eq_of_testBit_eq
  intro i
  rw [Bool.eq_iff_iff]
  exact h i

theorem testBit_lt_of_lt_two_pow (r n t : ℕ) (hr : r < 2 ^ n) (h : r.testBit t = true) :
    t < n := by
  by_contra hge
  have : r < 2 ^ t := lt_of_lt_of_le hr (Nat.pow_le_pow_right (by norm_num) (by omega))
  rw [Nat.testBit_lt_two_pow this] at h
  exact Bool.noConfusion h

/-- C4: an Intel signal with start bit `s` and length `n` (`s + n ≤ 64`)
holding raw value `r`, alone in its message, is assembled with bit `k` of `r`
(`k < n`) at bit `(s + k) % 8` of data byte `(s + k) / 8` and every other data
bit `0`; at start bit `0` raw `1` gives `data[0] = 1` and raw `2` (in a field
of at least two bits) gives `data[0] = 2`. -/
theorem intel_bit_placement (m : CANMessage) (s : CANSignal) (hm : m.m_signals = [s])
    (hord : s.order = ByteOrder.INTEL) (h1 : 1 ≤ s.length)
    (_h64 : s.startBit + s.length ≤ 64) :
    ∃ f, m.assembleCANFrame = some f ∧ f.can_id = m.id ∧
      (∀ k, k < s.length →
        (f.data ((s.startBit + k) / 8)).testBit ((s.startBit + k) % 8)
          = s.getRawValue.testBit k) ∧
      (∀ j b, (¬ ∃ k, k < s.length ∧ j = (s.startBit + k) / 8 ∧ b = (s.startBit + k) % 8) →
        (f.data j).testBit b = false) ∧
      (s.startBit = 0 → s.getRawValue = 1 → f.data 0 = 1) ∧
      (s.startBit = 0 → 2 ≤ s.length → s.getRawValue = 2 → f.data 0 = 2) := by
  obtain ⟨d, hd1, hd2, hd3⟩ := packSignal_spec m.dlc s s.startBit s.getRawValue (fun _ => 0)
    (codecStartBit_intel m.dlc s hord) (by intro j; norm_num)
  have hbits : ∀ j b, ((d j).testBit b = true ↔
      ∃ t, t < s.length ∧ (s.startBit + t) / 8 = j ∧ (s.startBit + t) % 8 = b ∧
        s.getRawValue.testBit t = true) := by
    intro j b
    rw [hd3 j b]
    simp only [Nat.zero_testBit, Bool.false_eq_true, false_or, fieldByte_intel m.dlc s hord]
  have hsmall : ∀ r, s.startBit = 0 → s.getRawValue = r → r < 2 ^ s.length → r < 256 →
      d 0 = r := by
    intro r hs hr hrn hr8
    apply eq_of_testBit_iff
    intro b
    rw [hbits 0 b, hs, hr]
    constructor
    · rintro ⟨t, _, h2, h3, h4⟩
      have : t = b := by omega
      rw [← this]; exact h4
    · intro hb
      have hb8 := testBit_lt_of_lt_256 r b hr8 hb
      have hbn := testBit_lt_of_lt_two_pow r s.length b hrn hb
      exact ⟨b, hbn, by omega, by omega, hb⟩
  refine ⟨{ can_id := m.id, len := m.dlc % 256, data := d }, ?_, rfl, ?_, ?_, ?_, ?_⟩
  · rw [assembleCANFrame_single m s hm, hd1]
    rfl
  · intro k hk
    rw [Bool.eq_iff_iff]
    show (d ((s.startBit + k) / 8)).testBit ((s.startBit + k) % 8) = true ↔ _
    rw [hbits]
    constructor
    · rintro ⟨t, _, h2, h3, h4⟩
      have : t = k := by omega
      rw [← this]; exact h4
    · intro h
      exact ⟨k, hk, rfl, rfl, h⟩
  · intro j b hno
    show (d j).testBit b = false
    by_contra hne
    have hset : (d j).testBit b = true := by simpa using hne
    obtain ⟨t, h1, h2, h3, _⟩ := (hbits j b).1 hset
    exact hno ⟨t, h1, h2.symm, h3.symm⟩
  · intro hs hr
    exact hsmall 1 hs hr (Nat.one_lt_two_pow (by omega)) (by norm_num)
  · intro hs hn hr
    refine hsmall 2 hs hr ?_ (by norm_num)
    calc 2 < 2 ^ 2 := by norm_num
      _ ≤ 2 ^ s.length := Nat.pow_le_pow_right (by norm_num) hn

/-- C5: a Motorola signal with DBC start bit `sb` and length `n` whose field
lies inside a frame of `dlc` bytes, alone in its message, is assembled with
its most significant raw bit at bit `sb % 8` of byte `sb / 8` and the bit `t`
places below it at bit `7 - (p + t) % 8` of byte `(p + t) / 8`, where
`p = 8 * (sb / 8) + (7 - sb % 8)`; no other bit is set; a whole-byte signal of
a one-byte message holding raw `127` gives `data[0] = 127`, from which `127`
is extracted again. -/
theorem motorola_bit_placement (m : CANMessage) (s : CANSignal) (hm : m.m_signals = [s])
    (hord : s.order = ByteOrder.MOTOROLA) (h1 : 1 ≤ s.length)
    (hin : 8 * (s.startBit / 8) + (7 - s.startBit % 8) + s.length ≤ 8 * m.dlc) :
    ∃ f, m.assembleCANFrame = some f ∧ f.can_id = m.id ∧
      (f.data (s.startBit / 8)).testBit (s.startBit % 8)
        = s.getRawValue.testBit (s.length - 1) ∧
      (∀ t, t < s.length →
        (f.data ((8 * (s.startBit / 8) + (7 - s.startBit % 8) + t) / 8)).testBit
            (7 - (8 * (s.startBit / 8) + (7 - s.startBit % 8) + t) % 8)
          = s.getRawValue.testBit (s.length - 1 - t)) ∧
      (∀ j b, (¬ ∃ t, t < s.length ∧
          j = (8 * (s.startBit / 8) + (7 - s.startBit % 8) + t) / 8 ∧
          b = 7 - (8 * (s.startBit / 8) + (7 - s.startBit % 8) + t) % 8) →
        (f.data j).testBit b = false) ∧
      (m.dlc = 1 → s.startBit = 7 → s.length = 8 → s.getRawValue = 127 →
        f.data 0 = 127 ∧ unpackSignal m.dlc s f.data = some 127) := by
  obtain ⟨p, hp⟩ : ∃ p, p = 8 * (s.startBit / 8) + (7 - s.startBit % 8) := ⟨_, rfl⟩
  rw [← hp] at hin ⊢
  have hS := codecStartBit_motorola m.dlc s hord (by rw [← hp]; exact hin)
  rw [← hp] at hS
  obtain ⟨d, hd1, hd2, hd3⟩ := packSignal_spec m.dlc s (8 * m.dlc - p - s.length)
    s.getRawValue (fun _ => 0) hS (by intro j; norm_num)
  have hbits : ∀ j b, ((d j).testBit b = true ↔
      ∃ t, t < s.length ∧ (p + t) / 8 = j ∧ 7 - (p + t) % 8 = b ∧
        s.getRawValue.testBit (s.length - 1 - t) = true) := by
    intro j b
    rw [hd3 j b]
    simp only [Nat.zero_testBit, Bool.false_eq_true, false_or]
    constructor
    · rintro ⟨t, h1, h2, h3, h4⟩
      obtain ⟨e1, e2⟩ := fieldByte_motorola m.dlc s hord (8 * m.dlc - p - s.length) t
        (p + (s.length - 1 - t)) (by omega)
      refine ⟨s.length - 1 - t, by omega, by omega, by omega, ?_⟩
      have : s.length - 1 - (s.length - 1 - t) = t := by omega
      rw [this]; exact h4
    · rintro ⟨t, h1, h2, h3, h4⟩
      obtain ⟨e1, e2⟩ := fieldByte_motorola m.dlc s hord (8 * m.dlc - p - s.length)
        (s.length - 1 - t) (p + t) (by omega)
      exact ⟨s.length - 1 - t, by omega, by omega, by omega, h4⟩
  have hplace : ∀ t, t < s.length →
      (d ((p + t) / 8)).testBit (7 - (p + t) % 8) = s.getRawValue.testBit (s.length - 1 - t) := by
    intro t ht
    rw [Bool.eq_iff_iff, hbits]
    constructor
    · rintro ⟨t', _, h2, h3, h4⟩
      have : t' = t := by omega
      rw [← this]; exact h4
    · intro h
      exact ⟨t, ht, rfl, rfl, h⟩
  refine ⟨{ can_id := m.id, len := m.dlc % 256, data := d }, ?_, rfl, ?_, ?_, ?_, ?_⟩
  · rw [assembleCANFrame_single m s hm, hd1]
    rfl
  · have h0 := hplace 0 (by omega)
    have e1 : (p + 0) / 8 = s.startBit / 8 := by omega
    have e2 : 7 - (p + 0) % 8 = s.startBit % 8 := by omega
    rw [e1, e2] at h0
    exact h0
  · exact hplace
  · intro j b hno
    show (d j).testBit b = false
    by_contra hne
    have hset : (d j).testBit b = true := by simpa using hne
    obtain ⟨t, h1, h2, h3, _⟩ := (hbits j b).1 hset
    exact hno ⟨t, h1, h2.symm, h3.symm⟩
  · intro hdlc hsb hlen hr
    have hp0 : p = 0 := by omega
    have hS0 : codecStartBit m.dlc s = ((0 : ℕ) : ℤ) := by
      rw [hS]; congr 1; omega
    obtain ⟨d2, hd21, hd22⟩ := unpack_pack_of_le_32 m.dlc s 0 s.getRawValue hS0 (by omega)
      (Or.inr (by
        intro u hu
        unfold codecBase
        rw [hord]
        simp only
        omega))
      (by rw [hr, hlen]; norm_num)
    rw [hd1] at hd21
    have hdd : d2 = d := (Option.some.inj hd21).symm
    rw [hdd, hr] at hd22
    refine ⟨?_, hd22⟩
    show d 0 = 127
    apply eq_of_testBit_iff
    intro b
    rw [hbits 0 b, hr, hlen, hp0]
    constructor
    · rintro ⟨t, ht, h2, h3, h4⟩
      have : 8 - 1 - t = b := by omega
      rw [this] at h4
      exact h4
    · intro hb
      have hbt : 127 < 2 ^ 7 := by norm_num
      have h7 := testBit_lt_of_lt_two_pow 127 7 b hbt hb
      refine ⟨7 - b, by omega, by omega, by omega, ?_⟩
      have : 8 - 1 - (7 - b) = b := by omega
      rw [this]; exact hb


/-! ## Raw values -/

theorem isNaN_eq_true (v : Value) : v.isNaN = true ↔ v = Value.NaN := by
  cases v <;> simp [Value.isNaN]

theorem isNaN_eq_false (v : Value) (hv : v ≠ Value.NaN) : v.isNaN = false := by
  cases v <;> simp [Value.isNaN] at hv ⊢

/-- The integer that `getRawValue` converts to the width of the signal. -/
theorem getRawValue_of (s : CANSignal) (q : ℤ)
    (hq : q = if s.m_value.isNaN then -(2 ^ 63 : ℤ)
      else llround (rnd (rnd (s.m_value.toDouble - s.offset) / s.factor))) :
    s.getRawValue =
      if s.sign = Sign.SIGNED ∧ s.length = 8 then wrapNat 8 q
      else if s.sign = Sign.SIGNED ∧ s.length = 16 then wrapNat 16 q
      else if s.sign = Sign.SIGNED ∧ s.length = 32 then wrapNat 32 q
      else wrapNat 64 q := by
  unfold CANSignal.getRawValue
  rw [← hq]
  by_cases h : s.sign = Sign.SIGNED <;> simp [h]

/-- The `double` quotient that `getRawValue` rounds. -/
theorem getRawValue_eq (s : CANSignal) (hv : s.m_value ≠ Value.NaN) :
    s.getRawValue =
      if s.sign = Sign.SIGNED ∧ s.length = 8 then
        wrapNat 8 (llround (rnd (rnd (s.m_value.toDouble - s.offset) / s.factor)))
      else if s.sign = Sign.SIGNED ∧ s.length = 16 then
        wrapNat 16 (llround (rnd (rnd (s.m_value.toDouble - s.offset) / s.factor)))
      else if s.sign = Sign.SIGNED ∧ s.length = 32 then
        wrapNat 32 (llround (rnd (rnd (s.m_value.toDouble - s.offset) / s.factor)))
      else wrapNat 64 (llround (rnd (rnd (s.m_value.toDouble - s.offset) / s.factor))) :=
  getRawValue_of s _ (by rw [isNaN_eq_false _ hv]; rfl)

/-- The raw value of a signal that holds a NaN: `llround` gives `-2^63`,
whose conversion to 8, 16 or 32 bits is `0` and to 64 bits is `2^63`. -/
theorem getRawValue_nan (s : CANSignal) (hv : s.m_value = Value.NaN) :
    s.getRawValue =
      if s.sign = Sign.SIGNED ∧ (s.length = 8 ∨ s.length = 16 ∨ s.length = 32) then 0
      else 2 ^ 63 := by
  rw [getRawValue_of s (-(2 ^ 63 : ℤ)) (by rw [hv]; rfl)]
  have e8 : wrapNat 8 (-(2 ^ 63 : ℤ)) = 0 := by decide
  have e16 : wrapNat 16 (-(2 ^ 63 : ℤ)) = 0 := by decide
  have e32 : wrapNat 32 (-(2 ^ 63 : ℤ)) = 0 := by decide
  have e64 : wrapNat 64 (-(2 ^ 63 : ℤ)) = 2 ^ 63 := by decide
  rw [e8, e16, e32, e64]
  by_cases h : s.sign = Sign.SIGNED
  · by_cases h8 : s.length = 8
    · simp [h, h8]
    · by_cases h16 : s.length = 16
      · simp [h, h16]
      · by_cases h32 : s.length = 32
        · simp [h, h32]
        · simp [h, h8, h16, h32]
  · simp [h]

/-- C6 (amended): `getRawValue` is below `2^64`; for a signed signal of length
8, 16 or 32 it is below `2^length`; for every other signal (with a factor
other than `0`) it is the rounded quotient converted to 64 bits, with no
clipping to the length, and `2^63` when the signal holds a NaN. -/
theorem getRawValue_bound (s : CANSignal) :
    s.getRawValue < 2 ^ 64 ∧
    (s.sign = Sign.SIGNED → (s.length = 8 ∨ s.length = 16 ∨ s.length = 32) →
      s.getRawValue < 2 ^ s.length) ∧
    (s.factor ≠ 0 → (s.sign = Sign.UNSIGNED ∨ (s.length ≠ 8 ∧ s.length ≠ 16 ∧ s.length ≠ 32)) →
      s.m_value ≠ Value.NaN →
      s.getRawValue
        = wrapNat 64 (llround (rnd (rnd (s.m_value.toDouble - s.offset) / s.factor)))) ∧
    ((s.sign = Sign.UNSIGNED ∨ (s.length ≠ 8 ∧ s.length ≠ 16 ∧ s.length ≠ 32)) →
      s.m_value = Value.NaN → s.getRawValue = 2 ^ 63) := by
  obtain ⟨q, hq⟩ : ∃ q : ℤ, q = if s.m_value.isNaN then -(2 ^ 63 : ℤ)
      else llround (rnd (rnd (s.m_value.toDouble - s.offset) / s.factor)) := ⟨_, rfl⟩
  have h8 := wrapNat_lt 8 q
  have h16 := wrapNat_lt 16 q
  have h32 := wrapNat_lt 32 q
  have h64 := wrapNat_lt 64 q
  refine ⟨?_, ?_, ?_, ?_⟩
  · rw [getRawValue_of s q hq]
    split_ifs
    · exact lt_trans h8 (by norm_num)
    · exact lt_trans h16 (by norm_num)
    · exact lt_trans h32 (by norm_num)
    · exact h64
  · intro hs hl
    rw [getRawValue_of s q hq]
    rcases hl with hl | hl | hl <;> simp [hs, hl] <;> assumption
  · intro _ h hv
    rw [getRawValue_eq s hv]
    rcases h with h | ⟨a, b, c⟩
    · simp [h]
    · simp [a, b, c]
  · intro h hv
    rw [getRawValue_nan s hv]
    rcases h with h | ⟨a, b, c⟩
    · simp [h]
    · simp [a, b, c]

/-- C6, as stated, fails: a signed 12-bit signal holding `-1` has raw value
`2^64 - 1`, which is not below `2^12`. -/
theorem getRawValue_not_clipped :
    signed12.getRawValue = 2 ^ 64 - 1 ∧ ¬ (signed12.getRawValue < 2 ^ signed12.length) := by
  decide

/-! ## Range validation -/

/-- `testValue` accepts a NaN. -/
theorem testValue_nan (s : CANSignal) : s.testValue Value.NaN = true := rfl

/-- Of the values that are not a NaN, `testValue` accepts exactly those
within the bounds or within the relative epsilon tolerance of one of them. -/
theorem testValue_iff (s : CANSignal) (v : Value) (hv : v ≠ Value.NaN) :
    s.testValue v = true ↔
      ((s.minimum ≤ v.toDouble ∧ v.toDouble ≤ s.maximum) ∨
        |rnd (v.toDouble - s.minimum)| ≤ rnd (|min v.toDouble s.minimum| * dblEpsilon) ∨
        |rnd (v.toDouble - s.maximum)| ≤ rnd (|min v.toDouble s.maximum| * dblEpsilon)) := by
  unfold CANSignal.testValue
  rw [isNaN_eq_false v hv]
  simp only [Bool.false_eq_true, if_false]
  by_cases hout : v.toDouble < s.minimum ∨ v.toDouble > s.maximum
  · rw [if_pos hout]
    have hnot : ¬ (s.minimum ≤ v.toDouble ∧ v.toDouble ≤ s.maximum) := by
      rintro ⟨h1, h2⟩
      rcases hout with h | h
      · exact absurd h1 (not_le.mpr h)
      · exact absurd h2 (not_le.mpr h)
    by_cases htol : |rnd (v.toDouble - s.minimum)| ≤ rnd (|min v.toDouble s.minimum| * dblEpsilon) ∨
        |rnd (v.toDouble - s.maximum)| ≤ rnd (|min v.toDouble s.maximum| * dblEpsilon)
    · rw [if_pos htol]
      simp only [true_iff]
      exact Or.inr htol
    · rw [if_neg htol]
      simp only [Bool.false_eq_true, false_iff]
      rintro (h | h)
      · exact hnot h
      · exact htol h
  · rw [if_neg hout]
    simp only [true_iff]
    left
    constructor
    · by_contra h
      exact hout (Or.inl (not_le.mp h))
    · by_contra h
      exact hout (Or.inr (not_le.mp h))

/-- C9: `setValue(Value)` returns the verdict of `testValue`; on acceptance
the value is stored and both flags are set, on rejection the signal is
unchanged.  Of the values that are not a NaN, `testValue` accepts exactly those
within the bounds or within the relative epsilon tolerance of one of them
(`specAccepts`, the condition of the specification); it accepts a NaN as well,
which satisfies none of these comparisons. -/
theorem setValue_iff_testValue (s : CANSignal) (v : Value) :
    (s.setValue v).1 = s.testValue v ∧
    (s.testValue v = true ↔ (v = Value.NaN ∨ specAccepts s v)) ∧
    (specAccepts s v ↔ (v ≠ Value.NaN ∧
      ((s.minimum ≤ v.toDouble ∧ v.toDouble ≤ s.maximum) ∨
        |rnd (v.toDouble - s.minimum)| ≤ rnd (|min v.toDouble s.minimum| * dblEpsilon) ∨
        |rnd (v.toDouble - s.maximum)| ≤ rnd (|min v.toDouble s.maximum| * dblEpsilon)))) ∧
    ((s.setValue v).1 = true →
      (s.setValue v).2 = { s with m_isValueSet := true, m_modified := true, m_value := v }) ∧
    ((s.setValue v).1 = false → (s.setValue v).2 = s) := by
  refine ⟨?_, ?_, Iff.rfl, ?_, ?_⟩
  · unfold CANSignal.setValue
    split <;> simp_all
  · by_cases hv : v = Value.NaN
    · rw [hv]
      exact ⟨fun _ => Or.inl rfl, fun _ => testValue_nan s⟩
    · rw [testValue_iff s v hv]
      unfold specAccepts
      constructor
      · intro h; exact Or.inr ⟨hv, h⟩
      · rintro (h | ⟨_, h⟩)
        · exact absurd h hv
        · exact h
  · unfold CANSignal.setValue
    split <;> simp
  · unfold CANSignal.setValue
    split <;> simp

set_option maxRecDepth 100000 in
/-- C9 at the failing input: a NaN satisfies none of the comparisons of the
condition, yet `setValue` accepts and stores it; a signal of value type
`double` gets it from the string `nan`. -/
theorem setValue_accepts_nan :
    ¬ specAccepts tenthSignal Value.NaN ∧
    tenthSignal.setValue Value.NaN =
      (true, { tenthSignal with
        m_isValueSet := true, m_modified := true, m_value := Value.NaN }) ∧
    tenthSignal.setValueString stoldBelowHalf true "nan" =
      (true, { tenthSignal with
        m_isValueSet := true, m_modified := true, m_value := Value.NaN }) := by
  refine ⟨fun h => h.1 rfl, by decide, by decide⟩

theorem pow2_zero : pow2 0 = 1 := by
  rw [pow2_eq_zpow]; simp

/-- The `double` of an integer-valued `Value` of either integer-holding kind. -/
theorem toDouble_of_int (val : Value) (v : ℤ) (hv : |v| < 2 ^ 53)
    (hval : val = Value.Integer v ∨ val = Value.Double v ∨
      (0 ≤ v ∧ val = Value.Unsigned v.toNat)) : val.toDouble = (v : ℚ) := by
  rcases hval with h | h | ⟨h0, h⟩
  · rw [h]; exact rnd_intCast v hv
  · rw [h]; rfl
  · rw [h]
    show rnd ((v.toNat : ℕ) : ℚ) = v
    have e : ((v.toNat : ℕ) : ℚ) = ((v : ℤ) : ℚ) := by
      have : ((v.toNat : ℕ) : ℤ) = v := Int.toNat_of_nonneg h0
      exact_mod_cast this
    rw [e]
    exact rnd_intCast v hv

/-- The quotient rounded by `getRawValue` when value, offset and factor are
integers and the factor divides `value - offset`. -/
theorem rawQuotient_of_int (s : CANSignal) (v f o k : ℤ) (hd : s.m_value.toDouble = (v : ℚ))
    (hf : s.factor = (f : ℚ)) (ho : s.offset = (o : ℚ)) (hf0 : f ≠ 0) (hk : v - o = k * f)
    (hvo : |v - o| < 2 ^ 53) (hk53 : |k| < 2 ^ 53) :
    rnd (rnd (s.m_value.toDouble - s.offset) / s.factor) = (k : ℚ) := by
  rw [hd, hf, ho]
  have e1 : ((v : ℚ) - (o : ℚ)) = ((v - o : ℤ) : ℚ) := by push_cast; ring
  rw [e1, rnd_intCast _ hvo, hk]
  have hfq : (f : ℚ) ≠ 0 := by exact_mod_cast hf0
  have e2 : ((k * f : ℤ) : ℚ) / (f : ℚ) = (k : ℚ) := by
    push_cast
    field_simp
  rw [e2, rnd_intCast _ hk53]

theorem abs_lt_of_bounds (x : ℤ) (a b : ℤ) (h1 : -a ≤ x) (h2 : x < b) (ha : a < 2 ^ 53)
    (hb : b ≤ 2 ^ 53) : |x| < 2 ^ 53 := by
  rw [abs_lt]
  constructor <;> omega

/-- `testValue` rejects an integer-valued `Value` outside integer bounds. -/
theorem testValue_int_outside (s : CANSignal) (val : Value) (lo hi w : ℤ)
    (hmin : s.minimum = (lo : ℚ))
    (hmax : s.maximum = (hi : ℚ)) (hlohi : lo ≤ hi)
    (hlo : -(2 ^ 31) ≤ lo) (hhi : hi < 2 ^ 31) (hw1 : -(2 ^ 31) ≤ w) (hw2 : w < 2 ^ 31)
    (hnan : val ≠ Value.NaN) (hd : val.toDouble = (w : ℚ))
    (hout : w < lo ∨ hi < w) : s.testValue val = false := by
  have key : ∀ b : ℤ, -(2 ^ 31) ≤ b → b < 2 ^ 31 → w ≠ b →
      ¬ |rnd ((w : ℚ) - (b : ℚ))| ≤ rnd (|min (w : ℚ) (b : ℚ)| * dblEpsilon) := by
    intro b hb1 hb2 hne
    have e1 : ((w : ℚ) - (b : ℚ)) = ((w - b : ℤ) : ℚ) := by push_cast; ring
    have hwb : |w - b| < 2 ^ 53 := by rw [abs_lt]; constructor <;> omega
    rw [e1, rnd_intCast _ hwb]
    have e2 : |min (w : ℚ) (b : ℚ)| = ((|min w b| : ℤ) : ℚ) := by
      push_cast; rfl
    have hmabs : |(|min w b| : ℤ)| < 2 ^ 53 := by
      rw [abs_abs, abs_lt]
      constructor
      · have := min_le_left w b
        have := le_min hw1 hb1
        omega
      · have := min_le_left w b
        omega
    unfold dblEpsilon
    rw [e2, roundBin_exact_rnd _ (-52) hmabs (by norm_num)]
    rw [not_le]
    have h1 : (1 : ℚ) ≤ |((w - b : ℤ) : ℚ)| := by
      rw [← Int.cast_abs]
      have : (1 : ℤ) ≤ |w - b| := Int.one_le_abs (by omega)
      exact_mod_cast this
    have h2 : ((|min w b| : ℤ) : ℚ) * pow2 (-52) < 1 := by
      have hm : ((|min w b| : ℤ) : ℚ) ≤ 2 ^ 31 := by
        have : |min w b| ≤ 2 ^ 31 := by
          rw [abs_le]
          constructor
          · have := le_min hw1 hb1
            omega
          · have := min_le_left w b
            omega
        exact_mod_cast this
      rw [pow2_eq_zpow]
      calc ((|min w b| : ℤ) : ℚ) * (2 : ℚ) ^ (-52 : ℤ) ≤ 2 ^ 31 * (2 : ℚ) ^ (-52 : ℤ) := by
            apply mul_le_mul_of_nonneg_right hm
            positivity
        _ < 1 := by norm_num
    linarith
  unfold CANSignal.testValue
  rw [isNaN_eq_false val hnan]
  simp only [Bool.false_eq_true, if_false]
  rw [hd, hmin, hmax]
  have hcond : (w : ℚ) < (lo : ℚ) ∨ (w : ℚ) > (hi : ℚ) := by
    rcases hout with h | h
    · left; exact_mod_cast h
    · right; exact_mod_cast h
  rw [if_pos hcond]
  have k1 := key lo hlo (by omega) (by omega)
  have k2 := key hi (by omega) hhi (by omega)
  rw [if_neg (by
    rintro (h | h)
    · exact k1 h
    · exact k2 h)]

/-- C7: a signed signal of length 8, 16 or 32 with factor 1 and offset 0
holding an integer `v` of its two's-complement range has raw value
`v mod 2^length` (`-128` gives `0x80` and `127` gives `0x7f` for 8 bits), and
`setValue` rejects every integer value outside `[-128, 127]` when those are
the bounds. -/
theorem signed_raw_twos_complement (s : CANSignal) (v : ℤ)
    (hsign : s.sign = Sign.SIGNED)
    (hlen : s.length = 8 ∨ s.length = 16 ∨ s.length = 32)
    (hf : s.factor = 1) (ho : s.offset = 0)
    (hval : s.m_value = Value.Integer v ∨ s.m_value = Value.Double v ∨
      (0 ≤ v ∧ s.m_value = Value.Unsigned v.toNat))
    (hlo : -(2 ^ (s.length - 1)) ≤ v) (hhi : v ≤ 2 ^ (s.length - 1) - 1) :
    (s.getRawValue : ℤ) = v % 2 ^ s.length ∧
    (s.length = 8 → v = -128 → s.getRawValue = 0x80) ∧
    (s.length = 8 → v = 127 → s.getRawValue = 0x7f) ∧
    (∀ (val : Value) (w : ℤ), s.minimum = -128 → s.maximum = 127 →
      (val = Value.Integer w ∨ val = Value.Double w ∨ (0 ≤ w ∧ val = Value.Unsigned w.toNat)) →
      -(2 ^ 31) ≤ w → w < 2 ^ 31 → (w < -128 ∨ 127 < w) → s.setValue val = (false, s)) := by
  have hvb : -(2 ^ 31) ≤ v ∧ v < 2 ^ 31 := by
    rcases hlen with h | h | h <;> rw [h] at hlo hhi <;> norm_num at hlo hhi <;> omega
  have hvabs : |v| < 2 ^ 53 := by
    rw [abs_lt]; constructor <;> omega
  have hd := toDouble_of_int s.m_value v hvabs hval
  have hq := rawQuotient_of_int s v 1 0 v hd (by rw [hf]; simp) (by rw [ho]; simp)
    (by norm_num) (by ring) (by simpa using hvabs) hvabs
  have hll : llround (v : ℚ) = v := llround_intCast v (by omega) (by omega)
  have hnan : s.m_value ≠ Value.NaN := by
    rcases hval with h | h | ⟨_, h⟩ <;> rw [h] <;> simp
  have hraw : (s.getRawValue : ℤ) = v % 2 ^ s.length := by
    rw [getRawValue_eq s hnan, hq, hll]
    rcases hlen with h | h | h <;> simp [hsign, h, wrapNat_cast]
  refine ⟨hraw, ?_, ?_, ?_⟩
  · intro h8 hv
    rw [h8, hv] at hraw
    norm_num at hraw
    exact_mod_cast hraw
  · intro h8 hv
    rw [h8, hv] at hraw
    norm_num at hraw
    exact_mod_cast hraw
  · intro val w hmin hmax hvalw hw1 hw2 hout
    have hwabs : |w| < 2 ^ 53 := by rw [abs_lt]; constructor <;> omega
    have hnan : val ≠ Value.NaN := by
      rcases hvalw with h | h | ⟨_, h⟩ <;> rw [h] <;> simp
    have := testValue_int_outside s val (-128) 127 w (by rw [hmin]; norm_num)
      (by rw [hmax]; norm_num) (by norm_num) (by norm_num) (by norm_num) hw1 hw2 hnan
      (toDouble_of_int val w hwabs hvalw) hout
    unfold CANSignal.setValue
    rw [this]
    simp

/-- Witness for `signed_raw_twos_complement`: the 8-bit signal holding `-128`. -/
theorem signed_raw_twos_complement_witness :
    ((signed8 (-128)).getRawValue : ℤ) = (-128) % 2 ^ (signed8 (-128)).length ∧
    ((signed8 (-128)).length = 8 → (-128 : ℤ) = -128 → (signed8 (-128)).getRawValue = 0x80) ∧
    ((signed8 (-128)).length = 8 → (-128 : ℤ) = 127 → (signed8 (-128)).getRawValue = 0x7f) ∧
    (signed8 (-128)).setValue (Value.Integer (-129)) = (false, signed8 (-128)) ∧
    (signed8 (-128)).setValue (Value.Integer 128) = (false, signed8 (-128)) := by
  obtain ⟨h1, h2, h3, h4⟩ :=
    signed_raw_twos_complement (signed8 (-128)) (-128) rfl (Or.inl rfl) rfl rfl (Or.inl rfl)
      (by decide) (by decide)
  exact ⟨h1, h2, h3,
    h4 (Value.Integer (-129)) (-129) rfl rfl (Or.inl rfl) (by decide) (by decide)
      (Or.inl (by decide)),
    h4 (Value.Integer 128) 128 rfl rfl (Or.inl rfl) (by decide) (by decide)
      (Or.inr (by decide))⟩


/-! ## Rounding of the raw value -/

/-- `llround` returns a nearest integer, the one away from zero in a tie. -/
theorem llround_nearest (q : ℚ) (hq : |q| < 2 ^ 62) :
    |(llround q : ℚ) - q| ≤ 1 / 2 ∧ (|(llround q : ℚ) - q| = 1 / 2 → |q| < |(llround q : ℚ)|) := by
  obtain ⟨hq1, hq2⟩ := abs_lt.mp hq
  unfold llround
  by_cases h0 : 0 ≤ q
  · have hfl1 : ((⌊q + 1 / 2⌋ : ℤ) : ℚ) ≤ q + 1 / 2 := Int.floor_le _
    have hfl2 : q + 1 / 2 < ((⌊q + 1 / 2⌋ : ℤ) : ℚ) + 1 := Int.lt_floor_add_one _
    have hr1 : -(2 ^ 63 : ℤ) ≤ ⌊q + 1 / 2⌋ := by
      have : ((-(2 ^ 63) : ℤ) : ℚ) ≤ ((⌊q + 1 / 2⌋ : ℤ) : ℚ) := by
        push_cast; linarith
      exact_mod_cast this
    have hr2 : ⌊q + 1 / 2⌋ < (2 ^ 63 : ℤ) := by
      have : ((⌊q + 1 / 2⌋ : ℤ) : ℚ) < (((2 ^ 63) : ℤ) : ℚ) := by
        push_cast; linarith
      exact_mod_cast this
    simp only [if_pos h0, if_pos (And.intro hr1 hr2)]
    constructor
    · rw [abs_le]; constructor <;> linarith
    · intro htie
      have hz : ((⌊q + 1 / 2⌋ : ℤ) : ℚ) - q = 1 / 2 := by
        rcases abs_eq (by norm_num : (0 : ℚ) ≤ 1 / 2) |>.mp htie with h | h
        · exact h
        · linarith
      rw [abs_of_nonneg h0, abs_of_nonneg (by linarith)]
      linarith
  · have hneg : q < 0 := not_le.mp h0
    have hfl1 : ((⌊-q + 1 / 2⌋ : ℤ) : ℚ) ≤ -q + 1 / 2 := Int.floor_le _
    have hfl2 : -q + 1 / 2 < ((⌊-q + 1 / 2⌋ : ℤ) : ℚ) + 1 := Int.lt_floor_add_one _
    have hr1 : -(2 ^ 63 : ℤ) ≤ -⌊-q + 1 / 2⌋ := by
      have : ((-(2 ^ 63) : ℤ) : ℚ) ≤ ((-⌊-q + 1 / 2⌋ : ℤ) : ℚ) := by
        push_cast; linarith
      exact_mod_cast this
    have hr2 : -⌊-q + 1 / 2⌋ < (2 ^ 63 : ℤ) := by
      have : ((-⌊-q + 1 / 2⌋ : ℤ) : ℚ) < (((2 ^ 63) : ℤ) : ℚ) := by
        push_cast; linarith
      exact_mod_cast this
    simp only [if_neg h0, if_pos (And.intro hr1 hr2)]
    push_cast
    constructor
    · rw [abs_le]; constructor <;> linarith
    · intro htie
      have hz : -((⌊-q + 1 / 2⌋ : ℤ) : ℚ) - q = -(1 / 2) := by
        rcases abs_eq (by norm_num : (0 : ℚ) ≤ 1 / 2) |>.mp htie with h | h
        · linarith
        · exact h
      rw [abs_of_neg hneg, abs_of_neg (by linarith)]
      linarith

set_option maxRecDepth 100000 in
/-- C8 (amended): `getRawValue` converts the integer nearest to the `double`
quotient `(physical - offset) / factor` (for a factor other than `0` and a
quotient below `2^62` in size), halfway cases away from zero, and the integer
`-2^63` when the signal holds a NaN; with factor `0.1` and offset `0`, setting
`1.25` gives raw `13` and setting `1.249999999999999` gives raw `12`. -/
theorem getRawValue_rounding :
    (∀ s : CANSignal, s.factor ≠ 0 → s.m_value ≠ Value.NaN →
      |rnd (rnd (s.m_value.toDouble - s.offset) / s.factor)| < 2 ^ 62 →
      ∃ z : ℤ,
        |(z : ℚ) - rnd (rnd (s.m_value.toDouble - s.offset) / s.factor)| ≤ 1 / 2 ∧
        (|(z : ℚ) - rnd (rnd (s.m_value.toDouble - s.offset) / s.factor)| = 1 / 2 →
          |rnd (rnd (s.m_value.toDouble - s.offset) / s.factor)| < |(z : ℚ)|) ∧
        s.getRawValue =
          if s.sign = Sign.SIGNED ∧ s.length = 8 then wrapNat 8 z
          else if s.sign = Sign.SIGNED ∧ s.length = 16 then wrapNat 16 z
          else if s.sign = Sign.SIGNED ∧ s.length = 32 then wrapNat 32 z
          else wrapNat 64 z) ∧
    (∀ s : CANSignal, s.m_value = Value.NaN →
      s.getRawValue =
        if s.sign = Sign.SIGNED ∧ s.length = 8 then wrapNat 8 (-(2 ^ 63 : ℤ))
        else if s.sign = Sign.SIGNED ∧ s.length = 16 then wrapNat 16 (-(2 ^ 63 : ℤ))
        else if s.sign = Sign.SIGNED ∧ s.length = 32 then wrapNat 32 (-(2 ^ 63 : ℤ))
        else wrapNat 64 (-(2 ^ 63 : ℤ))) ∧
    tenthSignal.setValue (Value.Double (5 / 4))
      = (true, { tenthSignal with
          m_isValueSet := true, m_modified := true, m_value := Value.Double (5 / 4) }) ∧
    (tenthSignal.setValue (Value.Double (5 / 4))).2.getRawValue = 13 ∧
    (tenthSignal.setValue
      (Value.Double (decimalDouble (1249999999999999 / 1000000000000000)))).1 = true ∧
    (tenthSignal.setValue
      (Value.Double (decimalDouble (1249999999999999 / 1000000000000000)))).2.getRawValue
        = 12 := by
  refine ⟨?_, ?_, by decide, by decide, by decide, by decide⟩
  · intro s _ hv hq
    obtain ⟨h1, h2⟩ := llround_nearest _ hq
    exact ⟨_, h1, h2, getRawValue_eq s hv⟩
  · intro s hv
    exact getRawValue_of s _ (by rw [hv]; rfl)

set_option maxRecDepth 100000 in
/-- Witness for the rounding law of `getRawValue_rounding`: the factor-`0.1`
signal holding `1.25`, whose quotient `12.5` is below `2^62`. -/
theorem getRawValue_rounding_witness :
    |rnd (rnd ((tenthSignal.setValue (Value.Double (5 / 4))).2.m_value.toDouble
      - (tenthSignal.setValue (Value.Double (5 / 4))).2.offset)
      / (tenthSignal.setValue (Value.Double (5 / 4))).2.factor)| < 2 ^ 62 ∧
    ∃ z : ℤ,
      |(z : ℚ) - rnd (rnd ((tenthSignal.setValue (Value.Double (5 / 4))).2.m_value.toDouble
          - (tenthSignal.setValue (Value.Double (5 / 4))).2.offset)
          / (tenthSignal.setValue (Value.Double (5 / 4))).2.factor)| ≤ 1 / 2 ∧
      (tenthSignal.setValue (Value.Double (5 / 4))).2.getRawValue = wrapNat 32 z :=
  ⟨by decide, by
    obtain ⟨z, h1, _, h3⟩ :=
      getRawValue_rounding.1 (tenthSignal.setValue (Value.Double (5 / 4))).2 (by decide)
        (by decide) (by decide)
    refine ⟨z, h1, ?_⟩
    rw [h3, if_neg (by decide), if_neg (by decide), if_pos (by decide)]⟩

set_option maxRecDepth 100000 in
/-- C8, as stated, fails: with factor `0.01` the raw values for `1.25` and
`1.249999999999999` are both `125`, not `13` and `12`. -/
theorem getRawValue_factor_hundredth :
    (hundredthSignal.setValue (Value.Double (5 / 4))).1 = true ∧
    (hundredthSignal.setValue (Value.Double (5 / 4))).2.getRawValue = 125 ∧
    (hundredthSignal.setValue (Value.Double (5 / 4))).2.getRawValue ≠ 13 ∧
    (hundredthSignal.setValue
      (Value.Double (decimalDouble (1249999999999999 / 1000000000000000)))).1 = true ∧
    (hundredthSignal.setValue
      (Value.Double (decimalDouble (1249999999999999 / 1000000000000000)))).2.getRawValue
        = 125 ∧
    (hundredthSignal.setValue
      (Value.Double (decimalDouble (1249999999999999 / 1000000000000000)))).2.getRawValue
        ≠ 12 := by
  decide


/-! ## Raw value and back -/

theorem testValue_of_within (s : CANSignal) (val : Value) (hnan : val ≠ Value.NaN)
    (h1 : s.minimum ≤ val.toDouble) (h2 : val.toDouble ≤ s.maximum) : s.testValue val = true :=
  (testValue_iff s val hnan).2 (Or.inl ⟨h1, h2⟩)

/-- The physical `double` computed from raw `k` when factor and offset are
integers. -/
theorem physical_of_int (f o k v : ℤ) (hk : v - o = k * f) (_hk53 : |k| < 2 ^ 53)
    (hvo : |v - o| < 2 ^ 53) (hv : |v| < 2 ^ 53) :
    rnd (rnd ((k : ℚ) * (f : ℚ)) + (o : ℚ)) = (v : ℚ) := by
  have e1 : (k : ℚ) * (f : ℚ) = ((v - o : ℤ) : ℚ) := by
    rw [hk]; push_cast; ring
  rw [e1, rnd_intCast _ hvo]
  have e2 : ((v - o : ℤ) : ℚ) + (o : ℚ) = (v : ℚ) := by push_cast; ring
  rw [e2, rnd_intCast _ hv]

theorem unsignedPhysical_of_int (s : CANSignal) (r : ℕ) (f o k v : ℤ) (hr : (r : ℤ) = k)
    (hf : s.factor = (f : ℚ)) (ho : s.offset = (o : ℚ)) (hk : v - o = k * f)
    (hk53 : |k| < 2 ^ 53) (hvo : |v - o| < 2 ^ 53) (hv : |v| < 2 ^ 53) :
    s.unsignedPhysical r = (v : ℚ) := by
  have hkq : (r : ℚ) = (k : ℚ) := by exact_mod_cast hr
  unfold CANSignal.unsignedPhysical
  rw [hkq, rnd_intCast k hk53, hf, ho]
  exact physical_of_int f o k v hk hk53 hvo hv

theorem signedPhysical_of_int (s : CANSignal) (f o k v : ℤ)
    (hl : s.length = 8 ∨ s.length = 16 ∨ s.length = 32)
    (hkl : -(2 ^ (s.length - 1)) ≤ k) (hkh : k < 2 ^ (s.length - 1))
    (hf : s.factor = (f : ℚ)) (ho : s.offset = (o : ℚ)) (hk : v - o = k * f)
    (hk53 : |k| < 2 ^ 53) (hvo : |v - o| < 2 ^ 53) (hv : |v| < 2 ^ 53) :
    s.signedPhysical (wrapNat s.length k) = some (v : ℚ) := by
  have hphys := physical_of_int f o k v hk hk53 hvo hv
  unfold CANSignal.signedPhysical
  rw [hf, ho]
  rcases hl with h | h | h
  · rw [h] at hkl hkh ⊢
    rw [if_pos rfl, wrapInt_wrapNat 8 (by norm_num) k hkl hkh, hphys]
  · rw [h] at hkl hkh ⊢
    rw [if_neg (by norm_num), if_pos rfl, wrapInt_wrapNat 16 (by norm_num) k hkl hkh, hphys]
  · rw [h] at hkl hkh ⊢
    rw [if_neg (by norm_num), if_neg (by norm_num), if_pos rfl,
      wrapInt_wrapNat 32 (by norm_num) k hkl hkh, hphys]

theorem llround_range (x : ℚ) : -(2 ^ 63 : ℤ) ≤ llround x ∧ llround x < 2 ^ 63 := by
  unfold llround
  simp only
  split_ifs <;> first | assumption | (constructor <;> norm_num)

/-- The raw value of a signal whose quotient rounds to `k ≥ 0`, when the
conversion to the width of the signal leaves `k` as it is. -/
theorem getRawValue_nonneg (s : CANSignal) (k : ℤ) (hnan : s.m_value ≠ Value.NaN)
    (hk : llround (rnd (rnd (s.m_value.toDouble - s.offset) / s.factor)) = k) (hk0 : 0 ≤ k)
    (hlen : s.sign = Sign.SIGNED → (s.length = 8 ∨ s.length = 16 ∨ s.length = 32) →
      k < 2 ^ s.length) :
    ((s.getRawValue : ℕ) : ℚ) = (k : ℚ) := by
  have hk63 : k < 2 ^ 63 := by rw [← hk]; exact (llround_range _).2
  have hcast : ∀ w : ℕ, k < 2 ^ w → ((wrapNat w k : ℕ) : ℚ) = (k : ℚ) := by
    intro w hw
    have : ((wrapNat w k : ℕ) : ℤ) = k := by
      rw [wrapNat_cast]
      exact Int.emod_eq_of_lt hk0 hw
    exact_mod_cast this
  rw [getRawValue_eq s hnan, hk]
  by_cases hs : s.sign = Sign.SIGNED
  · by_cases h8 : s.length = 8
    · have := hlen hs (Or.inl h8)
      rw [h8] at this
      simp only [hs, h8, true_and, if_true]
      exact hcast 8 this
    · by_cases h16 : s.length = 16
      · have := hlen hs (Or.inr (Or.inl h16))
        rw [h16] at this
        simp only [hs, h16, true_and, if_true]
        rw [if_neg (by norm_num)]
        exact hcast 16 this
      · by_cases h32 : s.length = 32
        · have := hlen hs (Or.inr (Or.inr h32))
          rw [h32] at this
          simp only [hs, h32, true_and, if_true]
          rw [if_neg (by norm_num), if_neg (by norm_num)]
          exact hcast 32 this
        · simp only [hs, h8, h16, h32, and_false, if_false]
          exact hcast 64 (by omega)
  · simp only [hs, false_and, if_false]
    exact hcast 64 (by omega)

/-- The value that `parseValue` and `setValueFromRaw` build from the `double`
of a value of the same kind is that value. -/
theorem typed_back (val : Value)
    (hval : (∃ i : ℤ, val = Value.Integer i ∧ -(2 ^ 31) ≤ i ∧ i < 2 ^ 31) ∨
      (∃ d : ℚ, val = Value.Double d) ∨
      (∃ u : ℕ, val = Value.Unsigned u ∧ rnd (u : ℚ) = u ∧ u < 2 ^ 63)) :
    val ≠ Value.NaN ∧
    (val.type = ValueType.Integer → Value.Integer (wrapInt 32 (llround val.toDouble)) = val) ∧
    (val.type = ValueType.Double → Value.Double val.toDouble = val) ∧
    (val.type = ValueType.Unsigned →
      Value.Unsigned (wrapNat 64 (llround val.toDouble)) = val) := by
  rcases hval with ⟨i, h, h1, h2⟩ | ⟨d, h⟩ | ⟨u, h, h1, h2⟩
  · subst h
    refine ⟨by simp, ?_, ?_, ?_⟩
    · intro _
      show Value.Integer (wrapInt 32 (llround (rnd (i : ℚ)))) = Value.Integer i
      rw [rnd_intCast i (by rw [abs_lt]; constructor <;> omega),
        llround_intCast i (by omega) (by omega),
        wrapInt_of_range 32 (by norm_num) i (by simpa using h1) (by simpa using h2)]
    · intro h; exact absurd h (by simp [Value.type])
    · intro h; exact absurd h (by simp [Value.type])
  · subst h
    refine ⟨by simp, ?_, ?_, ?_⟩
    · intro h; exact absurd h (by simp [Value.type])
    · intro _; rfl
    · intro h; exact absurd h (by simp [Value.type])
  · subst h
    refine ⟨by simp, ?_, ?_, ?_⟩
    · intro h; exact absurd h (by simp [Value.type])
    · intro h; exact absurd h (by simp [Value.type])
    · intro _
      show Value.Unsigned (wrapNat 64 (llround (rnd (u : ℚ)))) = Value.Unsigned u
      have hu : ((u : ℕ) : ℚ) = (((u : ℤ) : ℤ) : ℚ) := by push_cast; rfl
      rw [h1, hu, llround_intCast (u : ℤ) (by omega) (by exact_mod_cast h2),
        wrapNat_of_range 64 (u : ℤ) (by omega) (by omega)]
      simp

/-- The candidate value that `setValueFromRaw` computes from the raw value of
the signal, when the quotient of the value rounds to `k` and `k` lies in the
raw range of the signal: the `double` of step `k`, converted to the type of
the value. -/
theorem valueFromRaw_of_step (s : CANSignal) (k : ℤ) (hnan : s.m_value ≠ Value.NaN)
    (hk : llround (rnd (rnd (s.m_value.toDouble - s.offset) / s.factor)) = k)
    (hraw : ((s.sign = Sign.UNSIGNED ∨ s.m_value.type = ValueType.Unsigned) ∧ 0 ≤ k ∧
        (s.sign = Sign.SIGNED → (s.length = 8 ∨ s.length = 16 ∨ s.length = 32) →
          k < 2 ^ s.length)) ∨
      (s.sign = Sign.SIGNED ∧ s.m_value.type ≠ ValueType.Unsigned ∧
        (s.length = 8 ∨ s.length = 16 ∨ s.length = 32) ∧
        -(2 ^ (s.length - 1)) ≤ k ∧ k < 2 ^ (s.length - 1))) :
    s.valueFromRaw s.getRawValue = some (match s.m_value.type with
      | ValueType.Integer =>
        Value.Integer (wrapInt 32 (llround (rnd (rnd (rnd (k : ℚ) * s.factor) + s.offset))))
      | ValueType.Double => Value.Double (rnd (rnd (rnd (k : ℚ) * s.factor) + s.offset))
      | ValueType.Unsigned =>
        Value.Unsigned (wrapNat 64 (llround (rnd (rnd (rnd (k : ℚ) * s.factor) + s.offset))))) := by
  rcases hraw with ⟨hkind, hk0, hlen⟩ | ⟨hs, hty, hl, hkl, hkh⟩
  · -- the raw value is `k`, read as an unsigned number
    have hrawq := getRawValue_nonneg s k hnan hk hk0 hlen
    have hup : s.unsignedPhysical s.getRawValue
        = rnd (rnd (rnd (k : ℚ) * s.factor) + s.offset) := by
      unfold CANSignal.unsignedPhysical
      rw [hrawq]
    unfold CANSignal.valueFromRaw
    rw [hup]
    cases hty : s.m_value.type with
    | Integer =>
      have hs : s.sign = Sign.UNSIGNED := by
        rcases hkind with h | h
        · exact h
        · rw [hty] at h; exact absurd h (by decide)
      simp only
      rw [if_neg (by rw [hs]; decide)]
    | Double =>
      have hs : s.sign = Sign.UNSIGNED := by
        rcases hkind with h | h
        · exact h
        · rw [hty] at h; exact absurd h (by decide)
      simp only
      rw [if_neg (by rw [hs]; decide)]
    | Unsigned => rfl
  · -- the raw value is `k` in two's complement
    have hk53 : |k| < 2 ^ 53 := by
      rw [abs_lt]
      rcases hl with h | h | h <;> rw [h] at hkl hkh <;> norm_num at hkl hkh <;>
        constructor <;> omega
    have hrawv : s.getRawValue = wrapNat s.length k := by
      rw [getRawValue_eq s hnan, hk]
      rcases hl with h | h | h <;> simp [hs, h]
    have hsp : s.signedPhysical s.getRawValue
        = some (rnd (rnd (rnd (k : ℚ) * s.factor) + s.offset)) := by
      rw [hrawv, rnd_intCast k hk53]
      unfold CANSignal.signedPhysical
      rcases hl with h | h | h
      · rw [h] at hkl hkh ⊢
        rw [if_pos rfl, wrapInt_wrapNat 8 (by norm_num) k hkl hkh]
      · rw [h] at hkl hkh ⊢
        rw [if_neg (by norm_num), if_pos rfl, wrapInt_wrapNat 16 (by norm_num) k hkl hkh]
      · rw [h] at hkl hkh ⊢
        rw [if_neg (by norm_num), if_neg (by norm_num), if_pos rfl,
          wrapInt_wrapNat 32 (by norm_num) k hkl hkh]
    unfold CANSignal.valueFromRaw
    rw [hsp]
    cases hty' : s.m_value.type with
    | Integer => simp only; rw [if_pos hs]; rfl
    | Double => simp only; rw [if_pos hs]; rfl
    | Unsigned => exact absurd hty' hty

/-- The round trip of a raw step: when the quotient of the value rounds to
`k`, `k` lies in the raw range of the signal, and the `double` of step `k`,
converted to the type of the value, is the value, then
`setValueFromRaw(getRawValue())` stores the value it finds. -/
theorem roundtrip_of_step (s : CANSignal) (k : ℤ)
    (htest : s.testValue s.m_value = true)
    (hk : llround (rnd (rnd (s.m_value.toDouble - s.offset) / s.factor)) = k)
    (hback : (∃ i : ℤ, s.m_value = Value.Integer i ∧
        wrapInt 32 (llround (rnd (rnd (rnd (k : ℚ) * s.factor) + s.offset))) = i) ∨
      (∃ d : ℚ, s.m_value = Value.Double d ∧
        rnd (rnd (rnd (k : ℚ) * s.factor) + s.offset) = d) ∨
      (∃ u : ℕ, s.m_value = Value.Unsigned u ∧
        wrapNat 64 (llround (rnd (rnd (rnd (k : ℚ) * s.factor) + s.offset))) = u))
    (hraw : ((s.sign = Sign.UNSIGNED ∨ s.m_value.type = ValueType.Unsigned) ∧ 0 ≤ k ∧
        (s.sign = Sign.SIGNED → (s.length = 8 ∨ s.length = 16 ∨ s.length = 32) →
          k < 2 ^ s.length)) ∨
      (s.sign = Sign.SIGNED ∧ s.m_value.type ≠ ValueType.Unsigned ∧
        (s.length = 8 ∨ s.length = 16 ∨ s.length = 32) ∧
        -(2 ^ (s.length - 1)) ≤ k ∧ k < 2 ^ (s.length - 1))) :
    s.setValueFromRaw s.getRawValue
      = (true, { s with m_isValueSet := true, m_modified := true }) := by
  have hnan : s.m_value ≠ Value.NaN := by
    rcases hback with ⟨i, h, _⟩ | ⟨d, h, _⟩ | ⟨u, h, _⟩ <;> rw [h] <;> simp
  have hc := valueFromRaw_of_step s k hnan hk hraw
  have hcand : s.valueFromRaw s.getRawValue = some s.m_value := by
    rw [hc]
    rcases hback with ⟨i, h, hb⟩ | ⟨d, h, hb⟩ | ⟨u, h, hb⟩ <;> rw [h] <;>
      simp only [Value.type] <;> rw [hb]
  unfold CANSignal.setValueFromRaw
  rw [hcand]
  simp only [htest, if_true]

/-- The converse: when `setValueFromRaw(getRawValue())` returns `true` and
leaves the value as it was, the value is accepted by `testValue` and is the
`double` of its raw step `k`, converted to the type of the value. -/
theorem step_of_roundtrip (s : CANSignal) (k : ℤ) (hnan : s.m_value ≠ Value.NaN)
    (hk : llround (rnd (rnd (s.m_value.toDouble - s.offset) / s.factor)) = k)
    (hraw : ((s.sign = Sign.UNSIGNED ∨ s.m_value.type = ValueType.Unsigned) ∧ 0 ≤ k ∧
        (s.sign = Sign.SIGNED → (s.length = 8 ∨ s.length = 16 ∨ s.length = 32) →
          k < 2 ^ s.length)) ∨
      (s.sign = Sign.SIGNED ∧ s.m_value.type ≠ ValueType.Unsigned ∧
        (s.length = 8 ∨ s.length = 16 ∨ s.length = 32) ∧
        -(2 ^ (s.length - 1)) ≤ k ∧ k < 2 ^ (s.length - 1)))
    (h1 : (s.setValueFromRaw s.getRawValue).1 = true)
    (h2 : (s.setValueFromRaw s.getRawValue).2.m_value = s.m_value) :
    s.testValue s.m_value = true ∧
    ((∃ i : ℤ, s.m_value = Value.Integer i ∧
        wrapInt 32 (llround (rnd (rnd (rnd (k : ℚ) * s.factor) + s.offset))) = i) ∨
      (∃ d : ℚ, s.m_value = Value.Double d ∧
        rnd (rnd (rnd (k : ℚ) * s.factor) + s.offset) = d) ∨
      (∃ u : ℕ, s.m_value = Value.Unsigned u ∧
        wrapNat 64 (llround (rnd (rnd (rnd (k : ℚ) * s.factor) + s.offset))) = u)) := by
  have hc := valueFromRaw_of_step s k hnan hk hraw
  obtain ⟨cand, hcand⟩ : ∃ cand : Value, cand = (match s.m_value.type with
      | ValueType.Integer =>
        Value.Integer (wrapInt 32 (llround (rnd (rnd (rnd (k : ℚ) * s.factor) + s.offset))))
      | ValueType.Double => Value.Double (rnd (rnd (rnd (k : ℚ) * s.factor) + s.offset))
      | ValueType.Unsigned =>
        Value.Unsigned (wrapNat 64 (llround (rnd (rnd (rnd (k : ℚ) * s.factor) + s.offset))))) :=
    ⟨_, rfl⟩
  rw [← hcand] at hc
  unfold CANSignal.setValueFromRaw at h1 h2
  rw [hc] at h1 h2
  simp only at h1 h2
  by_cases ht : s.testValue cand = true
  · rw [if_pos ht] at h2
    have h3 : cand = s.m_value := h2
    refine ⟨by rw [← h3]; exact ht, ?_⟩
    rw [h3] at hcand
    cases hv : s.m_value with
    | Integer i =>
      rw [hv] at hcand
      exact Or.inl ⟨i, rfl, (Value.Integer.inj hcand).symm⟩
    | Double d =>
      rw [hv] at hcand
      exact Or.inr (Or.inl ⟨d, rfl, (Value.Double.inj hcand).symm⟩)
    | Unsigned u =>
      rw [hv] at hcand
      exact Or.inr (Or.inr ⟨u, rfl, (Value.Unsigned.inj hcand).symm⟩)
    | NaN => exact absurd hv hnan
  · rw [if_neg ht] at h1
    exact absurd h1 (by simp)

/-- C3 (amended): for a signal with a factor other than `0`, a value that
`testValue` accepts and that is a raw step of the signal (the `double`
quotient `(v - offset) / factor` rounds to an integer `k` of the raw range of
the signal, and the `double` `k * factor + offset`, converted to the type of
the value, is `v`) is read back by `setValueFromRaw(getRawValue())`, which
returns `true` and leaves the value as it is; and when `k` is in the raw range,
no other value is read back.  For a value of type `Integer` or `Double` the
raw range is `k ≥ 0` on an unsigned signal and the two's-complement range on a
signed signal of length 8, 16 or 32; for a value of type `Unsigned` it is
`k ≥ 0` whatever the sign (`k < 2^length` on a signed signal of length 8, 16
or 32).  `setValueFromRaw` refuses every raw value on a signed signal of
another length whose value is of type `Integer` or `Double`. -/
theorem setValueFromRaw_getRawValue (s : CANSignal) :
    (∀ k : ℤ,
      s.factor ≠ 0 →
      s.testValue s.m_value = true →
      llround (rnd (rnd (s.m_value.toDouble - s.offset) / s.factor)) = k →
      ((∃ i : ℤ, s.m_value = Value.Integer i ∧
          wrapInt 32 (llround (rnd (rnd (rnd (k : ℚ) * s.factor) + s.offset))) = i) ∨
        (∃ d : ℚ, s.m_value = Value.Double d ∧
          rnd (rnd (rnd (k : ℚ) * s.factor) + s.offset) = d) ∨
        (∃ u : ℕ, s.m_value = Value.Unsigned u ∧
          wrapNat 64 (llround (rnd (rnd (rnd (k : ℚ) * s.factor) + s.offset))) = u)) →
      (((s.sign = Sign.UNSIGNED ∨ s.m_value.type = ValueType.Unsigned) ∧ 0 ≤ k ∧
          (s.sign = Sign.SIGNED → (s.length = 8 ∨ s.length = 16 ∨ s.length = 32) →
            k < 2 ^ s.length)) ∨
        (s.sign = Sign.SIGNED ∧ s.m_value.type ≠ ValueType.Unsigned ∧
          (s.length = 8 ∨ s.length = 16 ∨ s.length = 32) ∧
          -(2 ^ (s.length - 1)) ≤ k ∧ k < 2 ^ (s.length - 1))) →
      (s.setValueFromRaw s.getRawValue).1 = true ∧
      (s.setValueFromRaw s.getRawValue).2.m_value = s.m_value ∧
      (s.setValueFromRaw s.getRawValue).2
        = { s with m_isValueSet := true, m_modified := true }) ∧
    (∀ k : ℤ,
      s.factor ≠ 0 →
      s.m_value ≠ Value.NaN →
      llround (rnd (rnd (s.m_value.toDouble - s.offset) / s.factor)) = k →
      (((s.sign = Sign.UNSIGNED ∨ s.m_value.type = ValueType.Unsigned) ∧ 0 ≤ k ∧
          (s.sign = Sign.SIGNED → (s.length = 8 ∨ s.length = 16 ∨ s.length = 32) →
            k < 2 ^ s.length)) ∨
        (s.sign = Sign.SIGNED ∧ s.m_value.type ≠ ValueType.Unsigned ∧
          (s.length = 8 ∨ s.length = 16 ∨ s.length = 32) ∧
          -(2 ^ (s.length - 1)) ≤ k ∧ k < 2 ^ (s.length - 1))) →
      (s.setValueFromRaw s.getRawValue).1 = true →
      (s.setValueFromRaw s.getRawValue).2.m_value = s.m_value →
      s.testValue s.m_value = true ∧
      ((∃ i : ℤ, s.m_value = Value.Integer i ∧
          wrapInt 32 (llround (rnd (rnd (rnd (k : ℚ) * s.factor) + s.offset))) = i) ∨
        (∃ d : ℚ, s.m_value = Value.Double d ∧
          rnd (rnd (rnd (k : ℚ) * s.factor) + s.offset) = d) ∨
        (∃ u : ℕ, s.m_value = Value.Unsigned u ∧
          wrapNat 64 (llround (rnd (rnd (rnd (k : ℚ) * s.factor) + s.offset))) = u))) ∧
    (∀ rawValue : ℕ, s.sign = Sign.SIGNED → s.m_value.type ≠ ValueType.Unsigned →
      s.length ≠ 8 → s.length ≠ 16 → s.length ≠ 32 →
      s.setValueFromRaw rawValue = (false, s)) := by
  refine ⟨?_, ?_, ?_⟩
  · intro k _ htest hk hback hraw
    rw [roundtrip_of_step s k htest hk hback hraw]
    exact ⟨rfl, rfl, rfl⟩
  · intro k _ hnan hk hraw h1 h2
    exact step_of_roundtrip s k hnan hk hraw h1 h2
  · intro rawValue hs hty h8 h16 h32
    have hsp : s.signedPhysical rawValue = none := by
      unfold CANSignal.signedPhysical
      rw [if_neg h8, if_neg h16, if_neg h32]
    have hcand : s.valueFromRaw rawValue = none := by
      unfold CANSignal.valueFromRaw
      cases hty' : s.m_value.type with
      | Unsigned => exact absurd hty' hty
      | Integer => simp only; rw [if_pos hs, hsp]; rfl
      | Double => simp only; rw [if_pos hs, hsp]; rfl
    unfold CANSignal.setValueFromRaw
    rw [hcand]

set_option maxRecDepth 100000 in
/-- Witness for `setValueFromRaw_getRawValue`: the signed 8-bit signal with
factor `0.5` holding `-12.5`, whose raw step is `-25` (raw value `231`), the
unsigned 33-bit signal holding the unsigned value `4294967295`, and the
unsigned signal with factor `0.7` holding the integer `1` (raw step `1`). -/
theorem setValueFromRaw_getRawValue_witness :
    (halfStepSignal.getRawValue = 231 ∧
      (halfStepSignal.setValueFromRaw halfStepSignal.getRawValue).1 = true ∧
      (halfStepSignal.setValueFromRaw halfStepSignal.getRawValue).2.m_value
        = halfStepSignal.m_value ∧
      (halfStepSignal.setValueFromRaw halfStepSignal.getRawValue).2
        = { halfStepSignal with m_isValueSet := true, m_modified := true }) ∧
    (wide33Max32.getRawValue = 4294967295 ∧
      (wide33Max32.setValueFromRaw wide33Max32.getRawValue).1 = true ∧
      (wide33Max32.setValueFromRaw wide33Max32.getRawValue).2.m_value
        = wide33Max32.m_value ∧
      (wide33Max32.setValueFromRaw wide33Max32.getRawValue).2
        = { wide33Max32 with m_isValueSet := true, m_modified := true }) ∧
    (coarseInt.getRawValue = 1 ∧
      (coarseInt.setValueFromRaw coarseInt.getRawValue).1 = true ∧
      (coarseInt.setValueFromRaw coarseInt.getRawValue).2.m_value = coarseInt.m_value ∧
      (coarseInt.setValueFromRaw coarseInt.getRawValue).2
        = { coarseInt with m_isValueSet := true, m_modified := true }) :=
  ⟨⟨by decide,
      (setValueFromRaw_getRawValue halfStepSignal).1 (-25) (by decide) (by decide) (by decide)
        (Or.inr (Or.inl ⟨-25 / 2, rfl, by decide⟩))
        (Or.inr ⟨rfl, by decide, Or.inl rfl, by decide, by decide⟩)⟩,
    ⟨by decide,
      (setValueFromRaw_getRawValue wide33Max32).1 4294967295 (by decide) (by decide) (by decide)
        (Or.inr (Or.inr ⟨4294967295, rfl, by decide⟩))
        (Or.inl ⟨Or.inl rfl, by decide, fun h => absurd h (by decide)⟩)⟩,
    ⟨by decide,
      (setValueFromRaw_getRawValue coarseInt).1 1 (by decide) (by decide) (by decide)
        (Or.inl ⟨1, rfl, by decide⟩)
        (Or.inl ⟨Or.inl rfl, by decide, fun h => absurd h (by decide)⟩)⟩⟩

/-- A value that lies exactly on a raw step, `v = k * factor + offset` with
`k * factor` and `v` representable as `double`s and `|k| < 2^53`, is a raw
step in `double` arithmetic. -/
theorem raw_step_exact (s : CANSignal) (k : ℤ) (hf : s.factor ≠ 0) (hk53 : |k| < 2 ^ 53)
    (hkf : rnd ((k : ℚ) * s.factor) = (k : ℚ) * s.factor)
    (hv : s.m_value.toDouble = (k : ℚ) * s.factor + s.offset)
    (hvd : rnd s.m_value.toDouble = s.m_value.toDouble) :
    llround (rnd (rnd (s.m_value.toDouble - s.offset) / s.factor)) = k ∧
    rnd (rnd (rnd (k : ℚ) * s.factor) + s.offset) = s.m_value.toDouble := by
  obtain ⟨hk1, hk2⟩ := abs_lt.mp hk53
  constructor
  · have e1 : s.m_value.toDouble - s.offset = (k : ℚ) * s.factor := by rw [hv]; ring
    rw [e1, hkf]
    have e2 : (k : ℚ) * s.factor / s.factor = (k : ℚ) := by field_simp
    rw [e2, rnd_intCast k hk53, llround_intCast k (by omega) (by omega)]
  · rw [rnd_intCast k hk53, hkf, ← hv, hvd]

/-- The round trip of a value that lies exactly on a raw step: an `int`, a
`double`, or an `unsigned long` that is a `double` below `2^63`, equal to
`k * factor + offset` with `k` in the raw range of the signal, `|k| < 2^53`
and `k * factor` representable, is read back by
`setValueFromRaw(getRawValue())`. -/
theorem roundtrip_exact (s : CANSignal) (k : ℤ)
    (hval : (∃ i : ℤ, s.m_value = Value.Integer i ∧ -(2 ^ 31) ≤ i ∧ i < 2 ^ 31) ∨
      (∃ d : ℚ, s.m_value = Value.Double d ∧ rnd d = d) ∨
      (∃ u : ℕ, s.m_value = Value.Unsigned u ∧ rnd (u : ℚ) = u ∧ u < 2 ^ 63))
    (htest : s.testValue s.m_value = true)
    (hf : s.factor ≠ 0) (hk53 : |k| < 2 ^ 53)
    (hkf : rnd ((k : ℚ) * s.factor) = (k : ℚ) * s.factor)
    (hv : s.m_value.toDouble = (k : ℚ) * s.factor + s.offset)
    (hraw : ((s.sign = Sign.UNSIGNED ∨ s.m_value.type = ValueType.Unsigned) ∧ 0 ≤ k ∧
        (s.sign = Sign.SIGNED → (s.length = 8 ∨ s.length = 16 ∨ s.length = 32) →
          k < 2 ^ s.length)) ∨
      (s.sign = Sign.SIGNED ∧ s.m_value.type ≠ ValueType.Unsigned ∧
        (s.length = 8 ∨ s.length = 16 ∨ s.length = 32) ∧
        -(2 ^ (s.length - 1)) ≤ k ∧ k < 2 ^ (s.length - 1))) :
    s.setValueFromRaw s.getRawValue
      = (true, { s with m_isValueSet := true, m_modified := true }) := by
  have hvd : rnd s.m_value.toDouble = s.m_value.toDouble := by
    rcases hval with ⟨i, h, h1, h2⟩ | ⟨d, h, h1⟩ | ⟨u, h, h1, _⟩
    · rw [h]
      show rnd (rnd (i : ℚ)) = rnd (i : ℚ)
      have hi := rnd_intCast i (by rw [abs_lt]; constructor <;> omega)
      rw [hi, hi]
    · rw [h]; exact h1
    · rw [h]
      show rnd (rnd (u : ℚ)) = rnd (u : ℚ)
      rw [h1, h1]
  obtain ⟨hk, hdec⟩ := raw_step_exact s k hf hk53 hkf hv hvd
  obtain ⟨_, hI, hD, hU⟩ := typed_back s.m_value (by
    rcases hval with ⟨i, h, h1, h2⟩ | ⟨d, h, _⟩ | ⟨u, h, h1, h2⟩
    · exact Or.inl ⟨i, h, h1, h2⟩
    · exact Or.inr (Or.inl ⟨d, h⟩)
    · exact Or.inr (Or.inr ⟨u, h, h1, h2⟩))
  apply roundtrip_of_step s k htest hk _ hraw
  rw [hdec]
  rcases hval with ⟨i, h, _⟩ | ⟨d, h, _⟩ | ⟨u, h, _⟩
  · left
    refine ⟨i, h, ?_⟩
    have := hI (by rw [h]; rfl)
    rw [h] at this ⊢
    exact Value.Integer.inj this
  · right; left
    refine ⟨d, h, ?_⟩
    rw [h]; rfl
  · right; right
    refine ⟨u, h, ?_⟩
    have := hU (by rw [h]; rfl)
    rw [h] at this ⊢
    exact Value.Unsigned.inj this

/-- The round trip for integer scaling: an unsigned signal, or a signed
signal of length 8, 16 or 32, with integer factor `f ≥ 1` and integer offset,
holding an integer `v` (in `int` range, within the bounds) with
`v - offset = k * f` for a raw `k` of the signal's raw range (`k ≥ 0` when the
value is of the unsigned kind), is read back by
`setValueFromRaw(getRawValue())`. -/
theorem setValueFromRaw_getRawValue_int_scaling (s : CANSignal) (v f o k : ℤ)
    (hval : s.m_value = Value.Integer v ∨ s.m_value = Value.Double v ∨
      (0 ≤ v ∧ 0 ≤ k ∧ s.m_value = Value.Unsigned v.toNat))
    (hv1 : -(2 ^ 31) ≤ v) (hv2 : v < 2 ^ 31)
    (hf : s.factor = (f : ℚ)) (hf1 : 1 ≤ f) (ho : s.offset = (o : ℚ))
    (ho1 : -(2 ^ 31) ≤ o) (ho2 : o ≤ 2 ^ 31) (hk : v - o = k * f)
    (hraw : (s.sign = Sign.UNSIGNED ∧ 0 ≤ k) ∨
      (s.sign = Sign.SIGNED ∧ (s.length = 8 ∨ s.length = 16 ∨ s.length = 32) ∧
        -(2 ^ (s.length - 1)) ≤ k ∧ k < 2 ^ (s.length - 1)))
    (hmin : s.minimum ≤ (v : ℚ)) (hmax : (v : ℚ) ≤ s.maximum) :
    (s.setValueFromRaw s.getRawValue).1 = true ∧
    (s.setValueFromRaw s.getRawValue).2.m_value = s.m_value ∧
    (s.setValueFromRaw s.getRawValue).2
      = { s with m_isValueSet := true, m_modified := true } := by
  have hvabs : |v| < 2 ^ 53 := by rw [abs_lt]; constructor <;> omega
  have hvo : |v - o| < 2 ^ 53 := by rw [abs_lt]; constructor <;> omega
  have hkabs : |k| ≤ |v - o| := by
    rw [hk, abs_mul]
    have : (1 : ℤ) ≤ |f| := by rw [abs_of_pos (by omega)]; exact hf1
    nlinarith [abs_nonneg k]
  have hk53 : |k| < 2 ^ 53 := lt_of_le_of_lt hkabs hvo
  obtain ⟨hk1, hk2⟩ := abs_lt.mp hk53
  have hd := toDouble_of_int s.m_value v hvabs (by
    rcases hval with h | h | ⟨h0, _, h⟩
    · exact Or.inl h
    · exact Or.inr (Or.inl h)
    · exact Or.inr (Or.inr ⟨h0, h⟩))
  have hq := rawQuotient_of_int s v f o k hd hf ho (by omega) hk hvo hk53
  have hnan : s.m_value ≠ Value.NaN := by
    rcases hval with h | h | ⟨_, _, h⟩ <;> rw [h] <;> simp
  have hll : llround (k : ℚ) = k := llround_intCast k (by omega) (by omega)
  have hllv : llround (v : ℚ) = v := llround_intCast v (by omega) (by omega)
  have hw32 : wrapInt 32 v = v := wrapInt_of_range 32 (by norm_num) v (by simpa using hv1)
    (by simpa using hv2)
  -- the raw value
  have hrawv : s.getRawValue = if s.sign = Sign.SIGNED then wrapNat s.length k
      else wrapNat 64 k := by
    rw [getRawValue_eq s hnan, hq, hll]
    rcases hraw with ⟨hs, _⟩ | ⟨hs, hl, _, _⟩
    · simp [hs]
    · rcases hl with h | h | h <;> simp [hs, h]
  have hrawnn : 0 ≤ k → (s.getRawValue : ℤ) = k := by
    intro hk0
    rw [hrawv]
    by_cases hsg : s.sign = Sign.SIGNED
    · rw [if_pos hsg, wrapNat_cast]
      rcases hraw with ⟨hs, _⟩ | ⟨hs, hl, _, hkh⟩
      · rw [hs] at hsg; exact absurd hsg (by decide)
      · apply Int.emod_eq_of_lt hk0
        rcases hl with h | h | h <;> rw [h] at hkh ⊢ <;> norm_num at hkh ⊢ <;> omega
    · rw [if_neg hsg, wrapNat_cast]
      exact Int.emod_eq_of_lt hk0 (by omega)
  have hup : 0 ≤ k → s.unsignedPhysical s.getRawValue = (v : ℚ) := fun hk0 =>
    unsignedPhysical_of_int s s.getRawValue f o k v (hrawnn hk0) hf ho hk hk53 hvo hvabs
  have hsp : s.sign = Sign.SIGNED → s.signedPhysical s.getRawValue = some (v : ℚ) := by
    intro hs
    rcases hraw with ⟨hs', _⟩ | ⟨_, hl, hkl, hkh⟩
    · rw [hs] at hs'; exact absurd hs' (by decide)
    · rw [hrawv, if_pos hs]
      exact signedPhysical_of_int s f o k v hl hkl hkh hf ho hk hk53 hvo hvabs
  have hunsigned : s.sign ≠ Sign.SIGNED → 0 ≤ k := by
    intro hs
    rcases hraw with ⟨_, h⟩ | ⟨h, _⟩
    · exact h
    · exact absurd h hs
  -- the candidate value computed from the raw value is the held value
  have hcand : s.valueFromRaw s.getRawValue = some s.m_value := by
    unfold CANSignal.valueFromRaw
    rcases hval with h | h | ⟨h0, hk0, h⟩
    · rw [h]
      simp only [Value.type]
      by_cases hs : s.sign = Sign.SIGNED
      · rw [if_pos hs, hsp hs]
        simp [hllv, hw32]
      · rw [if_neg hs, hup (hunsigned hs), hllv, hw32]
    · rw [h]
      simp only [Value.type]
      by_cases hs : s.sign = Sign.SIGNED
      · rw [if_pos hs, hsp hs]
        simp
      · rw [if_neg hs, hup (hunsigned hs)]
    · rw [h]
      simp only [Value.type]
      rw [hup hk0, hllv, wrapNat_of_range 64 v h0 (by omega)]
  have htest : s.testValue s.m_value = true :=
    testValue_of_within s s.m_value hnan (by rw [hd]; exact hmin) (by rw [hd]; exact hmax)
  unfold CANSignal.setValueFromRaw
  rw [hcand]
  simp only [htest, if_true]
  exact ⟨trivial, trivial, trivial⟩

set_option maxRecDepth 100000 in
/-- Further values: the integer `10` of the signal with factor `2` and offset
`-40` is read back; the step `1` of the signal with factor `0.7` decodes to
the `double` nearest to `0.7`, which is rounded to the integer `1` again; the
value `1.5` between two raw steps of a signal with factor `1` is accepted by
`testValue` but read back as `2`. -/
theorem setValueFromRaw_getRawValue_examples :
    coarseInt.unsignedPhysical 1 = rnd (7 / 10) ∧
    llround (rnd (7 / 10)) = 1 ∧
    scaled8.getRawValue = 25 ∧
    scaled8.setValueFromRaw scaled8.getRawValue
      = (true, { scaled8 with m_isValueSet := true, m_modified := true }) ∧
    betweenSteps.testValue betweenSteps.m_value = true ∧
    betweenSteps.getRawValue = 2 ∧
    (betweenSteps.setValueFromRaw betweenSteps.getRawValue).2.m_value = Value.Double 2 := by
  decide

set_option maxRecDepth 100000 in
/-- C3, as stated, fails: a signed 12-bit signal holding `-1` (within its
bounds) is refused by `setValueFromRaw(getRawValue())`; a signal with factor
`0.1` holding the `double` nearest to `12.7` is accepted with a value
different from the one it held; a signed 8-bit signal with bounds `[0, 255]`
holding `200`, whose raw value `200` is read as `-56`, is refused; and an
unsigned signal with bounds `[-10, 245]` holding `-1`, whose raw value
`2^64 - 1` is read as `2^64`, is refused. -/
theorem setValueFromRaw_getRawValue_fails :
    (signed12.testValue signed12.m_value = true ∧
      (signed12.setValueFromRaw signed12.getRawValue).1 = false) ∧
    (tenthSignalAt127.testValue tenthSignalAt127.m_value = true ∧
      (tenthSignalAt127.setValueFromRaw tenthSignalAt127.getRawValue).1 = true ∧
      (tenthSignalAt127.setValueFromRaw tenthSignalAt127.getRawValue).2.m_value
        ≠ tenthSignalAt127.m_value) ∧
    (signed8At200.testValue signed8At200.m_value = true ∧
      signed8At200.getRawValue = 200 ∧
      signed8At200.valueFromRaw 200 = some (Value.Integer (-56)) ∧
      (signed8At200.setValueFromRaw signed8At200.getRawValue).1 = false) ∧
    (unsignedAtMinus1.testValue unsignedAtMinus1.m_value = true ∧
      unsignedAtMinus1.getRawValue = 2 ^ 64 - 1 ∧
      unsignedAtMinus1.valueFromRaw (2 ^ 64 - 1) = some (Value.Double (2 ^ 64)) ∧
      (unsignedAtMinus1.setValueFromRaw unsignedAtMinus1.getRawValue).1 = false) := by
  decide


/-! ## Parsing a frame and assembling it again -/

/-- The parsing step of one signal changes neither its layout nor its scaling. -/
theorem parseSignal_layout (dlc : ℕ) (data : ℕ → ℕ) (s s' : CANSignal) (c : Bool)
    (h : CANMessage.parseSignal dlc data s = some (c, s')) :
    s'.order = s.order ∧ s'.startBit = s.startBit ∧ s'.length = s.length := by
  unfold CANMessage.parseSignal at h
  cases hu : unpackSignal dlc s data with
  | none => rw [hu] at h; exact Option.noConfusion h
  | some v =>
    rw [hu] at h
    simp only at h
    split at h
    · have h2 := Option.some.inj h
      unfold CANSignal.setValueFromRaw at h2
      split at h2
      · have := (Prod.mk.inj h2).2
        rw [← this]
        exact ⟨rfl, rfl, rfl⟩
      · split at h2
        · have := (Prod.mk.inj h2).2
          rw [← this]
          exact ⟨rfl, rfl, rfl⟩
        · have := (Prod.mk.inj h2).2
          rw [← this]
          exact ⟨rfl, rfl, rfl⟩
    · have := (Prod.mk.inj (Option.some.inj h)).2
      rw [← this]
      exact ⟨rfl, rfl, rfl⟩

theorem codecStartBit_congr (dlc : ℕ) (s s' : CANSignal) (h1 : s'.order = s.order)
    (h2 : s'.startBit = s.startBit) (h3 : s'.length = s.length) :
    codecStartBit dlc s' = codecStartBit dlc s := by
  unfold codecStartBit
  rw [h1, h2, h3]

theorem fieldByte_congr (dlc : ℕ) (s s' : CANSignal) (h1 : s'.order = s.order) (S t : ℕ) :
    fieldByte dlc s' S t = fieldByte dlc s S t := by
  unfold fieldByte codecBase
  rw [h1]

/-- The loop over the signals of `parseCANFrame` terminates when every
extraction does, and updates the signals one by one. -/
theorem parseSignals_spec (dlc : ℕ) (data : ℕ → ℕ) :
    ∀ (sigs : List CANSignal) (ret : Bool),
      (∀ s, s ∈ sigs → ∃ r, CANMessage.parseSignal dlc data s = some r) →
      ∃ ret' sigs', CANMessage.parseSignals dlc data sigs ret = some (ret', sigs') ∧
        (∀ s, s ∈ sigs → ∃ s', s' ∈ sigs' ∧ ∃ c, CANMessage.parseSignal dlc data s = some (c, s')) ∧
        (∀ s', s' ∈ sigs' → ∃ s, s ∈ sigs ∧ ∃ c, CANMessage.parseSignal dlc data s = some (c, s')) := by
  intro sigs
  induction sigs with
  | nil =>
    intro ret _
    refine ⟨ret, [], rfl, ?_, ?_⟩
    · intro s hs; exact absurd hs (List.not_mem_nil s)
    · intro s hs; exact absurd hs (List.not_mem_nil s)
  | cons s rest ih =>
    intro ret hall
    obtain ⟨⟨c, s1⟩, hr⟩ := hall s (List.mem_cons_self s rest)
    obtain ⟨ret', rest', h1, h2, h3⟩ := ih (ret || c)
      (fun x hx => hall x (List.mem_cons_of_mem s hx))
    refine ⟨ret', s1 :: rest', ?_, ?_, ?_⟩
    · simp only [CANMessage.parseSignals, hr, h1]
    · intro x hx
      rcases List.mem_cons.mp hx with rfl | hx
      · exact ⟨s1, List.mem_cons_self _ _, c, hr⟩
      · obtain ⟨x', hx', hc⟩ := h2 x hx
        exact ⟨x', List.mem_cons_of_mem _ hx', hc⟩
    · intro x' hx'
      rcases List.mem_cons.mp hx' with rfl | hx'
      · exact ⟨s, List.mem_cons_self _ _, c, hr⟩
      · obtain ⟨x, hx, hc⟩ := h3 x' hx'
        exact ⟨x, List.mem_cons_of_mem _ hx, hc⟩

/-- The loop over the signals of `assembleCANFrame` terminates and ORs into
the payload exactly the raw bits of every signal, each at its place. -/
theorem packSignals_spec (dlc : ℕ) :
    ∀ (sigs : List CANSignal) (d : ℕ → ℕ), (∀ j, d j < 256) →
      (∀ s, s ∈ sigs → 0 ≤ codecStartBit dlc s) →
      ∃ d', packSignals dlc sigs d = some d' ∧ (∀ j, d' j < 256) ∧
        ∀ j b, ((d' j).testBit b = true ↔ ((d j).testBit b = true ∨
          ∃ s, s ∈ sigs ∧ ∃ t, t < s.length ∧
            fieldByte dlc s (codecStartBit dlc s).toNat t = j ∧
            ((codecStartBit dlc s).toNat + t) % 8 = b ∧ s.getRawValue.testBit t = true)) := by
  intro sigs
  induction sigs with
  | nil =>
    intro d hd _
    refine ⟨d, rfl, hd, ?_⟩
    intro j b
    constructor
    · intro h; exact Or.inl h
    · rintro (h | ⟨s, hs, _⟩)
      · exact h
      · exact absurd hs (List.not_mem_nil s)
  | cons s rest ih =>
    intro d hd hin
    have hS : codecStartBit dlc s = (((codecStartBit dlc s).toNat : ℕ) : ℤ) :=
      (Int.toNat_of_nonneg (hin s (List.mem_cons_self s rest))).symm
    obtain ⟨d1, h1, h2, h3⟩ := packSignal_spec dlc s (codecStartBit dlc s).toNat s.getRawValue
      d hS hd
    obtain ⟨d', h1', h2', h3'⟩ := ih d1 h2 (fun x hx => hin x (List.mem_cons_of_mem s hx))
    refine ⟨d', ?_, h2', ?_⟩
    · simp only [packSignals, h1, h1']
    · intro j b
      rw [h3' j b, h3 j b]
      constructor
      · rintro ((h | ⟨t, ht⟩) | ⟨x, hx, ht⟩)
        · exact Or.inl h
        · exact Or.inr ⟨s, List.mem_cons_self _ _, t, ht⟩
        · exact Or.inr ⟨x, List.mem_cons_of_mem _ hx, ht⟩
      · rintro (h | ⟨x, hx, ht⟩)
        · exact Or.inl (Or.inl h)
        · rcases List.mem_cons.mp hx with rfl | hx
          · exact Or.inl (Or.inr ht)
          · exact Or.inr ⟨x, hx, ht⟩

/-- C2 (amended): for a message whose signals have at most 32 bits and a
factor other than `0`, lie inside the frame and together cover the data bytes, and a frame (of byte values) whose
fields all decode to values that encode back to the same raw bits, parsing the
frame and assembling the message again yields `can_id` equal to the message id
and the data bytes of the input frame. -/
theorem parse_assemble_roundtrip (m : CANMessage) (frame : canfd_frame)
    (hbytes : ∀ j, frame.data j < 256)
    (hlen : ∀ s, s ∈ m.m_signals → s.length ≤ 32)
    (hin : ∀ s, s ∈ m.m_signals → 0 ≤ codecStartBit m.dlc s)
    (_hfactor : ∀ s, s ∈ m.m_signals → s.factor ≠ 0)
    (hcover : Covers m)
    (hre : ∀ s, s ∈ m.m_signals → reencodes m.dlc frame.data s = true) :
    ∃ ret m' f, m.parseCANFrame frame = some (ret, m') ∧ m'.assembleCANFrame = some f ∧
      f.can_id = m.id ∧ ∀ j, j < m.dlc → f.data j = frame.data j := by
  -- every signal is extracted and parsed
  have hparse : ∀ s, s ∈ m.m_signals → ∃ v c s', unpackSignal m.dlc s frame.data = some v ∧
      CANMessage.parseSignal m.dlc frame.data s = some (c, s') ∧
      s'.getRawValue % 2 ^ s.length = v := by
    intro s hs
    have h := hre s hs
    unfold reencodes at h
    cases hu : unpackSignal m.dlc s frame.data with
    | none => rw [hu] at h; simp at h
    | some v =>
      cases hp : CANMessage.parseSignal m.dlc frame.data s with
      | none => rw [hu, hp] at h; simp at h
      | some r =>
        rw [hu, hp] at h
        exact ⟨v, r.1, r.2, rfl, rfl, by simpa using h⟩
  obtain ⟨ret, sigs', hps, hfw, hbw⟩ := parseSignals_spec m.dlc frame.data m.m_signals false
    (fun s hs => by
      obtain ⟨v, c, s', _, hp, _⟩ := hparse s hs
      exact ⟨(c, s'), hp⟩)
  have hin' : ∀ s', s' ∈ sigs' → 0 ≤ codecStartBit m.dlc s' := by
    intro s' hs'
    obtain ⟨s, hs, c, hp⟩ := hbw s' hs'
    obtain ⟨g1, g2, g3⟩ := parseSignal_layout m.dlc frame.data s s' c hp
    rw [codecStartBit_congr m.dlc s s' g1 g2 g3]
    exact hin s hs
  obtain ⟨d, hd1, hd2, hd3⟩ := packSignals_spec m.dlc sigs' (fun _ => 0) (by intro j; norm_num) hin'
  -- bits of the extracted raw value
  have hbit : ∀ s s' c, s ∈ m.m_signals → CANMessage.parseSignal m.dlc frame.data s = some (c, s') →
      ∀ t, t < s.length → (s'.getRawValue.testBit t = true ↔
        (frame.data (fieldByte m.dlc s (codecStartBit m.dlc s).toNat t)).testBit
          (((codecStartBit m.dlc s).toNat + t) % 8) = true) := by
    intro s s' c hs hp t ht
    obtain ⟨v, c2, s2, hu, hp2, hv⟩ := hparse s hs
    rw [hp] at hp2
    have hs2 : s2 = s' := ((Prod.mk.inj (Option.some.inj hp2)).2).symm
    rw [hs2] at hv
    have hS : codecStartBit m.dlc s = (((codecStartBit m.dlc s).toNat : ℕ) : ℤ) :=
      (Int.toNat_of_nonneg (hin s hs)).symm
    obtain ⟨v2, hu2, hv2⟩ := unpackSignal_spec m.dlc s (codecStartBit m.dlc s).toNat frame.data
      hS (hlen s hs)
    rw [hu] at hu2
    have hvv : v2 = v := (Option.some.inj hu2).symm
    rw [hvv] at hv2
    have := hv2 t
    rw [← hv, Nat.testBit_mod_two_pow] at this
    simp only [Bool.and_eq_true, decide_eq_true_eq] at this
    constructor
    · intro h; exact (this.1 ⟨ht, h⟩).2
    · intro h; exact (this.2 ⟨ht, h⟩).2
  refine ⟨ret, { m with m_signals := sigs' },
    { can_id := m.id, len := m.dlc % 256, data := d }, ?_, ?_, rfl, ?_⟩
  · unfold CANMessage.parseCANFrame
    rw [hps]
  · unfold CANMessage.assembleCANFrame
    simp only [canfd_frame.zero]
    rw [hd1]
  · intro j hj
    show d j = frame.data j
    apply eq_of_testBit_iff
    intro b
    rw [hd3 j b]
    simp only [Nat.zero_testBit, Bool.false_eq_true, false_or]
    constructor
    · rintro ⟨s', hs', t, ht, hb1, hb2, hb3⟩
      obtain ⟨s, hs, c, hp⟩ := hbw s' hs'
      obtain ⟨g1, g2, g3⟩ := parseSignal_layout m.dlc frame.data s s' c hp
      rw [codecStartBit_congr m.dlc s s' g1 g2 g3, fieldByte_congr m.dlc s s' g1] at hb1
      rw [codecStartBit_congr m.dlc s s' g1 g2 g3] at hb2
      rw [g3] at ht
      have := (hbit s s' c hs hp t ht).1 hb3
      rw [hb1, hb2] at this
      exact this
    · intro hb
      have hb8 : b < 8 := testBit_lt_of_lt_256 _ b (hbytes j) hb
      obtain ⟨s, hs, t, ht, hb1, hb2⟩ := hcover j hj b hb8
      obtain ⟨s', hs', c, hp⟩ := hfw s hs
      obtain ⟨g1, g2, g3⟩ := parseSignal_layout m.dlc frame.data s s' c hp
      refine ⟨s', hs', t, by rw [g3]; exact ht, ?_, ?_, ?_⟩
      · rw [codecStartBit_congr m.dlc s s' g1 g2 g3, fieldByte_congr m.dlc s s' g1]
        exact hb1
      · rw [codecStartBit_congr m.dlc s s' g1 g2 g3]
        exact hb2
      · apply (hbit s s' c hs hp t ht).2
        rw [hb1, hb2]
        exact hb


/-- The raw value extracted for a field of at most 32 bits is below
`2^length`. -/
theorem unpackSignal_lt (dlc : ℕ) (s : CANSignal) (data : ℕ → ℕ) (v : ℕ)
    (hin : 0 ≤ codecStartBit dlc s) (h32 : s.length ≤ 32)
    (hu : unpackSignal dlc s data = some v) : v < 2 ^ s.length := by
  have hS : codecStartBit dlc s = (((codecStartBit dlc s).toNat : ℕ) : ℤ) :=
    (Int.toNat_of_nonneg hin).symm
  obtain ⟨v2, hu2, hv2⟩ := unpackSignal_spec dlc s (codecStartBit dlc s).toNat data hS h32
  rw [hu] at hu2
  have hvv : v2 = v := (Option.some.inj hu2).symm
  rw [hvv] at hv2
  apply Nat.lt_pow_two_of_testBit
  intro i hi
  by_contra hne
  have hset : v.testBit i = true := by simpa using hne
  have := ((hv2 i).1 hset).1
  omega

/-- An unsigned signal of value type `int` with integer factor `f ≥ 1` and
integer offset, all of whose physical values fit in `int`, encodes every
accepted decoded value back to the raw bits it was decoded from. -/
theorem reencodes_of_int_scaling (dlc : ℕ) (data : ℕ → ℕ) (s : CANSignal) (i f o : ℤ)
    (hin : 0 ≤ codecStartBit dlc s) (h32 : s.length ≤ 32)
    (hsign : s.sign = Sign.UNSIGNED) (hty : s.m_value = Value.Integer i)
    (hf : s.factor = (f : ℚ)) (hf1 : 1 ≤ f) (ho : s.offset = (o : ℚ))
    (ho1 : -(2 ^ 31) ≤ o) (hmax : (2 ^ s.length - 1) * f + o < 2 ^ 31)
    (hacc : decodesAccepted dlc data s = true) : reencodes dlc data s = true := by
  unfold decodesAccepted at hacc
  unfold reencodes
  cases hu : unpackSignal dlc s data with
  | none => rw [hu] at hacc; simp at hacc
  | some v =>
    rw [hu] at hacc
    simp only at hacc
    have hvlt := unpackSignal_lt dlc s data v hin h32 hu
    have hvlt' : (v : ℤ) ≤ 2 ^ s.length - 1 := by
      have : ((v : ℕ) : ℤ) < ((2 ^ s.length : ℕ) : ℤ) := by exact_mod_cast hvlt
      push_cast at this
      omega
    have hpow : (2 : ℤ) ^ s.length ≤ 2 ^ 32 := pow_le_pow_right₀ (by norm_num) h32
    have hv0 : (0 : ℤ) ≤ (v : ℤ) := by positivity
    -- the decoded physical value `w`
    have hw2 : (v : ℤ) * f + o < 2 ^ 31 := by nlinarith
    have hw1 : -(2 ^ 31) ≤ (v : ℤ) * f + o := by nlinarith
    have hvf : (v : ℤ) * f ≤ 2 ^ 32 := by linarith
    have hvf0 : 0 ≤ (v : ℤ) * f := by positivity
    have hv53 : |(v : ℤ)| < 2 ^ 53 := by rw [abs_lt]; constructor <;> omega
    have hwo : |((v : ℤ) * f + o) - o| < 2 ^ 53 := by
      rw [abs_lt]; constructor <;> omega
    have hw53 : |(v : ℤ) * f + o| < 2 ^ 53 := by rw [abs_lt]; constructor <;> omega
    have hphys : s.unsignedPhysical v = (((v : ℤ) * f + o : ℤ) : ℚ) :=
      unsignedPhysical_of_int s v f o v ((v : ℤ) * f + o) rfl hf ho (by ring) hv53 hwo hw53
    have hcand : s.valueFromRaw v = some (Value.Integer ((v : ℤ) * f + o)) := by
      unfold CANSignal.valueFromRaw
      rw [hty]
      simp only [Value.type, hsign]
      rw [if_neg (by decide), hphys, llround_intCast _ (by omega) (by omega),
        wrapInt_of_range 32 (by norm_num) _ (by simpa using hw1) (by simpa using hw2)]
    obtain ⟨s1, hs1⟩ : ∃ s1 : CANSignal, s1 =
        { s with
          m_isValueSet := true, m_modified := true,
          m_value := Value.Integer ((v : ℤ) * f + o) } := ⟨_, rfl⟩
    have hset : s.setValueFromRaw v = (true, s1) := by
      rw [hs1]
      unfold CANSignal.setValueFromRaw at hacc ⊢
      rw [hcand] at hacc ⊢
      simp only at hacc ⊢
      split
      · rfl
      · rename_i hne
        rw [if_neg hne] at hacc
        exact absurd hacc (by simp)
    have hraw : s1.getRawValue = v := by
      rw [getRawValue_eq s1 (by rw [hs1]; simp)]
      have hd1 : s1.m_value.toDouble = ((((v : ℤ) * f + o : ℤ)) : ℚ) := by
        rw [hs1]
        exact rnd_intCast _ hw53
      have hf' : s1.factor = (f : ℚ) := by rw [hs1]; exact hf
      have ho' : s1.offset = (o : ℚ) := by rw [hs1]; exact ho
      have hsign' : s1.sign = Sign.UNSIGNED := by rw [hs1]; exact hsign
      have hq := rawQuotient_of_int s1 ((v : ℤ) * f + o) f o v hd1 hf' ho' (by omega) (by ring)
        hwo hv53
      rw [hq, llround_intCast _ (by omega) (by omega)]
      simp only [hsign']
      rw [if_neg (by simp), if_neg (by simp), if_neg (by simp),
        wrapNat_of_range 64 (v : ℤ) hv0 (by omega)]
      simp
    have hps : CANMessage.parseSignal dlc data s =
        if (!s.m_isValueSet || v != s.getRawValue) = true then some (s.setValueFromRaw v)
        else some (false, s) := by
      unfold CANMessage.parseSignal
      rw [hu]
    rw [hps]
    by_cases hcond : (!s.m_isValueSet || v != s.getRawValue) = true
    · rw [if_pos hcond, hset]
      simp only
      rw [hraw, Nat.mod_eq_of_lt hvlt]
      simp
    · rw [if_neg hcond]
      simp only [Bool.or_eq_true, Bool.not_eq_true', bne_iff_ne, ne_eq, not_or,
        Bool.not_eq_false, Decidable.not_not] at hcond
      simp only
      rw [← hcond.2, Nat.mod_eq_of_lt hvlt]
      simp


/-! ## Concrete frames -/

/-- Witness for `intel_bit_placement`: a 3-bit signal at start bit 0 holding
raw `1` is assembled to `data[0] = 1`. -/
theorem intel_bit_placement_witness :
    ∃ f, intel3Message.assembleCANFrame = some f ∧ f.data 0 = 1 := by
  obtain ⟨f, h1, _, _, _, h5, _⟩ :=
    intel_bit_placement intel3Message intel3 rfl rfl (by decide) (by decide)
  exact ⟨f, h1, h5 rfl (by decide)⟩

/-- Witness for `motorola_bit_placement`: the whole-byte signal of a one-byte
message holding raw `127` is assembled to `data[0] = 127` and extracted again
as `127`. -/
theorem motorola_bit_placement_witness :
    ∃ f, motorola8Message.assembleCANFrame = some f ∧ f.data 0 = 127 ∧
      unpackSignal motorola8Message.dlc motorola8 f.data = some 127 := by
  obtain ⟨f, h1, _, _, _, _, h6⟩ :=
    motorola_bit_placement motorola8Message motorola8 rfl rfl (by decide) (by decide)
  obtain ⟨h7, h8⟩ := h6 rfl rfl rfl (by decide)
  exact ⟨f, h1, h7, h8⟩

set_option maxRecDepth 100000 in
/-- Witness for `parse_assemble_roundtrip`: the byte `0xA5` parsed by a
message with a 3-bit Intel and a 5-bit Motorola signal and assembled again. -/
theorem parse_assemble_roundtrip_witness :
    ∃ ret m' f, twoSignalMessage.parseCANFrame (frameOfByte 291 165) = some (ret, m') ∧
      m'.assembleCANFrame = some f ∧ f.can_id = twoSignalMessage.id ∧
      ∀ j, j < twoSignalMessage.dlc → f.data j = (frameOfByte 291 165).data j :=
  parse_assemble_roundtrip twoSignalMessage (frameOfByte 291 165)
    (by
      intro j
      unfold frameOfByte
      simp only
      split <;> norm_num)
    (by decide) (by decide) (by decide) (by decide) (by decide)

set_option maxRecDepth 100000 in
/-- C2, as stated, fails: the one-byte message with one 8-bit signal of factor
`0.5` and value type `int` covers its data byte, the frame with `data[0] = 1`
decodes to the accepted value `1`, and assembling after parsing gives
`data[0] = 2`. -/
theorem parse_assemble_fails :
    Covers halfMessage ∧ DisjointFields halfMessage ∧
    (∀ s, s ∈ halfMessage.m_signals →
      decodesAccepted halfMessage.dlc (frameOfByte 1 1).data s = true) ∧
    (frameOfByte 1 1).data 0 = 1 ∧
    ((halfMessage.parseCANFrame (frameOfByte 1 1)).bind
      (fun r => r.2.assembleCANFrame)).map (fun f => (f.can_id, f.data 0)) = some (1, 2) := by
  decide

set_option maxRecDepth 100000 in
/-- C1 at a 33-bit field: the Intel signal at start bit 1 with length 33 lies
inside an 8-byte frame and the raw value `2^32` fits it; the packing loop
writes it as `data[4] = 2`, and the extraction loop reads `0` back from that
payload. -/
theorem unpack_pack_33bit :
    (wide33.startBit + wide33.length ≤ 8 * 8 ∧ 2 ^ 32 < 2 ^ wide33.length) ∧
    (packSignal 8 wide33 (2 ^ 32) (fun _ => 0)).map (fun d => (List.range 8).map d)
      = some [0, 0, 0, 0, 2, 0, 0, 0] ∧
    (packSignal 8 wide33 (2 ^ 32) (fun _ => 0)).bind (unpackSignal 8 wide33) = some 0 := by
  decide

set_option maxRecDepth 100000 in
/-- The conversion of a parsed number to the value type `int` goes through
`double`: the `long double` nearest to `0.49999999999999999` is below one
half, its `double` is `0.5`, and the value stored on a signal with bounds
`[1, 7]` is `1`; the string `nan` gives the integer `0` on a signal of value
type `int`. -/
theorem setValueString_rounding_examples :
    rndL (49999999999999999 / 100000000000000000) < 1 / 2 ∧
    rnd (rndL (49999999999999999 / 100000000000000000)) = 1 / 2 ∧
    oneToSeven.setValueString stoldBelowHalf true "0.49999999999999999" =
      (true, { oneToSeven with
        m_isValueSet := true, m_modified := true, m_value := Value.Integer 1 }) ∧
    rnd (rndL (749999999999999999 / 100000000000000000)) = 15 / 2 ∧
    intel3.setValueString stoldBelowHalf true "nan" =
      (true, { intel3 with
        m_isValueSet := true, m_modified := true, m_value := Value.Integer 0 }) := by
  decide

/-! ## String input and unit conversion -/

theorem storeSignal_self (name : String) (s : CANSignal) :
    ∀ (l : List CANSignal), l.find? (fun x => x.name = name) = some s →
      storeSignal name s l = l := by
  intro l
  induction l with
  | nil => intro h; rfl
  | cons a rest ih =>
    intro h
    by_cases ha : a.name = name
    · rw [List.find?_cons_of_pos _ (by simpa using ha)] at h
      have hs : a = s := Option.some.inj h
      subst hs
      simp only [storeSignal, ha, if_true]
    · rw [List.find?_cons_of_neg _ (by simpa using ha)] at h
      simp only [storeSignal, ha, if_false, ih h]

theorem storeMessage_self (msgId : ℕ) (m : CANMessage) :
    ∀ (l : List CANMessage), l.find? (fun x => x.id = msgId) = some m →
      storeMessage msgId m l = l := by
  intro l
  induction l with
  | nil => intro h; rfl
  | cons a rest ih =>
    intro h
    by_cases ha : a.id = msgId
    · rw [List.find?_cons_of_pos _ (by simpa using ha)] at h
      have hs : a = m := Option.some.inj h
      subst hs
      simp only [storeMessage, ha, if_true]
    · rw [List.find?_cons_of_neg _ (by simpa using ha)] at h
      simp only [storeMessage, ha, if_false, ih h]

/-- A setter of a signal that leaves the signal alone when it fails. -/
theorem CANSignal_setValue_false (s : CANSignal) (v : Value) (h : (s.setValue v).1 = false) :
    (s.setValue v).2 = s := by
  unfold CANSignal.setValue at h ⊢
  split
  · rename_i ht; rw [if_pos ht] at h; exact absurd h (by simp)
  · rfl

theorem CANSignal_setValueString_false (s : CANSignal) (stold : String → Option LongDouble)
    (native : Bool) (str : String) (h : (s.setValueString stold native str).1 = false) :
    (s.setValueString stold native str).2 = s := by
  unfold CANSignal.setValueString at h ⊢
  simp only at h ⊢
  split
  · rename_i ht; rw [if_pos ht] at h; exact absurd h (by simp)
  · rfl


/-- `CANMessage::setValue` with either setter: success means that the signal
exists and its setter succeeded; failure leaves the message as it was. -/
theorem CANMessage_setValue_spec (m : CANMessage) (key : String) (value : Value) :
    ((m.setValue key value).1 = true ↔
      ∃ signal, m.getSignalPrivate key = some signal ∧ signal.testValue value = true) ∧
    ((m.setValue key value).1 = false → (m.setValue key value).2 = m) := by
  unfold CANMessage.setValue
  cases hg : m.getSignalPrivate key with
  | none => simp
  | some signal =>
    simp only
    by_cases ht : signal.testValue value = true
    · have h1 : (signal.setValue value).1 = true := by
        unfold CANSignal.setValue; rw [if_pos ht]
      rw [if_pos h1]
      simp [ht]
    · have h1 : (signal.setValue value).1 = false := by
        unfold CANSignal.setValue; rw [if_neg ht]
      have h2 := CANSignal_setValue_false signal value h1
      rw [h1, h2]
      unfold CANMessage.getSignalPrivate at hg
      rw [storeSignal_self key signal m.m_signals hg]
      simp [ht]

theorem CANMessage_setValueString_spec (m : CANMessage) (stold : String → Option LongDouble)
    (native : Bool) (key : String) (value : String) :
    ((m.setValueString stold native key value).1 = true ↔
      ∃ signal, m.getSignalPrivate key = some signal ∧
        (signal.setValueString stold native value).1 = true) ∧
    ((m.setValueString stold native key value).1 = false →
      (m.setValueString stold native key value).2 = m) := by
  unfold CANMessage.setValueString
  cases hg : m.getSignalPrivate key with
  | none => simp
  | some signal =>
    simp only
    by_cases h1 : (signal.setValueString stold native value).1 = true
    · rw [if_pos h1]
      simp [h1]
    · have h1' : (signal.setValueString stold native value).1 = false := by
        simpa using h1
      have h2 := CANSignal_setValueString_false signal stold native value h1'
      rw [h1', h2]
      unfold CANMessage.getSignalPrivate at hg
      rw [storeSignal_self key signal m.m_signals hg]
      simp [h1']

theorem Configuration_setValue_aux (cfg : Configuration) (key : String) (value : Value) :
    ((cfg.setValue key value).1 = true ↔
      ∃ entry message, cfg.mappingOf key = some entry ∧
        Configuration.jsonID entry ∈ cfg.m_sendIDs ∧
        cfg.getMessage (Configuration.jsonID entry) = some message ∧
        (message.setValue entry.signal value).1 = true) ∧
    ((cfg.setValue key value).1 = false → (cfg.setValue key value).2 = cfg) := by
  unfold Configuration.setValue Configuration.getMessageByKey Configuration.getMessageId
    Configuration.getSignalName Configuration.isVariableSupported
  cases hmap : cfg.mappingOf key with
  | none => simp
  | some entry =>
    simp only [Option.isSome_some, if_true, Option.map_some']
    cases hmsg : cfg.getMessage (Configuration.jsonID entry) with
    | none =>
      simp only [Option.map_none']
      refine ⟨⟨fun h => absurd h (by simp), ?_⟩, fun _ => trivial⟩
      rintro ⟨e, m', he, _, hm', _⟩
      cases he
      rw [hmsg] at hm'
      exact Option.noConfusion hm'
    | some message =>
      simp only [Option.map_some']
      by_cases hin : Configuration.jsonID entry ∈ cfg.m_sendIDs
      · have hc : cfg.m_sendIDs.contains (Configuration.jsonID entry) = true := by
          simpa using hin
        simp only [hc, Bool.not_true, Bool.false_eq_true, if_false]
        refine ⟨?_, ?_⟩
        · constructor
          · intro h; exact ⟨entry, message, rfl, hin, hmsg, h⟩
          · rintro ⟨e, m', he, _, hm', h⟩
            cases he
            rw [hmsg] at hm'
            cases hm'
            exact h
        · intro h
          have h2 := (CANMessage_setValue_spec message entry.signal value).2 h
          rw [h2]
          unfold Configuration.getMessage at hmsg
          rw [storeMessage_self _ message cfg.m_messages hmsg]
      · have hc : cfg.m_sendIDs.contains (Configuration.jsonID entry) = false := by
          simpa using hin
        simp only [hc, Bool.not_false, if_true]
        refine ⟨?_, fun _ => trivial⟩
        constructor
        · intro h; exact absurd h (by simp)
        · rintro ⟨e, m', he, hin', _, _⟩
          cases he
          exact absurd hin' hin

theorem Configuration_setValueString_aux (cfg : Configuration) (stold : String → Option LongDouble)
    (native : Bool) (key : String) (value : String) :
    ((cfg.setValueString stold native key value).1 = true ↔
      ∃ entry message, cfg.mappingOf key = some entry ∧
        Configuration.jsonID entry ∈ cfg.m_sendIDs ∧
        cfg.getMessage (Configuration.jsonID entry) = some message ∧
        (message.setValueString stold native entry.signal value).1 = true) ∧
    ((cfg.setValueString stold native key value).1 = false →
      (cfg.setValueString stold native key value).2 = cfg) := by
  unfold Configuration.setValueString Configuration.getMessageByKey Configuration.getMessageId
    Configuration.getSignalName Configuration.isVariableSupported
  cases hmap : cfg.mappingOf key with
  | none => simp
  | some entry =>
    simp only [Option.isSome_some, if_true, Option.map_some']
    cases hmsg : cfg.getMessage (Configuration.jsonID entry) with
    | none =>
      simp only [Option.map_none']
      refine ⟨⟨fun h => absurd h (by simp), ?_⟩, fun _ => trivial⟩
      rintro ⟨e, m', he, _, hm', _⟩
      cases he
      rw [hmsg] at hm'
      exact Option.noConfusion hm'
    | some message =>
      simp only [Option.map_some']
      by_cases hin : Configuration.jsonID entry ∈ cfg.m_sendIDs
      · have hc : cfg.m_sendIDs.contains (Configuration.jsonID entry) = true := by
          simpa using hin
        simp only [hc, Bool.not_true, Bool.false_eq_true, if_false]
        refine ⟨?_, ?_⟩
        · constructor
          · intro h; exact ⟨entry, message, rfl, hin, hmsg, h⟩
          · rintro ⟨e, m', he, _, hm', h⟩
            cases he
            rw [hmsg] at hm'
            cases hm'
            exact h
        · intro h
          have h2 := (CANMessage_setValueString_spec message stold native entry.signal value).2 h
          rw [h2]
          unfold Configuration.getMessage at hmsg
          rw [storeMessage_self _ message cfg.m_messages hmsg]
      · have hc : cfg.m_sendIDs.contains (Configuration.jsonID entry) = false := by
          simpa using hin
        simp only [hc, Bool.not_false, if_true]
        refine ⟨?_, fun _ => trivial⟩
        constructor
        · intro h; exact absurd h (by simp)
        · rintro ⟨e, m', he, hin', _, _⟩
          cases he
          exact absurd hin' hin

theorem insertID_mem (x id : ℕ) (ids : List ℕ) :
    x ∈ Configuration.insertID id ids ↔ x = id ∨ x ∈ ids := by
  unfold Configuration.insertID
  by_cases h : id ∈ ids
  · rw [if_pos h]
    constructor
    · intro hx; exact Or.inr hx
    · rintro (rfl | hx)
      · exact h
      · exact hx
  · rw [if_neg h, List.mem_orderedInsert]

theorem initDirection_frame (c : Configuration) (v : VariableMapping) :
    (Configuration.initDirection c v).m_ignoreDirections = c.m_ignoreDirections ∧
    (Configuration.initDirection c v).m_canMapping = c.m_canMapping ∧
    (Configuration.initDirection c v).m_messages = c.m_messages ∧
    (∀ x, x ∈ c.m_sendIDs → x ∈ (Configuration.initDirection c v).m_sendIDs) := by
  unfold Configuration.initDirection
  cases v.id with
  | none => exact ⟨rfl, rfl, rfl, fun _ h => h⟩
  | some i =>
    simp only
    split
    · exact ⟨rfl, rfl, rfl, fun x h => (insertID_mem x _ _).2 (Or.inr h)⟩
    · split
      · exact ⟨rfl, rfl, rfl, fun x h => (insertID_mem x _ _).2 (Or.inr h)⟩
      · split
        · exact ⟨rfl, rfl, rfl, fun _ h => h⟩
        · exact ⟨rfl, rfl, rfl, fun _ h => h⟩

theorem initDirections_fold (l : List (String × VariableMapping)) :
    ∀ (c : Configuration),
      (l.foldl (fun c kv => Configuration.initDirection c kv.2) c).m_ignoreDirections
        = c.m_ignoreDirections ∧
      (l.foldl (fun c kv => Configuration.initDirection c kv.2) c).m_canMapping
        = c.m_canMapping ∧
      (l.foldl (fun c kv => Configuration.initDirection c kv.2) c).m_messages
        = c.m_messages ∧
      (∀ x, x ∈ c.m_sendIDs →
        x ∈ (l.foldl (fun c kv => Configuration.initDirection c kv.2) c).m_sendIDs) ∧
      (c.m_ignoreDirections = true → ∀ kv, kv ∈ l → kv.2.id ≠ none →
        Configuration.jsonID kv.2 ∈
          (l.foldl (fun c kv => Configuration.initDirection c kv.2) c).m_sendIDs) := by
  induction l with
  | nil =>
    intro c
    exact ⟨rfl, rfl, rfl, fun _ h => h, fun _ kv h => absurd h (List.not_mem_nil kv)⟩
  | cons a rest ih =>
    intro c
    obtain ⟨f1, f2, f3, f4⟩ := initDirection_frame c a.2
    obtain ⟨g1, g2, g3, g4, g5⟩ := ih (Configuration.initDirection c a.2)
    simp only [List.foldl_cons]
    refine ⟨g1.trans f1, g2.trans f2, g3.trans f3, fun x h => g4 x (f4 x h), ?_⟩
    intro hig kv hkv hid
    rcases List.mem_cons.mp hkv with rfl | hkv
    · apply g4
      unfold Configuration.initDirection
      cases hi : kv.2.id with
      | none => exact absurd hi hid
      | some i =>
        simp only [hig, if_true]
        exact (insertID_mem _ _ _).2 (Or.inl rfl)
    · exact g5 (f1.trans hig) kv hkv hid

theorem mem_of_mappingOf (cfg : Configuration) (key : String) (entry : VariableMapping)
    (h : cfg.mappingOf key = some entry) : (key, entry) ∈ cfg.m_canMapping := by
  unfold Configuration.mappingOf at h
  cases hf : cfg.m_canMapping.find? (fun kv => kv.1 = key) with
  | none => rw [hf] at h; exact Option.noConfusion h
  | some kv =>
    rw [hf] at h
    have h1 := List.mem_of_find?_eq_some hf
    have h2 := List.find?_some hf
    have h3 : kv.1 = key := by simpa using h2
    have h4 : kv.2 = entry := Option.some.inj h
    rw [← h3, ← h4]
    exact h1

/-- C12: `Configuration::setValue(key, v)`, for a `Value` and for a string,
returns true exactly when `key` is a configured variable, the identifier of
its message is in the set of send identifiers, the message and the signal
exist and the signal accepts the value; whenever it returns false the whole
configuration, hence every signal value and every modified flag, is as before.
When directions are ignored, `initMessageDirections` puts the identifier of
every variable into the send set, so that a variable is settable whatever its
configured direction. -/
theorem Configuration_setValue_guard (cfg : Configuration) (stold : String → Option LongDouble)
    (native : Bool) (key : String) (value : Value) (valueString : String) :
    ((cfg.setValue key value).1 = true ↔
      ∃ entry message signal, cfg.mappingOf key = some entry ∧
        Configuration.jsonID entry ∈ cfg.m_sendIDs ∧
        cfg.getMessage (Configuration.jsonID entry) = some message ∧
        message.getSignalPrivate entry.signal = some signal ∧
        signal.testValue value = true) ∧
    ((cfg.setValue key value).1 = false → (cfg.setValue key value).2 = cfg) ∧
    ((cfg.setValueString stold native key valueString).1 = true ↔
      ∃ entry message signal, cfg.mappingOf key = some entry ∧
        Configuration.jsonID entry ∈ cfg.m_sendIDs ∧
        cfg.getMessage (Configuration.jsonID entry) = some message ∧
        message.getSignalPrivate entry.signal = some signal ∧
        (signal.setValueString stold native valueString).1 = true) ∧
    ((cfg.setValueString stold native key valueString).1 = false →
      (cfg.setValueString stold native key valueString).2 = cfg) ∧
    (cfg.m_ignoreDirections = true → ∀ k entry, (k, entry) ∈ cfg.m_canMapping →
      entry.id ≠ none →
      Configuration.jsonID entry ∈ cfg.initMessageDirections.m_sendIDs) ∧
    (cfg.m_ignoreDirections = true → ∀ entry message signal,
      cfg.mappingOf key = some entry → entry.id ≠ none →
      cfg.getMessage (Configuration.jsonID entry) = some message →
      message.getSignalPrivate entry.signal = some signal →
      signal.testValue value = true →
      (cfg.initMessageDirections.setValue key value).1 = true) := by
  have hfold := initDirections_fold cfg.m_canMapping cfg
  have hall : cfg.m_ignoreDirections = true → ∀ k entry, (k, entry) ∈ cfg.m_canMapping →
      entry.id ≠ none →
      Configuration.jsonID entry ∈ cfg.initMessageDirections.m_sendIDs := by
    intro hig k entry hmem hid
    exact hfold.2.2.2.2 hig (k, entry) hmem hid
  refine ⟨?_, (Configuration_setValue_aux cfg key value).2, ?_,
    (Configuration_setValueString_aux cfg stold native key valueString).2, hall, ?_⟩
  · rw [(Configuration_setValue_aux cfg key value).1]
    constructor
    · rintro ⟨entry, message, h1, h2, h3, h4⟩
      obtain ⟨signal, h5, h6⟩ := (CANMessage_setValue_spec message entry.signal value).1.1 h4
      exact ⟨entry, message, signal, h1, h2, h3, h5, h6⟩
    · rintro ⟨entry, message, signal, h1, h2, h3, h5, h6⟩
      exact ⟨entry, message, h1, h2, h3,
        (CANMessage_setValue_spec message entry.signal value).1.2 ⟨signal, h5, h6⟩⟩
  · rw [(Configuration_setValueString_aux cfg stold native key valueString).1]
    constructor
    · rintro ⟨entry, message, h1, h2, h3, h4⟩
      obtain ⟨signal, h5, h6⟩ :=
        (CANMessage_setValueString_spec message stold native entry.signal valueString).1.1 h4
      exact ⟨entry, message, signal, h1, h2, h3, h5, h6⟩
    · rintro ⟨entry, message, signal, h1, h2, h3, h5, h6⟩
      exact ⟨entry, message, h1, h2, h3,
        (CANMessage_setValueString_spec message stold native entry.signal valueString).1.2
          ⟨signal, h5, h6⟩⟩
  · intro hig entry message signal h1 hid h3 h5 h6
    rw [(Configuration_setValue_aux cfg.initMessageDirections key value).1]
    have e1 : cfg.initMessageDirections.m_canMapping = cfg.m_canMapping := hfold.2.1
    have e2 : cfg.initMessageDirections.m_messages = cfg.m_messages := hfold.2.2.1
    refine ⟨entry, message, ?_, ?_, ?_, ?_⟩
    · unfold Configuration.mappingOf at h1 ⊢
      rw [e1]; exact h1
    · exact hall hig key entry (mem_of_mappingOf cfg key entry h1) hid
    · unfold Configuration.getMessage at h3 ⊢
      rw [e2]; exact h3
    · exact (CANMessage_setValue_spec message entry.signal value).1.2 ⟨signal, h5, h6⟩

set_option maxRecDepth 100000 in
/-- The configuration of the example: the outgoing variable takes a value in
range and refuses one out of range, an unknown key is refused, and the
incoming variable is refused (leaving the configuration as it was) unless
directions are ignored. -/
theorem Configuration_setValue_examples :
    ((exampleConfiguration false).setValue "speed" (Value.Integer 3)).1 = true ∧
    (exampleConfiguration false).setValue "speed" (Value.Integer 9)
      = (false, exampleConfiguration false) ∧
    (exampleConfiguration false).setValue "unknown" (Value.Integer 3)
      = (false, exampleConfiguration false) ∧
    (exampleConfiguration false).setValue "temperature" (Value.Integer 5)
      = (false, exampleConfiguration false) ∧
    ((exampleConfiguration true).setValue "temperature" (Value.Integer 5)).1 = true := by
  decide

/-! ## Parsing the same frame twice -/

/-- The extraction loop ends for every field length. -/
theorem unpackLoop_total (data : ℕ → ℕ) (so : ℕ) (si : ℤ) :
    ∀ (fuel dataLeft offset : ℕ) (index : ℤ) (value : ℕ), dataLeft ≤ fuel → offset < 8 →
      ∃ v, unpackLoop data so si fuel dataLeft offset index value = some v := by
  intro fuel
  induction fuel with
  | zero =>
    intro dataLeft offset index value h _
    have h0 : dataLeft = 0 := by omega
    subst h0
    exact ⟨value, by simp [unpackLoop]⟩
  | succ n ih =>
    intro dataLeft offset index value h ho
    by_cases h0 : dataLeft = 0
    · subst h0
      exact ⟨value, by simp [unpackLoop]⟩
    · unfold unpackLoop
      rw [if_neg h0]
      apply ih
      · split <;> omega
      · omega

theorem unpackSignal_total (dlc : ℕ) (s : CANSignal) (data : ℕ → ℕ) :
    ∃ v, unpackSignal dlc s data = some v := by
  unfold unpackSignal
  apply unpackLoop_total
  · exact le_refl _
  · unfold codecStartOffset
    omega

theorem unpackSignal_congr (dlc : ℕ) (s s' : CANSignal) (data : ℕ → ℕ)
    (h1 : s'.order = s.order) (h2 : s'.startBit = s.startBit) (h3 : s'.length = s.length) :
    unpackSignal dlc s' data = unpackSignal dlc s data := by
  have hb := codecStartBit_congr dlc s s' h1 h2 h3
  unfold unpackSignal codecStartOffset codecStartIndex
  rw [hb, h1, h3]

/-- The candidate value of `setValueFromRaw` has the type of the current value. -/
theorem valueFromRaw_type (s : CANSignal) (v : ℕ) (val : Value)
    (h : s.valueFromRaw v = some val) : val.type = s.m_value.type := by
  unfold CANSignal.valueFromRaw at h
  cases hty : s.m_value.type with
  | Integer =>
    rw [hty] at h
    simp only at h
    split at h
    · cases hp : s.signedPhysical v with
      | none => rw [hp] at h; exact Option.noConfusion h
      | some d => rw [hp] at h; cases h; rfl
    · cases h; rfl
  | Double =>
    rw [hty] at h
    simp only at h
    split at h
    · cases hp : s.signedPhysical v with
      | none => rw [hp] at h; exact Option.noConfusion h
      | some d => rw [hp] at h; cases h; rfl
    · cases h; rfl
  | Unsigned =>
    rw [hty] at h
    simp only at h
    cases h; rfl

/-- The candidate value depends on the signal only through its scaling, its
sign and length, and the type of its current value. -/
theorem valueFromRaw_congr (s s' : CANSignal) (v : ℕ) (h1 : s'.m_value.type = s.m_value.type)
    (h2 : s'.sign = s.sign) (h3 : s'.length = s.length) (h4 : s'.factor = s.factor)
    (h5 : s'.offset = s.offset) : s'.valueFromRaw v = s.valueFromRaw v := by
  unfold CANSignal.valueFromRaw CANSignal.signedPhysical CANSignal.unsignedPhysical
  rw [h1, h2, h3, h4, h5]

/-- A successful `setValueFromRaw` succeeds again on its own result and
leaves that result as it is. -/
theorem setValueFromRaw_again (s : CANSignal) (v : ℕ) (h : (s.setValueFromRaw v).1 = true) :
    (s.setValueFromRaw v).2.setValueFromRaw v = (true, (s.setValueFromRaw v).2) ∧
    (s.setValueFromRaw v).2.m_modified = true ∧
    (s.setValueFromRaw v).2.m_isValueSet = true := by
  unfold CANSignal.setValueFromRaw at h
  cases hv : s.valueFromRaw v with
  | none => rw [hv] at h; exact absurd h (by simp)
  | some val =>
    rw [hv] at h
    simp only at h
    by_cases ht : s.testValue val = true
    · obtain ⟨s1, hs1⟩ : ∃ s1 : CANSignal, s1 =
          { s with m_isValueSet := true, m_modified := true, m_value := val } := ⟨_, rfl⟩
      have hr : s.setValueFromRaw v = (true, s1) := by
        unfold CANSignal.setValueFromRaw
        rw [hv]
        simp only
        rw [if_pos ht, hs1]
      rw [hr]
      simp only
      have hv1 : s1.valueFromRaw v = some val := by
        rw [← hv]
        apply valueFromRaw_congr
        · rw [hs1]; exact valueFromRaw_type s v val hv
        · rw [hs1]
        · rw [hs1]
        · rw [hs1]
        · rw [hs1]
      have ht1 : s1.testValue val = true := by
        rw [← ht, hs1]
        rfl
      refine ⟨?_, by rw [hs1], by rw [hs1]⟩
      unfold CANSignal.setValueFromRaw
      rw [hv1]
      simp only
      rw [if_pos ht1, hs1]
    · rw [if_neg ht] at h
      exact absurd h (by simp)

/-- A failing `setValueFromRaw` leaves the signal as it is. -/
theorem setValueFromRaw_false (s : CANSignal) (v : ℕ) (h : (s.setValueFromRaw v).1 = false) :
    (s.setValueFromRaw v).2 = s := by
  unfold CANSignal.setValueFromRaw at h ⊢
  cases hv : s.valueFromRaw v with
  | none => rfl
  | some val =>
    rw [hv] at h
    simp only at h ⊢
    by_cases ht : s.testValue val = true
    · rw [if_pos ht] at h; exact absurd h (by simp)
    · rw [if_neg ht]

/-- One parsing step, and the same step repeated on its result: the result is
a fixed point, and the repeated step reports a change exactly when the first
one set a value that does not encode back to the extracted bits. -/
theorem parseSignal_again (dlc : ℕ) (data : ℕ → ℕ) (s : CANSignal) :
    ∃ v c s', unpackSignal dlc s data = some v ∧
      CANMessage.parseSignal dlc data s = some (c, s') ∧
      (s' ≠ s → s'.m_modified = true) ∧ (c = true → s'.m_modified = true) ∧
      ∃ c2, CANMessage.parseSignal dlc data s' = some (c2, s') ∧
        (c2 = true ↔ (c = true ∧ s'.getRawValue ≠ v)) := by
  obtain ⟨v, hu⟩ := unpackSignal_total dlc s data
  have hp : ∀ x : CANSignal, unpackSignal dlc x data = some v →
      CANMessage.parseSignal dlc data x =
        some (if (!x.m_isValueSet || v != x.getRawValue) = true then x.setValueFromRaw v
          else (false, x)) := by
    intro x hx
    unfold CANMessage.parseSignal
    rw [hx]
    simp only
    split <;> rfl
  by_cases hc : (!s.m_isValueSet || v != s.getRawValue) = true
  · by_cases hr : (s.setValueFromRaw v).1 = true
    · obtain ⟨a1, a2, a3⟩ := setValueFromRaw_again s v hr
      have h1 : CANMessage.parseSignal dlc data s = some (true, (s.setValueFromRaw v).2) := by
        rw [hp s hu, if_pos hc, ← hr]
      obtain ⟨l1, l2, l3⟩ := parseSignal_layout dlc data s _ _ h1
      have hu' := (unpackSignal_congr dlc s _ data l1 l2 l3).trans hu
      refine ⟨v, true, (s.setValueFromRaw v).2, hu, h1, fun _ => a2, fun _ => a2, ?_⟩
      by_cases hq : (s.setValueFromRaw v).2.getRawValue = v
      · refine ⟨false, ?_, ?_⟩
        · rw [hp _ hu', if_neg]
          rw [a3, hq]
          simp
        · constructor
          · intro h; exact absurd h (by simp)
          · rintro ⟨_, h⟩; exact absurd hq h
      · refine ⟨true, ?_, ?_⟩
        · rw [hp _ hu', if_pos, a1]
          rw [a3]
          simp only [Bool.not_true, Bool.false_or, bne_iff_ne, ne_eq]
          exact fun h => hq h.symm
        · constructor
          · intro _; exact ⟨rfl, hq⟩
          · intro _; rfl
    · have hr' : (s.setValueFromRaw v).1 = false := by simpa using hr
      have h2 := setValueFromRaw_false s v hr'
      have h1 : CANMessage.parseSignal dlc data s = some (false, s) := by
        rw [hp s hu, if_pos hc]
        congr 1
        exact Prod.ext hr' h2
      refine ⟨v, false, s, hu, h1, fun h => absurd rfl h, fun h => absurd h (by simp),
        false, h1, ?_⟩
      constructor
      · intro h; exact absurd h (by simp)
      · rintro ⟨h, _⟩; exact absurd h (by simp)
  · have h1 : CANMessage.parseSignal dlc data s = some (false, s) := by
      rw [hp s hu, if_neg hc]
    refine ⟨v, false, s, hu, h1, fun h => absurd rfl h, fun h => absurd h (by simp),
      false, h1, ?_⟩
    constructor
    · intro h; exact absurd h (by simp)
    · rintro ⟨h, _⟩; exact absurd h (by simp)

/-- The loop over the signals of `parseCANFrame` always ends; it updates the
signals one by one, in place, and its flag is raised exactly by the steps that
set a value. -/
theorem parseSignals_forall2 (dlc : ℕ) (data : ℕ → ℕ) :
    ∀ (sigs : List CANSignal) (ret : Bool),
      ∃ ret' sigs', CANMessage.parseSignals dlc data sigs ret = some (ret', sigs') ∧
        List.Forall₂ (fun s s' => ∃ c, CANMessage.parseSignal dlc data s = some (c, s'))
          sigs sigs' ∧
        (ret' = true ↔ (ret = true ∨
          ∃ s, s ∈ sigs ∧ ∃ s', CANMessage.parseSignal dlc data s = some (true, s'))) := by
  intro sigs
  induction sigs with
  | nil =>
    intro ret
    refine ⟨ret, [], rfl, List.Forall₂.nil, ?_⟩
    constructor
    · intro h; exact Or.inl h
    · rintro (h | ⟨s, hs, _⟩)
      · exact h
      · exact absurd hs (List.not_mem_nil s)
  | cons s rest ih =>
    intro ret
    obtain ⟨v, c, s1, _, hr, _⟩ := parseSignal_again dlc data s
    obtain ⟨ret', rest', h1, h2, h3⟩ := ih (ret || c)
    refine ⟨ret', s1 :: rest', ?_, List.Forall₂.cons ⟨c, hr⟩ h2, ?_⟩
    · simp only [CANMessage.parseSignals, hr, h1]
    · rw [h3]
      constructor
      · rintro (h | ⟨x, hx, hx'⟩)
        · rcases Bool.or_eq_true _ _ ▸ h with h | h
          · exact Or.inl h
          · subst h
            exact Or.inr ⟨s, List.mem_cons_self _ _, s1, hr⟩
        · exact Or.inr ⟨x, List.mem_cons_of_mem _ hx, hx'⟩
      · rintro (h | ⟨x, hx, s', hx'⟩)
        · left; rw [h]; rfl
        · rcases List.mem_cons.mp hx with rfl | hx
          · left
            rw [hr] at hx'
            have hc : c = true := (Prod.mk.inj (Option.some.inj hx')).1
            rw [hc]; simp
          · exact Or.inr ⟨x, hx, s', hx'⟩

/-- The loop over the signals on a list of fixed points of the parsing step. -/
theorem parseSignals_fixed (dlc : ℕ) (data : ℕ → ℕ) :
    ∀ (sigs : List CANSignal) (ret : Bool),
      (∀ s, s ∈ sigs → ∃ c, CANMessage.parseSignal dlc data s = some (c, s)) →
      ∃ ret', CANMessage.parseSignals dlc data sigs ret = some (ret', sigs) ∧
        (ret' = true ↔ (ret = true ∨
          ∃ s, s ∈ sigs ∧ CANMessage.parseSignal dlc data s = some (true, s))) := by
  intro sigs
  induction sigs with
  | nil =>
    intro ret _
    refine ⟨ret, rfl, ?_⟩
    constructor
    · intro h; exact Or.inl h
    · rintro (h | ⟨s, hs, _⟩)
      · exact h
      · exact absurd hs (List.not_mem_nil s)
  | cons s rest ih =>
    intro ret hall
    obtain ⟨c, hr⟩ := hall s (List.mem_cons_self _ _)
    obtain ⟨ret', h1, h3⟩ := ih (ret || c) (fun x hx => hall x (List.mem_cons_of_mem _ hx))
    refine ⟨ret', ?_, ?_⟩
    · simp only [CANMessage.parseSignals, hr, h1]
    · rw [h3]
      constructor
      · rintro (h | ⟨x, hx, hx'⟩)
        · rcases Bool.or_eq_true _ _ ▸ h with h | h
          · exact Or.inl h
          · subst h
            exact Or.inr ⟨s, List.mem_cons_self _ _, hr⟩
        · exact Or.inr ⟨x, List.mem_cons_of_mem _ hx, hx'⟩
      · rintro (h | ⟨x, hx, hx'⟩)
        · left; rw [h]; rfl
        · rcases List.mem_cons.mp hx with rfl | hx
          · left
            rw [hr] at hx'
            have hc : c = true := (Prod.mk.inj (Option.some.inj hx')).1
            rw [hc]; simp
          · exact Or.inr ⟨x, hx, hx'⟩

theorem forall2_mem_left {α : Type} (R : α → α → Prop) :
    ∀ (l l' : List α), List.Forall₂ R l l' → ∀ a, a ∈ l → ∃ b, b ∈ l' ∧ R a b := by
  intro l l' h
  induction h with
  | nil => intro a ha; exact absurd ha (List.not_mem_nil a)
  | cons hab _ ih =>
    intro x hx
    rcases List.mem_cons.mp hx with rfl | hx
    · exact ⟨_, List.mem_cons_self _ _, hab⟩
    · obtain ⟨b, hb, hR⟩ := ih x hx
      exact ⟨b, List.mem_cons_of_mem _ hb, hR⟩

theorem forall2_mem_right {α : Type} (R : α → α → Prop) :
    ∀ (l l' : List α), List.Forall₂ R l l' → ∀ b, b ∈ l' → ∃ a, a ∈ l ∧ R a b := by
  intro l l' h
  induction h with
  | nil => intro a ha; exact absurd ha (List.not_mem_nil a)
  | cons hab _ ih =>
    intro x hx
    rcases List.mem_cons.mp hx with rfl | hx
    · exact ⟨_, List.mem_cons_self _ _, hab⟩
    · obtain ⟨b, hb, hR⟩ := ih x hx
      exact ⟨b, List.mem_cons_of_mem _ hb, hR⟩

/-- C13: for every message state and every frame both calls of
`parseCANFrame` return, and the second call with the same frame leaves the
message exactly as the first call left it (no signal value and no modified
flag changes); but it returns false only when every signal whose value the
first call set encodes back (`getRawValue`) to the raw bits extracted from the
frame, and returns true, reporting a change where nothing changed, as soon as
one of them does not. -/
theorem parseCANFrame_twice (m : CANMessage) (frame : canfd_frame) :
    ∃ r1 m1, m.parseCANFrame frame = some (r1, m1) ∧
      ∃ r2, m1.parseCANFrame frame = some (r2, m1) ∧
        (r2 = false ↔ ∀ s, s ∈ m.m_signals → ∀ s1 v,
          CANMessage.parseSignal m.dlc frame.data s = some (true, s1) →
          unpackSignal m.dlc s frame.data = some v → s1.getRawValue = v) := by
  obtain ⟨r1, sigs', h1, h2, _⟩ := parseSignals_forall2 m.dlc frame.data m.m_signals false
  have hfix : ∀ s', s' ∈ sigs' → ∃ c, CANMessage.parseSignal m.dlc frame.data s' = some (c, s') := by
    intro s' hs'
    obtain ⟨s, _, c, hc⟩ := forall2_mem_right _ _ _ h2 s' hs'
    obtain ⟨v, c0, s0, _, hp, _, _, c2, hp2, _⟩ := parseSignal_again m.dlc frame.data s
    rw [hp] at hc
    have e : s0 = s' := (Prod.mk.inj (Option.some.inj hc)).2
    rw [← e]
    exact ⟨c2, hp2⟩
  obtain ⟨r2, g1, g2⟩ := parseSignals_fixed m.dlc frame.data sigs' false hfix
  refine ⟨r1, { m with m_signals := sigs' }, ?_, r2, ?_, ?_⟩
  · unfold CANMessage.parseCANFrame
    rw [h1]
  · unfold CANMessage.parseCANFrame
    simp only
    rw [g1]
  · constructor
    · intro hr2 s hs s1 v hp hu
      by_contra hne
      obtain ⟨v0, c0, s0, hu0, hp0, _, _, c2, hp2, hc2⟩ := parseSignal_again m.dlc frame.data s
      rw [hp] at hp0
      have e1 : s1 = s0 := (Prod.mk.inj (Option.some.inj hp0)).2
      have e2 : true = c0 := (Prod.mk.inj (Option.some.inj hp0)).1
      rw [hu] at hu0
      have e3 : v = v0 := Option.some.inj hu0
      subst e1 e2 e3
      have hc2t : c2 = true := hc2.2 ⟨rfl, hne⟩
      subst hc2t
      obtain ⟨b, hb, c, hc⟩ := forall2_mem_left _ _ _ h2 s hs
      rw [hp] at hc
      have e4 : s1 = b := (Prod.mk.inj (Option.some.inj hc)).2
      subst e4
      have : r2 = true := g2.2 (Or.inr ⟨s1, hb, hp2⟩)
      rw [hr2] at this
      exact absurd this (by simp)
    · intro hall
      by_contra hr2
      have hr2t : r2 = true := by simpa using hr2
      rcases g2.1 hr2t with h | ⟨s', hs', hp'⟩
      · exact absurd h (by simp)
      · obtain ⟨s, hs, c, hc⟩ := forall2_mem_right _ _ _ h2 s' hs'
        obtain ⟨v0, c0, s0, hu0, hp0, _, _, c2, hp2, hc2⟩ :=
          parseSignal_again m.dlc frame.data s
        rw [hp0] at hc
        have e1 : s0 = s' := (Prod.mk.inj (Option.some.inj hc)).2
        subst e1
        rw [hp'] at hp2
        have e2 : true = c2 := (Prod.mk.inj (Option.some.inj hp2)).1
        subst e2
        obtain ⟨hc0, hne⟩ := hc2.1 rfl
        subst hc0
        exact hne (hall s hs s0 v0 hp0 hu0)

set_option maxRecDepth 100000 in
/-- C13 at the failing input: the message made of an unsigned 8-bit signal
with factor `0.5` and value type `int`, given the frame with first byte `1`,
reports a change on the first call of `parseCANFrame` and again on the second
call with the same frame, which leaves the message as it was. -/
theorem parseCANFrame_twice_true :
    halfMessage.parseCANFrame (frameOfByte 1 1) = some (true, halfMessageParsed) ∧
    halfMessageParsed.parseCANFrame (frameOfByte 1 1) = some (true, halfMessageParsed) := by
  decide

/-! ## Modified flags after parsing -/

/-- C14 (amended): `parseCANFrame` returns for every message and frame; the
modified flag of every signal that it changed is true afterwards, and when it
returns true at least one signal has its modified flag true; the modified flag
of the message itself is left as it was. -/
theorem parseCANFrame_flags (m : CANMessage) (frame : canfd_frame) :
    ∃ r m1, m.parseCANFrame frame = some (r, m1) ∧ m1.m_modified = m.m_modified ∧
      List.Forall₂ (fun s s1 => s1 ≠ s → s1.m_modified = true) m.m_signals m1.m_signals ∧
      (r = true → ∃ s1, s1 ∈ m1.m_signals ∧ s1.m_modified = true) := by
  obtain ⟨r1, sigs', h1, h2, h3⟩ := parseSignals_forall2 m.dlc frame.data m.m_signals false
  refine ⟨r1, { m with m_signals := sigs' }, ?_, rfl, ?_, ?_⟩
  · unfold CANMessage.parseCANFrame
    rw [h1]
  · refine List.Forall₂.imp ?_ h2
    rintro s s' ⟨c, hc⟩
    obtain ⟨v0, c0, s0, _, hp0, hmod, _⟩ := parseSignal_again m.dlc frame.data s
    rw [hp0] at hc
    have e1 : s0 = s' := (Prod.mk.inj (Option.some.inj hc)).2
    subst e1
    exact hmod
  · intro hr
    rcases h3.1 hr with h | ⟨s, hs, s', hp⟩
    · exact absurd h (by simp)
    · obtain ⟨b, hb, c, hc⟩ := forall2_mem_left _ _ _ h2 s hs
      obtain ⟨v0, c0, s0, _, hp0, _, hmod, _⟩ := parseSignal_again m.dlc frame.data s
      rw [hp0] at hc hp
      have e1 : s0 = b := (Prod.mk.inj (Option.some.inj hc)).2
      have e2 : c0 = true := (Prod.mk.inj (Option.some.inj hp)).1
      subst e1
      exact ⟨s0, hb, hmod e2⟩

set_option maxRecDepth 100000 in
/-- C14 as stated fails: parsing a frame with first byte `5` into the message
of one 3-bit signal returns true and raises the modified flag of the signal,
and the modified flag of the message is false afterwards. -/
theorem parseCANFrame_message_flag :
    (intel3Message.parseCANFrame (frameOfByte 1 5)).map
        (fun r => (r.1, r.2.m_modified, r.2.m_signals.map (fun s => s.m_modified)))
      = some (true, false, [true]) := by
  decide

/-! ## One send attempt -/

/-- The packing loop ends for every field length. -/
theorem packLoop_total (value so : ℕ) (si : ℤ) :
    ∀ (fuel dataLeft offset : ℕ) (index : ℤ) (data : ℕ → ℕ), dataLeft ≤ fuel → offset < 8 →
      ∃ d, packLoop value so si fuel dataLeft offset index data = some d := by
  intro fuel
  induction fuel with
  | zero =>
    intro dataLeft offset index data h _
    have h0 : dataLeft = 0 := by omega
    subst h0
    exact ⟨data, by simp [packLoop]⟩
  | succ n ih =>
    intro dataLeft offset index data h ho
    by_cases h0 : dataLeft = 0
    · subst h0
      exact ⟨data, by simp [packLoop]⟩
    · unfold packLoop
      rw [if_neg h0]
      apply ih
      · split <;> omega
      · omega

theorem packSignals_total (dlc : ℕ) :
    ∀ (sigs : List CANSignal) (data : ℕ → ℕ), ∃ d, packSignals dlc sigs data = some d := by
  intro sigs
  induction sigs with
  | nil => intro data; exact ⟨data, rfl⟩
  | cons s rest ih =>
    intro data
    have h1 : ∃ d1, packSignal dlc s s.getRawValue data = some d1 := by
      unfold packSignal
      apply packLoop_total
      · exact le_refl _
      · unfold codecStartOffset
        omega
    obtain ⟨d1, h1⟩ := h1
    obtain ⟨d, h2⟩ := ih d1
    exact ⟨d, by simp only [packSignals, h1, h2]⟩

/-- `assembleCANFrame` returns a frame for every message. -/
theorem assembleCANFrame_total (m : CANMessage) : ∃ frame, m.assembleCANFrame = some frame := by
  obtain ⟨d, h⟩ := packSignals_total m.dlc m.m_signals canfd_frame.zero.data
  unfold CANMessage.assembleCANFrame
  rw [h]
  exact ⟨_, rfl⟩

/-- C15: one call of `CANTransceiver::sendCANMessage` on a send-direction
message whose counters are below their 64-bit limit.  When the transport
write succeeds it returns true, only the successful counter grows (by one),
the modified flag of the message and of every signal is false afterwards and
no signal value changes; when the write fails it returns false and the message
is as before except that the failed counter has grown by one. -/
theorem sendCANMessage_effect (sendCANFrame : canfd_frame → Bool) (message : CANMessage)
    (hdir : message.m_direction = MessageDirection.SEND)
    (hs : message.m_transferSuccessful + 1 < 2 ^ 64)
    (hf : message.m_transferFailed + 1 < 2 ^ 64) :
    ∃ frame, message.assembleCANFrame = some frame ∧
      (sendCANFrame frame = true →
        ∃ m1, CANTransceiver.sendCANMessage sendCANFrame message = some (true, m1) ∧
          m1 = { message with
                 m_transferSuccessful := message.m_transferSuccessful + 1,
                 m_modified := false,
                 m_signals := message.m_signals.map (fun s => { s with m_modified := false }) } ∧
          m1.m_transferSuccessful = message.m_transferSuccessful + 1 ∧
          m1.m_transferFailed = message.m_transferFailed ∧
          m1.m_transferFalseDirection = message.m_transferFalseDirection ∧
          m1.m_modified = false ∧
          (∀ s, s ∈ m1.m_signals → s.m_modified = false) ∧
          m1.m_signals.map (fun s => s.m_value) = message.m_signals.map (fun s => s.m_value)) ∧
      (sendCANFrame frame = false →
        CANTransceiver.sendCANMessage sendCANFrame message =
          some (false, { message with
                         m_transferFailed := message.m_transferFailed + 1 })) := by
  obtain ⟨frame, hframe⟩ := assembleCANFrame_total message
  refine ⟨frame, hframe, ?_, ?_⟩
  · intro hok
    refine ⟨_, ?_, rfl, rfl, rfl, rfl, rfl, ?_, ?_⟩
    · unfold CANTransceiver.sendCANMessage
      rw [hframe]
      simp only [hok, Bool.not_true, Bool.false_eq_true, if_false]
      unfold CANMessage.updateTransfer CANMessage.setModified
      simp only [hdir, ne_eq, not_true_eq_false, if_false, if_true, Bool.not_false,
        Nat.mod_eq_of_lt hs]
    · intro s hs'
      simp only [List.mem_map] at hs'
      obtain ⟨a, _, rfl⟩ := hs'
      rfl
    · simp only [List.map_map]
      rfl
  · intro hfail
    unfold CANTransceiver.sendCANMessage
    rw [hframe]
    simp only [hfail, Bool.not_false, if_true]
    unfold CANMessage.updateTransfer
    simp only [hdir, ne_eq, not_true_eq_false, if_false, Bool.false_eq_true,
      Nat.mod_eq_of_lt hf]

set_option maxRecDepth 100000 in
/-- C15 at a concrete message: a successful send of the one-signal message
after its signal was set to `5` counts one successful transfer and clears
both modified flags. -/
theorem sendCANMessage_effect_witness :
    CANTransceiver.sendCANMessage (fun _ => true) (intel3Message.setValue "SIG" (Value.Integer 5)).2
      = some (true, { intel3Message with
          m_transferSuccessful := 1,
          m_signals := [{ intel3 with m_isValueSet := true, m_value := Value.Integer 5 }] }) ∧
    CANTransceiver.sendCANMessage (fun _ => false)
        (intel3Message.setValue "SIG" (Value.Integer 5)).2
      = some (false, { (intel3Message.setValue "SIG" (Value.Integer 5)).2 with
          m_transferFailed := 1 }) := by
  obtain ⟨frame, _, h1, _⟩ := sendCANMessage_effect (fun _ => true)
    (intel3Message.setValue "SIG" (Value.Integer 5)).2 (by decide) (by decide) (by decide)
  obtain ⟨m1, h2, h3, _⟩ := h1 rfl
  refine ⟨?_, by decide⟩
  rw [h2, h3]
  decide

/-! ## Sending all modified messages -/

theorem find_storeMessage_ne (a id : ℕ) (m1 : CANMessage) (h1 : m1.id = a) (hne : a ≠ id) :
    ∀ (l : List CANMessage),
      (storeMessage a m1 l).find? (fun x => x.id = id) = l.find? (fun x => x.id = id) := by
  intro l
  induction l with
  | nil => rfl
  | cons b rest ih =>
    by_cases hb : b.id = a
    · simp only [storeMessage, hb, if_true]
      have e1 : ¬ m1.id = id := by rw [h1]; exact hne
      have e2 : ¬ b.id = id := by rw [hb]; exact hne
      rw [List.find?_cons_of_neg _ (by simpa using e1),
        List.find?_cons_of_neg _ (by simpa using e2)]
    · simp only [storeMessage, hb, if_false]
      by_cases hb2 : b.id = id
      · rw [List.find?_cons_of_pos _ (by simpa using hb2),
          List.find?_cons_of_pos _ (by simpa using hb2)]
      · rw [List.find?_cons_of_neg _ (by simpa using hb2),
          List.find?_cons_of_neg _ (by simpa using hb2)]
        exact ih

theorem updateTransfer_id (m : CANMessage) (ok : Bool) (dir : MessageDirection) :
    (m.updateTransfer ok dir).id = m.id := by
  unfold CANMessage.updateTransfer
  split
  · rfl
  · split <;> rfl

theorem setModified_id (m : CANMessage) (b : Bool) : (m.setModified b).id = m.id := by
  unfold CANMessage.setModified
  simp only
  split <;> rfl

/-- One call of `sendCANMessage(id, forceSend)` of the core returns, and leaves
the messages stored under other identifiers as they are. -/
theorem core_sendCANMessage_total (sendCANFrame : canfd_frame → Bool) (core : CANSimulatorCore)
    (a : ℕ) (forceSend : Bool) :
    ∃ sent core1, CANSimulatorCore.sendCANMessage sendCANFrame core a forceSend
        = some (sent, core1) ∧
      ∀ id, a ≠ id → core1.m_config.getMessage id = core.m_config.getMessage id := by
  unfold CANSimulatorCore.sendCANMessage
  cases hmsg : core.m_config.getMessage a with
  | none => exact ⟨false, core, rfl, fun _ _ => rfl⟩
  | some message =>
    simp only
    have hid : message.id = a := by
      unfold Configuration.getMessage at hmsg
      simpa using List.find?_some hmsg
    by_cases hf : (!core.isMessageFiltered message.id) = true
    · rw [if_pos hf]
      by_cases hm : (forceSend || message.isModified) = true
      · rw [if_pos hm]
        obtain ⟨frame, hframe⟩ := assembleCANFrame_total message
        have hsend : ∃ sent m1, CANTransceiver.sendCANMessage sendCANFrame message
            = some (sent, m1) ∧ m1.id = a := by
          unfold CANTransceiver.sendCANMessage
          rw [hframe]
          simp only
          split
          · exact ⟨false, _, rfl, (updateTransfer_id _ _ _).trans hid⟩
          · exact ⟨true, _, rfl,
              (setModified_id _ _).trans ((updateTransfer_id _ _ _).trans hid)⟩
        obtain ⟨sent, m1, hs, hm1⟩ := hsend
        rw [hs]
        refine ⟨sent, core.withMessage a m1, rfl, ?_⟩
        intro id hne
        unfold CANSimulatorCore.withMessage Configuration.getMessage
        simp only
        exact find_storeMessage_ne a id m1 hm1 hne _
      · rw [if_neg hm]
        exact ⟨false, core, rfl, fun _ _ => rfl⟩
    · rw [if_neg hf]
      exact ⟨false, core, rfl, fun _ _ => rfl⟩

/-- Once the flag of the loop of `sendCANMessages` is false it stays false. -/
theorem sendLoop_false (sendCANFrame : canfd_frame → Bool) (sendAll : Bool) :
    ∀ (ids : List ℕ) (core : CANSimulatorCore),
      ∃ core1, CANSimulatorCore.sendLoop sendCANFrame sendAll ids core false
        = some (false, core1) := by
  intro ids
  induction ids with
  | nil => intro core; exact ⟨core, rfl⟩
  | cons a rest ih =>
    intro core
    obtain ⟨sent, core1, h1, _⟩ := core_sendCANMessage_total sendCANFrame core a sendAll
    obtain ⟨core2, h2⟩ := ih core1
    refine ⟨core2, ?_⟩
    unfold CANSimulatorCore.sendLoop
    rw [h1]
    simp only [ite_self]
    exact h2

theorem sendLoop_unmodified (sendCANFrame : canfd_frame → Bool) (id : ℕ) (m : CANMessage)
    (hm : m.m_modified = false) :
    ∀ (ids : List ℕ) (core : CANSimulatorCore) (ret : Bool), id ∈ ids →
      core.m_config.getMessage id = some m →
      ∃ core1, CANSimulatorCore.sendLoop sendCANFrame false ids core ret
        = some (false, core1) := by
  intro ids
  induction ids with
  | nil => intro core ret h; exact absurd h (List.not_mem_nil id)
  | cons a rest ih =>
    intro core ret hmem hget
    by_cases ha : a = id
    · subst ha
      have h1 : CANSimulatorCore.sendCANMessage sendCANFrame core a false
          = some (false, core) := by
        unfold CANSimulatorCore.sendCANMessage
        rw [hget]
        simp only [CANMessage.isModified, hm, Bool.or_self, Bool.false_eq_true, if_false,
          ite_self]
      obtain ⟨core2, h2⟩ := sendLoop_false sendCANFrame false rest core
      refine ⟨core2, ?_⟩
      unfold CANSimulatorCore.sendLoop
      rw [h1]
      simp only [Bool.not_false, if_true]
      exact h2
    · obtain ⟨sent, core1, h1, hkeep⟩ := core_sendCANMessage_total sendCANFrame core a false
      have hmem' : id ∈ rest := by
        rcases List.mem_cons.mp hmem with h | h
        · exact absurd h.symm ha
        · exact h
      obtain ⟨core2, h2⟩ := ih core1 (if (!sent) = true then false else ret) hmem'
        ((hkeep id ha).trans hget)
      refine ⟨core2, ?_⟩
      unfold CANSimulatorCore.sendLoop
      rw [h1]
      exact h2

/-- C16 fails in the code: `sendCANMessages(false)` returns false as soon as
one send identifier names a message that is not modified, whatever happens to
the other messages and although no send of that message is attempted. -/
theorem sendCANMessages_false_of_unmodified (sendCANFrame : canfd_frame → Bool)
    (core : CANSimulatorCore) (id : ℕ) (m : CANMessage)
    (hid : id ∈ core.m_config.m_sendIDs) (hget : core.m_config.getMessage id = some m)
    (hm : m.m_modified = false) :
    ∃ core1, CANSimulatorCore.sendCANMessages sendCANFrame core false = some (false, core1) := by
  unfold CANSimulatorCore.sendCANMessages
  exact sendLoop_unmodified sendCANFrame id m hm _ core true hid hget

set_option maxRecDepth 100000 in
/-- C16 at a concrete core: with two send-direction messages of which only
the first is modified, and a transport on which every write succeeds,
`sendCANMessages(false)` sends the first message (one successful transfer, no
failed one on either message) and returns false. -/
theorem sendCANMessages_unmodified :
    twoSendCore.m_config.m_sendIDs = [1, 2] ∧
    twoSendCore.m_config.m_messages.map (fun m => m.m_modified) = [true, false] ∧
    (∃ core1, CANSimulatorCore.sendCANMessages (fun _ => true) twoSendCore false
      = some (false, core1)) ∧
    (CANSimulatorCore.sendCANMessages (fun _ => true) twoSendCore false).map
        (fun r => (r.1, r.2.m_config.m_messages.map
          (fun m => (m.m_transferSuccessful, m.m_transferFailed, m.m_modified))))
      = some (false, [(1, 0, false), (0, 0, false)]) :=
  ⟨by decide, by decide,
    sendCANMessages_false_of_unmodified (fun _ => true) twoSendCore 2 motorola8Message
      (by decide) (by decide) (by decide),
    by decide⟩

/-! ## Receiving a frame -/

theorem find_storeMessage (msgId : ℕ) (m1 : CANMessage) (h1 : m1.id = msgId) :
    ∀ (l : List CANMessage) (m : CANMessage), l.find? (fun x => x.id = msgId) = some m →
      (storeMessage msgId m1 l).find? (fun x => x.id = msgId) = some m1 := by
  intro l
  induction l with
  | nil => intro m h; exact Option.noConfusion h
  | cons a rest ih =>
    intro m h
    by_cases ha : a.id = msgId
    · simp only [storeMessage, ha, if_true]
      rw [List.find?_cons_of_pos _ (by simpa using h1)]
    · rw [List.find?_cons_of_neg _ (by simpa using ha)] at h
      simp only [storeMessage, ha, if_false]
      rw [List.find?_cons_of_neg _ (by simpa using ha)]
      exact ih m h

/-- C17 (amended): a frame that is no error frame and not filtered, whose
identifier is in the send set only and names a send-direction message, makes
`readCANMessage` return 0 without parsing anything; the transfer is counted
as one of false direction: the false-direction counter of the message grows
by one (below its 64-bit limit), its successful and failed counters, its
signals and flags, and the error metrics stay as they are. -/
theorem readCANMessage_echo (core : CANSimulatorCore) (frame : canfd_frame)
    (message : CANMessage)
    (herr : frame.can_id &&& CAN_ERR_FLAG ≠ CAN_ERR_FLAG)
    (hfilt : core.isMessageFiltered frame.can_id = false)
    (hrecv : frame.can_id ∉ core.m_config.m_receiveIDs)
    (hsend : frame.can_id ∈ core.m_config.m_sendIDs)
    (hmsg : core.m_config.getMessage frame.can_id = some message)
    (hdir : message.m_direction = MessageDirection.SEND)
    (hcount : message.m_transferFalseDirection + 1 < 2 ^ 64) :
    ∃ core1, core.readCANMessage (some frame) = some (0, core1) ∧
      core1 = core.withMessage frame.can_id
        { message with m_transferFalseDirection := message.m_transferFalseDirection + 1 } ∧
      core1.m_config.getMessage frame.can_id =
        some { message with m_transferFalseDirection := message.m_transferFalseDirection + 1 } ∧
      core1.m_errorMetrics = core.m_errorMetrics := by
  have hr : core.m_config.m_receiveIDs.contains frame.can_id = false := by simpa using hrecv
  have hs : core.m_config.m_sendIDs.contains frame.can_id = true := by simpa using hsend
  have hid : message.id = frame.can_id := by
    unfold Configuration.getMessage at hmsg
    simpa using List.find?_some hmsg
  refine ⟨_, ?_, rfl, ?_, rfl⟩
  · unfold CANSimulatorCore.readCANMessage
    simp only [herr, if_false, hfilt, Bool.not_false, if_true, hr, Bool.false_eq_true, hs, hmsg]
    unfold CANMessage.updateTransfer
    simp only [hdir, ne_eq, reduceCtorEq, not_false_eq_true, if_true, Nat.mod_eq_of_lt hcount]
  · unfold CANSimulatorCore.withMessage Configuration.getMessage
    simp only
    unfold Configuration.getMessage at hmsg
    exact find_storeMessage frame.can_id
      { message with m_transferFalseDirection := message.m_transferFalseDirection + 1 } hid
      core.m_config.m_messages message hmsg

set_option maxRecDepth 100000 in
/-- C17 at a concrete core: the echo of message 1 is answered with 0 and
counted on the false-direction counter. -/
theorem readCANMessage_echo_witness :
    ∃ core1, exampleCore.readCANMessage (some (frameOfByte 1 5)) = some (0, core1) ∧
      core1 = exampleCore.withMessage 1 { intel3Message with m_transferFalseDirection := 1 } ∧
      core1.m_config.getMessage 1 = some { intel3Message with m_transferFalseDirection := 1 } ∧
      core1.m_errorMetrics = exampleCore.m_errorMetrics :=
  readCANMessage_echo exampleCore (frameOfByte 1 5) intel3Message (by decide) (by decide)
    (by decide) (by decide) (by decide) (by decide) (by decide)

set_option maxRecDepth 100000 in
/-- C17 as stated fails: after the echo of message 1 the successful counter of
the message is still 0 and its false-direction counter is 1. -/
theorem readCANMessage_echo_not_successful :
    (exampleCore.readCANMessage (some (frameOfByte 1 5))).map
        (fun r => (r.1, (r.2.m_config.getMessage 1).map
          (fun m => (m.m_direction, m.m_transferSuccessful, m.m_transferFailed,
            m.m_transferFalseDirection))))
      = some (0, some (MessageDirection.SEND, 0, 0, 1)) := by
  decide

/-- `parseCANFrame` returns for every message and frame. -/
theorem parseCANFrame_total (m : CANMessage) (frame : canfd_frame) :
    ∃ r m1, m.parseCANFrame frame = some (r, m1) := by
  obtain ⟨r, sigs, h, _⟩ := parseSignals_forall2 m.dlc frame.data m.m_signals false
  refine ⟨r, { m with m_signals := sigs }, ?_⟩
  unfold CANMessage.parseCANFrame
  rw [h]

/-- C18 (amended): `readCANMessage` on a received frame, in a core whose
messages all have their identifier in one of the two direction sets.  An error
frame changes only the error counters and gives 0.  A frame that is no error
frame counts as unknown (unknown counters grow, nothing else changes, result
0) exactly when its identifier is filtered or is not the identifier of a
configured message; for a frame of a configured message that is not filtered
the unknown and error counters stay as they are, and the result is 0 unless
the identifier is a receive identifier and parsing reported a change. -/
theorem readCANMessage_counters (core : CANSimulatorCore) (frame : canfd_frame)
    (hinv : ∀ m, m ∈ core.m_config.m_messages →
      m.id ∈ core.m_config.m_receiveIDs ∨ m.id ∈ core.m_config.m_sendIDs) :
    ∃ id core1, core.readCANMessage (some frame) = some (id, core1) ∧
      (frame.can_id &&& CAN_ERR_FLAG = CAN_ERR_FLAG →
        id = 0 ∧ core1 = { core with m_errorMetrics :=
          { core.m_errorMetrics with
            errorMessages := (core.m_errorMetrics.errorMessages + 1) % 2 ^ 64,
            errorSize :=
              (core.m_errorMetrics.errorSize + CANSimulatorCore.frameBits frame) % 2 ^ 64 } }) ∧
      (frame.can_id &&& CAN_ERR_FLAG ≠ CAN_ERR_FLAG →
        ((core.isMessageFiltered frame.can_id = true ∨
            core.m_config.getMessage frame.can_id = none) →
          id = 0 ∧ core1 = { core with m_errorMetrics :=
            { core.m_errorMetrics with
              unknownMessages := (core.m_errorMetrics.unknownMessages + 1) % 2 ^ 64,
              unknownSize :=
                (core.m_errorMetrics.unknownSize + CANSimulatorCore.frameBits frame)
                  % 2 ^ 64 } }) ∧
        (core.isMessageFiltered frame.can_id = false →
          ∀ message, core.m_config.getMessage frame.can_id = some message →
            core1.m_errorMetrics = core.m_errorMetrics ∧
            (id ≠ 0 → id = frame.can_id ∧ frame.can_id ∈ core.m_config.m_receiveIDs ∧
              ∃ m1, (message.updateTransfer true MessageDirection.RECEIVE).parseCANFrame frame
                = some (true, m1)))) := by
  by_cases herr : frame.can_id &&& CAN_ERR_FLAG = CAN_ERR_FLAG
  · refine ⟨0, _, ?_, fun _ => ⟨rfl, rfl⟩, fun h => absurd herr h⟩
    unfold CANSimulatorCore.readCANMessage
    simp only [herr, if_true]
  · by_cases hfilt : core.isMessageFiltered frame.can_id = true
    · refine ⟨0, core.countUnknown frame, ?_, fun h => absurd h herr, fun _ => ⟨?_, ?_⟩⟩
      · unfold CANSimulatorCore.readCANMessage
        simp only [herr, if_false, hfilt, Bool.not_true, Bool.false_eq_true]
      · intro _; exact ⟨rfl, rfl⟩
      · intro h; rw [hfilt] at h; exact absurd h (by simp)
    · have hfilt' : core.isMessageFiltered frame.can_id = false := by simpa using hfilt
      cases hmsg : core.m_config.getMessage frame.can_id with
      | none =>
        refine ⟨0, core.countUnknown frame, ?_, fun h => absurd h herr, fun _ => ⟨?_, ?_⟩⟩
        · unfold CANSimulatorCore.readCANMessage
          simp only [herr, if_false, hfilt', Bool.not_false, if_true, hmsg]
          split
          · rfl
          · split <;> rfl
        · intro _; exact ⟨rfl, rfl⟩
        · intro _ message h; exact Option.noConfusion h
      | some message =>
        have hmem : message ∈ core.m_config.m_messages := by
          unfold Configuration.getMessage at hmsg
          exact List.mem_of_find?_eq_some hmsg
        have hid : message.id = frame.can_id := by
          unfold Configuration.getMessage at hmsg
          simpa using List.find?_some hmsg
        have hdirs := hinv message hmem
        rw [hid] at hdirs
        by_cases hrecv : frame.can_id ∈ core.m_config.m_receiveIDs
        · have hr : core.m_config.m_receiveIDs.contains frame.can_id = true := by
            simpa using hrecv
          obtain ⟨changed, m1, hparse⟩ := parseCANFrame_total
            (message.updateTransfer true MessageDirection.RECEIVE) frame
          refine ⟨if changed then frame.can_id else 0, core.withMessage frame.can_id m1, ?_,
            fun h => absurd h herr, fun _ => ⟨?_, ?_⟩⟩
          · unfold CANSimulatorCore.readCANMessage
            simp only [herr, if_false, hfilt', Bool.not_false, if_true, hr, hmsg, hparse]
          · rintro (h | h)
            · rw [hfilt'] at h; exact absurd h (by simp)
            · exact Option.noConfusion h
          · intro _ message' h
            cases h
            refine ⟨rfl, ?_⟩
            intro hne
            cases changed with
            | false => exact absurd rfl hne
            | true => exact ⟨rfl, hrecv, m1, hparse⟩
        · have hr : core.m_config.m_receiveIDs.contains frame.can_id = false := by
            simpa using hrecv
          have hsend : frame.can_id ∈ core.m_config.m_sendIDs := by
            rcases hdirs with h | h
            · exact absurd h hrecv
            · exact h
          have hs : core.m_config.m_sendIDs.contains frame.can_id = true := by
            simpa using hsend
          refine ⟨0, core.withMessage frame.can_id
            (message.updateTransfer true MessageDirection.RECEIVE), ?_,
            fun h => absurd h herr, fun _ => ⟨?_, ?_⟩⟩
          · unfold CANSimulatorCore.readCANMessage
            simp only [herr, if_false, hfilt', Bool.not_false, if_true, hr, Bool.false_eq_true,
              hs, hmsg]
          · rintro (h | h)
            · rw [hfilt'] at h; exact absurd h (by simp)
            · exact Option.noConfusion h
          · intro _ message' _
            exact ⟨rfl, fun hne => absurd rfl hne⟩

set_option maxRecDepth 100000 in
/-- C18 at a concrete core: a frame with identifier 3, which no message has,
is counted as unknown. -/
theorem readCANMessage_counters_witness :
    exampleCore.readCANMessage (some (frameOfByte 3 5)) =
      some (0, { exampleCore with m_errorMetrics :=
        { errorMessages := 0, unknownMessages := 1, errorSize := 0, unknownSize := 45 } }) := by
  obtain ⟨id, core1, h1, _, h3⟩ := readCANMessage_counters exampleCore (frameOfByte 3 5)
    (by decide)
  obtain ⟨h4, h5⟩ := (h3 (by decide)).1 (Or.inr (by decide))
  rw [h1, h4, h5]
  decide

set_option maxRecDepth 100000 in
/-- C18 as stated fails: message 2 is configured, and a frame with its
identifier is counted as an unknown message when the identifier is filtered. -/
theorem readCANMessage_filtered_unknown :
    (filteredCore.m_config.getMessage 2).isSome = true ∧
    (filteredCore.readCANMessage (some (frameOfByte 2 5))).map
        (fun r => (r.1, r.2.m_errorMetrics.unknownMessages, r.2.m_errorMetrics.errorMessages))
      = some (0, 1, 0) := by
  decide

/-! ## Scheduling -/

/-- Signals without a signal-level send type never make a message due. -/
theorem scheduledBySignals_none (sendTime now : ℤ) :
    ∀ (sigs : List CANSignal), (∀ s, s ∈ sigs → s.getAttribute "GenSigSendType" = none) →
      CANMessage.scheduledBySignals sendTime now sigs = (false, false) := by
  intro sigs
  induction sigs with
  | nil => intro _; rfl
  | cons s rest ih =>
    intro h
    unfold CANMessage.scheduledBySignals
    rw [h s (List.mem_cons_self _ _)]
    exact ih (fun x hx => h x (List.mem_cons_of_mem _ hx))

/-- The answer and effect of `isSendScheduled` for a cyclic message without
signal-level send types. -/
theorem isSendScheduled_cyclic (stoi : String → Option ℤ) (m : CANMessage) (cycle : String)
    (c : ℤ) (htype : m.getAttribute "GenMsgSendType" = some "Cyclic")
    (hcycle : m.getAttribute "GenMsgCycleTime" = some cycle) (hstoi : stoi cycle = some c)
    (hc : 0 < c) (hsig : ∀ s, s ∈ m.m_signals → s.getAttribute "GenSigSendType" = none)
    (now : ℤ) :
    m.isSendScheduled stoi now =
      if now ≥ m.m_sendTime then (true, { m with m_sendTime := now + c * millisecondTicks })
      else (false, m) := by
  have hbm : CANMessage.scheduledByMessage m c now =
      if now ≥ m.m_sendTime then (true, true) else (false, false) := by
    unfold CANMessage.scheduledByMessage
    rw [htype]
    simp only
    by_cases hn : now ≥ m.m_sendTime
    · rw [if_pos ⟨trivial, hc, hn⟩, if_pos hn]
    · rw [if_neg (fun h => hn h.2.2), if_neg (by decide), if_neg hn]
  unfold CANMessage.isSendScheduled
  simp only [hcycle, hstoi, hbm]
  by_cases hn : now ≥ m.m_sendTime
  · simp only [if_pos hn, Bool.not_true, Bool.false_eq_true, if_false, if_true]
  · simp only [if_neg hn, Bool.not_false, if_true, scheduledBySignals_none _ _ _ hsig,
      Bool.false_eq_true, if_false]

/-- C19: for a message whose message-level send type is `Cyclic` with a cycle
time `c > 0` (milliseconds) and whose signals carry no signal-level send type,
`isSendScheduled(now)` returns true exactly when `now` has reached the next
scheduled time; when it returned true at time `t` the next scheduled time is
`t + c`, and every later sequence of calls at times before `t + c`, however
long, is answered false throughout and leaves the message as it is. -/
theorem cyclic_schedule (stoi : String → Option ℤ) (m : CANMessage) (cycle : String) (c : ℤ)
    (htype : m.getAttribute "GenMsgSendType" = some "Cyclic")
    (hcycle : m.getAttribute "GenMsgCycleTime" = some cycle) (hstoi : stoi cycle = some c)
    (hc : 0 < c) (hsig : ∀ s, s ∈ m.m_signals → s.getAttribute "GenSigSendType" = none) :
    (∀ now, (m.isSendScheduled stoi now).1 = true ↔ now ≥ m.m_sendTime) ∧
    (∀ t, (m.isSendScheduled stoi t).1 = true →
      (m.isSendScheduled stoi t).2 = { m with m_sendTime := t + c * millisecondTicks } ∧
      ∀ times : List ℤ, (∀ x, x ∈ times → x < t + c * millisecondTicks) →
        pollSchedule stoi (m.isSendScheduled stoi t).2 times =
          (times.map (fun _ => false), (m.isSendScheduled stoi t).2)) := by
  have hsched := isSendScheduled_cyclic stoi m cycle c htype hcycle hstoi hc hsig
  constructor
  · intro now
    rw [hsched now]
    by_cases hn : now ≥ m.m_sendTime
    · rw [if_pos hn]; simp [hn]
    · rw [if_neg hn]; simp [hn]
  · intro t ht
    have hn : t ≥ m.m_sendTime := by
      by_contra hn
      rw [hsched t, if_neg hn] at ht
      exact absurd ht (by simp)
    have e : m.isSendScheduled stoi t = (true, { m with m_sendTime := t + c * millisecondTicks }) := by
      rw [hsched t, if_pos hn]
    rw [e]
    refine ⟨rfl, ?_⟩
    intro times
    induction times with
    | nil => intro _; rfl
    | cons x rest ih =>
      intro hx
      have hx1 := hx x (List.mem_cons_self _ _)
      have h1 := isSendScheduled_cyclic stoi { m with m_sendTime := t + c * millisecondTicks }
        cycle c htype hcycle hstoi hc hsig x
      have hlt : ¬ (x ≥ t + c * millisecondTicks) := by omega
      rw [if_neg hlt] at h1
      simp only [pollSchedule, h1, List.map_cons]
      rw [ih (fun y hy => hx y (List.mem_cons_of_mem _ hy))]

set_option maxRecDepth 100000 in
/-- C19 at a concrete message with a cycle of 100 ms: due at time 0, then not
due at any of three polls inside the window, and due again at its end. -/
theorem cyclic_schedule_witness :
    (cyclicMessage.isSendScheduled stoiExample 0).1 = true ∧
    pollSchedule stoiExample (cyclicMessage.isSendScheduled stoiExample 0).2
        [0, 50000000, 99999999] =
      ([false, false, false], (cyclicMessage.isSendScheduled stoiExample 0).2) ∧
    ((cyclicMessage.isSendScheduled stoiExample 0).2.isSendScheduled stoiExample 100000000).1
      = true := by
  have h := cyclic_schedule stoiExample cyclicMessage "100" 100 (by decide) (by decide)
    (by decide) (by decide) (by decide)
  have h0 : (cyclicMessage.isSendScheduled stoiExample 0).1 = true := (h.1 0).2 (by decide)
  refine ⟨h0, ?_, by decide⟩
  exact (h.2 0 h0).2 [0, 50000000, 99999999] (by decide)

/-! ## Messages sent on change -/

/-- `isSendScheduled` for a message sent on change only: the answer is the
modified flag, and the message, its next scheduled time included, is left as
it is. -/
theorem isSendScheduled_onChange (stoi : String → Option ℤ) (m : CANMessage)
    (h : OnChangeOnly stoi m) (now : ℤ) : m.isSendScheduled stoi now = (m.m_modified, m) := by
  obtain ⟨htype, hcycle, hsig⟩ := h
  have hbm : ∀ c, CANMessage.scheduledByMessage m c now =
      if m.m_modified = true then (false, true) else (false, false) := by
    intro c
    unfold CANMessage.scheduledByMessage CANMessage.isModified
    rcases htype with ht | ht
    · rw [ht]
      simp only
      rw [if_neg (fun h => absurd h.1 (by decide)), if_pos (Or.inl trivial)]
    · rw [ht]
      simp only
      rw [if_neg (fun h => absurd h.1 (by decide)), if_pos (Or.inr trivial)]
  have hfin : ∀ c, (let byMessage := CANMessage.scheduledByMessage m c now
      let flags := if (!byMessage.2) = true then
          CANMessage.scheduledBySignals m.m_sendTime now m.m_signals
        else byMessage
      (flags.2, if flags.1 = true then { m with m_sendTime := now + c * millisecondTicks }
        else m)) = (m.m_modified, m) := by
    intro c
    simp only [hbm c, scheduledBySignals_none _ _ _ hsig]
    cases m.m_modified <;> simp
  unfold CANMessage.isSendScheduled
  cases hattr : m.getAttribute "GenMsgCycleTime" with
  | none => exact hfin 0
  | some value =>
    simp only
    have hsome := hcycle value hattr
    cases hst : stoi value with
    | none => rw [hst] at hsome; exact absurd hsome (by simp)
    | some c => exact hfin c

theorem mem_storeSignal (name : String) (s1 : CANSignal) :
    ∀ (l : List CANSignal) (x : CANSignal), x ∈ storeSignal name s1 l → x = s1 ∨ x ∈ l := by
  intro l
  induction l with
  | nil => intro x hx; exact absurd hx (List.not_mem_nil x)
  | cons a rest ih =>
    intro x hx
    unfold storeSignal at hx
    split at hx
    · rcases List.mem_cons.mp hx with h | h
      · exact Or.inl h
      · exact Or.inr (List.mem_cons_of_mem _ h)
    · rcases List.mem_cons.mp hx with h | h
      · exact Or.inr (h ▸ List.mem_cons_self _ _)
      · rcases ih x h with h | h
        · exact Or.inl h
        · exact Or.inr (List.mem_cons_of_mem _ h)

/-- Setting a value keeps the attributes of the message and of its signals. -/
theorem OnChangeOnly_setValue (stoi : String → Option ℤ) (m : CANMessage)
    (h : OnChangeOnly stoi m) (key : String) (value : Value) :
    OnChangeOnly stoi (m.setValue key value).2 := by
  obtain ⟨htype, hcycle, hsig⟩ := h
  unfold CANMessage.setValue
  cases hg : m.getSignalPrivate key with
  | none => exact ⟨htype, hcycle, hsig⟩
  | some signal =>
    have hmem : signal ∈ m.m_signals := by
      unfold CANMessage.getSignalPrivate at hg
      exact List.mem_of_find?_eq_some hg
    have hattr : (signal.setValue value).2.getAttribute "GenSigSendType" = none := by
      rw [← hsig signal hmem]
      unfold CANSignal.setValue CANSignal.getAttribute
      split <;> rfl
    have hsig' : ∀ s, s ∈ storeSignal key (signal.setValue value).2 m.m_signals →
        s.getAttribute "GenSigSendType" = none := by
      intro s hs
      rcases mem_storeSignal _ _ _ s hs with h | h
      · rw [h]; exact hattr
      · exact hsig s h
    simp only
    split
    · exact ⟨htype, hcycle, hsig'⟩
    · exact ⟨htype, hcycle, hsig'⟩

theorem OnChangeOnly_setValueString (stoi : String → Option ℤ) (m : CANMessage)
    (h : OnChangeOnly stoi m) (stold : String → Option LongDouble) (native : Bool) (key : String)
    (value : String) : OnChangeOnly stoi (m.setValueString stold native key value).2 := by
  obtain ⟨htype, hcycle, hsig⟩ := h
  unfold CANMessage.setValueString
  cases hg : m.getSignalPrivate key with
  | none => exact ⟨htype, hcycle, hsig⟩
  | some signal =>
    have hmem : signal ∈ m.m_signals := by
      unfold CANMessage.getSignalPrivate at hg
      exact List.mem_of_find?_eq_some hg
    have hattr : (signal.setValueString stold native value).2.getAttribute "GenSigSendType"
        = none := by
      rw [← hsig signal hmem]
      unfold CANSignal.setValueString CANSignal.getAttribute
      simp only
      split <;> rfl
    have hsig' : ∀ s, s ∈ storeSignal key (signal.setValueString stold native value).2
        m.m_signals → s.getAttribute "GenSigSendType" = none := by
      intro s hs
      rcases mem_storeSignal _ _ _ s hs with h | h
      · rw [h]; exact hattr
      · exact hsig s h
    simp only
    split
    · exact ⟨htype, hcycle, hsig'⟩
    · exact ⟨htype, hcycle, hsig'⟩

/-- One send attempt: it returns, keeps the attributes, clears the modified
flag of the message when the write succeeds and keeps it when the write
fails. -/
theorem sendCANMessage_flag (stoi : String → Option ℤ) (sendCANFrame : canfd_frame → Bool)
    (m : CANMessage) (h : OnChangeOnly stoi m) :
    ∃ sent m1, CANTransceiver.sendCANMessage sendCANFrame m = some (sent, m1) ∧
      OnChangeOnly stoi m1 ∧ (sent = true → m1.m_modified = false) ∧
      (sent = false → m1.m_modified = m.m_modified) := by
  obtain ⟨htype, hcycle, hsig⟩ := h
  obtain ⟨frame, hframe⟩ := assembleCANFrame_total m
  have hupd : ∀ ok dir, (m.updateTransfer ok dir).attributeList = m.attributeList ∧
      (m.updateTransfer ok dir).m_signals = m.m_signals ∧
      (m.updateTransfer ok dir).m_modified = m.m_modified := by
    intro ok dir
    unfold CANMessage.updateTransfer
    split
    · exact ⟨rfl, rfl, rfl⟩
    · split
      · exact ⟨rfl, rfl, rfl⟩
      · exact ⟨rfl, rfl, rfl⟩
  by_cases hok : sendCANFrame frame = true
  · refine ⟨true, (m.updateTransfer true MessageDirection.SEND).setModified false, ?_, ?_,
      fun _ => rfl, fun h => absurd h (by simp)⟩
    · unfold CANTransceiver.sendCANMessage
      rw [hframe]
      simp only [hok, Bool.not_true, Bool.false_eq_true, if_false]
    · obtain ⟨u1, u2, _⟩ := hupd true MessageDirection.SEND
      refine ⟨?_, ?_, ?_⟩
      · unfold CANMessage.getAttribute CANMessage.setModified
        simp only [Bool.not_false, if_true, u1]
        exact htype
      · intro value
        unfold CANMessage.getAttribute CANMessage.setModified
        simp only [Bool.not_false, if_true, u1]
        exact hcycle value
      · intro s hs
        unfold CANMessage.setModified at hs
        simp only [Bool.not_false, if_true, u2, List.mem_map] at hs
        obtain ⟨a, ha, rfl⟩ := hs
        exact hsig a ha
  · have hok' : sendCANFrame frame = false := by simpa using hok
    obtain ⟨u1, u2, u3⟩ := hupd false MessageDirection.SEND
    refine ⟨false, m.updateTransfer false MessageDirection.SEND, ?_, ?_,
      fun h => absurd h (by simp), fun _ => u3⟩
    · unfold CANTransceiver.sendCANMessage
      rw [hframe]
      simp only [hok', Bool.not_false, if_true]
    · refine ⟨?_, ?_, ?_⟩
      · unfold CANMessage.getAttribute
        rw [u1]
        exact htype
      · intro value
        unfold CANMessage.getAttribute
        rw [u1]
        exact hcycle value
      · intro s hs
        rw [u2] at hs
        exact hsig s hs

/-- C20 (amended): for a message whose message-level send type is `OnChange`
or `OnChangeWithRepetition`, whose cycle time attribute is absent or a number,
and whose signals carry no signal-level send type (all of which setting values
and sending preserve): `isSendScheduled` answers with the modified flag of the
message and never alters the message, its next scheduled time included; after
a successful `setValue` on a contained signal it answers true, a failed
`setValue` changes nothing, a failed send keeps the answer, and after a
successful send it answers false. -/
theorem onChange_schedule (stoi : String → Option ℤ) (m : CANMessage)
    (h : OnChangeOnly stoi m) :
    (∀ now, m.isSendScheduled stoi now = (m.m_modified, m)) ∧
    (∀ key value, OnChangeOnly stoi (m.setValue key value).2 ∧
      ((m.setValue key value).1 = true →
        ∀ now, ((m.setValue key value).2.isSendScheduled stoi now).1 = true) ∧
      ((m.setValue key value).1 = false → (m.setValue key value).2 = m)) ∧
    (∀ stold native key value, OnChangeOnly stoi (m.setValueString stold native key value).2 ∧
      ((m.setValueString stold native key value).1 = true →
        ∀ now, ((m.setValueString stold native key value).2.isSendScheduled stoi now).1 = true) ∧
      ((m.setValueString stold native key value).1 = false →
        (m.setValueString stold native key value).2 = m)) ∧
    (∀ sendCANFrame, ∃ sent m1,
      CANTransceiver.sendCANMessage sendCANFrame m = some (sent, m1) ∧
      OnChangeOnly stoi m1 ∧
      (sent = true → ∀ now, (m1.isSendScheduled stoi now).1 = false) ∧
      (sent = false → ∀ now, (m1.isSendScheduled stoi now).1 = m.m_modified)) := by
  refine ⟨isSendScheduled_onChange stoi m h, ?_, ?_, ?_⟩
  · intro key value
    have hp := OnChangeOnly_setValue stoi m h key value
    refine ⟨hp, ?_, (CANMessage_setValue_spec m key value).2⟩
    intro hs now
    rw [isSendScheduled_onChange stoi _ hp now]
    simp only
    unfold CANMessage.setValue at hs ⊢
    cases hg : m.getSignalPrivate key with
    | none => rw [hg] at hs; exact absurd hs (by simp)
    | some signal =>
      rw [hg] at hs
      simp only at hs ⊢
      split
      · rfl
      · rename_i hn
        rw [if_neg hn] at hs
        exact absurd hs (by simp)
  · intro stold native key value
    have hp := OnChangeOnly_setValueString stoi m h stold native key value
    refine ⟨hp, ?_, (CANMessage_setValueString_spec m stold native key value).2⟩
    intro hs now
    rw [isSendScheduled_onChange stoi _ hp now]
    simp only
    unfold CANMessage.setValueString at hs ⊢
    cases hg : m.getSignalPrivate key with
    | none => rw [hg] at hs; exact absurd hs (by simp)
    | some signal =>
      rw [hg] at hs
      simp only at hs ⊢
      split
      · rfl
      · rename_i hn
        rw [if_neg hn] at hs
        exact absurd hs (by simp)
  · intro sendCANFrame
    obtain ⟨sent, m1, h1, h2, h3, h4⟩ := sendCANMessage_flag stoi sendCANFrame m h
    refine ⟨sent, m1, h1, h2, ?_, ?_⟩
    · intro hs now
      rw [isSendScheduled_onChange stoi m1 h2 now]
      exact h3 hs
    · intro hs now
      rw [isSendScheduled_onChange stoi m1 h2 now]
      exact h4 hs

set_option maxRecDepth 100000 in
/-- C20 at a concrete message sent on change with a cycle time of 100 ms: not
due at first, due after a value was set, and not due after a successful send. -/
theorem onChange_schedule_witness :
    onChangeMessage.isSendScheduled stoiExample 0 = (false, onChangeMessage) ∧
    ((onChangeMessage.setValue "SIG" (Value.Integer 5)).2.isSendScheduled stoiExample 0).1
      = true ∧
    (∃ sent m1, CANTransceiver.sendCANMessage (fun _ => true)
        (onChangeMessage.setValue "SIG" (Value.Integer 5)).2 = some (sent, m1) ∧
      (sent = true → ∀ now, (m1.isSendScheduled stoiExample now).1 = false)) := by
  have h0 : OnChangeOnly stoiExample onChangeMessage := by
    refine ⟨Or.inl (by decide), ?_, by decide⟩
    intro value hv
    have e : onChangeMessage.getAttribute "GenMsgCycleTime" = some "100" := by decide
    rw [e] at hv
    rw [← Option.some.inj hv]
    decide
  have h := onChange_schedule stoiExample onChangeMessage h0
  have h1 := h.2.1 "SIG" (Value.Integer 5)
  refine ⟨h.1 0, h1.2.1 (by decide) 0, ?_⟩
  obtain ⟨sent, m1, g1, _, g3, _⟩ :=
    (onChange_schedule stoiExample _ h1.1).2.2.2 (fun _ => true)
  exact ⟨sent, m1, g1, g3⟩

set_option maxRecDepth 100000 in
/-- C20 as stated fails: a message sent on change whose cycle time attribute
holds no number is never due, because `std::stoi` throws and
`isSendScheduled` answers false, also right after a successful `setValue`. -/
theorem onChange_not_due :
    onChangeNoCycle.getAttribute "GenMsgSendType" = some "OnChange" ∧
    (onChangeNoCycle.setValue "SIG" (Value.Integer 5)).1 = true ∧
    (onChangeNoCycle.setValue "SIG" (Value.Integer 5)).2.m_modified = true ∧
    ((onChangeNoCycle.setValue "SIG" (Value.Integer 5)).2.isSendScheduled stoiExample 0).1
      = false := by
  decide

/-! ## Filter list -/

theorem storeFilter_keys (id : ℕ) (fs : Bool) (l : List (ℕ × Bool)) :
    (storeFilter id fs l).map Prod.fst = l.map Prod.fst := by
  induction l with
  | nil => rfl
  | cons e rest ih =>
    unfold storeFilter
    by_cases h : e.1 = id
    · simp [h]
    · simp [h, ih]

theorem isMessageFiltered_storeFilter_self (core : CANSimulatorCore) (id : ℕ) (fs : Bool)
    (h : id ∈ core.m_filterList.map Prod.fst) :
    CANSimulatorCore.isMessageFiltered
      { core with m_filterList := storeFilter id fs core.m_filterList } id = fs := by
  unfold CANSimulatorCore.isMessageFiltered
  simp only
  generalize core.m_filterList = l at h
  induction l with
  | nil => simp at h
  | cons e rest ih =>
    unfold storeFilter
    by_cases he : e.1 = id
    · simp [he]
    · have : id ∈ rest.map Prod.fst := by
        simp only [List.map_cons, List.mem_cons] at h
        rcases h with h | h
        · exact absurd h.symm he
        · exact h
      simp only [he, if_false, List.find?_cons, decide_False]
      exact ih this

theorem isMessageFiltered_storeFilter_ne (core : CANSimulatorCore) (id k : ℕ) (fs : Bool)
    (h : k ≠ id) :
    CANSimulatorCore.isMessageFiltered
      { core with m_filterList := storeFilter id fs core.m_filterList } k =
      core.isMessageFiltered k := by
  unfold CANSimulatorCore.isMessageFiltered
  simp only
  generalize core.m_filterList = l
  induction l with
  | nil => rfl
  | cons e rest ih =>
    unfold storeFilter
    by_cases he : e.1 = id
    · have hk : ¬ e.1 = k := fun hk => h (hk.symm.trans he)
      simp [he, List.find?_cons, hk]
      rw [← he]; simp [hk]
    · by_cases hk : e.1 = k
      · rw [if_neg he]
        simp only [List.find?_cons, hk, decide_True]
      · simp only [he, if_false, List.find?_cons, hk, decide_False]
        exact ih

theorem isMessageFiltered_map (core : CANSimulatorCore) (k : ℕ) (b : Bool)
    (h : k ∈ core.m_filterList.map Prod.fst) :
    CANSimulatorCore.isMessageFiltered
      { core with m_filterList := core.m_filterList.map (fun e => (e.1, b)) } k = b := by
  unfold CANSimulatorCore.isMessageFiltered
  simp only
  generalize core.m_filterList = l at h
  induction l with
  | nil => simp at h
  | cons e rest ih =>
    by_cases he : e.1 = k
    · simp [List.find?_cons, he]
    · have : k ∈ rest.map Prod.fst := by
        simp only [List.map_cons, List.mem_cons] at h
        rcases h with h | h
        · exact absurd h.symm he
        · exact h
      simp only [List.map_cons, List.find?_cons, he, decide_False]
      exact ih this

theorem isMessageFiltered_unknown (core : CANSimulatorCore) (k : ℕ)
    (h : k ∉ core.m_filterList.map Prod.fst) : core.isMessageFiltered k = false := by
  unfold CANSimulatorCore.isMessageFiltered
  generalize core.m_filterList = l at h
  induction l with
  | nil => rfl
  | cons e rest ih =>
    simp only [List.map_cons, List.mem_cons, not_or] at h
    have he : ¬ e.1 = k := fun he => h.1 he.symm
    simp only [List.find?_cons, he, decide_False]
    exact ih h.2

theorem setMessageFilterState_eq (core : CANSimulatorCore) (id : ℕ) (fs : Bool) :
    core.setMessageFilterState id fs =
      if id ∈ core.m_filterList.map Prod.fst then
        (true, { core with m_filterList := storeFilter id fs core.m_filterList })
      else (false, core) := by
  unfold CANSimulatorCore.setMessageFilterState
  by_cases h : id ∈ core.m_filterList.map Prod.fst
  · rw [if_pos h]
    obtain ⟨e, he, hid⟩ := List.mem_map.1 h
    cases hf : core.m_filterList.find? (fun e => e.1 = id) with
    | none =>
      have := List.find?_eq_none.1 hf e he
      simp [hid] at this
    | some _ => rfl
  · rw [if_neg h]
    cases hf : core.m_filterList.find? (fun e => e.1 = id) with
    | none => rfl
    | some e =>
      exfalso
      apply h
      have h1 := List.mem_of_find?_eq_some hf
      have h2 := List.find?_some hf
      simp only [decide_eq_true_eq] at h2
      exact List.mem_map.2 ⟨e, h1, h2⟩


theorem targetId_value (stoul : String → ℕ → StoulResult) (id : String) (n : ℕ)
    (h : stoul id (if id.data.take 2 = ['0', 'x'] then 16 else 10) = StoulResult.value n) :
    targetId stoul id = some (n % 2 ^ 32) := by
  unfold targetId; rw [h]

/-- The loop over the identifiers ran to its end: every identifier named a
known ID, the keys of the list are the same, the IDs named have the given
filter state and the others kept theirs. -/
theorem filterIdsLoop_true (stoul : String → ℕ → StoulResult) (fs : Bool) :
    ∀ (ids : List String) (core core' : CANSimulatorCore),
      CANSimulatorCore.filterIdsLoop stoul fs ids core = some (true, core') →
      core'.m_config = core.m_config ∧ core'.m_errorMetrics = core.m_errorMetrics ∧
      core'.m_filterList.map Prod.fst = core.m_filterList.map Prod.fst ∧
      (∀ s ∈ ids, ∃ k, targetId stoul s = some k ∧ k ∈ core.m_filterList.map Prod.fst) ∧
      (∀ k, (∃ s ∈ ids, targetId stoul s = some k) → core'.isMessageFiltered k = fs) ∧
      (∀ k, (¬ ∃ s ∈ ids, targetId stoul s = some k) →
        core'.isMessageFiltered k = core.isMessageFiltered k) := by
  intro ids
  induction ids with
  | nil =>
    intro core core' h
    simp only [CANSimulatorCore.filterIdsLoop, Option.some.injEq, Prod.mk.injEq, true_and] at h
    subst h
    simp
  | cons id rest ih =>
    intro core core' h
    unfold CANSimulatorCore.filterIdsLoop at h
    cases hst : stoul id (if id.data.take 2 = ['0', 'x'] then 16 else 10) with
    | invalid_argument => rw [hst] at h; simp at h
    | out_of_range => rw [hst] at h; simp at h
    | value n =>
      rw [hst] at h
      simp only at h
      rw [setMessageFilterState_eq] at h
      have htid := targetId_value stoul id n hst
      by_cases hk : n % 2 ^ 32 ∈ core.m_filterList.map Prod.fst
      · rw [if_pos hk] at h
        simp only [Bool.not_true, Bool.false_eq_true, if_false] at h
        obtain ⟨h1, h2, h3, h4, h5, h6⟩ := ih _ _ h
        simp only at h1 h2 h3 h4
        rw [storeFilter_keys] at h3 h4
        refine ⟨h1, h2, h3, ?_, ?_, ?_⟩
        · intro s hs
          rcases List.mem_cons.1 hs with hs | hs
          · subst hs; exact ⟨_, htid, hk⟩
          · exact h4 s hs
        · intro k hex
          by_cases hrest : ∃ s ∈ rest, targetId stoul s = some k
          · exact h5 k hrest
          · rw [h6 k hrest]
            obtain ⟨s, hs, hsk⟩ := hex
            rcases List.mem_cons.1 hs with hs | hs
            · subst hs
              rw [htid] at hsk
              have hkk : n % 2 ^ 32 = k := Option.some.inj hsk
              subst hkk
              exact isMessageFiltered_storeFilter_self core _ fs hk
            · exact absurd ⟨s, hs, hsk⟩ hrest
        · intro k hex
          have hrest : ¬ ∃ s ∈ rest, targetId stoul s = some k := by
            rintro ⟨s, hs, hsk⟩
            exact hex ⟨s, List.mem_cons_of_mem _ hs, hsk⟩
          rw [h6 k hrest]
          apply isMessageFiltered_storeFilter_ne
          intro hkk
          apply hex
          exact ⟨id, List.mem_cons_self _ _, by rw [htid, hkk]⟩
      · rw [if_neg hk] at h
        simp at h

/-- The loop over the identifiers runs to its end when every identifier names
a known ID. -/
theorem filterIdsLoop_known (stoul : String → ℕ → StoulResult) (fs : Bool) :
    ∀ (ids : List String) (core : CANSimulatorCore),
      (∀ s ∈ ids, ∃ k, targetId stoul s = some k ∧ k ∈ core.m_filterList.map Prod.fst) →
      ∃ core', CANSimulatorCore.filterIdsLoop stoul fs ids core = some (true, core') := by
  intro ids
  induction ids with
  | nil => intro core _; exact ⟨core, rfl⟩
  | cons id rest ih =>
    intro core h
    obtain ⟨k, hk, hmem⟩ := h id (List.mem_cons_self _ _)
    unfold CANSimulatorCore.filterIdsLoop
    unfold targetId at hk
    cases hst : stoul id (if id.data.take 2 = ['0', 'x'] then 16 else 10) with
    | invalid_argument => rw [hst] at hk; simp at hk
    | out_of_range => rw [hst] at hk; simp at hk
    | value n =>
      rw [hst] at hk
      simp only [Option.some.injEq] at hk
      subst hk
      simp only
      rw [setMessageFilterState_eq, if_pos hmem]
      simp only [Bool.not_true, Bool.false_eq_true, if_false]
      apply ih
      intro s hs
      simp only
      rw [storeFilter_keys]
      exact h s (List.mem_cons_of_mem _ hs)

/-- The loop over the identifiers stops at the first identifier that is not a
number or names an unknown ID, with the identifiers before it applied. -/
theorem filterIdsLoop_stop (stoul : String → ℕ → StoulResult) (fs : Bool) :
    ∀ (pre : List String) (s : String) (post : List String) (core : CANSimulatorCore),
      (∀ t ∈ pre, ∃ k, targetId stoul t = some k ∧ k ∈ core.m_filterList.map Prod.fst) →
      (stoul s (if s.data.take 2 = ['0', 'x'] then 16 else 10) = StoulResult.invalid_argument ∨
        ∃ k, targetId stoul s = some k ∧ k ∉ core.m_filterList.map Prod.fst) →
      ∃ core', CANSimulatorCore.filterIdsLoop stoul fs pre core = some (true, core') ∧
        CANSimulatorCore.filterIdsLoop stoul fs (pre ++ s :: post) core = some (false, core') := by
  intro pre
  induction pre with
  | nil =>
    intro s post core _ hs
    refine ⟨core, rfl, ?_⟩
    simp only [List.nil_append]
    unfold CANSimulatorCore.filterIdsLoop
    rcases hs with hs | ⟨k, hk, hmem⟩
    · rw [hs]
    · unfold targetId at hk
      cases hst : stoul s (if s.data.take 2 = ['0', 'x'] then 16 else 10) with
      | invalid_argument => rfl
      | out_of_range => rw [hst] at hk; simp at hk
      | value n =>
        rw [hst] at hk
        simp only [Option.some.injEq] at hk
        subst hk
        simp only
        rw [setMessageFilterState_eq, if_neg hmem]
        simp
  | cons id rest ih =>
    intro s post core h hs
    obtain ⟨k, hk, hmem⟩ := h id (List.mem_cons_self _ _)
    simp only [List.cons_append]
    unfold CANSimulatorCore.filterIdsLoop
    unfold targetId at hk
    cases hst : stoul id (if id.data.take 2 = ['0', 'x'] then 16 else 10) with
    | invalid_argument => rw [hst] at hk; simp at hk
    | out_of_range => rw [hst] at hk; simp at hk
    | value n =>
      rw [hst] at hk
      simp only [Option.some.injEq] at hk
      subst hk
      simp only
      rw [setMessageFilterState_eq, if_pos hmem]
      simp only [Bool.not_true, Bool.false_eq_true, if_false]
      apply ih
      · intro t ht
        simp only
        rw [storeFilter_keys]
        exact h t (List.mem_cons_of_mem _ ht)
      · simp only
        rw [storeFilter_keys]
        exact hs


theorem initializeMessageFilterList_ids (stoul : String → ℕ → StoulResult)
    (asc : Option (List canFrameQueueItem)) (core : CANSimulatorCore) (ids : List String)
    (fs reset : Bool) (hne : ids ≠ [])
    (hread : (CANSimulatorCore.readFilterList asc core reset).1 = true) :
    core.initializeMessageFilterList stoul asc (some ids) fs reset =
      match CANSimulatorCore.filterIdsLoop stoul fs ids
        { (CANSimulatorCore.readFilterList asc core reset).2 with
          m_filterList := (CANSimulatorCore.readFilterList asc core reset).2.m_filterList.map
            (fun e => (e.1, !fs)) } with
      | none => none
      | some (false, core3) => some (false, core3)
      | some (true, core3) =>
        if core3.includeCount = 0 then some (false, core3)
        else some (decide (core3.m_filterList.length > 0), core3) := by
  cases ids with
  | nil => exact absurd rfl hne
  | cons id rest =>
    unfold CANSimulatorCore.initializeMessageFilterList
    simp only [hread, Bool.not_true, Bool.false_eq_true, if_false]
    try rfl

theorem readFilterList_false (asc : Option (List canFrameQueueItem)) (core : CANSimulatorCore)
    (reset : Bool) (h : (CANSimulatorCore.readFilterList asc core reset).1 = false) :
    (CANSimulatorCore.readFilterList asc core reset).2.m_filterList = [] := by
  unfold CANSimulatorCore.readFilterList at h ⊢
  simp only at h ⊢
  generalize (if reset = true then
    ({ core with m_filterList := [] } : CANSimulatorCore) else core) = core1 at h ⊢
  by_cases h0 : core1.m_filterList.length = 0
  · rw [if_pos h0] at h ⊢
    simp only at h ⊢
    cases asc with
    | none =>
      simp only [Configuration.createFilterList, decide_eq_false_iff_not, not_lt,
        Nat.le_zero, List.length_eq_zero] at h ⊢
      exact h
    | some queue =>
      simp only [ASCReader.createFilterList, decide_eq_false_iff_not, not_lt,
        Nat.le_zero, List.length_eq_zero] at h ⊢
      exact h
  · rw [if_neg h0] at h
    simp at h

theorem find_of_nodup (l : List (ℕ × Bool)) (h : (l.map Prod.fst).Nodup) (e : ℕ × Bool)
    (he : e ∈ l) : l.find? (fun x => x.1 = e.1) = some e := by
  induction l with
  | nil => simp at he
  | cons a rest ih =>
    simp only [List.map_cons, List.nodup_cons] at h
    rcases List.mem_cons.1 he with he | he
    · subst he; simp [List.find?_cons]
    · have hne : ¬ a.1 = e.1 := fun ha => h.1 (ha ▸ List.mem_map.2 ⟨e, he, rfl⟩)
      simp only [List.find?_cons, hne, decide_False]
      exact ih h.2 he

theorem includeCount_zero (core : CANSimulatorCore)
    (hnd : (core.m_filterList.map Prod.fst).Nodup)
    (h : ∀ k ∈ core.m_filterList.map Prod.fst, core.isMessageFiltered k = true) :
    core.includeCount = 0 := by
  unfold CANSimulatorCore.includeCount
  rw [List.length_eq_zero, List.filter_eq_nil_iff]
  intro e he
  have h1 := h e.1 (List.mem_map.2 ⟨e, he, rfl⟩)
  unfold CANSimulatorCore.isMessageFiltered at h1
  rw [find_of_nodup _ hnd e he] at h1
  simp only at h1
  simp [h1]

theorem insertFilter_nodup (id : ℕ) (l : List (ℕ × Bool)) (h : (l.map Prod.fst).Nodup) :
    ((insertFilter id l).map Prod.fst).Nodup := by
  unfold insertFilter
  by_cases ha : l.any (fun e => e.1 = id) = true
  · rw [if_pos ha]; exact h
  · rw [if_neg ha]
    have hp : List.Perm ((List.orderedInsert (fun a b => a.1 ≤ b.1) (id, false) l).map Prod.fst)
        (((id, false) :: l).map Prod.fst) := (List.perm_orderedInsert _ _ _).map _
    rw [hp.nodup_iff, List.map_cons, List.nodup_cons]
    refine ⟨?_, h⟩
    intro hmem
    apply ha
    obtain ⟨e, he, hid⟩ := List.mem_map.1 hmem
    exact List.any_eq_true.2 ⟨e, he, by simpa using hid⟩

theorem readFilterList_nodup (asc : Option (List canFrameQueueItem)) (core : CANSimulatorCore)
    (reset : Bool) (h : (core.m_filterList.map Prod.fst).Nodup) :
    ((CANSimulatorCore.readFilterList asc core reset).2.m_filterList.map Prod.fst).Nodup := by
  have hfold : ∀ (α : Type) (f : α → ℕ) (xs : List α) (l : List (ℕ × Bool)),
      (l.map Prod.fst).Nodup →
      ((xs.foldl (fun l x => insertFilter (f x) l) l).map Prod.fst).Nodup := by
    intro α f xs
    induction xs with
    | nil => intro l hl; exact hl
    | cons x rest ih => intro l hl; exact ih _ (insertFilter_nodup _ _ hl)
  unfold CANSimulatorCore.readFilterList
  simp only
  have h1 : ((if reset = true then
      ({ core with m_filterList := [] } : CANSimulatorCore) else core).m_filterList.map
        Prod.fst).Nodup := by
    cases reset
    · simpa using h
    · simp
  generalize (if reset = true then
    ({ core with m_filterList := [] } : CANSimulatorCore) else core) = core1 at h1 ⊢
  by_cases h0 : core1.m_filterList.length = 0
  · rw [if_pos h0]
    cases asc with
    | none => exact hfold CANMessage (fun m => m.id) _ _ h1
    | some queue => exact hfold canFrameQueueItem (fun item => item.frame.can_id) _ _ h1
  · rw [if_neg h0]; exact h1


/-- C21: when `initializeMessageFilterList` is called with a non-empty list of
identifiers and returns `true`, the filter list has the keys it had after it
was read, every identifier names one of them (as a decimal or `0x` number),
and for a known ID `k`: with filter state `true` it is filtered iff an
identifier of the list names it, with filter state `false` it is filtered iff
no identifier of the list names it. -/
theorem initializeMessageFilterList_filters (stoul : String → ℕ → StoulResult)
    (asc : Option (List canFrameQueueItem)) (core core' : CANSimulatorCore)
    (ids : List String) (fs reset : Bool) (hne : ids ≠ [])
    (h : core.initializeMessageFilterList stoul asc (some ids) fs reset = some (true, core')) :
    core'.m_filterList.map Prod.fst =
      (CANSimulatorCore.readFilterList asc core reset).2.m_filterList.map Prod.fst ∧
    (∀ s ∈ ids, ∃ k, targetId stoul s = some k ∧ k ∈ core'.m_filterList.map Prod.fst) ∧
    (fs = true → ∀ k ∈ core'.m_filterList.map Prod.fst,
      (core'.isMessageFiltered k = true ↔ ∃ s ∈ ids, targetId stoul s = some k)) ∧
    (fs = false → ∀ k ∈ core'.m_filterList.map Prod.fst,
      (core'.isMessageFiltered k = true ↔ ¬ ∃ s ∈ ids, targetId stoul s = some k)) := by
  have hread : (CANSimulatorCore.readFilterList asc core reset).1 = true := by
    cases hr : (CANSimulatorCore.readFilterList asc core reset).1 with
    | true => rfl
    | false =>
      unfold CANSimulatorCore.initializeMessageFilterList at h
      simp [hr] at h
  rw [initializeMessageFilterList_ids stoul asc core ids fs reset hne hread] at h
  cases hl : CANSimulatorCore.filterIdsLoop stoul fs ids
      { (CANSimulatorCore.readFilterList asc core reset).2 with
        m_filterList := (CANSimulatorCore.readFilterList asc core reset).2.m_filterList.map
          (fun e => (e.1, !fs)) } with
  | none => rw [hl] at h; simp at h
  | some r =>
    obtain ⟨b, core3⟩ := r
    rw [hl] at h
    cases b with
    | false => simp at h
    | true =>
      simp only at h
      have hc : core3 = core' := by
        split at h
        · simp at h
        · simp only [Option.some.injEq, Prod.mk.injEq] at h; exact h.2
      subst hc
      obtain ⟨_, _, h3, h4, h5, h6⟩ := filterIdsLoop_true stoul fs ids _ _ hl
      simp only [List.map_map] at h3 h4
      have hkeys : core3.m_filterList.map Prod.fst =
          (CANSimulatorCore.readFilterList asc core reset).2.m_filterList.map Prod.fst := by
        rw [h3]; rfl
      have hother : ∀ k ∈ core3.m_filterList.map Prod.fst,
          (¬ ∃ s ∈ ids, targetId stoul s = some k) → core3.isMessageFiltered k = !fs := by
        intro k hk hno
        rw [h6 k hno]
        apply isMessageFiltered_map
        rw [← hkeys]; exact hk
      refine ⟨hkeys, ?_, ?_, ?_⟩
      · intro s hs
        obtain ⟨k, hk, hmem⟩ := h4 s hs
        exact ⟨k, hk, by rw [h3]; exact hmem⟩
      · intro hfs k hk
        subst hfs
        constructor
        · intro hf
          by_contra hno
          rw [hother k hk hno] at hf
          simp at hf
        · intro hex; exact h5 k hex
      · intro hfs k hk
        subst hfs
        constructor
        · intro hf hex
          rw [h5 k hex] at hf
          simp at hf
        · intro hno
          rw [hother k hk hno]; rfl

/-- Witness for C21: excluding `"0x2"` from the two messages of `exampleCore`
gives `filteredCore`, where exactly message 2 is filtered. -/
theorem initializeMessageFilterList_filters_witness :
    exampleCore.initializeMessageFilterList stoulExample none (some ["0x2"]) true false =
      some (true, filteredCore) ∧
    filteredCore.m_filterList.map Prod.fst = [1, 2] ∧
    (filteredCore.isMessageFiltered 2 = true ↔
      ∃ s ∈ ["0x2"], targetId stoulExample s = some 2) ∧
    (filteredCore.isMessageFiltered 1 = true ↔
      ∃ s ∈ ["0x2"], targetId stoulExample s = some 1) :=
  ⟨by decide, by decide,
   (initializeMessageFilterList_filters stoulExample none exampleCore filteredCore ["0x2"]
      true false (by decide) (by decide)).2.2.1 rfl 2 (by decide),
   (initializeMessageFilterList_filters stoulExample none exampleCore filteredCore ["0x2"]
      true false (by decide) (by decide)).2.2.1 rfl 1 (by decide)⟩

/-- Including only `"1"` leaves message 1 unfiltered and filters message 2;
excluding `"1"` and `"0x2"` of a list that has a third message succeeds. -/
theorem initializeMessageFilterList_examples :
    (exampleCore.initializeMessageFilterList stoulExample none (some ["1"]) false false).map
      (fun r => (r.1, r.2.m_filterList)) = some (true, [(1, false), (2, true)]) ∧
    (CANSimulatorCore.initializeMessageFilterList stoulExample none
      { exampleCore with m_filterList := [(1, true), (2, false), (70, true)] }
      (some ["1", "0x2"]) true false).map (fun r => (r.1, r.2.m_filterList)) =
      some (true, [(1, true), (2, true), (70, false)]) := by
  constructor <;> decide

/-- Counterexample to C22: with the known IDs 1 and 2, excluding `"1"` and the
unknown `"70"` returns `false`, yet message 1 is filtered afterwards and was
not before. -/
theorem initializeMessageFilterList_not_restored :
    ∃ core', exampleCore.initializeMessageFilterList stoulExample none (some ["1", "70"]) true
        false = some (false, core') ∧
      exampleCore.isMessageFiltered 1 = false ∧ core'.isMessageFiltered 1 = true :=
  ⟨{ exampleCore with m_filterList := [(1, true), (2, false)] }, by decide, by decide, by decide⟩

/-- C22 (amended): a call with a non-empty list of identifiers returns `false`
(a) when an identifier is not a number or names an unknown ID and all
identifiers before it name known IDs, and (b) when the filter state is `true`
and the identifiers name known IDs that cover all known IDs.  The filter
state is not restored: in case (a) a known ID has the given filter state iff
an identifier before the offending one names it, and the opposite state
otherwise; in case (b) every known ID is filtered. -/
theorem initializeMessageFilterList_rejected (stoul : String → ℕ → StoulResult)
    (asc : Option (List canFrameQueueItem)) (core : CANSimulatorCore) (fs reset : Bool) :
    (∀ (pre : List String) (s : String) (post : List String),
      (∀ t ∈ pre, ∃ k, targetId stoul t = some k ∧
        k ∈ (CANSimulatorCore.readFilterList asc core reset).2.m_filterList.map Prod.fst) →
      (stoul s (if s.data.take 2 = ['0', 'x'] then 16 else 10) = StoulResult.invalid_argument ∨
        ∃ k, targetId stoul s = some k ∧
          k ∉ (CANSimulatorCore.readFilterList asc core reset).2.m_filterList.map Prod.fst) →
      ∃ core', core.initializeMessageFilterList stoul asc (some (pre ++ s :: post)) fs reset =
          some (false, core') ∧
        core'.m_filterList.map Prod.fst =
          (CANSimulatorCore.readFilterList asc core reset).2.m_filterList.map Prod.fst ∧
        ∀ k ∈ core'.m_filterList.map Prod.fst,
          (core'.isMessageFiltered k = fs ↔ ∃ t ∈ pre, targetId stoul t = some k)) ∧
    (∀ ids : List String, ids ≠ [] → fs = true →
      (core.m_filterList.map Prod.fst).Nodup →
      (∀ t ∈ ids, ∃ k, targetId stoul t = some k ∧
        k ∈ (CANSimulatorCore.readFilterList asc core reset).2.m_filterList.map Prod.fst) →
      (∀ k ∈ (CANSimulatorCore.readFilterList asc core reset).2.m_filterList.map Prod.fst,
        ∃ t ∈ ids, targetId stoul t = some k) →
      ∃ core', core.initializeMessageFilterList stoul asc (some ids) fs reset =
          some (false, core') ∧
        core'.m_filterList.map Prod.fst =
          (CANSimulatorCore.readFilterList asc core reset).2.m_filterList.map Prod.fst ∧
        ∀ k ∈ core'.m_filterList.map Prod.fst, core'.isMessageFiltered k = true) := by
  constructor
  · intro pre s post hpre hs
    cases hr : (CANSimulatorCore.readFilterList asc core reset).1 with
    | false =>
      have hnil := readFilterList_false asc core reset hr
      refine ⟨(CANSimulatorCore.readFilterList asc core reset).2, ?_, rfl, ?_⟩
      · unfold CANSimulatorCore.initializeMessageFilterList
        simp [hr]
      · intro k hk
        rw [hnil] at hk
        simp at hk
    | true =>
      have hne : pre ++ s :: post ≠ [] := by simp
      rw [initializeMessageFilterList_ids stoul asc core _ fs reset hne hr]
      obtain ⟨core', h1, h2⟩ := filterIdsLoop_stop stoul fs pre s post
        { (CANSimulatorCore.readFilterList asc core reset).2 with
          m_filterList := (CANSimulatorCore.readFilterList asc core reset).2.m_filterList.map
            (fun e => (e.1, !fs)) }
        (by simpa [List.map_map, Function.comp_def] using hpre)
        (by simpa [List.map_map, Function.comp_def] using hs)
      rw [h2]
      obtain ⟨_, _, h3, _, h5, h6⟩ := filterIdsLoop_true stoul fs pre _ _ h1
      simp only [List.map_map] at h3
      have hkeys : core'.m_filterList.map Prod.fst =
          (CANSimulatorCore.readFilterList asc core reset).2.m_filterList.map Prod.fst := by
        rw [h3]; rfl
      refine ⟨core', rfl, hkeys, ?_⟩
      intro k hk
      constructor
      · intro hf
        by_contra hno
        rw [h6 k hno, isMessageFiltered_map _ k (!fs) (by rw [← hkeys]; exact hk)] at hf
        cases fs <;> simp at hf
      · intro hex; exact h5 k hex
  · intro ids hne hfs hnd hall hcover
    subst hfs
    have hr : (CANSimulatorCore.readFilterList asc core reset).1 = true := by
      cases hr : (CANSimulatorCore.readFilterList asc core reset).1 with
      | true => rfl
      | false =>
        exfalso
        have hnil := readFilterList_false asc core reset hr
        cases ids with
        | nil => exact hne rfl
        | cons t rest =>
          obtain ⟨k, _, hk⟩ := hall t (List.mem_cons_self _ _)
          rw [hnil] at hk
          simp at hk
    rw [initializeMessageFilterList_ids stoul asc core _ true reset hne hr]
    obtain ⟨core', h1⟩ := filterIdsLoop_known stoul true ids
      { (CANSimulatorCore.readFilterList asc core reset).2 with
        m_filterList := (CANSimulatorCore.readFilterList asc core reset).2.m_filterList.map
          (fun e => (e.1, !true)) }
      (by simpa [List.map_map, Function.comp_def] using hall)
    rw [h1]
    obtain ⟨_, _, h3, _, h5, _⟩ := filterIdsLoop_true stoul true ids _ _ h1
    simp only [List.map_map] at h3
    have hkeys : core'.m_filterList.map Prod.fst =
        (CANSimulatorCore.readFilterList asc core reset).2.m_filterList.map Prod.fst := by
      rw [h3]; rfl
    have hall' : ∀ k ∈ core'.m_filterList.map Prod.fst, core'.isMessageFiltered k = true := by
      intro k hk
      exact h5 k (hcover k (by rw [← hkeys]; exact hk))
    have hzero : core'.includeCount = 0 := by
      apply includeCount_zero _ _ hall'
      rw [hkeys]
      exact readFilterList_nodup asc core reset hnd
    refine ⟨core', ?_, hkeys, hall'⟩
    simp only [hzero, if_true]

/-- Witness for C22 (amended) on `exampleCore`, whose known IDs are 1 and 2:
excluding `"1"` and the unknown `"70"`, and excluding `"1"` and `"2"`. -/
theorem initializeMessageFilterList_rejected_witness :
    (∃ core', exampleCore.initializeMessageFilterList stoulExample none
        (some (["1"] ++ "70" :: [])) true false = some (false, core') ∧
      core'.m_filterList.map Prod.fst =
        (CANSimulatorCore.readFilterList none exampleCore false).2.m_filterList.map Prod.fst ∧
      ∀ k ∈ core'.m_filterList.map Prod.fst,
        (core'.isMessageFiltered k = true ↔ ∃ t ∈ ["1"], targetId stoulExample t = some k)) ∧
    (∃ core', exampleCore.initializeMessageFilterList stoulExample none
        (some ["1", "2"]) true false = some (false, core') ∧
      core'.m_filterList.map Prod.fst =
        (CANSimulatorCore.readFilterList none exampleCore false).2.m_filterList.map Prod.fst ∧
      ∀ k ∈ core'.m_filterList.map Prod.fst, core'.isMessageFiltered k = true) :=
  ⟨(initializeMessageFilterList_rejected stoulExample none exampleCore true false).1
      ["1"] "70" []
      (fun t ht => by
        rw [List.mem_singleton] at ht
        subst ht
        exact ⟨1, by decide, by decide⟩)
      (Or.inr ⟨70, by decide, by decide⟩),
   (initializeMessageFilterList_rejected stoulExample none exampleCore true false).2
      ["1", "2"] (by decide) rfl (by decide)
      (fun t ht => by
        rcases List.mem_cons.1 ht with ht | ht
        · subst ht; exact ⟨1, by decide, by decide⟩
        · rw [List.mem_singleton] at ht
          subst ht; exact ⟨2, by decide, by decide⟩)
      (fun k hk => by
        have hk' : k = 1 ∨ k = 2 := by
          have : (CANSimulatorCore.readFilterList none exampleCore false).2.m_filterList.map
            Prod.fst = [1, 2] := by decide
          rw [this] at hk
          simpa using hk
        rcases hk' with hk' | hk'
        · subst hk'; exact ⟨"1", by decide, by decide⟩
        · subst hk'; exact ⟨"2", by decide, by decide⟩)⟩

/-- Cases of C22 on `exampleCore`: an identifier that is not a number, one
that names an unknown ID, and an exclusion of every message all return
`false` and leave message 1 filtered; an identifier out of the range of
`std::stoul` ends the call with an exception. -/
theorem initializeMessageFilterList_rejected_examples :
    (exampleCore.initializeMessageFilterList stoulExample none (some ["1", "motor"]) true
      false).map (fun r => (r.1, r.2.m_filterList)) = some (false, [(1, true), (2, false)]) ∧
    (exampleCore.initializeMessageFilterList stoulExample none (some ["70"]) false
      false).map (fun r => (r.1, r.2.m_filterList)) = some (false, [(1, true), (2, true)]) ∧
    (exampleCore.initializeMessageFilterList stoulExample none (some ["1", "2"]) true
      false).map (fun r => (r.1, r.2.m_filterList)) = some (false, [(1, true), (2, true)]) ∧
    exampleCore.initializeMessageFilterList stoulExample none
      (some ["99999999999999999999"]) true false = none := by
  refine ⟨?_, ?_, ?_, ?_⟩ <;> decide

/-! ## Flood mode: rate, delay and bursts -/

/-- C23: after `setRate(r)` with a bitrate `b > 0`, `getRate()` is `r` clamped
to `[1, 100]`, `getUseRate()` is true and `getRateFactor()` is
`(1000000 / b) * (100 / getRate())` evaluated in `float` arithmetic; with
`b = 500000`, `r = 40` gives 5, `r = 100` gives 2, and `r = 0` is clamped to 1
and gives 200. -/
theorem setRate_rateFactor (fm : CANSimulatorFloodMode) (r : ℤ) (hb : 0 < fm.m_bitrate) :
    (fm.setRate r).getRate = (if r ≤ 0 then 1 else if r > 100 then 100 else r) ∧
    1 ≤ (fm.setRate r).getRate ∧ (fm.setRate r).getRate ≤ 100 ∧
    (fm.setRate r).getUseRate = true ∧
    (fm.setRate r).getRateFactor =
      rndF (rndF (1000000 / rndF fm.m_bitrate) * rndF (100 / rndF (fm.setRate r).getRate)) ∧
    (fm.m_bitrate = 500000 →
      (fm.setRate 40).getRateFactor = 5 ∧ (fm.setRate 100).getRateFactor = 2 ∧
      (fm.setRate 0).getRate = 1 ∧ (fm.setRate 0).getRateFactor = 200) := by
  have hgen : ∀ q : ℤ, (fm.setRate q) =
      { fm with
        m_rate := (if q ≤ 0 then 1 else if q > 100 then 100 else q),
        m_useRate := true,
        m_rateFactor := rndF (rndF (1000000 / rndF fm.m_bitrate) *
          rndF (100 / rndF ((if q ≤ 0 then 1 else if q > 100 then 100 else q : ℤ) : ℚ))) } := by
    intro q
    have hc : (if q ≤ 0 then 1 else if q > 100 then 100 else q : ℤ) ≠ 0 := by
      split
      · decide
      · split <;> omega
    unfold CANSimulatorFloodMode.setRate CANSimulatorFloodMode.calculateRateFactor
    simp only
    rw [if_pos ⟨hc, by omega⟩]
  refine ⟨?_, ?_, ?_, ?_, ?_, ?_⟩
  · rw [hgen r]; rfl
  · rw [hgen r]
    show 1 ≤ (if r ≤ 0 then 1 else if r > 100 then 100 else r : ℤ)
    split
    · decide
    · split <;> omega
  · rw [hgen r]
    show (if r ≤ 0 then 1 else if r > 100 then 100 else r : ℤ) ≤ 100
    split
    · decide
    · split <;> omega
  · rw [hgen r]; rfl
  · rw [hgen r]; rfl
  · intro h500
    rw [hgen 40, hgen 100, hgen 0, h500]
    simp only [CANSimulatorFloodMode.getRateFactor, CANSimulatorFloodMode.getRate]
    refine ⟨?_, ?_, ?_, ?_⟩
    · decide
    · decide
    · decide
    · decide

set_option maxRecDepth 100000 in
/-- C23 at the flood mode as constructed, with the bitrate forced to 250000:
a rate of 75 is kept and the factor is the `float` nearest to the `float`
product `4 * 1.3333334`. -/
theorem setRate_rateFactor_witness :
    ((CANSimulatorFloodMode.initial 250000).setRate 75).getRate = 75 ∧
    ((CANSimulatorFloodMode.initial 250000).setRate 75).getUseRate = true ∧
    ((CANSimulatorFloodMode.initial 250000).setRate 75).getRateFactor = 11184811 / 2097152 := by
  have h := setRate_rateFactor (CANSimulatorFloodMode.initial 250000) 75 (by decide)
  refine ⟨h.1.trans (by decide), h.2.2.2.1, ?_⟩
  rw [h.2.2.2.2.1, h.1]
  decide

/-- C24: with a positive bitrate `calculateDelay(key)` for a variable of a
known message returns, and stores as the interval in use, the `float` product
of `messageBits` and the rate factor with its fractional part cut off (the
product being inside the range of `int`), where `messageBits` is
`33 + dlc * 8 + 29` for an identifier with the extended-frame flag and
`33 + dlc * 8 + 11` otherwise; with rate factor 5 a standard message of 8
bytes gives 540 and one of 6 bytes gives 460.  It returns 0, and changes
nothing, when the key is unknown or the bitrate is not positive. -/
theorem calculateDelay_value (fm : CANSimulatorFloodMode) (core : CANSimulatorCore)
    (key : String) :
    (∀ message, 0 < fm.m_bitrate → core.getMessage key = some message →
      message.dlc ≤ 64 →
      CANSimulatorFloodMode.messageBits message =
        33 + (message.dlc : ℤ) * 8 + (if message.id &&& CAN_EFF_FLAG ≠ 0 then 29 else 11) ∧
      (|rndF (rndF (CANSimulatorFloodMode.messageBits message) * fm.m_rateFactor)| < 2 ^ 31 →
        ∃ delay : ℤ, delay = truncateToInt
            (rndF (rndF (CANSimulatorFloodMode.messageBits message) * fm.m_rateFactor)) ∧
          fm.calculateDelay core key = (delay, { fm with m_useInterval := delay })) ∧
      (fm.m_rateFactor = 5 → message.id &&& CAN_EFF_FLAG = 0 →
        (message.dlc = 8 → (fm.calculateDelay core key).1 = 540) ∧
        (message.dlc = 6 → (fm.calculateDelay core key).1 = 460))) ∧
    (core.getMessage key = none ∨ fm.m_bitrate ≤ 0 → fm.calculateDelay core key = (0, fm)) := by
  constructor
  · intro message hb hmsg hdlc
    have hcalc : ∃ delay : ℤ, delay = truncateToInt
          (rndF (rndF (CANSimulatorFloodMode.messageBits message) * fm.m_rateFactor)) ∧
        fm.calculateDelay core key = (delay, { fm with m_useInterval := delay }) := by
      refine ⟨_, rfl, ?_⟩
      unfold CANSimulatorFloodMode.calculateDelay
      rw [if_pos hb, hmsg]
    have hbits : CANSimulatorFloodMode.messageBits message =
        33 + (message.dlc : ℤ) * 8 + (if message.id &&& CAN_EFF_FLAG ≠ 0 then 29 else 11) := by
      unfold CANSimulatorFloodMode.messageBits FRAME_SIZE CAN_EFF_ID_BITS CAN_SFF_ID_BITS
      have hlt : 33 + message.dlc * 8 + (if message.id &&& CAN_EFF_FLAG ≠ 0 then 29 else 11)
          < 2 ^ 64 := by
        split <;> omega
      rw [Nat.mod_eq_of_lt hlt]
      rw [wrapInt_of_range 32 (by decide)]
      · push_cast
        split <;> rfl
      · split <;> push_cast <;> omega
      · split <;> push_cast <;> omega
    refine ⟨hbits, fun _ => hcalc, ?_⟩
    intro h5 hstd
    obtain ⟨delay, hd, he⟩ := hcalc
    have h1 : (fm.calculateDelay core key).1 = delay := by rw [he]
    rw [h1, hd, hbits, h5, if_neg (by simpa using hstd)]
    constructor
    · intro h8
      rw [h8]
      decide
    · intro h6
      rw [h6]
      decide
  · rintro (h | h)
    · unfold CANSimulatorFloodMode.calculateDelay
      rw [h]
      split <;> rfl
    · unfold CANSimulatorFloodMode.calculateDelay
      rw [if_neg (by omega)]

set_option maxRecDepth 100000 in
/-- C24 at the core of the example: with bitrate 500000 and rate 40 the
variable `speed`, on a standard message of one byte, has the delay
`(33 + 8 + 11) * 5 = 260`; an unknown variable has the delay 0. -/
theorem calculateDelay_examples :
    (((CANSimulatorFloodMode.initial 500000).setRate 40).calculateDelay exampleCore "speed").1
      = 260 ∧
    (((CANSimulatorFloodMode.initial 500000).setRate 40).calculateDelay exampleCore "testing").1
      = 0 := by
  decide

/-- C27: `setBurstLen(x)` sets the burst length to `x` and, when the burst
delay is still 0, the burst delay as well; `setBurstDelay(y)` sets the burst
delay to `y` and, when the burst length is still 0, the burst length as well;
a duration that is already set is left as it is, either call enables burst
mode, and the string forms do the same with the number `std::stoi` reads.
After `setBurstLen(300)` and `setBurstDelay(900)` on a new flood mode the
length is 300 and the delay 900. -/
theorem burst_settings (fm : CANSimulatorFloodMode) (x : ℤ) (stoi : String → Option ℤ)
    (text : String) (bitrate : ℤ) :
    ((fm.setBurstLen x).getBurstLen = x ∧
      (fm.setBurstLen x).getBurstDelay = (if fm.m_burstDelay = 0 then x else fm.m_burstDelay) ∧
      (fm.setBurstLen x).getBurstEnabled = true) ∧
    ((fm.setBurstDelay x).getBurstDelay = x ∧
      (fm.setBurstDelay x).getBurstLen = (if fm.m_burstLen = 0 then x else fm.m_burstLen) ∧
      (fm.setBurstDelay x).getBurstEnabled = true) ∧
    (stoi text = some x → fm.setBurstLenString stoi text = some (fm.setBurstLen x) ∧
      fm.setBurstDelayString stoi text = some (fm.setBurstDelay x)) ∧
    (((CANSimulatorFloodMode.initial bitrate).setBurstLen 300).getBurstLen = 300 ∧
      ((CANSimulatorFloodMode.initial bitrate).setBurstLen 300).getBurstDelay = 300 ∧
      (((CANSimulatorFloodMode.initial bitrate).setBurstLen 300).setBurstDelay 900).getBurstLen
        = 300 ∧
      (((CANSimulatorFloodMode.initial bitrate).setBurstLen 300).setBurstDelay 900).getBurstDelay
        = 900) := by
  refine ⟨⟨?_, ?_, ?_⟩, ⟨?_, ?_, ?_⟩, ?_, ⟨rfl, rfl, rfl, rfl⟩⟩
  · unfold CANSimulatorFloodMode.setBurstLen CANSimulatorFloodMode.getBurstLen
    simp only
    split <;> rfl
  · unfold CANSimulatorFloodMode.setBurstLen CANSimulatorFloodMode.getBurstDelay
    simp only
    split <;> rfl
  · unfold CANSimulatorFloodMode.setBurstLen CANSimulatorFloodMode.getBurstEnabled
    rfl
  · unfold CANSimulatorFloodMode.setBurstDelay CANSimulatorFloodMode.getBurstDelay
    simp only
    split <;> rfl
  · unfold CANSimulatorFloodMode.setBurstDelay CANSimulatorFloodMode.getBurstLen
    simp only
    split <;> rfl
  · unfold CANSimulatorFloodMode.setBurstDelay CANSimulatorFloodMode.getBurstEnabled
    rfl
  · intro h
    unfold CANSimulatorFloodMode.setBurstLenString CANSimulatorFloodMode.setBurstDelayString
    rw [h]
    exact ⟨rfl, rfl⟩

/-! ## Flood mode: the active signals -/

theorem mem_eligible (core : CANSimulatorCore) (name : String) :
    name ∈ eligible core ↔
      name ∈ core.getVariables ∧ CANSimulatorFloodMode.isSignalFiltered core name = false := by
  unfold eligible
  rw [List.mem_filter]
  simp

theorem contains_iff_mem (l : List String) (a : String) : l.contains a = true ↔ a ∈ l := by
  simp

theorem mem_insertName (x name : String) (names : List String) :
    x ∈ insertName name names ↔ x = name ∨ x ∈ names := by
  unfold insertName
  by_cases h : name ∈ names
  · rw [if_pos h]
    constructor
    · intro hx; exact Or.inr hx
    · rintro (hx | hx)
      · subst hx; exact h
      · exact hx
  · rw [if_neg h]
    exact List.mem_orderedInsert _

theorem mem_filterLoop (core : CANSimulatorCore) (x : String) :
    ∀ (source active : List String),
      x ∈ CANSimulatorFloodMode.filterLoop core source active ↔
        x ∈ active ∨ (x ∈ source ∧ CANSimulatorFloodMode.isSignalFiltered core x = false) := by
  intro source
  induction source with
  | nil => intro active; simp [CANSimulatorFloodMode.filterLoop]
  | cons name rest ih =>
    intro active
    unfold CANSimulatorFloodMode.filterLoop
    cases hf : CANSimulatorFloodMode.isSignalFiltered core name with
    | false =>
      simp only [Bool.not_false, if_true]
      rw [ih, mem_insertName, List.mem_cons]
      constructor
      · rintro ((h | h) | h)
        · subst h; exact Or.inr ⟨Or.inl rfl, hf⟩
        · exact Or.inl h
        · exact Or.inr ⟨Or.inr h.1, h.2⟩
      · rintro (h | ⟨h | h, h2⟩)
        · exact Or.inl (Or.inr h)
        · exact Or.inl (Or.inl h)
        · exact Or.inr ⟨h, h2⟩
    | true =>
      simp only [Bool.not_true, Bool.false_eq_true, if_false]
      rw [ih, List.mem_cons]
      constructor
      · rintro (h | h)
        · exact Or.inl h
        · exact Or.inr ⟨Or.inr h.1, h.2⟩
      · rintro (h | ⟨h | h, h2⟩)
        · exact Or.inl h
        · subst h; rw [hf] at h2; cases h2
        · exact Or.inr ⟨h, h2⟩

theorem mem_includeLoop (core : CANSimulatorCore) (source : List String) (x : String) :
    ∀ (includeList active : List String),
      x ∈ CANSimulatorFloodMode.includeLoop core source includeList active ↔
        x ∈ active ∨ (x ∈ includeList ∧ x ∈ source ∧
          CANSimulatorFloodMode.isSignalFiltered core x = false) := by
  intro includeList
  induction includeList with
  | nil => intro active; simp [CANSimulatorFloodMode.includeLoop]
  | cons name rest ih =>
    intro active
    unfold CANSimulatorFloodMode.includeLoop
    by_cases hs : name ∈ source
    · have hc : source.contains name = true := (contains_iff_mem _ _).2 hs
      rw [if_pos hc]
      cases hf : CANSimulatorFloodMode.isSignalFiltered core name with
      | false =>
        simp only [Bool.not_false, if_true]
        rw [ih, mem_insertName, List.mem_cons]
        constructor
        · rintro ((h | h) | h)
          · subst h; exact Or.inr ⟨Or.inl rfl, hs, hf⟩
          · exact Or.inl h
          · exact Or.inr ⟨Or.inr h.1, h.2⟩
        · rintro (h | ⟨h | h, h2⟩)
          · exact Or.inl (Or.inr h)
          · exact Or.inl (Or.inl h)
          · exact Or.inr ⟨h, h2⟩
      | true =>
        simp only [Bool.not_true, Bool.false_eq_true, if_false]
        rw [ih, List.mem_cons]
        constructor
        · rintro (h | h)
          · exact Or.inl h
          · exact Or.inr ⟨Or.inr h.1, h.2⟩
        · rintro (h | ⟨h | h, h2⟩)
          · exact Or.inl h
          · subst h; rw [hf] at h2; cases h2.2
          · exact Or.inr ⟨h, h2⟩
    · have hc : ¬ source.contains name = true := fun hc => hs ((contains_iff_mem _ _).1 hc)
      rw [if_neg hc, ih, List.mem_cons]
      constructor
      · rintro (h | h)
        · exact Or.inl h
        · exact Or.inr ⟨Or.inr h.1, h.2⟩
      · rintro (h | ⟨h | h, h2⟩)
        · exact Or.inl h
        · subst h; exact absurd h2.1 hs
        · exact Or.inr ⟨h, h2⟩

theorem mem_excludeLoop (core : CANSimulatorCore) (excludeList : List String) (x : String) :
    ∀ (source active : List String),
      x ∈ CANSimulatorFloodMode.excludeLoop core excludeList source active ↔
        x ∈ active ∨ (x ∈ source ∧ x ∉ excludeList ∧
          CANSimulatorFloodMode.isSignalFiltered core x = false) := by
  intro source
  induction source with
  | nil => intro active; simp [CANSimulatorFloodMode.excludeLoop]
  | cons name rest ih =>
    intro active
    unfold CANSimulatorFloodMode.excludeLoop
    by_cases hs : name ∈ excludeList
    · have hc : excludeList.contains name = true := (contains_iff_mem _ _).2 hs
      simp only [hc, Bool.not_true, Bool.false_eq_true, if_false]
      rw [ih, List.mem_cons]
      constructor
      · rintro (h | h)
        · exact Or.inl h
        · exact Or.inr ⟨Or.inr h.1, h.2⟩
      · rintro (h | ⟨h | h, h2⟩)
        · exact Or.inl h
        · subst h; exact absurd hs h2.1
        · exact Or.inr ⟨h, h2⟩
    · have hc : excludeList.contains name = false := by
        cases hc : excludeList.contains name with
        | false => rfl
        | true => exact absurd ((contains_iff_mem _ _).1 hc) hs
      simp only [hc, Bool.not_false, if_true]
      cases hf : CANSimulatorFloodMode.isSignalFiltered core name with
      | false =>
        simp only [Bool.not_false, if_true]
        rw [ih, mem_insertName, List.mem_cons]
        constructor
        · rintro ((h | h) | h)
          · subst h; exact Or.inr ⟨Or.inl rfl, hs, hf⟩
          · exact Or.inl h
          · exact Or.inr ⟨Or.inr h.1, h.2⟩
        · rintro (h | ⟨h | h, h2⟩)
          · exact Or.inl (Or.inr h)
          · exact Or.inl (Or.inl h)
          · exact Or.inr ⟨h, h2⟩
      | true =>
        simp only [Bool.not_true, Bool.false_eq_true, if_false]
        rw [ih, List.mem_cons]
        constructor
        · rintro (h | h)
          · exact Or.inl h
          · exact Or.inr ⟨Or.inr h.1, h.2⟩
        · rintro (h | ⟨h | h, h2⟩)
          · exact Or.inl h
          · subst h; rw [hf] at h2; cases h2.2
          · exact Or.inr ⟨h, h2⟩


theorem setDelayString_variables (stoi : String → Option ℤ) (fm fm1 : CANSimulatorFloodMode)
    (v : String) (h : fm.setDelayString stoi v = some fm1) : fm1.m_variables = fm.m_variables := by
  unfold CANSimulatorFloodMode.setDelayString at h
  cases hs : stoi v with
  | none => rw [hs] at h; cases h
  | some n =>
    rw [hs] at h
    simp only [Option.some.injEq] at h
    subst h; rfl

theorem setRateString_variables (stoi : String → Option ℤ) (fm fm1 : CANSimulatorFloodMode)
    (v : String) (h : fm.setRateString stoi v = some fm1) : fm1.m_variables = fm.m_variables := by
  unfold CANSimulatorFloodMode.setRateString at h
  cases hs : stoi v with
  | none => rw [hs] at h; cases h
  | some n =>
    rw [hs] at h
    simp only [Option.some.injEq] at h
    subst h
    unfold CANSimulatorFloodMode.setRate CANSimulatorFloodMode.calculateRateFactor
    simp only
    split_ifs <;> rfl

theorem setBurstLenString_variables (stoi : String → Option ℤ) (fm fm1 : CANSimulatorFloodMode)
    (v : String) (h : fm.setBurstLenString stoi v = some fm1) :
    fm1.m_variables = fm.m_variables := by
  unfold CANSimulatorFloodMode.setBurstLenString at h
  cases hs : stoi v with
  | none => rw [hs] at h; cases h
  | some n =>
    rw [hs] at h
    simp only [Option.some.injEq] at h
    subst h
    unfold CANSimulatorFloodMode.setBurstLen
    simp only
    split <;> rfl

theorem setBurstDelayString_variables (stoi : String → Option ℤ) (fm fm1 : CANSimulatorFloodMode)
    (v : String) (h : fm.setBurstDelayString stoi v = some fm1) :
    fm1.m_variables = fm.m_variables := by
  unfold CANSimulatorFloodMode.setBurstDelayString at h
  cases hs : stoi v with
  | none => rw [hs] at h; cases h
  | some n =>
    rw [hs] at h
    simp only [Option.some.injEq] at h
    subst h
    unfold CANSimulatorFloodMode.setBurstDelay
    simp only
    split <;> rfl

theorem setter_map (fm : CANSimulatorFloodMode) (r : Option CANSimulatorFloodMode)
    (a b : Bool) (st : Bool × Bool × CANSimulatorFloodMode)
    (hr : ∀ fm1, r = some fm1 → fm1.m_variables = fm.m_variables)
    (h : r.map (fun fm1 => (a, b, fm1)) = some st) :
    st.2.1 = b ∧ st.2.2.m_variables = fm.m_variables := by
  cases r with
  | none => cases h
  | some fm1 =>
    simp only [Option.map_some', Option.some.injEq] at h
    subst h
    exact ⟨rfl, hr fm1 rfl⟩

/-- A parameter that is not handed to `checkIncludedMessages` or
`removeExcludedMessages` leaves `variablesInited` and the active set as they
are. -/
theorem processFloodParam_other (stoi : String → Option ℤ) (core : CANSimulatorCore)
    (st st1 : Bool × Bool × CANSimulatorFloodMode) (p : String)
    (hsel : selectsSignals p = false)
    (h : CANSimulatorFloodMode.processFloodParam stoi core st p = some st1) :
    st1.2.1 = st.2.1 ∧ st1.2.2.m_variables = st.2.2.m_variables := by
  unfold CANSimulatorFloodMode.processFloodParam at h
  by_cases hl : p.length = 0
  · rw [if_pos hl] at h
    simp only [Option.some.injEq] at h
    subst h; exact ⟨rfl, rfl⟩
  · rw [if_neg hl] at h
    unfold selectsSignals at hsel
    have hdelay := fun (a : Bool) (h : (st.2.2.setDelayString stoi p).map
        (fun fm1 => (a, st.2.1, fm1)) = some st1) =>
      setter_map st.2.2 _ a st.2.1 st1 (fun fm1 => setDelayString_variables stoi _ fm1 p) h
    rcases hsp : split p '=' with _ | ⟨name, _ | ⟨value, _ | ⟨c, d⟩⟩⟩
    · rw [hsp] at h; exact hdelay _ h
    · rw [hsp] at h; exact hdelay _ h
    · rw [hsp] at h hsel
      simp only [Bool.or_eq_false_iff, decide_eq_false_iff_not] at hsel
      simp only at h
      split at h
      · exact setter_map st.2.2 _ _ _ st1 (fun fm1 => setDelayString_variables stoi _ fm1 _) h
      split at h
      · exact setter_map st.2.2 _ _ _ st1 (fun fm1 => setRateString_variables stoi _ fm1 _) h
      split at h
      · exact setter_map st.2.2 _ _ _ st1 (fun fm1 => setBurstLenString_variables stoi _ fm1 _) h
      split at h
      · exact setter_map st.2.2 _ _ _ st1
          (fun fm1 => setBurstDelayString_variables stoi _ fm1 _) h
      split at h
      · rename_i hn; exact absurd hn hsel.1
      split at h
      · rename_i hn; exact absurd hn hsel.2
      · simp only [Option.some.injEq] at h
        subst h; exact ⟨rfl, rfl⟩
    · rw [hsp] at h; exact hdelay _ h

theorem processLoop_other (stoi : String → Option ℤ) (core : CANSimulatorCore) :
    ∀ (input : List String) (st st1 : Bool × Bool × CANSimulatorFloodMode),
      (∀ p ∈ input, selectsSignals p = false) →
      CANSimulatorFloodMode.processLoop stoi core input st = some st1 →
      st1.2.1 = st.2.1 ∧ st1.2.2.m_variables = st.2.2.m_variables := by
  intro input
  induction input with
  | nil =>
    intro st st1 _ h
    simp only [CANSimulatorFloodMode.processLoop, Option.some.injEq] at h
    subst h; exact ⟨rfl, rfl⟩
  | cons p rest ih =>
    intro st st1 hsel h
    unfold CANSimulatorFloodMode.processLoop at h
    cases hp : CANSimulatorFloodMode.processFloodParam stoi core st p with
    | none => rw [hp] at h; cases h
    | some st2 =>
      rw [hp] at h
      simp only at h
      obtain ⟨h1, h2⟩ := processFloodParam_other stoi core st st2 p
        (hsel p (List.mem_cons_self _ _)) hp
      obtain ⟨h3, h4⟩ := ih st2 st1 (fun q hq => hsel q (List.mem_cons_of_mem _ hq)) h
      exact ⟨h3.trans h1, h4.trans h2⟩

theorem processLoop_append (stoi : String → Option ℤ) (core : CANSimulatorCore) :
    ∀ (a b : List String) (st : Bool × Bool × CANSimulatorFloodMode),
      CANSimulatorFloodMode.processLoop stoi core (a ++ b) st =
        (CANSimulatorFloodMode.processLoop stoi core a st).bind
          (CANSimulatorFloodMode.processLoop stoi core b) := by
  intro a
  induction a with
  | nil => intro b st; rfl
  | cons p rest ih =>
    intro b st
    simp only [List.cons_append, CANSimulatorFloodMode.processLoop]
    cases hp : CANSimulatorFloodMode.processFloodParam stoi core st p with
    | none => rfl
    | some st2 => simp only [Option.some_bind]; exact ih b st2

/-- Every parameter keeps the active signals within the eligible ones. -/
theorem processFloodParam_eligible (stoi : String → Option ℤ) (core : CANSimulatorCore)
    (st st1 : Bool × Bool × CANSimulatorFloodMode) (p : String)
    (hin : ∀ name ∈ st.2.2.m_variables, name ∈ eligible core)
    (h : CANSimulatorFloodMode.processFloodParam stoi core st p = some st1) :
    ∀ name ∈ st1.2.2.m_variables, name ∈ eligible core := by
  cases hsel : selectsSignals p with
  | false =>
    rw [(processFloodParam_other stoi core st st1 p hsel h).2]; exact hin
  | true =>
    unfold selectsSignals at hsel
    unfold CANSimulatorFloodMode.processFloodParam at h
    by_cases hl : p.length = 0
    · rw [if_pos hl] at h
      simp only [Option.some.injEq] at h
      subst h; exact hin
    · rw [if_neg hl] at h
      rcases hsp : split p '=' with _ | ⟨name, _ | ⟨value, _ | ⟨c, d⟩⟩⟩
      · rw [hsp] at hsel; simp at hsel
      · rw [hsp] at hsel; simp at hsel
      · rw [hsp] at h hsel
        simp only [Bool.or_eq_true, decide_eq_true_eq] at hsel
        simp only at h
        rcases hsel with hn | hn
        · subst hn
          simp only [show ¬ ("include" = "delay") by decide, show ¬ ("include" = "rate") by decide,
            show ¬ ("include" = "burst-len") by decide,
            show ¬ ("include" = "burst-delay") by decide, if_false, if_true,
            Option.some.injEq] at h
          subst h
          intro x hx
          simp only [CANSimulatorFloodMode.checkIncludedMessages] at hx
          rw [mem_includeLoop] at hx
          rcases hx with hx | hx
          · exact hin x hx
          · exact (mem_eligible core x).2 hx.2
        · subst hn
          simp only [show ¬ ("exclude" = "delay") by decide, show ¬ ("exclude" = "rate") by decide,
            show ¬ ("exclude" = "burst-len") by decide,
            show ¬ ("exclude" = "burst-delay") by decide,
            show ¬ ("exclude" = "include") by decide, if_false, if_true,
            Option.some.injEq] at h
          subst h
          intro x hx
          simp only [CANSimulatorFloodMode.removeExcludedMessages] at hx
          rw [mem_excludeLoop] at hx
          rcases hx with hx | hx
          · exact hin x hx
          · exact (mem_eligible core x).2 ⟨hx.1, hx.2.2⟩
      · rw [hsp] at hsel; simp at hsel

theorem processLoop_eligible (stoi : String → Option ℤ) (core : CANSimulatorCore) :
    ∀ (input : List String) (st st1 : Bool × Bool × CANSimulatorFloodMode),
      (∀ name ∈ st.2.2.m_variables, name ∈ eligible core) →
      CANSimulatorFloodMode.processLoop stoi core input st = some st1 →
      ∀ name ∈ st1.2.2.m_variables, name ∈ eligible core := by
  intro input
  induction input with
  | nil =>
    intro st st1 hin h
    simp only [CANSimulatorFloodMode.processLoop, Option.some.injEq] at h
    subst h; exact hin
  | cons p rest ih =>
    intro st st1 hin h
    unfold CANSimulatorFloodMode.processLoop at h
    cases hp : CANSimulatorFloodMode.processFloodParam stoi core st p with
    | none => rw [hp] at h; cases h
    | some st2 =>
      rw [hp] at h
      exact ih st2 st1 (processFloodParam_eligible stoi core st st2 p hin hp) h

theorem mem_filterSignals (fm : CANSimulatorFloodMode) (core : CANSimulatorCore) (x : String) :
    x ∈ (fm.filterSignals core core.getVariables).2.m_variables ↔
      x ∈ fm.m_variables ∨ x ∈ eligible core := by
  simp only [CANSimulatorFloodMode.filterSignals]
  rw [mem_filterLoop, mem_eligible]


theorem split_of_length_zero (p : String) (delim : Char) (h : p.length = 0) :
    split p delim = [] := by
  have hd : p.data = [] := List.length_eq_zero.1 h
  unfold split
  rw [hd]
  rfl

/-- What one parameter does to `variablesInited` and to the active set: it
leaves them as they are, or it is an `include` or an `exclude` parameter. -/
theorem processFloodParam_cases (stoi : String → Option ℤ) (core : CANSimulatorCore)
    (st st1 : Bool × Bool × CANSimulatorFloodMode) (p : String)
    (h : CANSimulatorFloodMode.processFloodParam stoi core st p = some st1) :
    (selectsSignals p = false ∧ st1.2.1 = st.2.1 ∧
      st1.2.2.m_variables = st.2.2.m_variables) ∨
    (∃ v, split p '=' = ["include", v] ∧
      st1 = (st.1, (st.2.2.checkIncludedMessages core (split v ',') core.getVariables).1,
        (st.2.2.checkIncludedMessages core (split v ',') core.getVariables).2)) ∨
    (∃ v, split p '=' = ["exclude", v] ∧
      st1 = (st.1, (st.2.2.removeExcludedMessages core (split v ',') core.getVariables).1,
        (st.2.2.removeExcludedMessages core (split v ',') core.getVariables).2)) := by
  cases hsel : selectsSignals p with
  | false => exact Or.inl ⟨rfl, processFloodParam_other stoi core st st1 p hsel h⟩
  | true =>
    right
    unfold selectsSignals at hsel
    unfold CANSimulatorFloodMode.processFloodParam at h
    by_cases hl : p.length = 0
    · rw [split_of_length_zero p _ hl] at hsel
      simp at hsel
    · rw [if_neg hl] at h
      rcases hsp : split p '=' with _ | ⟨name, _ | ⟨value, _ | ⟨c, d⟩⟩⟩
      · rw [hsp] at hsel; simp at hsel
      · rw [hsp] at hsel; simp at hsel
      · rw [hsp] at h hsel
        simp only [Bool.or_eq_true, decide_eq_true_eq] at hsel
        simp only at h
        rcases hsel with hn | hn
        · subst hn
          simp only [show ¬ ("include" = "delay") by decide, show ¬ ("include" = "rate") by decide,
            show ¬ ("include" = "burst-len") by decide,
            show ¬ ("include" = "burst-delay") by decide, if_false, if_true,
            Option.some.injEq] at h
          exact Or.inl ⟨value, rfl, h.symm⟩
        · subst hn
          simp only [show ¬ ("exclude" = "delay") by decide, show ¬ ("exclude" = "rate") by decide,
            show ¬ ("exclude" = "burst-len") by decide,
            show ¬ ("exclude" = "burst-delay") by decide,
            show ¬ ("exclude" = "include") by decide, if_false, if_true,
            Option.some.injEq] at h
          exact Or.inr ⟨value, rfl, h.symm⟩
      · rw [hsp] at hsel; simp at hsel

theorem processFloodParam_include (stoi : String → Option ℤ) (core : CANSimulatorCore)
    (st : Bool × Bool × CANSimulatorFloodMode) (p v : String)
    (hp : split p '=' = ["include", v]) :
    CANSimulatorFloodMode.processFloodParam stoi core st p =
      some (st.1, (st.2.2.checkIncludedMessages core (split v ',') core.getVariables).1,
        (st.2.2.checkIncludedMessages core (split v ',') core.getVariables).2) := by
  have hl : ¬ p.length = 0 := by
    intro hl
    rw [split_of_length_zero p _ hl] at hp
    cases hp
  unfold CANSimulatorFloodMode.processFloodParam
  rw [if_neg hl, hp]
  simp only [show ¬ ("include" = "delay") by decide, show ¬ ("include" = "rate") by decide,
    show ¬ ("include" = "burst-len") by decide,
    show ¬ ("include" = "burst-delay") by decide, if_false, if_true]

theorem processFloodParam_exclude (stoi : String → Option ℤ) (core : CANSimulatorCore)
    (st : Bool × Bool × CANSimulatorFloodMode) (p v : String)
    (hp : split p '=' = ["exclude", v]) :
    CANSimulatorFloodMode.processFloodParam stoi core st p =
      some (st.1, (st.2.2.removeExcludedMessages core (split v ',') core.getVariables).1,
        (st.2.2.removeExcludedMessages core (split v ',') core.getVariables).2) := by
  have hl : ¬ p.length = 0 := by
    intro hl
    rw [split_of_length_zero p _ hl] at hp
    cases hp
  unfold CANSimulatorFloodMode.processFloodParam
  rw [if_neg hl, hp]
  simp only [show ¬ ("exclude" = "delay") by decide, show ¬ ("exclude" = "rate") by decide,
    show ¬ ("exclude" = "burst-len") by decide,
    show ¬ ("exclude" = "burst-delay") by decide,
    show ¬ ("exclude" = "include") by decide, if_false, if_true]

/-- While the parameters are processed, `variablesInited` is set only when the
active set is not empty. -/
theorem processLoop_inited (stoi : String → Option ℤ) (core : CANSimulatorCore) :
    ∀ (input : List String) (st st1 : Bool × Bool × CANSimulatorFloodMode),
      (st.2.1 = true → st.2.2.m_variables ≠ []) →
      CANSimulatorFloodMode.processLoop stoi core input st = some st1 →
      (st1.2.1 = true → st1.2.2.m_variables ≠ []) := by
  intro input
  induction input with
  | nil =>
    intro st st1 hin h
    simp only [CANSimulatorFloodMode.processLoop, Option.some.injEq] at h
    subst h; exact hin
  | cons p rest ih =>
    intro st st1 hin h
    unfold CANSimulatorFloodMode.processLoop at h
    cases hp : CANSimulatorFloodMode.processFloodParam stoi core st p with
    | none => rw [hp] at h; cases h
    | some st2 =>
      rw [hp] at h
      refine ih st2 st1 ?_ h
      rcases processFloodParam_cases stoi core st st2 p hp with ⟨_, h1, h2⟩ | ⟨v, _, h1⟩ |
        ⟨v, _, h1⟩
      · rw [h1, h2]; exact hin
      · subst h1
        simp only [CANSimulatorFloodMode.checkIncludedMessages]
        intro ht
        split at ht
        · cases ht
        · rename_i hlen
          intro hnil; exact hlen (by rw [hnil]; rfl)
      · subst h1
        simp only [CANSimulatorFloodMode.removeExcludedMessages]
        intro ht
        split at ht
        · cases ht
        · rename_i hlen
          intro hnil; exact hlen (by rw [hnil]; rfl)

/-- What a successful construction from a list of parameters says about the
loop over the parameters. -/
theorem construct_some (stoi : String → Option ℤ) (core : CANSimulatorCore) (bitrate : ℤ)
    (ps : List String) (fm : CANSimulatorFloodMode)
    (h : CANSimulatorFloodMode.construct stoi (some core) bitrate (some ps) = some fm) :
    ∃ st, CANSimulatorFloodMode.processLoop stoi core ps
        (true, false, CANSimulatorFloodMode.initial bitrate) = some st ∧
      fm = (if st.2.1 = false then (st.2.2.filterSignals core core.getVariables).2 else st.2.2) ∧
      fm.m_variables ≠ [] := by
  unfold CANSimulatorFloodMode.construct CANSimulatorFloodMode.processFloodParams at h
  simp only at h
  cases hl : CANSimulatorFloodMode.processLoop stoi core ps
      (true, false, CANSimulatorFloodMode.initial bitrate) with
  | none => rw [hl] at h; simp at h
  | some st =>
    obtain ⟨ret, inited, fm1⟩ := st
    rw [hl] at h
    refine ⟨_, rfl, ?_⟩
    cases inited with
    | false =>
      simp only [Bool.not_false, if_true, Option.map_some'] at h
      split at h
      · cases h
      · rename_i hlen
        simp only [Option.some.injEq] at h
        subst h
        exact ⟨rfl, fun hnil => hlen (by rw [hnil]; rfl)⟩
    | true =>
      simp only [Bool.not_true, Bool.false_eq_true, if_false, Option.map_some'] at h
      split at h
      · cases h
      · rename_i hlen
        simp only [Option.some.injEq] at h
        subst h
        exact ⟨rfl, fun hnil => hlen (by rw [hnil]; rfl)⟩

theorem initial_variables (bitrate : ℤ) :
    (CANSimulatorFloodMode.initial bitrate).m_variables = [] := rfl

/-- The active set after a construction from parameters of which exactly one
selects signals, where `sel` is the set that this parameter gives from the
empty set: `sel` if it is not empty, otherwise every eligible signal. -/
theorem construct_one_selection (stoi : String → Option ℤ) (core : CANSimulatorCore)
    (bitrate : ℤ) (fm : CANSimulatorFloodMode) (pre post : List String) (p : String)
    (sel : List String)
    (hpre : ∀ q ∈ pre, selectsSignals q = false) (hpost : ∀ q ∈ post, selectsSignals q = false)
    (hp : ∀ st : Bool × Bool × CANSimulatorFloodMode, st.2.2.m_variables = [] →
      ∃ st2, CANSimulatorFloodMode.processFloodParam stoi core st p = some st2 ∧
        st2.2.2.m_variables = sel ∧ st2.2.1 = (if sel.length = 0 then false else true))
    (h : CANSimulatorFloodMode.construct stoi (some core) bitrate (some (pre ++ p :: post)) =
      some fm) :
    (sel ≠ [] → fm.m_variables = sel) ∧
    (sel = [] → ∀ x, x ∈ fm.m_variables ↔ x ∈ eligible core) := by
  obtain ⟨st, hl, hfm, _⟩ := construct_some stoi core bitrate _ fm h
  rw [processLoop_append] at hl
  cases h1 : CANSimulatorFloodMode.processLoop stoi core pre
      (true, false, CANSimulatorFloodMode.initial bitrate) with
  | none => rw [h1] at hl; cases hl
  | some st1 =>
    rw [h1] at hl
    simp only [Option.some_bind] at hl
    obtain ⟨_, hv1⟩ := processLoop_other stoi core pre _ st1 hpre h1
    simp only [initial_variables] at hv1
    obtain ⟨st2, hp2, hv2, hi2⟩ := hp st1 hv1
    unfold CANSimulatorFloodMode.processLoop at hl
    rw [hp2] at hl
    simp only at hl
    obtain ⟨hi3, hv3⟩ := processLoop_other stoi core post st2 st hpost hl
    rw [hi2] at hi3
    rw [hv2] at hv3
    constructor
    · intro hsel
      have hlen : ¬ sel.length = 0 := fun hz => hsel (List.length_eq_zero.1 hz)
      rw [if_neg hlen] at hi3
      rw [hfm, hi3]
      simp only [Bool.true_eq_false, if_false]
      exact hv3
    · intro hsel
      have hlen : sel.length = 0 := by rw [hsel]; rfl
      rw [if_pos hlen] at hi3
      intro x
      rw [hfm, hi3]
      simp only [if_true]
      rw [mem_filterSignals, hv3, hsel]
      simp


theorem construct_eligible (stoi : String → Option ℤ) (core : CANSimulatorCore) (bitrate : ℤ)
    (input : Option (List String)) (fm : CANSimulatorFloodMode)
    (h : CANSimulatorFloodMode.construct stoi (some core) bitrate input = some fm) :
    ∀ x ∈ fm.m_variables, x ∈ eligible core := by
  cases input with
  | none =>
    unfold CANSimulatorFloodMode.construct at h
    simp only at h
    split at h
    · cases h
    · simp only [Option.some.injEq] at h
      subst h
      intro x hx
      rw [mem_filterSignals, initial_variables] at hx
      simpa using hx
  | some ps =>
    obtain ⟨st, hl, hfm, _⟩ := construct_some stoi core bitrate ps fm h
    have hin := processLoop_eligible stoi core ps _ st
      (by simp [initial_variables]) hl
    intro x hx
    rw [hfm] at hx
    split at hx
    · rw [mem_filterSignals] at hx
      rcases hx with hx | hx
      · exact hin x hx
      · exact hx
    · exact hin x hx

theorem construct_no_selection (stoi : String → Option ℤ) (core : CANSimulatorCore)
    (bitrate : ℤ) (ps : List String) (fm : CANSimulatorFloodMode)
    (hps : ∀ q ∈ ps, selectsSignals q = false)
    (h : CANSimulatorFloodMode.construct stoi (some core) bitrate (some ps) = some fm) :
    ∀ x, x ∈ fm.m_variables ↔ x ∈ eligible core := by
  obtain ⟨st, hl, hfm, _⟩ := construct_some stoi core bitrate ps fm h
  obtain ⟨hi, hv⟩ := processLoop_other stoi core ps _ st hps hl
  simp only [initial_variables] at hv
  simp only at hi
  intro x
  rw [hfm, hi]
  simp only [if_true]
  rw [mem_filterSignals, hv]
  simp

/-- C25 (amended): with `eligible` the configured variables whose message is
found and not filtered, the active set of a constructed flood mode is:
`eligible` when no parameter list is given or no parameter is `include` or
`exclude`; with one `include` parameter of list `L`, `L ∩ eligible` if that is
not empty and `eligible` otherwise; with one `exclude` parameter of list `L`,
`eligible \ L` if that is not empty and `eligible` otherwise.  In every case
each active signal is a configured variable that is not filtered. -/
theorem construct_active_signals (stoi : String → Option ℤ) (core : CANSimulatorCore)
    (bitrate : ℤ) (fm : CANSimulatorFloodMode) :
    (∀ input, CANSimulatorFloodMode.construct stoi (some core) bitrate input = some fm →
      ∀ x ∈ fm.m_variables, x ∈ core.getVariables ∧
        CANSimulatorFloodMode.isSignalFiltered core x = false) ∧
    (CANSimulatorFloodMode.construct stoi (some core) bitrate none = some fm →
      ∀ x, x ∈ fm.m_variables ↔ x ∈ eligible core) ∧
    (∀ ps, (∀ q ∈ ps, selectsSignals q = false) →
      CANSimulatorFloodMode.construct stoi (some core) bitrate (some ps) = some fm →
      ∀ x, x ∈ fm.m_variables ↔ x ∈ eligible core) ∧
    (∀ pre p post v, (∀ q ∈ pre, selectsSignals q = false) →
      (∀ q ∈ post, selectsSignals q = false) → split p '=' = ["include", v] →
      CANSimulatorFloodMode.construct stoi (some core) bitrate (some (pre ++ p :: post)) =
        some fm →
      ((∃ n ∈ split v ',', n ∈ eligible core) →
        ∀ x, x ∈ fm.m_variables ↔ x ∈ split v ',' ∧ x ∈ eligible core) ∧
      ((¬ ∃ n ∈ split v ',', n ∈ eligible core) →
        ∀ x, x ∈ fm.m_variables ↔ x ∈ eligible core)) ∧
    (∀ pre p post v, (∀ q ∈ pre, selectsSignals q = false) →
      (∀ q ∈ post, selectsSignals q = false) → split p '=' = ["exclude", v] →
      CANSimulatorFloodMode.construct stoi (some core) bitrate (some (pre ++ p :: post)) =
        some fm →
      ((∃ n ∈ eligible core, n ∉ split v ',') →
        ∀ x, x ∈ fm.m_variables ↔ x ∈ eligible core ∧ x ∉ split v ',') ∧
      ((¬ ∃ n ∈ eligible core, n ∉ split v ',') →
        ∀ x, x ∈ fm.m_variables ↔ x ∈ eligible core)) := by
  refine ⟨?_, ?_, ?_, ?_, ?_⟩
  · intro input h x hx
    exact (mem_eligible core x).1 (construct_eligible stoi core bitrate input fm h x hx)
  · intro h
    unfold CANSimulatorFloodMode.construct at h
    simp only at h
    split at h
    · cases h
    · simp only [Option.some.injEq] at h
      subst h
      intro x
      rw [mem_filterSignals, initial_variables]
      simp
  · intro ps hps h
    exact construct_no_selection stoi core bitrate ps fm hps h
  · intro pre p post v hpre hpost hp h
    have hmem : ∀ x, x ∈ CANSimulatorFloodMode.includeLoop core core.getVariables
        (split v ',') [] ↔ x ∈ split v ',' ∧ x ∈ eligible core := by
      intro x
      rw [mem_includeLoop, mem_eligible]
      simp
    obtain ⟨h1, h2⟩ := construct_one_selection stoi core bitrate fm pre post p
      (CANSimulatorFloodMode.includeLoop core core.getVariables (split v ',') []) hpre hpost
      (fun st hst => ⟨_, processFloodParam_include stoi core st p v hp, by
        simp only [CANSimulatorFloodMode.checkIncludedMessages, hst], by
        simp only [CANSimulatorFloodMode.checkIncludedMessages, hst]⟩) h
    constructor
    · rintro ⟨n, hn, hne⟩ x
      have hsel : CANSimulatorFloodMode.includeLoop core core.getVariables (split v ',') [] ≠
          [] := by
        intro hnil
        have := (hmem n).2 ⟨hn, hne⟩
        rw [hnil] at this
        cases this
      rw [h1 hsel]; exact hmem x
    · intro hno
      apply h2
      apply List.eq_nil_iff_forall_not_mem.2
      intro x hx
      exact hno ⟨x, ((hmem x).1 hx).1, ((hmem x).1 hx).2⟩
  · intro pre p post v hpre hpost hp h
    have hmem : ∀ x, x ∈ CANSimulatorFloodMode.excludeLoop core (split v ',')
        core.getVariables [] ↔ x ∈ eligible core ∧ x ∉ split v ',' := by
      intro x
      rw [mem_excludeLoop, mem_eligible]
      simp only [List.not_mem_nil, false_or]
      tauto
    obtain ⟨h1, h2⟩ := construct_one_selection stoi core bitrate fm pre post p
      (CANSimulatorFloodMode.excludeLoop core (split v ',') core.getVariables []) hpre hpost
      (fun st hst => ⟨_, processFloodParam_exclude stoi core st p v hp, by
        simp only [CANSimulatorFloodMode.removeExcludedMessages, hst], by
        simp only [CANSimulatorFloodMode.removeExcludedMessages, hst]⟩) h
    constructor
    · rintro ⟨n, hn, hne⟩ x
      have hsel : CANSimulatorFloodMode.excludeLoop core (split v ',') core.getVariables [] ≠
          [] := by
        intro hnil
        have := (hmem n).2 ⟨hn, hne⟩
        rw [hnil] at this
        cases this
      rw [h1 hsel]; exact hmem x
    · intro hno
      apply h2
      apply List.eq_nil_iff_forall_not_mem.2
      intro x hx
      exact hno ⟨x, ((hmem x).1 hx).1, ((hmem x).1 hx).2⟩


set_option maxRecDepth 100000 in
/-- Counterexample to C25: `exampleCore` has the eligible signals `speed` and
`temperature`; with `exclude=speed,temperature` nothing is left of them, yet
the flood mode is constructed and both are active. -/
theorem construct_exclude_all :
    eligible exampleCore = ["speed", "temperature"] ∧
    split "exclude=speed,temperature" '=' = ["exclude", "speed,temperature"] ∧
    (eligible exampleCore).filter (fun x => decide (x ∉ split "speed,temperature" ',')) = [] ∧
    (CANSimulatorFloodMode.construct stoiExample (some exampleCore) 500000
      (some ["exclude=speed,temperature"])).map (fun fm => fm.m_variables) =
      some ["speed", "temperature"] := by
  refine ⟨?_, ?_, ?_, ?_⟩ <;> decide

set_option maxRecDepth 100000 in
/-- The active set on `exampleCore` and on `filteredCore`, where the message
of `temperature` is filtered: without parameters, with an include list, with
an exclude list, and with an include list of a filtered signal only. -/
theorem construct_active_signals_examples :
    (CANSimulatorFloodMode.construct stoiExample (some exampleCore) 500000 none).map
      (fun fm => fm.m_variables) = some ["speed", "temperature"] ∧
    (CANSimulatorFloodMode.construct stoiExample (some filteredCore) 500000
      (some ["rate=100"])).map (fun fm => fm.m_variables) = some ["speed"] ∧
    (CANSimulatorFloodMode.construct stoiExample (some exampleCore) 500000
      (some ["include=temperature,nosuch", "100"])).map (fun fm => fm.m_variables) =
      some ["temperature"] ∧
    (CANSimulatorFloodMode.construct stoiExample (some exampleCore) 500000
      (some ["exclude=speed"])).map (fun fm => fm.m_variables) = some ["temperature"] ∧
    (CANSimulatorFloodMode.construct stoiExample (some filteredCore) 500000
      (some ["include=temperature"])).map (fun fm => fm.m_variables) = some ["speed"] := by
  refine ⟨?_, ?_, ?_, ?_, ?_⟩ <;> decide

/-- C26 (amended): the construction throws for a null core, when a setter for
a numeric parameter throws, and whenever no configured variable is eligible;
in every other case it succeeds with a non-empty active set.  An include list
none of whose entries is eligible does not make it fail while there are
eligible signals: all of them become active. -/
theorem construct_throws (stoi : String → Option ℤ) (core : CANSimulatorCore) (bitrate : ℤ) :
    (∀ input, CANSimulatorFloodMode.construct stoi none bitrate input = none) ∧
    (∀ input, eligible core = [] →
      CANSimulatorFloodMode.construct stoi (some core) bitrate input = none) ∧
    (∀ ps, CANSimulatorFloodMode.processLoop stoi core ps
        (true, false, CANSimulatorFloodMode.initial bitrate) = none →
      CANSimulatorFloodMode.construct stoi (some core) bitrate (some ps) = none) ∧
    (eligible core ≠ [] →
      ∃ fm, CANSimulatorFloodMode.construct stoi (some core) bitrate none = some fm ∧
        fm.m_variables ≠ []) ∧
    (∀ ps, eligible core ≠ [] →
      CANSimulatorFloodMode.processLoop stoi core ps
        (true, false, CANSimulatorFloodMode.initial bitrate) ≠ none →
      ∃ fm, CANSimulatorFloodMode.construct stoi (some core) bitrate (some ps) = some fm ∧
        fm.m_variables ≠ []) ∧
    (∀ p v, split p '=' = ["include", v] → (∀ n ∈ split v ',', n ∉ eligible core) →
      eligible core ≠ [] →
      ∃ fm, CANSimulatorFloodMode.construct stoi (some core) bitrate (some [p]) = some fm ∧
        ∀ x, x ∈ fm.m_variables ↔ x ∈ eligible core) := by
  have hsome : ∀ ps st, eligible core ≠ [] →
      CANSimulatorFloodMode.processLoop stoi core ps
        (true, false, CANSimulatorFloodMode.initial bitrate) = some st →
      ∃ fm, CANSimulatorFloodMode.construct stoi (some core) bitrate (some ps) = some fm ∧
        fm.m_variables ≠ [] := by
    intro ps st hel hl
    obtain ⟨ret, inited, fm1⟩ := st
    have hinv := processLoop_inited stoi core ps _ _ (by simp) hl
    unfold CANSimulatorFloodMode.construct CANSimulatorFloodMode.processFloodParams
    simp only [hl]
    cases inited with
    | false =>
      simp only [Bool.not_false, if_true, Option.map_some']
      have hne : (fm1.filterSignals core core.getVariables).2.m_variables ≠ [] := by
        intro hnil
        apply hel
        apply List.eq_nil_iff_forall_not_mem.2
        intro x hx
        have := (mem_filterSignals fm1 core x).2 (Or.inr hx)
        rw [hnil] at this
        cases this
      have hlen : ¬ (fm1.filterSignals core core.getVariables).2.m_variables.length = 0 :=
        fun hz => hne (List.length_eq_zero.1 hz)
      rw [if_neg hlen]
      exact ⟨_, rfl, hne⟩
    | true =>
      simp only [Bool.not_true, Bool.false_eq_true, if_false, Option.map_some']
      have hne : fm1.m_variables ≠ [] := hinv rfl
      have hlen : ¬ fm1.m_variables.length = 0 := fun hz => hne (List.length_eq_zero.1 hz)
      rw [if_neg hlen]
      exact ⟨_, rfl, hne⟩
  refine ⟨fun _ => rfl, ?_, ?_, ?_, ?_, ?_⟩
  · intro input hel
    cases hc : CANSimulatorFloodMode.construct stoi (some core) bitrate input with
    | none => rfl
    | some fm =>
      exfalso
      have hin := construct_eligible stoi core bitrate input fm hc
      have hne : fm.m_variables ≠ [] := by
        unfold CANSimulatorFloodMode.construct at hc
        simp only at hc
        split at hc
        · rename_i fm2 _
          split at hc
          · cases hc
          · rename_i hlen
            simp only [Option.some.injEq] at hc
            subst hc
            intro hnil; exact hlen (by rw [hnil]; rfl)
        · cases hc
      cases hv : fm.m_variables with
      | nil => exact hne hv
      | cons x rest =>
        have := hin x (by rw [hv]; exact List.mem_cons_self _ _)
        rw [hel] at this
        cases this
  · intro ps hl
    unfold CANSimulatorFloodMode.construct CANSimulatorFloodMode.processFloodParams
    simp only [hl, Option.map_none']
  · intro hel
    unfold CANSimulatorFloodMode.construct
    simp only
    have hne : ((CANSimulatorFloodMode.initial bitrate).filterSignals core
        core.getVariables).2.m_variables ≠ [] := by
      intro hnil
      apply hel
      apply List.eq_nil_iff_forall_not_mem.2
      intro x hx
      have := (mem_filterSignals (CANSimulatorFloodMode.initial bitrate) core x).2 (Or.inr hx)
      rw [hnil] at this
      cases this
    have hlen : ¬ ((CANSimulatorFloodMode.initial bitrate).filterSignals core
        core.getVariables).2.m_variables.length = 0 := fun hz => hne (List.length_eq_zero.1 hz)
    rw [if_neg hlen]
    exact ⟨_, rfl, hne⟩
  · intro ps hel hl
    cases hst : CANSimulatorFloodMode.processLoop stoi core ps
        (true, false, CANSimulatorFloodMode.initial bitrate) with
    | none => exact absurd hst hl
    | some st => exact hsome ps st hel hst
  · intro p v hp hnone hel
    have hl : CANSimulatorFloodMode.processLoop stoi core [p]
        (true, false, CANSimulatorFloodMode.initial bitrate) =
        some (true, ((CANSimulatorFloodMode.initial bitrate).checkIncludedMessages core
            (split v ',') core.getVariables).1,
          ((CANSimulatorFloodMode.initial bitrate).checkIncludedMessages core
            (split v ',') core.getVariables).2) := by
      simp only [CANSimulatorFloodMode.processLoop]
      rw [processFloodParam_include stoi core _ p v hp]
    obtain ⟨fm, hfm, _⟩ := hsome [p] _ hel hl
    refine ⟨fm, hfm, ?_⟩
    have h4 := (construct_one_selection stoi core bitrate fm [] [] p
      (CANSimulatorFloodMode.includeLoop core core.getVariables (split v ',') [])
      (by simp) (by simp)
      (fun st hst => ⟨_, processFloodParam_include stoi core st p v hp, by
        simp only [CANSimulatorFloodMode.checkIncludedMessages, hst], by
        simp only [CANSimulatorFloodMode.checkIncludedMessages, hst]⟩) hfm).2
    apply h4
    apply List.eq_nil_iff_forall_not_mem.2
    intro x hx
    rw [mem_includeLoop] at hx
    rcases hx with hx | hx
    · cases hx
    · exact hnone x hx.1 ((mem_eligible core x).2 hx.2)

set_option maxRecDepth 100000 in
/-- Counterexample to C26: on `exampleCore` the include list `nosuch` names no
configured variable, yet the construction succeeds and floods `speed` and
`temperature`. -/
theorem construct_include_unknown :
    split "include=nosuch" '=' = ["include", "nosuch"] ∧
    split "nosuch" ',' = ["nosuch"] ∧ "nosuch" ∉ exampleCore.getVariables ∧
    (CANSimulatorFloodMode.construct stoiExample (some exampleCore) 500000
      (some ["include=nosuch"])).map (fun fm => fm.m_variables) =
      some ["speed", "temperature"] := by
  refine ⟨?_, ?_, ?_, ?_⟩ <;> decide

set_option maxRecDepth 100000 in
/-- Cases of C26: with both messages filtered nothing is eligible and the
construction throws, also with an include list; a delay that is not a number
throws; `filteredCore` with an include list of the filtered signal only is
constructed. -/
theorem construct_throws_examples :
    CANSimulatorFloodMode.construct stoiExample
      (some { exampleCore with m_filterList := [(1, true), (2, true)] }) 500000 none = none ∧
    CANSimulatorFloodMode.construct stoiExample
      (some { exampleCore with m_filterList := [(1, true), (2, true)] }) 500000
      (some ["include=speed"]) = none ∧
    CANSimulatorFloodMode.construct stoiExample (some exampleCore) 500000
      (some ["delay=fast"]) = none ∧
    (CANSimulatorFloodMode.construct stoiExample (some filteredCore) 500000
      (some ["include=temperature"])).isSome = true := by
  refine ⟨?_, ?_, ?_, ?_⟩ <;> decide


set_option maxRecDepth 100000 in
/-- Witness for C25 (amended): on `exampleCore` the parameter `exclude=speed`
leaves `temperature` active. -/
theorem construct_active_signals_witness :
    ∀ x, x ∈ ["temperature"] ↔ x ∈ eligible exampleCore ∧ x ∉ split "speed" ',' :=
  ((construct_active_signals stoiExample exampleCore 500000
    { CANSimulatorFloodMode.initial 500000 with m_variables := ["temperature"] }).2.2.2.2
    [] "exclude=speed" [] "speed" (by decide) (by decide) (by decide) (by decide)).1
    ⟨"temperature", by decide, by decide⟩

set_option maxRecDepth 100000 in
/-- Witness for C26 (amended): on `exampleCore` the parameter `include=nosuch`
gives a flood mode whose active signals are the eligible ones. -/
theorem construct_throws_witness :
    ∃ fm, CANSimulatorFloodMode.construct stoiExample (some exampleCore) 500000
        (some ["include=nosuch"]) = some fm ∧
      ∀ x, x ∈ fm.m_variables ↔ x ∈ eligible exampleCore :=
  (construct_throws stoiExample exampleCore 500000).2.2.2.2.2 "include=nosuch" "nosuch"
    (by decide) (by decide) (by decide)

/-! ## Resetting a signal -/

/-- `Value::operator==` holds exactly between two equal values that are not
a NaN. -/
theorem Value_eq_iff (a b : Value) : Value.eq a b = true ↔ (a = b ∧ a ≠ Value.NaN) := by
  cases a <;> cases b <;> simp [Value.eq]

theorem Value_eq_self (v : Value) (hv : v ≠ Value.NaN) : Value.eq v v = true :=
  (Value_eq_iff v v).2 ⟨rfl, hv⟩

/-- What `resetValue` does when the default value is a NaN: it finds the
value different from the default value, whatever the value is. -/
theorem resetValue_nan (s : CANSignal) (setValue : Bool) (h : s.m_defaultValue = Value.NaN) :
    s.resetValue setValue =
      (true, { s with m_isValueSet := setValue, m_value := Value.NaN, m_modified := false }) := by
  have hne : Value.ne s.m_value s.m_defaultValue = true := by
    have : Value.eq s.m_value s.m_defaultValue = false := by
      rw [h]
      cases s.m_value <;> rfl
    unfold Value.ne
    rw [this]
    rfl
  unfold CANSignal.resetValue
  simp only [hne, if_true]
  rw [h]

/-- C28: for every signal state whose default value is not a NaN, after one
call of `resetValue` the value equals the default value, and a second call
with the same argument returns false and leaves the signal exactly as the
first call left it; but when the default value is a NaN, every call returns
true, also the second one, which finds the value already the NaN and changes
nothing. -/
theorem resetValue_twice (s : CANSignal) (setValue : Bool) :
    (s.m_defaultValue ≠ Value.NaN →
      Value.eq (s.resetValue setValue).2.m_value (s.resetValue setValue).2.m_defaultValue
        = true ∧
      (s.resetValue setValue).2.resetValue setValue = (false, (s.resetValue setValue).2)) ∧
    (s.m_defaultValue = Value.NaN →
      s.resetValue setValue =
        (true, { s with
          m_isValueSet := setValue, m_value := Value.NaN, m_modified := false }) ∧
      (s.resetValue setValue).2.resetValue setValue = (true, (s.resetValue setValue).2)) := by
  constructor
  · intro hd
    by_cases h : Value.ne s.m_value s.m_defaultValue = true
    · obtain ⟨s1, hs1⟩ : ∃ s1 : CANSignal, s1 =
          { s with m_isValueSet := setValue, m_value := s.m_defaultValue, m_modified := false } :=
        ⟨_, rfl⟩
      have h1 : s.resetValue setValue = (true, s1) := by
        unfold CANSignal.resetValue
        simp only [h, if_true, hs1]
      rw [h1, hs1]
      refine ⟨Value_eq_self _ hd, ?_⟩
      unfold CANSignal.resetValue
      simp only [Value.ne, Value_eq_self _ hd, Bool.not_true, Bool.false_eq_true, if_false]
    · have h1 : s.resetValue setValue = (false, { s with m_isValueSet := setValue }) := by
        unfold CANSignal.resetValue
        simp only [h, Bool.false_eq_true, if_false]
      have h2 : Value.eq s.m_value s.m_defaultValue = true := by
        unfold Value.ne at h
        simpa using h
      rw [h1]
      refine ⟨h2, ?_⟩
      unfold CANSignal.resetValue
      simp only [h, Bool.false_eq_true, if_false]
  · intro hd
    have h1 := resetValue_nan s setValue hd
    refine ⟨h1, ?_⟩
    rw [h1]
    exact resetValue_nan _ setValue hd

set_option maxRecDepth 100000 in
/-- Witness for `resetValue_twice`: the 8-bit signal holding `5` with default
`0` is reset by the first call, which returns true, and the second call
returns false and changes nothing. -/
theorem resetValue_twice_witness :
    ({ signed8 0 with m_value := Value.Integer 5, m_modified := true }.resetValue true).1
      = true ∧
    ({ signed8 0 with m_value := Value.Integer 5, m_modified := true }.resetValue true).2.resetValue
      true =
      (false,
        ({ signed8 0 with m_value := Value.Integer 5, m_modified := true }.resetValue true).2) :=
  ⟨by decide,
    ((resetValue_twice { signed8 0 with m_value := Value.Integer 5, m_modified := true }
      true).1 (by decide)).2⟩

set_option maxRecDepth 100000 in
/-- C28 at the failing input: the signal of value type `double` accepts the
default value `nan`; the first `resetValue` then returns true and sets the
value to the NaN, and the second call with the same argument returns true
again although it leaves the signal as it is. -/
theorem resetValue_twice_nan :
    (tenthSignal.setDefaultValue stoldBelowHalf true "nan").1 = true ∧
    (tenthSignal.setDefaultValue stoldBelowHalf true "nan").2.m_defaultValue = Value.NaN ∧
    ((tenthSignal.setDefaultValue stoldBelowHalf true "nan").2.resetValue true).1 = true ∧
    ((tenthSignal.setDefaultValue stoldBelowHalf true "nan").2.resetValue true).2.m_value
      = Value.NaN ∧
    (((tenthSignal.setDefaultValue stoldBelowHalf true "nan").2.resetValue true).2.resetValue
      true) =
      (true, ((tenthSignal.setDefaultValue stoldBelowHalf true "nan").2.resetValue true).2) := by
  decide

/-! ## Replay of a log -/

theorem replayDue_it (core : CANSimulatorCore) (t : ℕ) :
    ∀ (items : List canFrameQueueItem) (it : ℕ),
      it ≤ (core.replayDue t items it).2 ∧ (core.replayDue t items it).2 ≤ it + items.length := by
  intro items
  induction items with
  | nil => intro it; simp [CANSimulatorCore.replayDue]
  | cons item rest ih =>
    intro it
    unfold CANSimulatorCore.replayDue
    by_cases h : item.timestamp ≤ t
    · rw [if_pos h]
      have := ih (it + 1)
      simp only [List.length_cons]
      omega
    · rw [if_neg h]; simp

theorem replayDue_visited (core : CANSimulatorCore) (t : ℕ) :
    ∀ (items : List canFrameQueueItem) (it j : ℕ),
      it + j < (core.replayDue t items it).2 →
      ∃ item, items[j]? = some item ∧ item.timestamp ≤ t := by
  intro items
  induction items with
  | nil => intro it j h; simp [CANSimulatorCore.replayDue] at h
  | cons item rest ih =>
    intro it j h
    unfold CANSimulatorCore.replayDue at h
    by_cases hts : item.timestamp ≤ t
    · rw [if_pos hts] at h
      simp only at h
      cases j with
      | zero => exact ⟨item, List.getElem?_cons_zero, hts⟩
      | succ j =>
        have := ih (it + 1) j (by omega)
        simpa using this
    · rw [if_neg hts] at h
      simp only at h
      omega

theorem replayDue_stop (core : CANSimulatorCore) (t : ℕ) :
    ∀ (items : List canFrameQueueItem) (it : ℕ) (item : canFrameQueueItem),
      items[(core.replayDue t items it).2 - it]? = some item → t < item.timestamp := by
  intro items
  induction items with
  | nil => intro it item h; simp at h
  | cons first rest ih =>
    intro it item h
    unfold CANSimulatorCore.replayDue at h
    by_cases hts : first.timestamp ≤ t
    · rw [if_pos hts] at h
      simp only at h
      have h1 := (replayDue_it core t rest (it + 1)).1
      have h2 : (core.replayDue t rest (it + 1)).2 - it =
          ((core.replayDue t rest (it + 1)).2 - (it + 1)) + 1 := by omega
      rw [h2, List.getElem?_cons_succ] at h
      exact ih (it + 1) item h
    · rw [if_neg hts] at h
      simp only [Nat.sub_self, List.getElem?_cons_zero, Option.some.injEq] at h
      subst h
      omega

theorem replayDue_sorted (core : CANSimulatorCore) (t : ℕ) :
    ∀ (items : List canFrameQueueItem) (it j : ℕ) (item : canFrameQueueItem),
      (items.map (fun i => i.timestamp)).Pairwise (fun a b => a ≤ b) →
      items[j]? = some item →
      (it + j < (core.replayDue t items it).2 ↔ item.timestamp ≤ t) := by
  intro items
  induction items with
  | nil => intro it j item _ h; simp at h
  | cons first rest ih =>
    intro it j item hs h
    simp only [List.map_cons, List.pairwise_cons] at hs
    unfold CANSimulatorCore.replayDue
    by_cases hts : first.timestamp ≤ t
    · rw [if_pos hts]
      simp only
      cases j with
      | zero =>
        simp only [List.getElem?_cons_zero, Option.some.injEq] at h
        subst h
        have := (replayDue_it core t rest (it + 1)).1
        constructor
        · intro _; exact hts
        · intro _; omega
      | succ j =>
        rw [List.getElem?_cons_succ] at h
        have := ih (it + 1) j item hs.2 h
        rw [← this]
        constructor <;> intro h' <;> omega
    · rw [if_neg hts]
      simp only
      constructor
      · intro h'; omega
      · intro h'
        exfalso
        cases j with
        | zero =>
          simp only [List.getElem?_cons_zero, Option.some.injEq] at h
          subst h
          exact hts h'
        | succ j =>
          rw [List.getElem?_cons_succ] at h
          have hmem : item.timestamp ∈ rest.map (fun i => i.timestamp) :=
            List.mem_map.2 ⟨item, List.getElem?_mem h, rfl⟩
          have := hs.1 _ hmem
          omega

theorem replayDue_mem (core : CANSimulatorCore) (t : ℕ) :
    ∀ (items : List canFrameQueueItem) (it p : ℕ),
      p ∈ (core.replayDue t items it).1 ↔
        it ≤ p ∧ p < (core.replayDue t items it).2 ∧
        ∃ item, items[p - it]? = some item ∧ item.inbound = true ∧
          core.isMessageFiltered item.frame.can_id = false := by
  intro items
  induction items with
  | nil =>
    intro it p
    simp only [CANSimulatorCore.replayDue, List.not_mem_nil, false_iff]
    rintro ⟨h1, h2, _⟩
    omega
  | cons first rest ih =>
    intro it p
    unfold CANSimulatorCore.replayDue
    by_cases hts : first.timestamp ≤ t
    · rw [if_pos hts]
      simp only
      have hit := (replayDue_it core t rest (it + 1)).1
      have hrest : p ∈ (core.replayDue t rest (it + 1)).1 ↔
          it + 1 ≤ p ∧ p < (core.replayDue t rest (it + 1)).2 ∧
          ∃ item, (first :: rest)[p - it]? = some item ∧ item.inbound = true ∧
            core.isMessageFiltered item.frame.can_id = false := by
        rw [ih (it + 1) p]
        constructor
        · rintro ⟨h1, h2, h3⟩
          refine ⟨h1, h2, ?_⟩
          have : p - it = (p - (it + 1)) + 1 := by omega
          rw [this, List.getElem?_cons_succ]; exact h3
        · rintro ⟨h1, h2, h3⟩
          refine ⟨h1, h2, ?_⟩
          have : p - it = (p - (it + 1)) + 1 := by omega
          rw [this, List.getElem?_cons_succ] at h3; exact h3
      by_cases hc : (first.inbound && !core.isMessageFiltered first.frame.can_id) = true
      · rw [if_pos hc]
        simp only [Bool.and_eq_true, Bool.not_eq_true', ] at hc
        rw [List.mem_cons, hrest]
        constructor
        · rintro (h | ⟨h1, h2, h3⟩)
          · subst h
            refine ⟨le_refl _, by omega, first, ?_, hc.1, hc.2⟩
            simp
          · exact ⟨by omega, h2, h3⟩
        · rintro ⟨h1, h2, h3⟩
          by_cases hp : p = it
          · exact Or.inl hp
          · exact Or.inr ⟨by omega, h2, h3⟩
      · rw [if_neg hc]
        rw [hrest]
        constructor
        · rintro ⟨h1, h2, h3⟩
          exact ⟨by omega, h2, h3⟩
        · rintro ⟨h1, h2, h3⟩
          by_cases hp : p = it
          · exfalso
            subst hp
            obtain ⟨item, hi, hin, hf⟩ := h3
            simp only [Nat.sub_self, List.getElem?_cons_zero, Option.some.injEq] at hi
            subst hi
            apply hc
            simp [hin, hf]
          · exact ⟨by omega, h2, h3⟩
    · rw [if_neg hts]
      simp only [List.not_mem_nil, false_iff]
      rintro ⟨h1, h2, _⟩
      omega

theorem replayDue_increasing (core : CANSimulatorCore) (t : ℕ) :
    ∀ (items : List canFrameQueueItem) (it : ℕ),
      (core.replayDue t items it).1.Pairwise (fun a b => a < b) := by
  intro items
  induction items with
  | nil => intro it; simp [CANSimulatorCore.replayDue]
  | cons first rest ih =>
    intro it
    unfold CANSimulatorCore.replayDue
    by_cases hts : first.timestamp ≤ t
    · rw [if_pos hts]
      simp only
      split
      · rw [List.pairwise_cons]
        refine ⟨?_, ih (it + 1)⟩
        intro p hp
        have := ((replayDue_mem core t rest (it + 1) p).1 hp).1
        omega
      · exact ih (it + 1)
    · rw [if_neg hts]; simp


theorem runTime_bound (runTime : ℤ) (h : 0 < runTime) :
    (((wrapNat 32 runTime * 1000) % 2 ^ 32 : ℕ) : ℤ) ≤ runTime * 1000 := by
  unfold wrapNat
  norm_num
  omega

/-- The transmissions of a replay from any state in which, while the replay
is running and a run time is configured, the clock is within the run time:
positions increase strictly and start at the iterator; each is a queue item
that is inbound, not filtered and within the run time. -/
theorem replayRun_spec (core : CANSimulatorCore) (interval runTime : ℤ) :
    ∀ (passes : ℕ) (state : ReplayState),
      (state.m_simulationRunning = true → 0 < runTime →
        state.m_simulationTime ≤ (wrapNat 32 runTime * 1000) % 2 ^ 32) →
      (core.replayRun interval runTime passes state).2.queue = state.queue ∧
      (core.replayRun interval runTime passes state).1.Pairwise (fun a b => a < b) ∧
      ∀ p ∈ (core.replayRun interval runTime passes state).1,
        state.it ≤ p ∧ ∃ item, state.queue[p]? = some item ∧ item.inbound = true ∧
          core.isMessageFiltered item.frame.can_id = false ∧
          (0 < runTime → item.timestamp ≤ (wrapNat 32 runTime * 1000) % 2 ^ 32) := by
  intro passes
  induction passes with
  | zero =>
    intro state _
    simp [CANSimulatorCore.replayRun]
  | succ passes ih =>
    intro state hinv
    unfold CANSimulatorCore.replayRun
    by_cases hrun : state.m_simulationRunning = true
    · rw [if_pos hrun]
      simp only
      have hinv2 : (core.replayTick interval runTime state).2.m_simulationRunning = true →
          0 < runTime → (core.replayTick interval runTime state).2.m_simulationTime ≤
            (wrapNat 32 runTime * 1000) % 2 ^ 32 := by
        intro hr hpos
        simp only [CANSimulatorCore.replayTick] at hr ⊢
        split at hr
        · cases hr
        · rename_i hstop
          simp only [Bool.or_eq_true, Bool.and_eq_true, decide_eq_true_eq, not_or, not_and,
            not_lt] at hstop
          exact hstop.2 hpos
      obtain ⟨hq, hpw, hmem⟩ := ih (core.replayTick interval runTime state).2 hinv2
      have hqt : (core.replayTick interval runTime state).2.queue = state.queue := rfl
      have hit : (core.replayTick interval runTime state).2.it =
          (core.replayDue state.m_simulationTime (state.queue.drop state.it) state.it).2 := rfl
      have h1 : (core.replayTick interval runTime state).1 =
          (core.replayDue state.m_simulationTime (state.queue.drop state.it) state.it).1 := rfl
      have hge := (replayDue_it core state.m_simulationTime (state.queue.drop state.it)
        state.it).1
      refine ⟨hq.trans hqt, ?_, ?_⟩
      · rw [List.pairwise_append]
        refine ⟨?_, hpw, ?_⟩
        · rw [h1]; exact replayDue_increasing _ _ _ _
        · intro a ha b hb
          rw [h1] at ha
          have h2 := ((replayDue_mem _ _ _ _ a).1 ha).2.1
          have h3 := (hmem b hb).1
          rw [hit] at h3
          omega
      · intro p hp
        rcases List.mem_append.1 hp with hp | hp
        · rw [h1] at hp
          obtain ⟨h2, h3, item, h4, h5, h6⟩ := (replayDue_mem _ _ _ _ p).1 hp
          rw [List.getElem?_drop] at h4
          have hidx : state.it + (p - state.it) = p := by omega
          rw [hidx] at h4
          refine ⟨h2, item, h4, h5, h6, ?_⟩
          intro hpos
          obtain ⟨item2, h7, h8⟩ := replayDue_visited core state.m_simulationTime
            (state.queue.drop state.it) state.it (p - state.it) (by omega)
          rw [List.getElem?_drop, hidx, h4] at h7
          simp only [Option.some.injEq] at h7
          subst h7
          exact le_trans h8 (hinv hrun hpos)
        · obtain ⟨h2, h3⟩ := hmem p hp
          rw [hit] at h2
          rw [hqt] at h3
          exact ⟨by omega, h3⟩
    · rw [if_neg hrun]
      simp


/-- Counterexample to C29: in the queue of an item with timestamp 100 followed
by an inbound, unfiltered item with timestamp 0, the first tick (clock 0)
visits and transmits nothing, although the second item is due. -/
theorem replayTick_unordered :
    (exampleCore.replayTick 10 0
      (CANSimulatorCore.replayStart [queueItem 100 true 1, queueItem 0 true 1])).2.it = 0 ∧
    (exampleCore.replayTick 10 0
      (CANSimulatorCore.replayStart [queueItem 100 true 1, queueItem 0 true 1])).1 = [] ∧
    (queueItem 0 true 1).timestamp ≤
      (CANSimulatorCore.replayStart [queueItem 100 true 1, queueItem 0 true 1]).m_simulationTime ∧
    (queueItem 0 true 1).inbound = true ∧
    exampleCore.isMessageFiltered (queueItem 0 true 1).frame.can_id = false := by
  refine ⟨?_, ?_, ?_, ?_, ?_⟩ <;> decide

/-- C29 (amended): in replay mode one sender tick visits, in queue order, the
not-yet-visited queue items up to the first whose timestamp is greater than
the simulated clock (exactly the not-yet-visited items with timestamp at most
the clock when the timestamps of the remaining queue ascend), transmits those
of them whose inbound flag is set and whose CAN ID is not filtered, then
advances the clock by the tick interval (modulo `2 ^ 64`); over a whole
replay of any number of passes the transmitted positions increase strictly,
so no queue item is transmitted twice, every transmitted item is inbound and
not filtered, and with a positive run time none has a timestamp greater than
`runTime * 1000`. -/
theorem replay_transmissions (core : CANSimulatorCore) (interval runTime : ℤ)
    (state : ReplayState) (queue : List canFrameQueueItem) (passes : ℕ) :
    (state.it ≤ (core.replayTick interval runTime state).2.it ∧
     (∀ p, state.it ≤ p → p < (core.replayTick interval runTime state).2.it →
        ∃ item, state.queue[p]? = some item ∧ item.timestamp ≤ state.m_simulationTime) ∧
     (∀ item, state.queue[(core.replayTick interval runTime state).2.it]? = some item →
        state.m_simulationTime < item.timestamp) ∧
     (((state.queue.drop state.it).map (fun i => i.timestamp)).Pairwise (fun a b => a ≤ b) →
        ∀ p item, state.it ≤ p → state.queue[p]? = some item →
          (p < (core.replayTick interval runTime state).2.it ↔
            item.timestamp ≤ state.m_simulationTime)) ∧
     (core.replayTick interval runTime state).1.Pairwise (fun a b => a < b) ∧
     (∀ p, p ∈ (core.replayTick interval runTime state).1 ↔
        state.it ≤ p ∧ p < (core.replayTick interval runTime state).2.it ∧
        ∃ item, state.queue[p]? = some item ∧ item.inbound = true ∧
          core.isMessageFiltered item.frame.can_id = false) ∧
     (core.replayTick interval runTime state).2.m_simulationTime =
        (state.m_simulationTime + wrapNat 64 interval) % 2 ^ 64 ∧
     (0 ≤ interval → (state.m_simulationTime : ℤ) + interval < 2 ^ 64 →
        ((core.replayTick interval runTime state).2.m_simulationTime : ℤ) =
          state.m_simulationTime + interval)) ∧
    ((core.replayRun interval runTime passes (CANSimulatorCore.replayStart queue)).1.Pairwise
        (fun a b => a < b) ∧
     ∀ p ∈ (core.replayRun interval runTime passes (CANSimulatorCore.replayStart queue)).1,
        ∃ item, queue[p]? = some item ∧ item.inbound = true ∧
          core.isMessageFiltered item.frame.can_id = false ∧
          (0 < runTime → (item.timestamp : ℤ) ≤ runTime * 1000)) := by
  have hit : (core.replayTick interval runTime state).2.it =
      (core.replayDue state.m_simulationTime (state.queue.drop state.it) state.it).2 := rfl
  have h1 : (core.replayTick interval runTime state).1 =
      (core.replayDue state.m_simulationTime (state.queue.drop state.it) state.it).1 := rfl
  have hge := (replayDue_it core state.m_simulationTime (state.queue.drop state.it)
    state.it).1
  refine ⟨⟨?_, ?_, ?_, ?_, ?_, ?_, rfl, ?_⟩, ?_, ?_⟩
  · rw [hit]; exact hge
  · intro p hp1 hp2
    rw [hit] at hp2
    obtain ⟨item, h2, h3⟩ := replayDue_visited core state.m_simulationTime
      (state.queue.drop state.it) state.it (p - state.it) (by omega)
    rw [List.getElem?_drop] at h2
    have hidx : state.it + (p - state.it) = p := by omega
    rw [hidx] at h2
    exact ⟨item, h2, h3⟩
  · intro item h
    rw [hit] at h
    apply replayDue_stop core state.m_simulationTime (state.queue.drop state.it) state.it item
    rw [List.getElem?_drop]
    have hidx : state.it + ((core.replayDue state.m_simulationTime
        (state.queue.drop state.it) state.it).2 - state.it) =
        (core.replayDue state.m_simulationTime (state.queue.drop state.it) state.it).2 := by
      omega
    rw [hidx]; exact h
  · intro hs p item hp h
    rw [hit]
    have hidx : state.it + (p - state.it) = p := by omega
    have h2 : (state.queue.drop state.it)[p - state.it]? = some item := by
      rw [List.getElem?_drop, hidx]; exact h
    have := replayDue_sorted core state.m_simulationTime (state.queue.drop state.it) state.it
      (p - state.it) item hs h2
    rw [hidx] at this
    exact this
  · rw [h1]; exact replayDue_increasing _ _ _ _
  · intro p
    rw [h1, hit, replayDue_mem]
    constructor
    · rintro ⟨h2, h3, item, h4, h5⟩
      rw [List.getElem?_drop] at h4
      have hidx : state.it + (p - state.it) = p := by omega
      rw [hidx] at h4
      exact ⟨h2, h3, item, h4, h5⟩
    · rintro ⟨h2, h3, item, h4, h5⟩
      refine ⟨h2, h3, item, ?_, h5⟩
      rw [List.getElem?_drop]
      have hidx : state.it + (p - state.it) = p := by omega
      rw [hidx]; exact h4
  · intro h0 hlt
    have hw : wrapNat 64 interval = interval.toNat := by
      apply wrapNat_of_range 64 interval h0
      have : (0 : ℤ) ≤ state.m_simulationTime := Int.natCast_nonneg _
      linarith
    show (((state.m_simulationTime + wrapNat 64 interval) % 2 ^ 64 : ℕ) : ℤ) = _
    rw [hw]
    have hlt2 : state.m_simulationTime + interval.toNat < 2 ^ 64 := by
      have : ((state.m_simulationTime + interval.toNat : ℕ) : ℤ) < 2 ^ 64 := by
        push_cast
        rw [Int.toNat_of_nonneg h0]; exact hlt
      exact_mod_cast this
    rw [Nat.mod_eq_of_lt hlt2]
    push_cast
    rw [Int.toNat_of_nonneg h0]
  · exact (replayRun_spec core interval runTime passes (CANSimulatorCore.replayStart queue)
      (fun _ _ => Nat.zero_le _)).2.1
  · intro p hp
    obtain ⟨_, item, h2, h3, h4, h5⟩ :=
      (replayRun_spec core interval runTime passes (CANSimulatorCore.replayStart queue)
        (fun _ _ => Nat.zero_le _)).2.2 p hp
    refine ⟨item, h2, h3, h4, ?_⟩
    intro hpos
    have h6 : ((item.timestamp : ℕ) : ℤ) ≤ (((wrapNat 32 runTime * 1000) % 2 ^ 32 : ℕ) : ℤ) := by
      exact_mod_cast h5 hpos
    exact le_trans h6 (runTime_bound runTime hpos)

/-- Witness for C29 (amended): a queue with ascending timestamps replayed on
`filteredCore`, where message 2 is filtered; at clock 10 the tick from
position 1 visits the items with timestamp 5 and stops before the item with
timestamp 20. -/
theorem replay_transmissions_witness :
    ∀ p item, 1 ≤ p →
      [queueItem 0 true 1, queueItem 5 false 1, queueItem 5 true 2, queueItem 20 true 1][p]? =
        some item →
      (p < (filteredCore.replayTick 10 0
          { queue := [queueItem 0 true 1, queueItem 5 false 1, queueItem 5 true 2,
              queueItem 20 true 1],
            it := 1, m_simulationTime := 10, m_simulationRunning := true }).2.it ↔
        item.timestamp ≤ 10) :=
  (replay_transmissions filteredCore 10 0
    { queue := [queueItem 0 true 1, queueItem 5 false 1, queueItem 5 true 2,
        queueItem 20 true 1],
      it := 1, m_simulationTime := 10, m_simulationRunning := true } [] 0).1.2.2.2.1
    (by decide)

/-- Replays on `filteredCore`: the first two ticks of a queue with ascending
timestamps, the whole replay of it, and a replay with a run time of one
second and a tick of 600 ms, which ends when the clock has passed 1000. -/
theorem replay_examples :
    (filteredCore.replayTick 10 0 (CANSimulatorCore.replayStart
      [queueItem 0 true 1, queueItem 5 false 1, queueItem 5 true 2, queueItem 20 true 1])).1 =
      [0] ∧
    (filteredCore.replayTick 10 0 (CANSimulatorCore.replayStart
      [queueItem 0 true 1, queueItem 5 false 1, queueItem 5 true 2, queueItem 20 true 1])).2.it =
      1 ∧
    (filteredCore.replayTick 10 0
      { queue := [queueItem 0 true 1, queueItem 5 false 1, queueItem 5 true 2,
          queueItem 20 true 1],
        it := 1, m_simulationTime := 10, m_simulationRunning := true }).2.it = 3 ∧
    (filteredCore.replayRun 10 0 5 (CANSimulatorCore.replayStart
      [queueItem 0 true 1, queueItem 5 false 1, queueItem 5 true 2, queueItem 20 true 1])).1 =
      [0, 3] ∧
    (filteredCore.replayRun 10 0 5 (CANSimulatorCore.replayStart
      [queueItem 0 true 1, queueItem 5 false 1, queueItem 5 true 2,
       queueItem 20 true 1])).2.m_simulationRunning = false ∧
    (filteredCore.replayRun 600 1 5 (CANSimulatorCore.replayStart
      [queueItem 0 true 1, queueItem 700 true 1, queueItem 1100 true 1])).1 = [0] ∧
    (filteredCore.replayRun 600 1 5 (CANSimulatorCore.replayStart
      [queueItem 0 true 1, queueItem 700 true 1, queueItem 1100 true 1])).2.m_simulationTime =
      1200 := by
  refine ⟨?_, ?_, ?_, ?_, ?_, ?_, ?_⟩ <;> decide

/-! ## The text for an error frame -/

/-- The loop of `analyzeErrorFrame` writes, for the indices of the set bits in
ascending order, the class name, its detail text and a line end. -/
theorem analyzeLoop_eq (frame : canfd_frame) (errorClass : ℕ) :
    ∀ (classes : List String) (i : ℕ),
      analyzeLoop frame errorClass i classes =
        concatLines (((List.range classes.length).filter
            (fun k => decide (errorClass &&& ((1 <<< (i + k)) % 2 ^ 32) ≠ 0))).map
          (fun k => classes.getD k "" ++ errorDetail frame ((1 <<< (i + k)) % 2 ^ 32) ++ "\n")) := by
  intro classes
  induction classes with
  | nil => intro i; rfl
  | cons name rest ih =>
    intro i
    unfold analyzeLoop
    rw [ih (i + 1), List.length_cons, List.range_succ_eq_map, List.filter_cons]
    have hshift : ∀ k, i + 1 + k = i + (k + 1) := by intro k; omega
    have hrest : concatLines (((List.range rest.length).filter
            (fun k => decide (errorClass &&& ((1 <<< (i + 1 + k)) % 2 ^ 32) ≠ 0))).map
          (fun k => rest.getD k "" ++ errorDetail frame ((1 <<< (i + 1 + k)) % 2 ^ 32) ++ "\n"))
        = concatLines ((((List.range rest.length).map Nat.succ).filter
            (fun k => decide (errorClass &&& ((1 <<< (i + k)) % 2 ^ 32) ≠ 0))).map
          (fun k => (name :: rest).getD k "" ++ errorDetail frame ((1 <<< (i + k)) % 2 ^ 32)
            ++ "\n")) := by
      rw [List.filter_map, List.map_map]
      congr 1
      have e1 : ((fun k => decide (errorClass &&& ((1 <<< (i + k)) % 2 ^ 32) ≠ 0)) ∘ Nat.succ)
          = (fun k => decide (errorClass &&& ((1 <<< (i + 1 + k)) % 2 ^ 32) ≠ 0)) := by
        funext k
        simp only [Function.comp, Nat.succ_eq_add_one, hshift]
      rw [e1]
      apply List.map_congr_left
      intro k _
      simp only [Function.comp, Nat.succ_eq_add_one, hshift, List.getD_cons_succ]
    rw [hrest]
    simp only [Nat.add_zero]
    by_cases hbit : errorClass &&& ((1 <<< i) % 2 ^ 32) ≠ 0
    · rw [if_pos hbit]
      have hd : decide (errorClass &&& ((1 <<< i) % 2 ^ 32) ≠ 0) = true := by simpa using hbit
      rw [if_pos hd]
      simp only [List.map_cons, concatLines, List.foldr_cons, List.getD_cons_zero, Nat.add_zero]
    · rw [if_neg hbit]
      have hd : ¬ decide (errorClass &&& ((1 <<< i) % 2 ^ 32) ≠ 0) = true := by simpa using hbit
      rw [if_neg hd]
      exact String.empty_append _

theorem shiftMask_eq (k : ℕ) (hk : k < 32) : (1 <<< (0 + k)) % 2 ^ 32 = 2 ^ k := by
  rw [Nat.zero_add, Nat.one_shiftLeft]
  exact Nat.mod_eq_of_lt (Nat.pow_lt_pow_right (by decide) hk)

/-- The loop of `handleError` writes, in ascending order of the bit, the
string of every set bit of `errorFlags` for which there is a string. -/
theorem handleErrorLoop_eq (errorFlags : ℕ) :
    ∀ (errors : List String) (i : ℕ),
      handleErrorLoop errorFlags i errors =
        concatLines (((List.range errors.length).filter
            (fun k => decide (errorFlags &&& (1 <<< (i + k)) ≠ 0))).map
          (fun k => errors.getD k "")) := by
  intro errors
  induction errors with
  | nil => intro i; rfl
  | cons e rest ih =>
    intro i
    unfold handleErrorLoop
    rw [ih (i + 1), List.length_cons, List.range_succ_eq_map, List.filter_cons]
    have hshift : ∀ k, i + 1 + k = i + (k + 1) := by intro k; omega
    have hrest : concatLines (((List.range rest.length).filter
            (fun k => decide (errorFlags &&& (1 <<< (i + 1 + k)) ≠ 0))).map
          (fun k => rest.getD k ""))
        = concatLines ((((List.range rest.length).map Nat.succ).filter
            (fun k => decide (errorFlags &&& (1 <<< (i + k)) ≠ 0))).map
          (fun k => (e :: rest).getD k "")) := by
      rw [List.filter_map, List.map_map]
      congr 1
      have e1 : ((fun k => decide (errorFlags &&& (1 <<< (i + k)) ≠ 0)) ∘ Nat.succ)
          = (fun k => decide (errorFlags &&& (1 <<< (i + 1 + k)) ≠ 0)) := by
        funext k
        simp only [Function.comp, Nat.succ_eq_add_one, hshift]
      rw [e1]
      apply List.map_congr_left
      intro k _
      simp only [Function.comp, Nat.succ_eq_add_one, List.getD_cons_succ]
    rw [hrest]
    simp only [Nat.add_zero]
    by_cases hbit : errorFlags &&& (1 <<< i) ≠ 0
    · rw [if_pos hbit]
      have hd : decide (errorFlags &&& (1 <<< i) ≠ 0) = true := by simpa using hbit
      rw [if_pos hd]
      simp only [List.map_cons, concatLines, List.foldr_cons, List.getD_cons_zero]
    · rw [if_neg hbit]
      have hd : ¬ decide (errorFlags &&& (1 <<< i) ≠ 0) = true := by simpa using hbit
      rw [if_neg hd]
      exact String.empty_append _

/-- `handleError` writes, in ascending order of the bit, the string of every
set bit of `errorFlags` for which there is a string. -/
theorem handleError_eq (errorFlags : ℕ) (errors : List String) :
    handleError errorFlags errors =
      concatLines (((List.range errors.length).filter
          (fun k => decide (errorFlags &&& 2 ^ k ≠ 0))).map (fun k => errors.getD k "")) := by
  have hsh : ∀ k, (1 <<< (0 + k)) = 2 ^ k := by
    intro k
    rw [Nat.zero_add, Nat.one_shiftLeft]
  unfold handleError
  split
  · rename_i h
    rcases h with h | h
    · rw [h]
      simp [concatLines]
    · have : errors = [] := List.eq_nil_of_length_eq_zero (by omega)
      rw [this]
      rfl
  · rw [handleErrorLoop_eq]
    simp only [hsh]

/-- The detail text of the error class with bit `i`, written out. -/
theorem errorDetail_eq (frame : canfd_frame) (i : ℕ) (hi : i < 9) :
    errorDetail frame (2 ^ i) =
      if i = 1 then
        (if frame.data 0 = 0 then ""
         else " at bit " ++ String.singleton (Char.ofNat (frame.data 0)))
      else if i = 2 then
        concatLines (((List.range 7).filter
          (fun k => decide (frame.data 1 &&& 2 ^ k ≠ 0))).map
            (fun k => controllerErrors.getD k ""))
      else if i = 3 then
        concatLines (((List.range 8).filter
          (fun k => decide (frame.data 2 &&& 2 ^ k ≠ 0))).map
            (fun k => protocolErrorTypes.getD k "")) ++
          (if frame.data 2 ≠ 0 ∧ frame.data 3 ≠ 0 ∧ frame.data 3 < 32 then
            " at " ++ protocolErrorPositions.getD (frame.data 3) ""
          else "")
      else if i = 4 then
        (if frame.data 4 &&& 0x7 = 0x04 then " CAN_H No wire"
         else if frame.data 4 &&& 0x7 = 0x05 then " CAN_H short to BAT"
         else if frame.data 4 &&& 0x7 = 0x06 then " CAN_H short to VCC"
         else if frame.data 4 &&& 0x7 = 0x07 then " CAN_H short to GND"
         else "") ++
        (if frame.data 4 &&& 0x70 = 0x40 then " CAN_L no wire"
         else if frame.data 4 &&& 0x70 = 0x50 then " CAN_L short to BAT"
         else if frame.data 4 &&& 0x70 = 0x60 then " CAN_L short to VCC"
         else if frame.data 4 &&& 0x70 = 0x70 then " CAN_L short to GND"
         else "") ++
        (if frame.data 4 &&& 0x80 = 0x80 then " CAN_L short to CAN_H" else "")
      else "" := by
  have hlen7 : controllerErrors.length = 7 := rfl
  have hlen8 : protocolErrorTypes.length = 8 := rfl
  have hlen32 : protocolErrorPositions.length = 32 := rfl
  interval_cases i
  · rfl
  · simp only [errorDetail, CAN_ERR_LOSTARB, CAN_ERR_LOSTARB_UNSPEC, charString]
    norm_num
  · simp only [errorDetail, CAN_ERR_LOSTARB, CAN_ERR_CRTL, handleError_eq, hlen7]
    norm_num
  · simp only [errorDetail, CAN_ERR_LOSTARB, CAN_ERR_CRTL, CAN_ERR_PROT, handleError_eq, hlen8,
      hlen32]
    norm_num
  · simp only [errorDetail, CAN_ERR_LOSTARB, CAN_ERR_CRTL, CAN_ERR_PROT, CAN_ERR_TRX,
      handleTransceiverError]
    norm_num
  · simp only [errorDetail, CAN_ERR_LOSTARB, CAN_ERR_CRTL, CAN_ERR_PROT, CAN_ERR_TRX]
    norm_num
  · simp only [errorDetail, CAN_ERR_LOSTARB, CAN_ERR_CRTL, CAN_ERR_PROT, CAN_ERR_TRX]
    norm_num
  · simp only [errorDetail, CAN_ERR_LOSTARB, CAN_ERR_CRTL, CAN_ERR_PROT, CAN_ERR_TRX]
    norm_num
  · simp only [errorDetail, CAN_ERR_LOSTARB, CAN_ERR_CRTL, CAN_ERR_PROT, CAN_ERR_TRX]
    norm_num

set_option maxRecDepth 100000 in
/-- C30: for every frame, `analyzeErrorFrame` returns `errorframe=0x`, the
value of `can_id & CAN_ERR_MASK` in lower-case hexadecimal digits and a line
end, followed, for each set error-class bit 0 to 8 in ascending order, by the
name of the class, its detail text and a line end.  The detail text is: for
`Lost arbitration`, ` at bit ` and the character with the code `data[0]`
unless that is `0`; for `Controller error:`, the texts of the set bits 0 to 6
of `data[1]`; for `Protocol violation:`, the texts of the set bits 0 to 7 of
`data[2]` and, when `data[2]` and `data[3]` are not `0` and `data[3] < 32`,
` at ` and the name of position `data[3]`; for `Transceiver error:`, the
texts for the CAN_H state `data[4] & 0x7`, the CAN_L state `data[4] & 0x70`
and the bit `0x80`; nothing for the other classes.  The names and texts are
those of the four tables written out below; identifier `0x20000021` gives the
two lines `TX timeout` and `Received no ACK on transmission`, and the frames
of the test suite and a frame with all class bits and all detail bits set
give the texts written out. -/
theorem analyzeErrorFrame_text (frame : canfd_frame) :
    analyzeErrorFrame frame =
      "errorframe=0x" ++ hexString (frame.can_id &&& CAN_ERR_MASK) ++ "\n" ++
        concatLines (((List.range 9).filter
            (fun i => decide ((frame.can_id &&& CAN_ERR_MASK) &&& 2 ^ i ≠ 0))).map
          (fun i => errorClasses.getD i "" ++
            (if i = 1 then
              (if frame.data 0 = 0 then ""
               else " at bit " ++ String.singleton (Char.ofNat (frame.data 0)))
            else if i = 2 then
              concatLines (((List.range 7).filter
                (fun k => decide (frame.data 1 &&& 2 ^ k ≠ 0))).map
                  (fun k => controllerErrors.getD k ""))
            else if i = 3 then
              concatLines (((List.range 8).filter
                (fun k => decide (frame.data 2 &&& 2 ^ k ≠ 0))).map
                  (fun k => protocolErrorTypes.getD k "")) ++
                (if frame.data 2 ≠ 0 ∧ frame.data 3 ≠ 0 ∧ frame.data 3 < 32 then
                  " at " ++ protocolErrorPositions.getD (frame.data 3) ""
                else "")
            else if i = 4 then
              (if frame.data 4 &&& 0x7 = 0x04 then " CAN_H No wire"
               else if frame.data 4 &&& 0x7 = 0x05 then " CAN_H short to BAT"
               else if frame.data 4 &&& 0x7 = 0x06 then " CAN_H short to VCC"
               else if frame.data 4 &&& 0x7 = 0x07 then " CAN_H short to GND"
               else "") ++
              (if frame.data 4 &&& 0x70 = 0x40 then " CAN_L no wire"
               else if frame.data 4 &&& 0x70 = 0x50 then " CAN_L short to BAT"
               else if frame.data 4 &&& 0x70 = 0x60 then " CAN_L short to VCC"
               else if frame.data 4 &&& 0x70 = 0x70 then " CAN_L short to GND"
               else "") ++
              (if frame.data 4 &&& 0x80 = 0x80 then " CAN_L short to CAN_H" else "")
            else "") ++ "\n")) ∧
    errorClasses =
      ["TX timeout", "Lost arbitration", "Controller error:", "Protocol violation:",
       "Transceiver error:", "Received no ACK on transmission", "Bus off", "Bus error",
       "Controller restarted"] ∧
    controllerErrors =
      [" RX buffer overflow", " TX buffer overflow", " Reached warning level for RX errors",
       " Reached warning level for TX errors", " Reached error passive status RX",
       " Reached error passive status TX", " Recovered to error active state"] ∧
    protocolErrorTypes =
      [" Single bit error", " Frame format error", " Bit stuffing error",
       " Unable to send dominant bit", " Unable to send recessive bit", " Bus overload",
       " Active error announcement", " Error occured on transmission"] ∧
    protocolErrorPositions =
      ["unspecified", "unspecified", "ID bits 28-21 (SFF: 10-3)", "start of frame",
       "substitute RTR (SFF: RTR)", "identifier extension", "ID bits 20-18 (SFF: 2-0)",
       "ID bits 17-13", "CRC sequence", "reserved bit 0", "data section", "data length code",
       "RTR", "reserved bit 1", "ID bits 4-0", "ID bits 12-5", "unspecified", "unspecified",
       "intermission", "unspecified", "unspecified", "unspecified", "unspecified",
       "unspecified", "CRC delimiter", "ACK slot", "end of frame", "ACK delimiter",
       "unspecified", "unspecified", "unspecified", "unspecified"] ∧
    analyzeErrorFrame (errorFrameOf 0x21 0 0 0 0 0)
      = "errorframe=0x21\nTX timeout\nReceived no ACK on transmission\n" ∧
    analyzeErrorFrame (errorFrameOf 0x1ff 0 0 0 0 0)
      = "errorframe=0x1ff\nTX timeout\nLost arbitration\nController error:\n"
        ++ "Protocol violation:\nTransceiver error:\nReceived no ACK on transmission\n"
        ++ "Bus off\nBus error\nController restarted\n" ∧
    analyzeErrorFrame (errorFrameOf 0x2 1 0 0 0 0)
      = "errorframe=0x2\nLost arbitration at bit \x01\n" ∧
    analyzeErrorFrame (errorFrameOf 0x4 0 0x40 0 0 0)
      = "errorframe=0x4\nController error: Recovered to error active state\n" ∧
    analyzeErrorFrame (errorFrameOf 0x8 0 0 0x80 0 0)
      = "errorframe=0x8\nProtocol violation: Error occured on transmission\n" ∧
    analyzeErrorFrame (errorFrameOf 0x8 0 0 0x01 0x1A 0)
      = "errorframe=0x8\nProtocol violation: Single bit error at end of frame\n" ∧
    analyzeErrorFrame (errorFrameOf 0x10 0 0 0 0 0x07)
      = "errorframe=0x10\nTransceiver error: CAN_H short to GND\n" ∧
    analyzeErrorFrame (errorFrameOf 0x1ff 0x41 0x7f 0xff 0x02 0xf7)
      = "errorframe=0x1ff\nTX timeout\nLost arbitration at bit A\n"
        ++ "Controller error: RX buffer overflow TX buffer overflow"
        ++ " Reached warning level for RX errors Reached warning level for TX errors"
        ++ " Reached error passive status RX Reached error passive status TX"
        ++ " Recovered to error active state\n"
        ++ "Protocol violation: Single bit error Frame format error Bit stuffing error"
        ++ " Unable to send dominant bit Unable to send recessive bit Bus overload"
        ++ " Active error announcement Error occured on transmission"
        ++ " at ID bits 28-21 (SFF: 10-3)\n"
        ++ "Transceiver error: CAN_H short to GND CAN_L short to GND CAN_L short to CAN_H\n"
        ++ "Received no ACK on transmission\nBus off\nBus error\nController restarted\n" := by
  refine ⟨?_, rfl, rfl, rfl, rfl, by decide, by decide, by decide, by decide, by decide,
    by decide, by decide, by decide⟩
  unfold analyzeErrorFrame
  simp only
  rw [analyzeLoop_eq frame _ errorClasses 0]
  have hlen : errorClasses.length = 9 := rfl
  rw [hlen]
  congr 2
  have hf : (List.range 9).filter
        (fun k => decide ((frame.can_id &&& CAN_ERR_MASK) &&& ((1 <<< (0 + k)) % 2 ^ 32) ≠ 0))
      = (List.range 9).filter
        (fun i => decide ((frame.can_id &&& CAN_ERR_MASK) &&& 2 ^ i ≠ 0)) := by
    apply List.filter_congr
    intro k hk
    rw [shiftMask_eq k (by have := List.mem_range.mp hk; omega)]
  rw [hf]
  apply List.map_congr_left
  intro k hk
  have hk9 : k < 9 := List.mem_range.mp (List.mem_of_mem_filter hk)
  rw [shiftMask_eq k (by omega), errorDetail_eq frame k hk9]

set_option maxRecDepth 100000 in
/-- The remaining texts that the test suite expects, and a frame whose
`data[0]` is `200`: the detail of `Lost arbitration` then ends in the one
character with the code 200. -/
theorem analyzeErrorFrame_examples :
    analyzeErrorFrame (errorFrameOf 0x1 0 0 0 0 0) = "errorframe=0x1\nTX timeout\n" ∧
    analyzeErrorFrame (errorFrameOf 0x20 0 0 0 0 0)
      = "errorframe=0x20\nReceived no ACK on transmission\n" ∧
    analyzeErrorFrame (errorFrameOf 0x40 0 0 0 0 0) = "errorframe=0x40\nBus off\n" ∧
    analyzeErrorFrame (errorFrameOf 0x80 0 0 0 0 0) = "errorframe=0x80\nBus error\n" ∧
    analyzeErrorFrame (errorFrameOf 0x100 0 0 0 0 0)
      = "errorframe=0x100\nController restarted\n" ∧
    (analyzeErrorFrame (errorFrameOf 0x2 200 0 0 0 0)).data
      = "errorframe=0x2\nLost arbitration at bit ".data ++ [Char.ofNat 200, Char.ofNat 10] ∧
    (analyzeErrorFrame (errorFrameOf 0x2 200 0 0 0 0)).length = 41 := by
  decide


/-! ## The next scheduled time of cyclic messages and signals -/

/-- Counterexample to C31: the message with a cycle of 100 ms and next
scheduled time 0 is polled at 50 ms; it is due, the previous next scheduled
time plus the cycle (100 ms) is not in the past, yet the new next scheduled
time is 150 ms. -/
theorem cyclic_next_time_from_now :
    (cyclicMessage.isSendScheduled stoiExample 50000000).1 = true ∧
    cyclicMessage.m_sendTime + 100 * millisecondTicks = 100000000 ∧
    (50000000 : ℤ) ≤ cyclicMessage.m_sendTime + 100 * millisecondTicks ∧
    (cyclicMessage.isSendScheduled stoiExample 50000000).2.m_sendTime = 150000000 := by
  refine ⟨?_, ?_, ?_, ?_⟩ <;> decide

/-- C31 (amended): when a message whose message-level send type is `Cyclic`
with a cycle time `c > 0` is found due by `isSendScheduled(now)`, its next
scheduled time becomes `now + c` in every case; this is the previous next
scheduled time plus `c` only when `now` is exactly that previous time. -/
theorem cyclic_next_time (stoi : String → Option ℤ) (m : CANMessage) (cycle : String)
    (c now : ℤ) (htype : m.getAttribute "GenMsgSendType" = some "Cyclic")
    (hcycle : m.getAttribute "GenMsgCycleTime" = some cycle) (hstoi : stoi cycle = some c)
    (hc : 0 < c) (hdue : now ≥ m.m_sendTime) :
    m.isSendScheduled stoi now = (true, { m with m_sendTime := now + c * millisecondTicks }) ∧
    ((m.isSendScheduled stoi now).2.m_sendTime = m.m_sendTime + c * millisecondTicks ↔
      now = m.m_sendTime) := by
  have hbm : CANMessage.scheduledByMessage m c now = (true, true) := by
    unfold CANMessage.scheduledByMessage
    rw [htype]
    simp only
    rw [if_pos ⟨trivial, hc, hdue⟩]
  have e : m.isSendScheduled stoi now =
      (true, { m with m_sendTime := now + c * millisecondTicks }) := by
    unfold CANMessage.isSendScheduled
    simp only [hcycle, hstoi, hbm, Bool.not_true, Bool.false_eq_true, if_false, if_true]
  refine ⟨e, ?_⟩
  rw [e]
  simp only
  constructor
  · intro h; linarith
  · intro h; rw [h]

/-- Witness for C31 (amended): the message with a cycle of 100 ms polled at
50 ms. -/
theorem cyclic_next_time_witness :
    cyclicMessage.isSendScheduled stoiExample 50000000 =
      (true, { cyclicMessage with m_sendTime := 50000000 + 100 * millisecondTicks }) ∧
    ((cyclicMessage.isSendScheduled stoiExample 50000000).2.m_sendTime =
        cyclicMessage.m_sendTime + 100 * millisecondTicks ↔
      (50000000 : ℤ) = cyclicMessage.m_sendTime) :=
  cyclic_next_time stoiExample cyclicMessage "100" 100 50000000 (by decide) (by decide)
    (by decide) (by decide) (by decide)

/-- The loop over signals whose send type, where present, is `Cyclic`, one of
them having it: the message is due exactly when `now` has reached the next
scheduled time, whatever the cycle time. -/
theorem scheduledBySignals_cyclic (sendTime now : ℤ) :
    ∀ (sigs : List CANSignal),
      (∀ x, x ∈ sigs → x.getAttribute "GenSigSendType" = none ∨
        x.getAttribute "GenSigSendType" = some "Cyclic") →
      (∃ s, s ∈ sigs ∧ s.getAttribute "GenSigSendType" = some "Cyclic") →
      CANMessage.scheduledBySignals sendTime now sigs =
        if now ≥ sendTime then (true, true) else (false, false) := by
  intro sigs
  induction sigs with
  | nil => rintro _ ⟨s, hs, _⟩; exact absurd hs (List.not_mem_nil s)
  | cons x rest ih =>
    intro hall hex
    unfold CANMessage.scheduledBySignals
    rcases hall x (List.mem_cons_self _ _) with hx | hx
    · rw [hx]
      simp only
      apply ih (fun y hy => hall y (List.mem_cons_of_mem _ hy))
      obtain ⟨s, hs, hsc⟩ := hex
      rcases List.mem_cons.1 hs with h | h
      · subst h; rw [hx] at hsc; cases hsc
      · exact ⟨s, h, hsc⟩
    · rw [hx]
      simp only
      by_cases hn : now ≥ sendTime
      · rw [if_pos ⟨trivial, hn⟩, if_pos hn]
      · rw [if_neg (fun h => hn h.2), if_neg (by decide), if_neg hn]
        by_cases hrest : ∃ s, s ∈ rest ∧ s.getAttribute "GenSigSendType" = some "Cyclic"
        · rw [ih (fun y hy => hall y (List.mem_cons_of_mem _ hy)) hrest, if_neg hn]
        · apply scheduledBySignals_none
          intro y hy
          rcases hall y (List.mem_cons_of_mem _ hy) with h | h
          · exact h
          · exact absurd ⟨y, hy, h⟩ hrest


/-- The answer and effect of `isSendScheduled` for a message without a
message-level send type that has a signal of send type `Cyclic` and no signal
of another send type; `c` is the cycle time the function reads, `0` when
the attribute is absent. -/
theorem isSendScheduled_signal_cyclic (stoi : String → Option ℤ) (m : CANMessage) (c : ℤ)
    (hmsg : m.getAttribute "GenMsgSendType" = none)
    (hcycle : (m.getAttribute "GenMsgCycleTime" = none ∧ c = 0) ∨
      ∃ value, m.getAttribute "GenMsgCycleTime" = some value ∧ stoi value = some c)
    (hall : ∀ x, x ∈ m.m_signals → x.getAttribute "GenSigSendType" = none ∨
      x.getAttribute "GenSigSendType" = some "Cyclic")
    (hex : ∃ s, s ∈ m.m_signals ∧ s.getAttribute "GenSigSendType" = some "Cyclic")
    (now : ℤ) :
    m.isSendScheduled stoi now =
      if now ≥ m.m_sendTime then (true, { m with m_sendTime := now + c * millisecondTicks })
      else (false, m) := by
  have hbm : CANMessage.scheduledByMessage m c now = (false, false) := by
    unfold CANMessage.scheduledByMessage
    rw [hmsg]
  have hfin : (let byMessage := CANMessage.scheduledByMessage m c now
      let flags := if (!byMessage.2) = true then
          CANMessage.scheduledBySignals m.m_sendTime now m.m_signals
        else byMessage
      (flags.2, if flags.1 = true then { m with m_sendTime := now + c * millisecondTicks }
        else m)) =
      if now ≥ m.m_sendTime then (true, { m with m_sendTime := now + c * millisecondTicks })
      else (false, m) := by
    simp only [hbm, Bool.not_false, if_true,
      scheduledBySignals_cyclic m.m_sendTime now m.m_signals hall hex]
    by_cases hn : now ≥ m.m_sendTime
    · simp only [if_pos hn, if_true]
    · simp only [if_neg hn, Bool.false_eq_true, if_false]
  unfold CANMessage.isSendScheduled
  rcases hcycle with ⟨hattr, hc0⟩ | ⟨value, hattr, hst⟩
  · subst hc0
    simp only [hattr]
    exact hfin
  · simp only [hattr, hst]
    exact hfin

/-- C39: for a message without a message-level send type that has a signal of
send type `Cyclic` (and no signal of another send type), `isSendScheduled`
answers true exactly when `now` has reached the next scheduled time, whatever
the cycle time `c` it reads (`0` without a `GenMsgCycleTime` attribute): the
test `cycleTime > 0` of the message-level trigger is missing.  With `c ≤ 0`
every poll of an ascending sequence of times from the next scheduled time on
is answered true; with `c > 0` the polls before `t + c` after a due poll at
`t` are answered false. -/
theorem signal_cyclic_unguarded (stoi : String → Option ℤ) (m : CANMessage) (c : ℤ)
    (hmsg : m.getAttribute "GenMsgSendType" = none)
    (hcycle : (m.getAttribute "GenMsgCycleTime" = none ∧ c = 0) ∨
      ∃ value, m.getAttribute "GenMsgCycleTime" = some value ∧ stoi value = some c)
    (hall : ∀ x, x ∈ m.m_signals → x.getAttribute "GenSigSendType" = none ∨
      x.getAttribute "GenSigSendType" = some "Cyclic")
    (hex : ∃ s, s ∈ m.m_signals ∧ s.getAttribute "GenSigSendType" = some "Cyclic") :
    (∀ now, (m.isSendScheduled stoi now).1 = true ↔ now ≥ m.m_sendTime) ∧
    (c ≤ 0 → ∀ times : List ℤ, List.Chain (fun a b => a ≤ b) m.m_sendTime times →
      (pollSchedule stoi m times).1 = times.map (fun _ => true)) ∧
    (0 < c → ∀ t, t ≥ m.m_sendTime → ∀ times : List ℤ,
      (∀ x, x ∈ times → x < t + c * millisecondTicks) →
      (pollSchedule stoi (m.isSendScheduled stoi t).2 times).1 = times.map (fun _ => false)) := by
  have hsched := isSendScheduled_signal_cyclic stoi m c hmsg hcycle hall hex
  have hshift : ∀ (t : ℤ) (now : ℤ),
      CANMessage.isSendScheduled stoi { m with m_sendTime := t } now =
        if now ≥ t then
          (true, { m with m_sendTime := now + c * millisecondTicks })
        else (false, { m with m_sendTime := t }) := fun t now =>
    isSendScheduled_signal_cyclic stoi { m with m_sendTime := t } c hmsg hcycle hall hex now
  have hticks : (0 : ℤ) < millisecondTicks := by decide
  refine ⟨?_, ?_, ?_⟩
  · intro now
    rw [hsched now]
    by_cases hn : now ≥ m.m_sendTime
    · rw [if_pos hn]; simp [hn]
    · rw [if_neg hn]; simp [hn]
  · intro hc times
    have hgen : ∀ (times : List ℤ) (t : ℤ), List.Chain (fun a b => a ≤ b) t times →
        (pollSchedule stoi { m with m_sendTime := t } times).1 = times.map (fun _ => true) := by
      intro times
      induction times with
      | nil => intro t _; rfl
      | cons x rest ih =>
        intro t hch
        rw [List.chain_cons] at hch
        have h1 := hshift t x
        rw [if_pos hch.1] at h1
        simp only [pollSchedule, h1, List.map_cons]
        congr 1
        apply ih
        cases rest with
        | nil => exact List.Chain.nil
        | cons y rest2 =>
          have h2 := hch.2
          rw [List.chain_cons] at h2 ⊢
          refine ⟨?_, h2.2⟩
          have : c * millisecondTicks ≤ 0 := mul_nonpos_of_nonpos_of_nonneg hc hticks.le
          linarith [h2.1]
    exact hgen times m.m_sendTime
  · intro hc t ht times hx
    rw [hsched t, if_pos ht]
    simp only
    induction times with
    | nil => rfl
    | cons x rest ih =>
      have hx1 := hx x (List.mem_cons_self _ _)
      have h1 := hshift (t + c * millisecondTicks) x
      have hlt : ¬ (x ≥ t + c * millisecondTicks) := by omega
      rw [if_neg hlt] at h1
      simp only [pollSchedule, h1, List.map_cons]
      congr 1
      exact ih (fun y hy => hx y (List.mem_cons_of_mem _ hy))

set_option maxRecDepth 100000 in
/-- C39 at a message without cycle time whose only signal has the send type
`Cyclic`: four polls at the times 0, 0, 1 ns and 10 ms are all answered true;
with a cycle time of 100 ms the polls inside the window are answered false. -/
theorem signal_cyclic_unguarded_witness :
    (pollSchedule stoiExample signalCyclicMessage [0, 0, 1, 10000000]).1 =
      [0, 0, 1, 10000000].map (fun _ => true) ∧
    (pollSchedule stoiExample signalCyclicMessage100 [0, 0, 1, 10000000, 100000000]).1 =
      [true, false, false, false, true] :=
  ⟨(signal_cyclic_unguarded stoiExample signalCyclicMessage 0 (by decide)
      (Or.inl ⟨by decide, rfl⟩) (by decide) ⟨_, List.mem_cons_self _ _, by decide⟩).2.1 (le_refl _)
      [0, 0, 1, 10000000] (by simp [show signalCyclicMessage.m_sendTime = 0 from rfl]),
   by decide⟩


/-! ## The end of a replay -/

/-- Counterexample to C32: a replay with a run time of one second and a tick
of 600 ms stops after two ticks with the clock at 1200, where it stays; the
remaining run time is then 0, not the configured 1. -/
theorem replay_clock_not_reset :
    (filteredCore.replayRun 600 1 5 (CANSimulatorCore.replayStart
      [queueItem 0 true 1, queueItem 700 true 1,
       queueItem 1100 true 1])).2.isDataSimulatorRunning = false ∧
    (filteredCore.replayRun 600 1 5 (CANSimulatorCore.replayStart
      [queueItem 0 true 1, queueItem 700 true 1, queueItem 1100 true 1])).2.m_simulationTime
      = 1200 ∧
    ReplayState.getRunTimeRemaining 1 (filteredCore.replayRun 600 1 5
      (CANSimulatorCore.replayStart
        [queueItem 0 true 1, queueItem 700 true 1, queueItem 1100 true 1])).2 = 0 ∧
    ReplayState.getRunTimeRemaining 1 (CANSimulatorCore.replayStart
      [queueItem 0 true 1, queueItem 700 true 1, queueItem 1100 true 1]) = 1 := by
  refine ⟨?_, ?_, ?_, ?_⟩ <;> decide

/-- A replay that is not running stays as it is. -/
theorem replayRun_stopped (core : CANSimulatorCore) (interval runTime : ℤ) (passes : ℕ)
    (state : ReplayState) (h : state.m_simulationRunning = false) :
    core.replayRun interval runTime passes state = ([], state) := by
  cases passes with
  | zero => rfl
  | succ n =>
    unfold CANSimulatorCore.replayRun
    rw [h]
    simp

/-- C32 (amended): the tick after which the queue is exhausted or the clock
has passed the run time makes `isDataSimulatorRunning()` false; it leaves the
simulated clock at the value the tick gave it, and so do all later passes.
`getRunTimeRemaining()` is the run time minus the whole seconds of the clock
(for a run time in `(0, 2 ^ 31)` not yet exceeded), hence the full run time
only while the clock is below 1000, as it is when a replay starts. -/
theorem replay_stop_keeps_clock (core : CANSimulatorCore) (interval runTime : ℤ)
    (state : ReplayState) (passes : ℕ) :
    (((core.replayTick interval runTime state).2.it ≥ state.queue.length ∨
        (0 < runTime ∧ (core.replayTick interval runTime state).2.m_simulationTime >
          (wrapNat 32 runTime * 1000) % 2 ^ 32)) →
      (core.replayTick interval runTime state).2.isDataSimulatorRunning = false ∧
      (core.replayTick interval runTime state).2.m_simulationTime =
        (state.m_simulationTime + wrapNat 64 interval) % 2 ^ 64 ∧
      core.replayRun interval runTime passes (core.replayTick interval runTime state).2 =
        ([], (core.replayTick interval runTime state).2)) ∧
    (0 < runTime → runTime < 2 ^ 31 → ((state.m_simulationTime / 1000 : ℕ) : ℤ) ≤ runTime →
      state.getRunTimeRemaining runTime = runTime - ((state.m_simulationTime / 1000 : ℕ) : ℤ)) ∧
    (0 < runTime → runTime < 2 ^ 31 →
      (CANSimulatorCore.replayStart state.queue).getRunTimeRemaining runTime = runTime) ∧
    (runTime ≤ 0 → state.getRunTimeRemaining runTime = -1) := by
  have hrem : ∀ st : ReplayState, 0 < runTime → runTime < 2 ^ 31 →
      ((st.m_simulationTime / 1000 : ℕ) : ℤ) ≤ runTime →
      st.getRunTimeRemaining runTime = runTime - ((st.m_simulationTime / 1000 : ℕ) : ℤ) := by
    intro st h0 h31 hk
    unfold ReplayState.getRunTimeRemaining
    rw [if_pos h0]
    have hw : wrapNat 64 runTime = runTime.toNat :=
      wrapNat_of_range 64 runTime h0.le (by linarith [show (2 : ℤ) ^ 31 < 2 ^ 64 by norm_num])
    rw [hw]
    generalize st.m_simulationTime / 1000 = k at hk ⊢
    have hk' : k ≤ runTime.toNat := by omega
    have h64 : runTime.toNat < 2 ^ 31 := by omega
    have e1 : k % 2 ^ 64 = k := Nat.mod_eq_of_lt (by
      have : (2 : ℕ) ^ 31 < 2 ^ 64 := by norm_num
      omega)
    rw [e1]
    have e2 : (runTime.toNat + 2 ^ 64 - k) % 2 ^ 64 = runTime.toNat - k := by
      have : runTime.toNat + 2 ^ 64 - k = (runTime.toNat - k) + 2 ^ 64 := by omega
      rw [this, Nat.add_mod_right]
      apply Nat.mod_eq_of_lt
      have : (2 : ℕ) ^ 31 < 2 ^ 64 := by norm_num
      omega
    rw [e2]
    have e3 : ((runTime.toNat - k : ℕ) : ℤ) = runTime - (k : ℤ) := by omega
    rw [e3]
    apply wrapInt_of_range 32 (by norm_num)
    · norm_num; omega
    · norm_num; omega
  refine ⟨?_, hrem state, ?_, ?_⟩
  · intro hstop
    have hfalse : (core.replayTick interval runTime state).2.m_simulationRunning = false := by
      simp only [CANSimulatorCore.replayTick] at hstop ⊢
      rw [if_pos]
      simp only [Bool.or_eq_true, Bool.and_eq_true, decide_eq_true_eq]
      rcases hstop with h | ⟨h1, h2⟩
      · exact Or.inl h
      · exact Or.inr ⟨h1, h2⟩
    exact ⟨hfalse, rfl, replayRun_stopped core interval runTime passes _ hfalse⟩
  · intro h0 h31
    rw [hrem _ h0 h31]
    · simp [CANSimulatorCore.replayStart]
    · simp [CANSimulatorCore.replayStart]; omega
  · intro h
    unfold ReplayState.getRunTimeRemaining
    rw [if_neg (by omega)]
    decide

/-- Witness for C32 (amended): the second tick of the replay with a run time
of one second and a tick of 600 ms ends the replay with the clock at 1200. -/
theorem replay_stop_keeps_clock_witness :
    (filteredCore.replayTick 600 1
        { queue := [queueItem 0 true 1, queueItem 700 true 1, queueItem 1100 true 1],
          it := 1, m_simulationTime := 600, m_simulationRunning := true }).2.isDataSimulatorRunning
      = false ∧
    (filteredCore.replayTick 600 1
        { queue := [queueItem 0 true 1, queueItem 700 true 1, queueItem 1100 true 1],
          it := 1, m_simulationTime := 600, m_simulationRunning := true }).2.m_simulationTime
      = (600 + wrapNat 64 600) % 2 ^ 64 ∧
    filteredCore.replayRun 600 1 3 (filteredCore.replayTick 600 1
        { queue := [queueItem 0 true 1, queueItem 700 true 1, queueItem 1100 true 1],
          it := 1, m_simulationTime := 600, m_simulationRunning := true }).2 =
      ([], (filteredCore.replayTick 600 1
        { queue := [queueItem 0 true 1, queueItem 700 true 1, queueItem 1100 true 1],
          it := 1, m_simulationTime := 600, m_simulationRunning := true }).2) :=
  (replay_stop_keeps_clock filteredCore 600 1
    { queue := [queueItem 0 true 1, queueItem 700 true 1, queueItem 1100 true 1],
      it := 1, m_simulationTime := 600, m_simulationRunning := true } 3).1
    (Or.inr ⟨by decide, by decide⟩)


/-! ## One step of the reader thread -/

/-- What `parseCANFrame` does to the flags: the identifier and the modified
flag of the message stay, every signal it changed has its modified flag set,
and when it returns true some signal has. -/
theorem parseCANFrame_modified (m m1 : CANMessage) (frame : canfd_frame) (r : Bool)
    (h : m.parseCANFrame frame = some (r, m1)) :
    m1.id = m.id ∧ m1.m_modified = m.m_modified ∧
    List.Forall₂ (fun s s1 => s1 ≠ s → s1.m_modified = true) m.m_signals m1.m_signals ∧
    (r = true → ∃ s1, s1 ∈ m1.m_signals ∧ s1.m_modified = true) := by
  obtain ⟨ret, sigs, hp, hf2, hret⟩ := parseSignals_forall2 m.dlc frame.data m.m_signals false
  unfold CANMessage.parseCANFrame at h
  rw [hp] at h
  simp only [Option.some.injEq, Prod.mk.injEq] at h
  obtain ⟨hr, hm⟩ := h
  subst hr hm
  refine ⟨rfl, rfl, ?_, ?_⟩
  · refine List.Forall₂.imp ?_ hf2
    rintro s s1 ⟨c, hc⟩
    obtain ⟨_, c0, s0, _, h0, hne, _, _⟩ := parseSignal_again m.dlc frame.data s
    rw [h0] at hc
    simp only [Option.some.injEq, Prod.mk.injEq] at hc
    rw [← hc.2]
    exact hne
  · intro hr
    rcases hret.1 hr with h | ⟨s, hs, s', hs'⟩
    · cases h
    · obtain ⟨b, hb, c, hc⟩ := forall2_mem_left _ _ _ hf2 s hs
      rw [hs'] at hc
      simp only [Option.some.injEq, Prod.mk.injEq] at hc
      obtain ⟨_, c0, s0, _, h0, _, hmod, _⟩ := parseSignal_again m.dlc frame.data s
      rw [hs'] at h0
      simp only [Option.some.injEq, Prod.mk.injEq] at h0
      refine ⟨b, hb, ?_⟩
      rw [← hc.2, h0.2]
      exact hmod h0.1.symm

theorem setModified_false_flags (m : CANMessage) :
    (m.setModified false).m_modified = false ∧
    ∀ s, s ∈ (m.setModified false).m_signals → s.m_modified = false := by
  have e : m.setModified false =
      { m with m_modified := false,
               m_signals := m.m_signals.map (fun s => { s with m_modified := false }) } := by
    unfold CANMessage.setModified
    simp only [Bool.not_false, if_true]
  rw [e]
  refine ⟨rfl, ?_⟩
  intro s hs
  obtain ⟨a, _, ha⟩ := List.mem_map.1 hs
  rw [← ha]

theorem readCANMessage_receive (core : CANSimulatorCore) (frame : canfd_frame)
    (message message1 : CANMessage) (changed : Bool)
    (herr : frame.can_id &&& CAN_ERR_FLAG ≠ CAN_ERR_FLAG)
    (hfilter : core.isMessageFiltered frame.can_id = false)
    (hrecv : core.m_config.m_receiveIDs.contains frame.can_id = true)
    (hmsg : core.m_config.getMessage frame.can_id = some message)
    (hparse : (message.updateTransfer true MessageDirection.RECEIVE).parseCANFrame frame =
      some (changed, message1)) :
    core.readCANMessage (some frame) =
      some (if changed then frame.can_id else 0, core.withMessage frame.can_id message1) := by
  unfold CANSimulatorCore.readCANMessage
  simp only [herr, if_false, hfilter, Bool.not_false, if_true, hrecv, hmsg, hparse]


/-- C33 (amended): in one reader step on a frame of a non-filtered
receive-direction message, `message1` being the message after the parse: when
the parse changed a signal and the CAN ID is not 0, a copy of `message1`, with
the modified flags of the changed signals set, is appended to the queue, and
the live message then has its own and all its signals' modified flags
cleared; when nothing changed nothing is pushed; for the CAN ID 0 nothing is
pushed either and no flag is cleared, whether or not the parse changed a
signal. -/
theorem readerStep_queue (core : CANSimulatorCore) (frame : canfd_frame)
    (queue : List CANMessage) (message message1 : CANMessage) (changed : Bool)
    (herr : frame.can_id &&& CAN_ERR_FLAG ≠ CAN_ERR_FLAG)
    (hfilter : core.isMessageFiltered frame.can_id = false)
    (hrecv : core.m_config.m_receiveIDs.contains frame.can_id = true)
    (hmsg : core.m_config.getMessage frame.can_id = some message)
    (hparse : (message.updateTransfer true MessageDirection.RECEIVE).parseCANFrame frame =
      some (changed, message1)) :
    (changed = true → frame.can_id ≠ 0 →
      core.readerStep (some frame) queue =
        some ((core.withMessage frame.can_id message1).withMessage frame.can_id
          (message1.setModified false), queue ++ [message1.copy]) ∧
      message1.copy.m_signals = message1.m_signals ∧
      List.Forall₂ (fun s s1 => s1 ≠ s → s1.m_modified = true)
        (message.updateTransfer true MessageDirection.RECEIVE).m_signals
        message1.copy.m_signals ∧
      (∃ s1, s1 ∈ message1.copy.m_signals ∧ s1.m_modified = true) ∧
      ((core.withMessage frame.can_id message1).withMessage frame.can_id
        (message1.setModified false)).m_config.getMessage frame.can_id =
          some (message1.setModified false) ∧
      (message1.setModified false).m_modified = false ∧
      ∀ s, s ∈ (message1.setModified false).m_signals → s.m_modified = false) ∧
    (changed = false →
      core.readerStep (some frame) queue = some (core.withMessage frame.can_id message1, queue)) ∧
    (frame.can_id = 0 →
      core.readerStep (some frame) queue = some (core.withMessage 0 message1, queue) ∧
      (core.withMessage 0 message1).m_config.getMessage 0 = some message1) := by
  have hread := readCANMessage_receive core frame message message1 changed herr hfilter hrecv
    hmsg hparse
  obtain ⟨hid, _, hf2, hmod⟩ := parseCANFrame_modified _ _ frame changed hparse
  have hmid : message.id = frame.can_id := by
    have := List.find?_some hmsg
    simpa using this
  have hid1 : message1.id = frame.can_id := by
    rw [hid, updateTransfer_id, hmid]
  have hget : (core.withMessage frame.can_id message1).m_config.getMessage frame.can_id =
      some message1 := find_storeMessage frame.can_id message1 hid1 _ message hmsg
  refine ⟨?_, ?_, ?_⟩
  · intro hc hne
    subst hc
    refine ⟨?_, rfl, hf2, hmod rfl, ?_, (setModified_false_flags message1).1,
      (setModified_false_flags message1).2⟩
    · unfold CANSimulatorCore.readerStep
      rw [hread]
      simp only [if_true]
      rw [if_pos hne, hget]
    · exact find_storeMessage frame.can_id (message1.setModified false)
        (by rw [setModified_id, hid1]) _ message1 hget
  · intro hc
    subst hc
    unfold CANSimulatorCore.readerStep
    rw [hread]
    simp
  · intro h0
    refine ⟨?_, ?_⟩
    · unfold CANSimulatorCore.readerStep
      rw [hread, h0]
      simp
    · rw [h0] at hget; exact hget

set_option maxRecDepth 100000 in
/-- Counterexample to C33: the only message of `zeroIdCore` has the CAN ID 0
and is received; a frame with ID 0 whose parse changes its signal leaves the
queue empty, and the modified flag of the signal stays set in the live
message. -/
theorem readerStep_id_zero :
    (zeroIdCore.isMessageFiltered 0 = false ∧
      zeroIdCore.m_config.m_receiveIDs.contains 0 = true) ∧
    ((zeroIdCore.m_config.getMessage 0).bind (fun m =>
      (m.updateTransfer true MessageDirection.RECEIVE).parseCANFrame (frameOfByte 0 5))).map
        (fun r => r.1) = some true ∧
    (zeroIdCore.readerStep (some (frameOfByte 0 5)) []).map (fun r => r.2) = some [] ∧
    (zeroIdCore.readerStep (some (frameOfByte 0 5)) []).map
      (fun r => (r.1.m_config.getMessage 0).map
        (fun m => m.m_signals.map (fun s => (s.m_value, s.m_modified)))) =
      some (some [(Value.Integer 5, true)]) := by
  refine ⟨⟨?_, ?_⟩, ?_, ?_, ?_⟩ <;> decide

set_option maxRecDepth 100000 in
/-- Witness for C33 (amended): on `exampleCore`, whose message 2 is received,
a frame with ID 2 and data byte 5 changes the signal from 127 to 5; the copy
in the queue carries the set flag, the live message has it cleared. -/
theorem readerStep_queue_witness :
    exampleCore.readerStep (some (frameOfByte 2 5)) [] =
      some ((exampleCore.withMessage 2
          { motorola8Message with
            m_direction := MessageDirection.RECEIVE, m_transferSuccessful := 1,
            m_signals := [{ motorola8 with m_isValueSet := true, m_modified := true,
                                           m_value := Value.Integer 5 }] }).withMessage 2
          (CANMessage.setModified { motorola8Message with
            m_direction := MessageDirection.RECEIVE, m_transferSuccessful := 1,
            m_signals := [{ motorola8 with m_isValueSet := true, m_modified := true,
                                           m_value := Value.Integer 5 }] } false),
        [] ++ [CANMessage.copy { motorola8Message with
            m_direction := MessageDirection.RECEIVE, m_transferSuccessful := 1,
            m_signals := [{ motorola8 with m_isValueSet := true, m_modified := true,
                                           m_value := Value.Integer 5 }] }]) :=
  ((readerStep_queue exampleCore (frameOfByte 2 5) []
    { motorola8Message with m_direction := MessageDirection.RECEIVE }
    { motorola8Message with
      m_direction := MessageDirection.RECEIVE, m_transferSuccessful := 1,
      m_signals := [{ motorola8 with m_isValueSet := true, m_modified := true,
                                     m_value := Value.Integer 5 }] }
    true (by decide) (by decide) (by decide) (by decide) (by decide)).1 rfl (by decide)).1


/-! ## The type tag of a signal's value -/

set_option maxRecDepth 100000 in
/-- Counterexample to C34: the signal `wide33` is declared `unsigned` and
holds an `Unsigned`; the flood mode's `randomValue` gives a `Double` for it,
`setValue` accepts that, and the value then carries the tag `Double`, as does
the value a following `setValueFromRaw` produces. -/
theorem setValue_keeps_tag :
    declaredType wide33 = ValueType.Unsigned ∧ wide33.m_value.type = ValueType.Unsigned ∧
    CANSimulatorFloodMode.randomValue wide33 0 = some (Value.Double 0) ∧
    (wide33.setValue (Value.Double 0)).1 = true ∧
    (wide33.setValue (Value.Double 0)).2.m_value.type = ValueType.Double ∧
    ((wide33.setValue (Value.Double 0)).2.setValueFromRaw 2).1 = true ∧
    ((wide33.setValue (Value.Double 0)).2.setValueFromRaw 2).2.m_value = Value.Double 2 := by
  refine ⟨?_, ?_, ?_, ?_, ?_, ?_, ?_⟩ <;> decide

theorem typedValue_type (s : CANSignal) (x : ℚ) : (s.typedValue x).type = declaredType s := by
  unfold CANSignal.typedValue declaredType
  split
  · rfl
  · split <;> rfl

theorem typedNaN_type (s : CANSignal) : s.typedNaN.type = declaredType s := by
  unfold CANSignal.typedNaN declaredType
  split
  · rfl
  · split <;> rfl

/-- One call keeps the declared value type and the default value, and the
tag of the value when that of the default and of a `Value` argument match. -/
theorem call_type (stold : String → Option LongDouble) (s : CANSignal) (c : SignalCall)
    (hv : s.m_value.type = declaredType s) (hd : s.m_defaultValue.type = declaredType s)
    (hc : ∀ v, c = SignalCall.setValue v → v.type = declaredType s) :
    (s.call stold c).m_valueType = s.m_valueType ∧
    (s.call stold c).m_defaultValue = s.m_defaultValue ∧
    (s.call stold c).m_value.type = declaredType s := by
  cases c with
  | setValue value =>
    simp only [CANSignal.call, CANSignal.setValue]
    split
    · exact ⟨rfl, rfl, hc value rfl⟩
    · exact ⟨rfl, rfl, hv⟩
  | setValueString useNativeUnits valueString =>
    simp only [CANSignal.call, CANSignal.setValueString, CANSignal.parseValue]
    cases hs : stold valueString with
    | none => exact ⟨rfl, rfl, hv⟩
    | some parsed =>
      cases parsed with
      | num x =>
        simp only
        split
        · exact ⟨rfl, rfl, typedValue_type s _⟩
        · exact ⟨rfl, rfl, hv⟩
      | nan =>
        simp only
        split
        · exact ⟨rfl, rfl, typedNaN_type s⟩
        · exact ⟨rfl, rfl, hv⟩
  | setValueFromRaw rawValue =>
    simp only [CANSignal.call, CANSignal.setValueFromRaw]
    cases hr : s.valueFromRaw rawValue with
    | none => exact ⟨rfl, rfl, hv⟩
    | some val =>
      simp only
      split
      · exact ⟨rfl, rfl, (valueFromRaw_type s rawValue val hr).trans hv⟩
      · exact ⟨rfl, rfl, hv⟩
  | resetValue setValue =>
    simp only [CANSignal.call, CANSignal.resetValue]
    split
    · exact ⟨rfl, rfl, hd⟩
    · exact ⟨rfl, rfl, hv⟩

/-- C34 (amended): for a signal whose value and default value carry the tag
of its declared value type, after any sequence of calls of `setValue`
(string), `setValueFromRaw`, `resetValue` and of `setValue` with `Value`s of
that tag, the value still carries the tag of the declared type, and every
`Value` that `setValueFromRaw` produces then carries it.  `setValue(Value &)`
stores the tag it is given, and `setValueFromRaw` always produces the tag of
the current value. -/
theorem value_type_invariant (stold : String → Option LongDouble) (s : CANSignal)
    (cs : List SignalCall)
    (hv : s.m_value.type = declaredType s) (hd : s.m_defaultValue.type = declaredType s)
    (hcs : ∀ v, SignalCall.setValue v ∈ cs → v.type = declaredType s) :
    (s.calls stold cs).m_value.type = declaredType s ∧
    declaredType (s.calls stold cs) = declaredType s ∧
    (∀ rawValue val, (s.calls stold cs).valueFromRaw rawValue = some val →
      val.type = declaredType s) ∧
    (∀ (t : CANSignal) (rawValue : ℕ) (val : Value), t.valueFromRaw rawValue = some val →
      val.type = t.m_value.type) ∧
    (∀ (t : CANSignal) (value : Value), (t.setValue value).1 = true →
      (t.setValue value).2.m_value.type = value.type) := by
  have hgen : ∀ (cs : List SignalCall) (s : CANSignal),
      s.m_value.type = declaredType s → s.m_defaultValue.type = declaredType s →
      (∀ v, SignalCall.setValue v ∈ cs → v.type = declaredType s) →
      (s.calls stold cs).m_value.type = declaredType s ∧
      declaredType (s.calls stold cs) = declaredType s := by
    intro cs
    induction cs with
    | nil => intro s hv _ _; exact ⟨hv, rfl⟩
    | cons c rest ih =>
      intro s hv hd hcs
      obtain ⟨h1, h2, h3⟩ := call_type stold s c hv hd
        (fun v hc => hcs v (by rw [hc]; exact List.mem_cons_self _ _))
      have hdecl : declaredType (s.call stold c) = declaredType s := by
        unfold declaredType; rw [h1]
      have := ih (s.call stold c) (by rw [hdecl]; exact h3) (by rw [hdecl, h2]; exact hd)
        (fun v hm => by rw [hdecl]; exact hcs v (List.mem_cons_of_mem _ hm))
      rw [hdecl] at this
      exact this
  obtain ⟨h1, h2⟩ := hgen cs s hv hd hcs
  refine ⟨h1, h2, ?_, valueFromRaw_type, ?_⟩
  · intro rawValue val h
    rw [valueFromRaw_type _ rawValue val h, h1]
  · intro t value h
    unfold CANSignal.setValue at h ⊢
    split
    · rfl
    · rename_i hf
      rw [if_neg hf] at h
      cases h

set_option maxRecDepth 100000 in
/-- Witness for C34 (amended): the signal `wide33` after a string, a raw
value, a reset and an `Unsigned` value still holds an `Unsigned`. -/
theorem value_type_invariant_witness :
    (wide33.calls (fun str => if str = "9" then some (LongDouble.num 9) else none)
      [SignalCall.setValueString true "9", SignalCall.setValueFromRaw 2,
       SignalCall.resetValue false, SignalCall.setValue (Value.Unsigned 7)]).m_value.type
      = declaredType wide33 :=
  (value_type_invariant (fun str => if str = "9" then some (LongDouble.num 9) else none) wide33
    [SignalCall.setValueString true "9", SignalCall.setValueFromRaw 2,
     SignalCall.resetValue false, SignalCall.setValue (Value.Unsigned 7)]
    (by decide) (by decide)
    (fun v hm => by
      simp only [List.mem_cons, List.mem_singleton, List.not_mem_nil, or_false,
        SignalCall.setValue.injEq, false_or] at hm
      rcases hm with h | h | h | h
      · cases h
      · cases h
      · cases h
      · rw [h]; decide)).1

set_option maxRecDepth 100000 in
/-- The value of `wide33` along that sequence of calls. -/
theorem value_type_examples :
    (wide33.calls (fun str => if str = "9" then some (LongDouble.num 9) else none)
      [SignalCall.setValueString true "9"]).m_value = Value.Unsigned 9 ∧
    (wide33.calls (fun str => if str = "9" then some (LongDouble.num 9) else none)
      [SignalCall.setValueString true "9", SignalCall.setValueFromRaw 2]).m_value
      = Value.Unsigned 2 ∧
    (wide33.calls (fun str => if str = "9" then some (LongDouble.num 9) else none)
      [SignalCall.setValueString true "9", SignalCall.setValueFromRaw 2,
       SignalCall.resetValue false, SignalCall.setValue (Value.Unsigned 7)]).m_value
      = Value.Unsigned 7 := by
  refine ⟨?_, ?_, ?_⟩ <;> decide


/-! ## Independence of the fields of a frame -/

/-- The extraction loop terminates for a field of any length and sets raw
bit `t` (below 32) to bit `(so + t) % 8` of byte `|si + (so + t) / 8|`. -/
theorem unpackLoop_bits (data : ℕ → ℕ) (so : ℕ) (si : ℤ) :
    ∀ (fuel m offset k p acc : ℕ), m ≤ fuel →
      (m = 0 ∨ LoopInv so offset k p) →
      ∃ v', unpackLoop data so si fuel m offset (si + k) acc = some v' ∧
        ∀ t, (v'.testBit t = true ↔ (acc.testBit t = true ∨
          (p ≤ t ∧ t < p + m ∧ t < 32 ∧
            (data (si + (((so + t) / 8 : ℕ) : ℤ)).natAbs).testBit ((so + t) % 8) = true))) := by
  intro fuel
  induction fuel with
  | zero =>
    intro m offset k p acc hm _
    have hm0 : m = 0 := by omega
    subst hm0
    refine ⟨acc, by simp [unpackLoop], ?_⟩
    intro t
    constructor
    · intro h; exact Or.inl h
    · rintro (h | ⟨h1, h2, _⟩)
      · exact h
      · omega
  | succ fuel ih =>
    intro m offset k p acc hm hinv
    by_cases hm0 : m = 0
    · subst hm0
      refine ⟨acc, by simp [unpackLoop], ?_⟩
      intro t
      constructor
      · intro h; exact Or.inl h
      · rintro (h | ⟨h1, h2, _⟩)
        · exact h
        · omega
    · rcases hinv with h0 | ⟨hsum, hoff, hk0, hk1⟩
      · exact absurd h0 hm0
      · obtain ⟨c, hc⟩ : ∃ c, c = (if 8 - offset ≥ m then m else 8 - offset) := ⟨_, rfl⟩
        have hc1 : 1 ≤ c := by rw [hc]; split <;> omega
        have hc2 : c ≤ m := by rw [hc]; split <;> omega
        have hc3 : offset + c ≤ 8 := by rw [hc]; split <;> omega
        have hc4 : c < m → offset + c = 8 := by rw [hc]; split <;> omega
        obtain ⟨Y, hY, hYbit⟩ : ∃ Y, (if so ≠ 0 ∧ si - (si + (k : ℤ)) = 0 then
              acc ||| ((data (si + (k : ℤ)).natAbs >>> so) &&& ((1 <<< c) - 1))
            else
              acc ||| (((data (si + (k : ℤ)).natAbs &&& ((1 <<< c) - 1)) <<<
                  (8 * (si - (si + (k : ℤ))).natAbs - so)) % 2 ^ 32))
              = acc ||| Y ∧
            ∀ t, (Y.testBit t = true ↔
              (p ≤ t ∧ t < p + c ∧ t < 32 ∧
                (data (si + (k : ℤ)).natAbs).testBit (offset + (t - p)) = true)) := by
          by_cases hbr : so ≠ 0 ∧ si - (si + (k : ℤ)) = 0
          · refine ⟨_, if_pos hbr, ?_⟩
            have hk : k = 0 := by omega
            have ho : offset = so := hk0 hk
            have hp : p = 0 := by omega
            intro t
            rw [testBit_unpackFirst, ho, hp]
            simp only [Nat.zero_le, true_and, Nat.zero_add, Nat.sub_zero]
            constructor
            · rintro ⟨h1, h2⟩; exact ⟨h1, by omega, h2⟩
            · rintro ⟨h1, _, h2⟩; exact ⟨h1, h2⟩
          · refine ⟨_, if_neg hbr, ?_⟩
            have hsh : 8 * (si - (si + (k : ℤ))).natAbs - so = p := by omega
            have ho : offset = 0 := by
              by_cases hk : k = 0
              · have := hk0 hk
                subst hk
                simp at hbr
                omega
              · exact hk1 (by omega)
            intro t
            rw [hsh, testBit_unpackRest, ho]
            simp only [Nat.zero_add]
            constructor
            · rintro ⟨h0, h1, h2, h3⟩; exact ⟨h1, h2, h0, h3⟩
            · rintro ⟨h1, h2, h0, h3⟩; exact ⟨h0, h1, h2, h3⟩
        have hstep : unpackLoop data so si (fuel + 1) m offset (si + k) acc
            = unpackLoop data so si fuel (m - c) 0 (si + ((k + 1 : ℕ) : ℤ)) (acc ||| Y) := by
          rw [unpackLoop]
          simp only [hm0, if_false]
          rw [← hc, hY]
          congr 1
          push_cast
          ring
        obtain ⟨v', hv', hv'bit⟩ := ih (m - c) 0 (k + 1) (p + c) (acc ||| Y) (by omega)
          (by
            by_cases hcm : c < m
            · right
              have := hc4 hcm
              exact ⟨by omega, by omega, by omega, by omega⟩
            · left; omega)
        refine ⟨v', by rw [hstep]; exact hv', ?_⟩
        intro t
        rw [hv'bit t, Nat.testBit_or, Bool.or_eq_true, hYbit t]
        constructor
        · rintro ((h | ⟨h1, h2, h0, h3⟩) | ⟨h1, h2, h0, h3⟩)
          · exact Or.inl h
          · right
            have e1 : (so + t) / 8 = k := by omega
            have e2 : (so + t) % 8 = offset + (t - p) := by omega
            exact ⟨h1, by omega, h0, by rw [e1, e2]; exact h3⟩
          · right
            exact ⟨by omega, by omega, h0, h3⟩
        · rintro (h | ⟨h1, h2, h0, h3⟩)
          · exact Or.inl (Or.inl h)
          · by_cases htc : t < p + c
            · left; right
              have e1 : (so + t) / 8 = k := by omega
              have e2 : (so + t) % 8 = offset + (t - p) := by omega
              rw [e1, e2] at h3
              exact ⟨h1, htc, h0, h3⟩
            · right
              exact ⟨by omega, by omega, h0, h3⟩

/-- Extracting one signal of any length: the loop terminates and raw bit `t`
of the result, for `t` below the length and below 32, is bit `(S + t) % 8` of
byte `fieldByte .. t`; the other raw bits are `0`. -/
theorem unpackSignal_bits (dlc : ℕ) (s : CANSignal) (S : ℕ) (data : ℕ → ℕ)
    (hS : codecStartBit dlc s = (S : ℤ)) :
    ∃ v, unpackSignal dlc s data = some v ∧
      ∀ t, (v.testBit t = true ↔
        (t < s.length ∧ t < 32 ∧
          (data (fieldByte dlc s S t)).testBit ((S + t) % 8) = true)) := by
  have hsi := codecStartIndex_eq dlc s S hS
  have hso := codecStartOffset_eq dlc s S hS
  obtain ⟨v, h1, h2⟩ := unpackLoop_bits data (S % 8) (((S / 8 : ℕ) : ℤ) - codecBase dlc s)
    s.length s.length (S % 8) 0 0 0 (le_refl _)
    (Or.inr ⟨by omega, by omega, fun _ => rfl, fun h => by omega⟩)
  refine ⟨v, ?_, ?_⟩
  · unfold unpackSignal
    rw [hsi, hso]
    simpa using h1
  · intro t
    rw [h2 t, fieldByte_eq]
    have e : (S % 8 + t) % 8 = (S + t) % 8 := by omega
    rw [e]
    simp

/-- The raw value extracted for a signal inside the frame is the same for two
payloads that agree on the bits of the field of the signal. -/
theorem unpackSignal_field (dlc : ℕ) (s : CANSignal) (data data' : ℕ → ℕ)
    (hin : 0 ≤ codecStartBit dlc s)
    (h : ∀ j b, fieldHas dlc s j b → (data j).testBit b = (data' j).testBit b) :
    unpackSignal dlc s data = unpackSignal dlc s data' := by
  have hS : codecStartBit dlc s = (((codecStartBit dlc s).toNat : ℕ) : ℤ) :=
    (Int.toNat_of_nonneg hin).symm
  obtain ⟨v, hv, hvbit⟩ := unpackSignal_bits dlc s _ data hS
  obtain ⟨v', hv', hvbit'⟩ := unpackSignal_bits dlc s _ data' hS
  rw [hv, hv']
  congr 1
  apply eq_of_testBit_iff
  intro t
  rw [hvbit t, hvbit' t]
  constructor
  · rintro ⟨h1, h2, h3⟩
    refine ⟨h1, h2, ?_⟩
    rw [← h _ _ ⟨t, h1, rfl, rfl⟩]
    exact h3
  · rintro ⟨h1, h2, h3⟩
    refine ⟨h1, h2, ?_⟩
    rw [h _ _ ⟨t, h1, rfl, rfl⟩]
    exact h3

/-- The parsing step of a signal inside the frame is the same for two
payloads that agree on the bits of the field of the signal. -/
theorem parseSignal_field (dlc : ℕ) (s : CANSignal) (data data' : ℕ → ℕ)
    (hin : 0 ≤ codecStartBit dlc s)
    (h : ∀ j b, fieldHas dlc s j b → (data j).testBit b = (data' j).testBit b) :
    CANMessage.parseSignal dlc data s = CANMessage.parseSignal dlc data' s := by
  unfold CANMessage.parseSignal
  rw [unpackSignal_field dlc s data data' hin h]

/-- The signal at a position after the loop of `parseCANFrame` is the result
of the parsing step of the signal at that position. -/
theorem parseSignals_getElem (dlc : ℕ) (data : ℕ → ℕ) :
    ∀ (sigs : List CANSignal) (ret ret' : Bool) (sigs' : List CANSignal),
      CANMessage.parseSignals dlc data sigs ret = some (ret', sigs') →
      ∀ (i : ℕ) (s : CANSignal), sigs[i]? = some s →
        ∃ c s', CANMessage.parseSignal dlc data s = some (c, s') ∧ sigs'[i]? = some s' := by
  intro sigs
  induction sigs with
  | nil =>
    intro ret ret' sigs' _ i s hs
    simp at hs
  | cons x rest ih =>
    intro ret ret' sigs' hp i s hs
    simp only [CANMessage.parseSignals] at hp
    cases hx : CANMessage.parseSignal dlc data x with
    | none => rw [hx] at hp; simp at hp
    | some r =>
      obtain ⟨c, x1⟩ := r
      rw [hx] at hp
      simp only at hp
      cases hr : CANMessage.parseSignals dlc data rest (ret || c) with
      | none => rw [hr] at hp; simp at hp
      | some q =>
        obtain ⟨ret1, rest1⟩ := q
        rw [hr] at hp
        simp only [Option.some.injEq, Prod.mk.injEq] at hp
        obtain ⟨_, hsig⟩ := hp
        subst hsig
        cases i with
        | zero =>
          simp only [List.getElem?_cons_zero, Option.some.injEq] at hs
          subst hs
          exact ⟨c, x1, hx, by simp⟩
        | succ i =>
          simp only [List.getElem?_cons_succ] at hs
          obtain ⟨c', s', h1, h2⟩ := ih (ret || c) ret1 rest1 hr i s hs
          exact ⟨c', s', h1, by simpa using h2⟩

/-- The frame assembled from signals inside the frame: it exists, carries
the identifier and the length of the message, and a payload bit is set exactly
when some signal has the raw bit set that is placed there. -/
theorem assembleCANFrame_bits (m : CANMessage)
    (hin : ∀ s, s ∈ m.m_signals → 0 ≤ codecStartBit m.dlc s) :
    ∃ f, m.assembleCANFrame = some f ∧ f.can_id = m.id ∧ f.len = m.dlc % 256 ∧
      ∀ j b, ((f.data j).testBit b = true ↔
        ∃ s, s ∈ m.m_signals ∧ ∃ t, t < s.length ∧
          fieldByte m.dlc s (codecStartBit m.dlc s).toNat t = j ∧
          ((codecStartBit m.dlc s).toNat + t) % 8 = b ∧ s.getRawValue.testBit t = true) := by
  obtain ⟨d, h1, _, h3⟩ := packSignals_spec m.dlc m.m_signals canfd_frame.zero.data
    (by intro j; simp [canfd_frame.zero]) hin
  refine ⟨{ can_id := m.id, len := m.dlc % 256, data := d }, ?_, rfl, rfl, ?_⟩
  · unfold CANMessage.assembleCANFrame
    rw [h1]
  · intro j b
    rw [h3 j b]
    simp [canfd_frame.zero]

/-- Two frames with the same identifier, length and payload bits are equal. -/
theorem canfd_frame_ext (f g : canfd_frame) (h1 : f.can_id = g.can_id) (h2 : f.len = g.len)
    (h3 : ∀ j b, ((f.data j).testBit b = true ↔ (g.data j).testBit b = true)) : f = g := by
  obtain ⟨a, b, c⟩ := f
  obtain ⟨a', b', c'⟩ := g
  simp only at h1 h2 h3
  subst h1
  subst h2
  have : c = c' := by
    funext j
    exact eq_of_testBit_iff _ _ (h3 j)
  rw [this]

/-- A field inside a frame of `dlc` bytes does not cross byte `0` of the
reflected addressing, and its bytes are among the first `dlc`. -/
theorem field_inside (dlc : ℕ) (s : CANSignal) (S : ℕ)
    (hfit : S + s.length ≤ 8 * dlc) :
    ((∀ u, u < s.length → codecBase dlc s ≤ (((S + u) / 8 : ℕ) : ℤ)) ∨
      (∀ u, u < s.length → (((S + u) / 8 : ℕ) : ℤ) ≤ codecBase dlc s)) ∧
    ∀ u, u < s.length → fieldByte dlc s S u < dlc := by
  unfold fieldByte codecBase
  cases s.order with
  | INTEL =>
    simp only
    refine ⟨Or.inl (fun u _ => by omega), fun u hu => by omega⟩
  | MOTOROLA =>
    simp only
    refine ⟨Or.inr (fun u hu => by omega), fun u hu => by omega⟩

/-- C35: for a message of at most 64 bytes whose signals lie inside the
frame with pairwise disjoint fields, `assembleCANFrame` produces a frame in
which the bit at the place of raw bit `t` of a signal is that raw bit; the
frame is the same for every order of the signals; replacing one signal by a
signal of the same layout (another value) leaves the identifier, the length
and every payload bit outside the field of that signal as they were; and the
raw value extracted for a signal, its parsing step, and the signal that
`parseCANFrame` leaves at its position are the same for two frames that agree
on the bits of the field of the signal. -/
theorem fields_independent (m : CANMessage)
    (hdlc : m.dlc ≤ 64)
    (hin : ∀ s, s ∈ m.m_signals → 0 ≤ codecStartBit m.dlc s)
    (hfit : ∀ s, s ∈ m.m_signals → codecStartBit m.dlc s + s.length ≤ 8 * m.dlc)
    (hdis : DisjointFields m) :
    (∃ f, m.assembleCANFrame = some f ∧
      ∀ s, s ∈ m.m_signals → ∀ t, t < s.length →
        (f.data (fieldByte m.dlc s (codecStartBit m.dlc s).toNat t)).testBit
          (((codecStartBit m.dlc s).toNat + t) % 8) = s.getRawValue.testBit t) ∧
    (∀ m' : CANMessage, m'.id = m.id → m'.dlc = m.dlc →
      List.Perm m'.m_signals m.m_signals → m'.assembleCANFrame = m.assembleCANFrame) ∧
    (∀ (m' : CANMessage) (pre post : List CANSignal) (s s' : CANSignal),
      m'.id = m.id → m'.dlc = m.dlc →
      m.m_signals = pre ++ s :: post → m'.m_signals = pre ++ s' :: post →
      s'.order = s.order → s'.startBit = s.startBit → s'.length = s.length →
      ∃ f f', m.assembleCANFrame = some f ∧ m'.assembleCANFrame = some f' ∧
        f'.can_id = f.can_id ∧ f'.len = f.len ∧
        ∀ j b, ¬ fieldHas m.dlc s j b → (f'.data j).testBit b = (f.data j).testBit b) ∧
    (∀ s, s ∈ m.m_signals → ∀ data data' : ℕ → ℕ,
      (∀ j b, fieldHas m.dlc s j b → (data j).testBit b = (data' j).testBit b) →
      (∃ v, unpackSignal m.dlc s data = some v ∧ unpackSignal m.dlc s data' = some v) ∧
      CANMessage.parseSignal m.dlc data s = CANMessage.parseSignal m.dlc data' s) ∧
    (∀ frame frame' : canfd_frame, ∃ r r', m.parseCANFrame frame = some r ∧
      m.parseCANFrame frame' = some r' ∧
      ∀ (i : ℕ) (s : CANSignal), m.m_signals[i]? = some s →
        (∀ j b, fieldHas m.dlc s j b → (frame.data j).testBit b = (frame'.data j).testBit b) →
        r.2.m_signals[i]? = r'.2.m_signals[i]?) := by
  have hS : ∀ s, s ∈ m.m_signals →
      codecStartBit m.dlc s = (((codecStartBit m.dlc s).toNat : ℕ) : ℤ) :=
    fun s hs => (Int.toNat_of_nonneg (hin s hs)).symm
  have hfitN : ∀ s, s ∈ m.m_signals → (codecStartBit m.dlc s).toNat + s.length ≤ 8 * m.dlc := by
    intro s hs
    have h1 := hfit s hs
    have h2 := hS s hs
    omega
  refine ⟨?_, ?_, ?_, ?_, ?_⟩
  · obtain ⟨f, hf, _, _, hbit⟩ := assembleCANFrame_bits m hin
    refine ⟨f, hf, ?_⟩
    intro s hs t ht
    rw [Bool.eq_iff_iff, hbit]
    obtain ⟨hside, hlt⟩ := field_inside m.dlc s _ (hfitN s hs)
    constructor
    · rintro ⟨x, hx, u, hu, hb, hmod, hraw⟩
      by_cases hxs : x = s
      · subst hxs
        have := fieldPos_injective m.dlc x _ u t hside hu ht hb hmod
        rw [← this]
        exact hraw
      · exfalso
        have hsym : Symmetric (fun s s' : CANSignal =>
            ∀ j, j < 64 → ∀ b, b < 8 → ¬ (fieldHas m.dlc s j b ∧ fieldHas m.dlc s' j b)) := by
          intro a c hac j hj b hb hboth
          exact hac j hj b hb ⟨hboth.2, hboth.1⟩
        have hno := List.Pairwise.forall hsym hdis hx hs hxs
        have hj : fieldByte m.dlc s (codecStartBit m.dlc s).toNat t < 64 :=
          lt_of_lt_of_le (hlt t ht) hdlc
        exact hno _ hj (((codecStartBit m.dlc s).toNat + t) % 8) (Nat.mod_lt _ (by norm_num))
          ⟨⟨u, hu, hb, hmod⟩, ⟨t, ht, rfl, rfl⟩⟩
    · intro hraw
      exact ⟨s, hs, t, ht, rfl, rfl, hraw⟩
  · intro m' hid hdlc' hperm
    have hin' : ∀ s, s ∈ m'.m_signals → 0 ≤ codecStartBit m'.dlc s := by
      intro s hs
      rw [hdlc']
      exact hin s (hperm.mem_iff.mp hs)
    obtain ⟨f, hf, hf1, hf2, hbit⟩ := assembleCANFrame_bits m hin
    obtain ⟨f', hf', hf1', hf2', hbit'⟩ := assembleCANFrame_bits m' hin'
    rw [hf, hf']
    congr 1
    apply canfd_frame_ext
    · rw [hf1, hf1', hid]
    · rw [hf2, hf2', hdlc']
    · intro j b
      rw [hbit, hbit', hdlc']
      constructor
      · rintro ⟨x, hx, h⟩; exact ⟨x, hperm.mem_iff.mp hx, h⟩
      · rintro ⟨x, hx, h⟩; exact ⟨x, hperm.mem_iff.mpr hx, h⟩
  · intro m' pre post s s' hid hdlc' hm hm' ho hsb hl
    have hcs : codecStartBit m.dlc s' = codecStartBit m.dlc s :=
      codecStartBit_congr m.dlc s s' ho hsb hl
    have hin' : ∀ x, x ∈ m'.m_signals → 0 ≤ codecStartBit m'.dlc x := by
      intro x hx
      rw [hdlc']
      rw [hm'] at hx
      rcases List.mem_append.mp hx with h | h
      · exact hin x (by rw [hm]; exact List.mem_append_left _ h)
      · rcases List.mem_cons.mp h with h | h
        · rw [h, hcs]
          exact hin s (by rw [hm]; simp)
        · exact hin x (by rw [hm]; simp [h])
    obtain ⟨f, hf, hf1, hf2, hbit⟩ := assembleCANFrame_bits m hin
    obtain ⟨f', hf', hf1', hf2', hbit'⟩ := assembleCANFrame_bits m' hin'
    refine ⟨f, f', hf, hf', by rw [hf1, hf1', hid], by rw [hf2, hf2', hdlc'], ?_⟩
    intro j b hout
    rw [Bool.eq_iff_iff, hbit, hbit', hdlc', hm, hm']
    constructor
    · rintro ⟨x, hx, u, hu, hb, hmod, hraw⟩
      rcases List.mem_append.mp hx with h | h
      · exact ⟨x, List.mem_append_left _ h, u, hu, hb, hmod, hraw⟩
      · rcases List.mem_cons.mp h with h | h
        · exfalso
          apply hout
          subst h
          refine ⟨u, by rw [← hl]; exact hu, ?_, ?_⟩
          · rw [← hcs, ← fieldByte_congr m.dlc s x ho]
            exact hb
          · rw [← hcs]
            exact hmod
        · exact ⟨x, List.mem_append_right _ (List.mem_cons_of_mem _ h), u, hu, hb, hmod, hraw⟩
    · rintro ⟨x, hx, u, hu, hb, hmod, hraw⟩
      rcases List.mem_append.mp hx with h | h
      · exact ⟨x, List.mem_append_left _ h, u, hu, hb, hmod, hraw⟩
      · rcases List.mem_cons.mp h with h | h
        · exfalso
          apply hout
          subst h
          exact ⟨u, hu, hb, hmod⟩
        · exact ⟨x, List.mem_append_right _ (List.mem_cons_of_mem _ h), u, hu, hb, hmod, hraw⟩
  · intro s hs data data' hag
    obtain ⟨v, hv⟩ := unpackSignal_total m.dlc s data
    refine ⟨⟨v, hv, ?_⟩, parseSignal_field m.dlc s data data' (hin s hs) hag⟩
    rw [← unpackSignal_field m.dlc s data data' (hin s hs) hag]
    exact hv
  · intro frame frame'
    obtain ⟨ret, sigs, hp, _, _⟩ := parseSignals_forall2 m.dlc frame.data m.m_signals false
    obtain ⟨ret', sigs', hp', _, _⟩ := parseSignals_forall2 m.dlc frame'.data m.m_signals false
    refine ⟨(ret, { m with m_signals := sigs }), (ret', { m with m_signals := sigs' }), ?_, ?_, ?_⟩
    · unfold CANMessage.parseCANFrame
      rw [hp]
    · unfold CANMessage.parseCANFrame
      rw [hp']
    · intro i s hi hag
      obtain ⟨c, s1, h1, h2⟩ := parseSignals_getElem m.dlc frame.data _ _ _ _ hp i s hi
      obtain ⟨c', s1', h1', h2'⟩ := parseSignals_getElem m.dlc frame'.data _ _ _ _ hp' i s hi
      have hmem : s ∈ m.m_signals := List.getElem?_mem hi
      rw [parseSignal_field m.dlc s frame.data frame'.data (hin s hmem) hag, h1'] at h1
      have : s1' = s1 := (Prod.mk.inj (Option.some.inj h1)).2
      simp only
      rw [h2, h2', this]

set_option maxRecDepth 100000 in
/-- The message `twoSignalMessage` satisfies the hypotheses of
`fields_independent`. -/
theorem fields_independent_witness :
    twoSignalMessage.dlc ≤ 64 ∧ DisjointFields twoSignalMessage ∧
    (∀ m' : CANMessage, m'.id = twoSignalMessage.id → m'.dlc = twoSignalMessage.dlc →
      List.Perm m'.m_signals twoSignalMessage.m_signals →
      m'.assembleCANFrame = twoSignalMessage.assembleCANFrame) :=
  ⟨by decide, by decide,
    (fields_independent twoSignalMessage (by decide) (by decide) (by decide) (by decide)).2.1⟩

set_option maxRecDepth 100000 in
/-- Both orders of the signals with the values `5` and `20` give the payload
byte `165`; with overlapping fields the shared bits are the OR of the two raw
values, so the field of the second signal (value `0`) reads back as `3`. -/
theorem fields_independent_examples :
    (twoSignalValues.assembleCANFrame.map (fun f => (f.can_id, f.len, f.data 0))
      = some (291, 1, 165)) ∧
    (twoSignalSwapped.assembleCANFrame.map (fun f => (f.can_id, f.len, f.data 0))
      = some (291, 1, 165)) ∧
    ¬ DisjointFields overlappingMessage ∧
    (overlappingMessage.assembleCANFrame.map (fun f => f.data 0) = some 12) ∧
    (unpackSignal 1 (mkSignal ByteOrder.INTEL 2 4 Sign.UNSIGNED 0 15 1 0 "int" (Value.Integer 0))
      (fun j => if j = 0 then 12 else 0) = some 3) := by
  refine ⟨by decide, by decide, by decide, by decide, by decide⟩


/-! ## Random values of the flood mode -/

theorem truncateToInt_intCast (z : ℤ) : truncateToInt (z : ℚ) = z := by
  unfold truncateToInt
  by_cases h : (0 : ℚ) ≤ z
  · rw [if_pos h, Int.floor_intCast]
  · rw [if_neg h]
    have : (-(z : ℚ)) = ((-z : ℤ) : ℚ) := by push_cast; rfl
    rw [this, Int.floor_intCast]
    ring

/-- For a signal whose current value is an `Integer` and whose bounds are
integers of the range of `int` with `0 < maximum - minimum < 2 ^ 31`,
`randomValue` returns an integer `v` with `minimum ≤ v < maximum`. -/
theorem randomValue_integer_range (signal : CANSignal) (rand : ℕ) (lo hi : ℤ)
    (htype : signal.m_value.type = ValueType.Integer)
    (hlo : signal.minimum = lo) (hhi : signal.maximum = hi)
    (h1 : -(2 ^ 31) ≤ lo) (h2 : hi < 2 ^ 31) (h3 : lo < hi) (h4 : hi - lo < 2 ^ 31) :
    ∃ v : ℤ, CANSimulatorFloodMode.randomValue signal rand = some (Value.Integer v) ∧
      lo ≤ v ∧ v < hi := by
  unfold CANSimulatorFloodMode.randomValue
  rw [if_pos htype, hlo, hhi]
  unfold doubleToInt
  rw [truncateToInt_intCast, truncateToInt_intCast, if_pos ⟨h1, by omega⟩,
    if_pos ⟨by omega, h2⟩]
  simp only
  unfold checkedInt
  rw [if_pos ⟨by omega, h4⟩]
  simp only
  rw [if_neg (by omega)]
  have hr0 : 0 ≤ Int.tmod (rand : ℤ) (hi - lo) :=
    Int.tmod_nonneg _ (Int.natCast_nonneg rand)
  have hr1 : Int.tmod (rand : ℤ) (hi - lo) < hi - lo :=
    Int.tmod_lt_of_pos _ (by omega)
  rw [if_pos ⟨by omega, by omega⟩]
  exact ⟨_, rfl, by omega, by omega⟩

set_option maxRecDepth 100000 in
/-- C36: signals with `maximum > minimum` on which `randomValue` is undefined
or leaves the bounds.  With bounds `[0, 0.5]` both bounds convert to the `int`
0 and the remainder is taken by zero, for every outcome of `rand()`; with the
bounds of `int32_t` the difference `max - min` overflows `int`; with bounds
`[0.5, 10]` the outcome 0 gives the value 0, below the minimum, which
`setValue` rejects; with the `double` bounds `[-40.5, 0.1]` the outcome
`RAND_MAX` gives a value above the maximum, which `setValue` rejects. -/
theorem randomValue_undefined :
    (halfRangeSignal.minimum < halfRangeSignal.maximum ∧
      ∀ rand, CANSimulatorFloodMode.randomValue halfRangeSignal rand = none) ∧
    (fullRange32.minimum < fullRange32.maximum ∧
      ∀ rand, CANSimulatorFloodMode.randomValue fullRange32 rand = none) ∧
    (fractionalMinimum.minimum < fractionalMinimum.maximum ∧
      CANSimulatorFloodMode.randomValue fractionalMinimum 0 = some (Value.Integer 0) ∧
      (Value.Integer 0).toDouble < fractionalMinimum.minimum ∧
      (fractionalMinimum.setValue (Value.Integer 0)).1 = false) ∧
    (doubleRange.minimum < doubleRange.maximum ∧
      ∃ v, CANSimulatorFloodMode.randomValue doubleRange RAND_MAX = some (Value.Double v) ∧
        doubleRange.maximum < v ∧ (doubleRange.setValue (Value.Double v)).1 = false) := by
  refine ⟨⟨by decide, fun rand => ?_⟩, ⟨by decide, fun rand => ?_⟩,
    ⟨by decide, by decide, by decide, by decide⟩, ⟨by decide, ?_⟩⟩
  · have hmin : doubleToInt halfRangeSignal.minimum = some 0 := by decide
    have hmax : doubleToInt halfRangeSignal.maximum = some 0 := by decide
    unfold CANSimulatorFloodMode.randomValue
    rw [if_pos (by decide), hmin, hmax]
    rfl
  · have hmin : doubleToInt fullRange32.minimum = some (-2147483648) := by decide
    have hmax : doubleToInt fullRange32.maximum = some 2147483647 := by decide
    unfold CANSimulatorFloodMode.randomValue
    rw [if_pos (by decide), hmin, hmax]
    rfl
  · refine ⟨_, rfl, ?_, ?_⟩ <;> decide


/-! ## The size counted for error and unknown frames -/

theorem messageBits_eq (message : CANMessage) (hdlc : message.dlc ≤ 64) :
    CANSimulatorFloodMode.messageBits message =
      33 + (message.dlc : ℤ) * 8 + (if message.id &&& CAN_EFF_FLAG ≠ 0 then 29 else 11) := by
  unfold CANSimulatorFloodMode.messageBits FRAME_SIZE CAN_EFF_ID_BITS CAN_SFF_ID_BITS
  have hlt : 33 + message.dlc * 8 + (if message.id &&& CAN_EFF_FLAG ≠ 0 then 29 else 11)
      < 2 ^ 64 := by
    split <;> omega
  rw [Nat.mod_eq_of_lt hlt]
  rw [wrapInt_of_range 32 (by decide)]
  · push_cast
    split <;> rfl
  · split <;> push_cast <;> omega
  · split <;> push_cast <;> omega

/-- C37: for an error frame `readCANMessage` adds
`33 + len + (29 | 11)` to `errorSize`, and for a filtered frame the same
amount to `unknownSize`: the payload length enters in bytes, not in bits.
The amount equals the frame's size in bits `33 + 8 * len + (29 | 11)` only
for an empty payload, and is `7 * len` below the `messageBits` that the flood
engine computes for a message with the frame's identifier and length. -/
theorem readCANMessage_size (core : CANSimulatorCore) (frame : canfd_frame) :
    (frame.can_id &&& CAN_ERR_FLAG = CAN_ERR_FLAG →
      core.readCANMessage (some frame) = some (0, { core with m_errorMetrics :=
        { core.m_errorMetrics with
          errorMessages := (core.m_errorMetrics.errorMessages + 1) % 2 ^ 64,
          errorSize := (core.m_errorMetrics.errorSize +
            (33 + frame.len + (if frame.can_id &&& CAN_EFF_FLAG ≠ 0 then 29 else 11)))
              % 2 ^ 64 } })) ∧
    (frame.can_id &&& CAN_ERR_FLAG ≠ CAN_ERR_FLAG → core.isMessageFiltered frame.can_id = true →
      core.readCANMessage (some frame) = some (0, { core with m_errorMetrics :=
        { core.m_errorMetrics with
          unknownMessages := (core.m_errorMetrics.unknownMessages + 1) % 2 ^ 64,
          unknownSize := (core.m_errorMetrics.unknownSize +
            (33 + frame.len + (if frame.can_id &&& CAN_EFF_FLAG ≠ 0 then 29 else 11)))
              % 2 ^ 64 } })) ∧
    (33 + frame.len + (if frame.can_id &&& CAN_EFF_FLAG ≠ 0 then 29 else 11) =
        33 + 8 * frame.len + (if frame.can_id &&& CAN_EFF_FLAG ≠ 0 then 29 else 11) ↔
      frame.len = 0) ∧
    (∀ message : CANMessage, message.id = frame.can_id → message.dlc = frame.len →
      message.dlc ≤ 64 →
      CANSimulatorFloodMode.messageBits message =
        ((33 + frame.len + (if frame.can_id &&& CAN_EFF_FLAG ≠ 0 then 29 else 11) : ℕ) : ℤ)
          + 7 * frame.len) := by
  refine ⟨?_, ?_, ?_, ?_⟩
  · intro herr
    unfold CANSimulatorCore.readCANMessage
    simp only [herr, if_true]
    try rfl
  · intro herr hf
    unfold CANSimulatorCore.readCANMessage
    simp only [herr, if_false, hf, Bool.not_true, Bool.false_eq_true]
    try rfl
  · constructor
    · intro h; omega
    · intro h; rw [h]
  · intro message hid hdlc h64
    rw [messageBits_eq message h64, hid, hdlc]
    split <;> push_cast <;> ring

set_option maxRecDepth 100000 in
/-- C37 at an error frame with eight data bytes and a standard identifier:
52 is added to `errorSize`, while the frame has `33 + 64 + 11 = 108` bits,
which is also the `messageBits` of a standard message of eight bytes. -/
theorem readCANMessage_size_example :
    (exampleCore.readCANMessage (some (errorFrameLen 8))).map
      (fun r => (r.1, r.2.m_errorMetrics.errorMessages, r.2.m_errorMetrics.errorSize)) =
      some (0, 1, 52) ∧
    33 + 8 * (errorFrameLen 8).len +
      (if (errorFrameLen 8).can_id &&& CAN_EFF_FLAG ≠ 0 then 29 else 11) = 108 ∧
    CANSimulatorFloodMode.messageBits (mkMessage 0 8 []) = 108 := by
  refine ⟨?_, ?_, ?_⟩ <;> decide


/-! ## The pause between bursts -/

/-- C38: when `checkBurstSleep` finds the sending window elapsed
(`difference ≥ m_burstWaitTime`, burst delay not negative, no overflow of the
timers), the argument of `nanoSleep` is the rest of the pause, at most the
burst delay, only as long as the elapsed time has not passed the end of the
pause; once it has, the `uint64_t` subtraction wraps around and the argument
is `2 ^ 64` minus the overrun, more than the burst delay.  `waitUntil` makes
the same subtraction only after testing `difference < waitTime`. -/
theorem checkBurstSleep_sleep (fm : CANSimulatorFloodMode) (difference : ℕ)
    (hset : fm.m_burstWaitTime ≠ 0) (hdue : difference ≥ fm.m_burstWaitTime)
    (hdelay : 0 ≤ fm.m_burstDelay)
    (hend : fm.m_burstWaitTime + fm.m_burstDelay.toNat < 2 ^ 64) (hdiff : difference < 2 ^ 64) :
    (difference ≤ fm.m_burstWaitTime + fm.m_burstDelay.toNat →
      (fm.checkBurstSleep difference).1 =
        some (fm.m_burstWaitTime + fm.m_burstDelay.toNat - difference) ∧
      fm.m_burstWaitTime + fm.m_burstDelay.toNat - difference ≤ fm.m_burstDelay.toNat) ∧
    (fm.m_burstWaitTime + fm.m_burstDelay.toNat < difference →
      (fm.checkBurstSleep difference).1 =
        some (2 ^ 64 - (difference - (fm.m_burstWaitTime + fm.m_burstDelay.toNat))) ∧
      fm.m_burstDelay.toNat <
        2 ^ 64 - (difference - (fm.m_burstWaitTime + fm.m_burstDelay.toNat))) ∧
    (∀ waitTime sleep, waitTime < 2 ^ 64 →
      CANSimulatorFloodMode.waitUntil difference waitTime = some sleep →
      sleep = waitTime - difference ∧ sleep ≤ waitTime) := by
  have hw : wrapNat 64 fm.m_burstDelay = fm.m_burstDelay.toNat := by
    apply wrapNat_of_range 64 _ hdelay
    have : ((fm.m_burstDelay.toNat : ℕ) : ℤ) < 2 ^ 64 := by
      have : fm.m_burstDelay.toNat < 2 ^ 64 := by omega
      exact_mod_cast this
    rw [Int.toNat_of_nonneg hdelay] at this
    exact this
  have hsleep : (fm.checkBurstSleep difference).1 =
      some ((fm.m_burstWaitTime + fm.m_burstDelay.toNat + 2 ^ 64 - difference) % 2 ^ 64) := by
    unfold CANSimulatorFloodMode.checkBurstSleep
    rw [if_neg hset, if_pos hdue]
    simp only [hw, Nat.mod_eq_of_lt hend, Nat.mod_eq_of_lt hdiff]
  refine ⟨?_, ?_, ?_⟩
  · intro hle
    refine ⟨?_, by omega⟩
    rw [hsleep]
    congr 1
    have : fm.m_burstWaitTime + fm.m_burstDelay.toNat + 2 ^ 64 - difference =
        (fm.m_burstWaitTime + fm.m_burstDelay.toNat - difference) + 2 ^ 64 := by omega
    rw [this, Nat.add_mod_right]
    apply Nat.mod_eq_of_lt
    omega
  · intro hlt
    refine ⟨?_, by omega⟩
    rw [hsleep]
    congr 1
    have : fm.m_burstWaitTime + fm.m_burstDelay.toNat + 2 ^ 64 - difference =
        2 ^ 64 - (difference - (fm.m_burstWaitTime + fm.m_burstDelay.toNat)) := by omega
    rw [this]
    apply Nat.mod_eq_of_lt
    omega
  · intro waitTime sleep hwt h
    unfold CANSimulatorFloodMode.waitUntil at h
    split at h
    · rename_i hlt
      simp only [Option.some.injEq] at h
      rw [Nat.mod_eq_of_lt hdiff] at h
      have e : (waitTime + 2 ^ 64 - difference) % 2 ^ 64 = waitTime - difference := by
        have : waitTime + 2 ^ 64 - difference = (waitTime - difference) + 2 ^ 64 := by omega
        rw [this, Nat.add_mod_right]
        apply Nat.mod_eq_of_lt
        omega
      rw [e] at h
      subst h
      exact ⟨rfl, Nat.sub_le _ _⟩
    · cases h

/-- C38 at a flood mode with bursts of 300 µs and pauses of 900 µs whose
first burst ended at 300 µs: called 1300 µs after the start, 100 µs after
the end of the pause, `checkBurstSleep` asks `nanoSleep` for
`2 ^ 64 - 100` µs. -/
theorem checkBurstSleep_sleep_witness :
    (burstExample.checkBurstSleep 1300).1 = some 18446744073709551516 ∧
    burstExample.m_burstDelay.toNat < 18446744073709551516 :=
  (checkBurstSleep_sleep burstExample 1300 (by decide) (by decide) (by decide) (by decide)
    (by decide)).2.1 (by decide)

/-- The same flood mode called inside the pause, 1000 µs after the start,
sleeps for the remaining 200 µs and arms the next burst to end at 1500 µs. -/
theorem checkBurstSleep_examples :
    (burstExample.checkBurstSleep 1000).1 = some 200 ∧
    (burstExample.checkBurstSleep 1000).2.m_burstWaitTime = 1500 ∧
    (burstExample.checkBurstSleep 1000).2.m_waitTime = 900 ∧
    (burstExample.checkBurstSleep 100).1 = none ∧
    CANSimulatorFloodMode.waitUntil 1300 1200 = none := by
  refine ⟨?_, ?_, ?_, ?_, ?_⟩ <;> decide


/-! ## Default values -/

theorem setDefaultValue_eq (s : CANSignal) (stold : String → Option LongDouble) (useNativeUnits : Bool)
    (str : String) :
    s.setDefaultValue stold useNativeUnits str =
      if (s.parseValue stold useNativeUnits str Value.default).1 = true then
        (true, { s with
          m_defaultValue := (s.parseValue stold useNativeUnits str Value.default).2 })
      else (false, s) := rfl

theorem parseValue_accepted (s : CANSignal) (stold : String → Option LongDouble) (useNativeUnits : Bool)
    (str : String) (h : (s.parseValue stold useNativeUnits str Value.default).1 = true) :
    s.testValue (s.parseValue stold useNativeUnits str Value.default).2 = true := by
  unfold CANSignal.parseValue at h ⊢
  cases hs : stold str with
  | none => rw [hs] at h; cases h
  | some parsed =>
    rw [hs] at h
    cases parsed with
    | num x => exact h
    | nan => exact h

theorem initSignalSettings_type (s : CANSignal) (stold : String → Option LongDouble)
    (useNativeUnits : Bool) (toString : ℚ → String) (type default : Option String) :
    s.initSignalSettings stold useNativeUnits toString type default =
      (Option.elim type s s.setValueType).initSignalSettings stold useNativeUnits toString
        none default := by
  cases type <;> rfl

/-- After `resetValue` the value is the default value (the same `Value`,
also when that is a NaN), which is the one the signal had. -/
theorem resetValue_default (s : CANSignal) (b : Bool) :
    (s.resetValue b).2.m_value = (s.resetValue b).2.m_defaultValue ∧
    (s.resetValue b).2.m_defaultValue = s.m_defaultValue ∧
    (s.resetValue b).2.minimum = s.minimum ∧ (s.resetValue b).2.maximum = s.maximum := by
  unfold CANSignal.resetValue
  simp only
  by_cases h : Value.ne s.m_value s.m_defaultValue = true
  · rw [if_pos h]
    exact ⟨rfl, rfl, rfl, rfl⟩
  · rw [if_neg h]
    refine ⟨?_, rfl, rfl, rfl⟩
    have h2 : Value.eq s.m_value s.m_defaultValue = true := by
      unfold Value.ne at h
      simpa using h
    exact ((Value_eq_iff _ _).1 h2).1

theorem resetLoop_default (b : Bool) :
    ∀ (sigs : List CANSignal),
      List.Forall₂ (fun s s1 => s1.m_value = s1.m_defaultValue ∧
        s1.m_defaultValue = s.m_defaultValue ∧ s1.minimum = s.minimum ∧
        s1.maximum = s.maximum) sigs (resetLoop b sigs).2 := by
  intro sigs
  induction sigs with
  | nil => exact List.Forall₂.nil
  | cons s rest ih =>
    unfold resetLoop
    exact List.Forall₂.cons (resetValue_default s b) ih


set_option maxRecDepth 100000 in
/-- C40: a temperature signal in Kelvin with bounds `[300, 400]`, value type
`double` and no configured default gets a default value outside its bounds.
`"0"` is converted to 273.15 and rejected; the text of the minimum, which is
already in Kelvin, is converted once more, to 573.15, and rejected, and the
result of that last call is not looked at, so the default value stays the
`Value()` of the constructor; after `resetValue` the value is that integer 0,
below the minimum.  With native units, where nothing is converted, the same
fallback gives the minimum 300. -/
theorem default_outside_bounds :
    (kelvinNarrow.initSignalSettings stoldExample true toStringExample (some "double")
      none).m_defaultValue = Value.Double 300 ∧
    (kelvinNarrow.initSignalSettings stoldExample false toStringExample (some "double")
      none).m_defaultValue = Value.Integer 0 ∧
    ((kelvinNarrow.initSignalSettings stoldExample false toStringExample (some "double")
      none).resetValue false).2.m_value = Value.Integer 0 ∧
    (Value.Integer 0).toDouble < kelvinNarrow.minimum ∧
    kelvinNarrow.testValue (Value.Integer 0) = false ∧
    ((kelvinNarrow.setValueType "double").parseValue stoldExample false "0" Value.default) =
      (false, Value.Double (rnd (27315 / 100))) ∧
    ((kelvinNarrow.setValueType "double").parseValue stoldExample false
      (toStringExample kelvinNarrow.minimum) Value.default) =
      (false, Value.Double (rnd (300 + rnd (27315 / 100)))) := by
  refine ⟨?_, ?_, ?_, ?_, ?_, ?_, ?_⟩ <;> decide

/-- What `initSignalSettings` does in general: it sets the declared value
type and takes as default value the first of three candidates that
`parseValue` accepts: the configured default, `"0"`, the text of the minimum,
each converted to the unit of the signal and cast to its value type; an
accepted candidate passes `testValue`.  When all three are rejected the
default value stays as it was.  Nothing else of the signal changes, and after
every `resetValue` the value is the default value, as is the value of every
signal after `setDefaultValues`. -/
theorem default_value_settings (s s1 : CANSignal) (stold : String → Option LongDouble)
    (useNativeUnits : Bool) (toString : ℚ → String) (type default : Option String)
    (hs1 : s1 = Option.elim type s s.setValueType) :
    s.initSignalSettings stold useNativeUnits toString type default =
      { s1 with m_defaultValue :=
        specDefault s1 stold useNativeUnits toString default s.m_defaultValue } ∧
    (∀ str v, acceptedDefault s1 stold useNativeUnits str = some v →
      (s.initSignalSettings stold useNativeUnits toString type default).testValue v = true) ∧
    (∀ b,
      ((s.initSignalSettings stold useNativeUnits toString type default).resetValue b).2.m_value
        = (s.initSignalSettings stold useNativeUnits toString type default).m_defaultValue) ∧
    (∀ (cfg : Configuration) (b : Bool) (m : CANMessage) (x : CANSignal),
      m ∈ (cfg.setDefaultValues b).m_messages → x ∈ m.m_signals →
      x.m_value = x.m_defaultValue) := by
  have hdef : s1.m_defaultValue = s.m_defaultValue := by
    rw [hs1]; cases type <;> rfl
  have hinit : s.initSignalSettings stold useNativeUnits toString type default =
      { s1 with m_defaultValue :=
        specDefault s1 stold useNativeUnits toString default s.m_defaultValue } := by
    rw [initSignalSettings_type, ← hs1, ← hdef]
    unfold CANSignal.initSignalSettings specDefault acceptedDefault
    simp only [setDefaultValue_eq]
    cases default with
    | none =>
      simp only [Option.bind_none, Option.orElse_none, Bool.not_false, if_true]
      by_cases h0 : (s1.parseValue stold useNativeUnits "0" Value.default).1 = true
      · simp [h0]
      · by_cases hm : (s1.parseValue stold useNativeUnits (toString s1.minimum)
            Value.default).1 = true
        · simp [h0, hm]
        · simp [h0, hm]
    | some d =>
      simp only [Option.bind_some]
      by_cases hd : (s1.parseValue stold useNativeUnits d Value.default).1 = true
      · simp [hd]
      · by_cases h0 : (s1.parseValue stold useNativeUnits "0" Value.default).1 = true
        · simp [hd, h0]
        · by_cases hm : (s1.parseValue stold useNativeUnits (toString s1.minimum)
              Value.default).1 = true
          · simp [hd, h0, hm]
          · simp [hd, h0, hm]
  refine ⟨hinit, ?_, ?_, ?_⟩
  · intro str v h
    rw [hinit]
    unfold acceptedDefault at h
    split at h
    · rename_i hacc
      simp only [Option.some.injEq] at h
      rw [← h]
      exact parseValue_accepted s1 stold useNativeUnits str hacc
    · cases h
  · intro b
    have := resetValue_default (s.initSignalSettings stold useNativeUnits toString type default) b
    rw [← this.2.1]
    exact this.1
  · intro cfg b m x hm hx
    obtain ⟨m0, _, hm0⟩ := List.mem_map.1 hm
    subst hm0
    obtain ⟨a, _, ha⟩ := forall2_mem_right _ _ _ (resetLoop_default b m0.m_signals) x hx
    exact ha.1

set_option maxRecDepth 100000 in
/-- Witness for `default_value_settings`: the Kelvin signal with bounds
`[300, 400]` and the configured default `"50"` (Celsius) gets the default
value 323.15, inside the bounds. -/
theorem default_value_settings_witness :
    (kelvinNarrow.initSignalSettings stoldExample false toStringExample (some "double")
        (some "50")).m_defaultValue =
      specDefault (kelvinNarrow.setValueType "double") stoldExample false toStringExample
        (some "50") kelvinNarrow.m_defaultValue :=
  congrArg CANSignal.m_defaultValue
    (default_value_settings kelvinNarrow (kelvinNarrow.setValueType "double") stoldExample false
      toStringExample (some "double") (some "50") rfl).1

set_option maxRecDepth 100000 in
/-- The default values of the Kelvin signal for a valid configured default,
for an invalid one (the fallbacks are rejected too) and for `nan`, and of a
signal of value type `int` with bounds `[0, 7]` without configured default
and with the configured default `7.49999999999999999` (which is rounded to
`8` and rejected), which takes `0` both times. -/
theorem default_value_examples :
    (kelvinNarrow.initSignalSettings stoldExample false toStringExample (some "double")
      (some "50")).m_defaultValue = Value.Double (rnd (50 + rnd (27315 / 100))) ∧
    kelvinNarrow.testValue (Value.Double (rnd (50 + rnd (27315 / 100)))) = true ∧
    (kelvinNarrow.initSignalSettings stoldExample false toStringExample (some "double")
      (some "0")).m_defaultValue = Value.Integer 0 ∧
    (kelvinNarrow.initSignalSettings stoldExample true toStringExample (some "double")
      none).m_defaultValue = Value.Double 300 ∧
    (kelvinNarrow.initSignalSettings stoldExample false toStringExample (some "double")
      (some "nan")).m_defaultValue = Value.NaN ∧
    (intel3.initSignalSettings stoldExample false toStringExample none none).m_defaultValue
      = Value.Integer 0 ∧
    (intel3.initSignalSettings stoldBelowHalf false toStringExample none
      (some "7.49999999999999999")).m_defaultValue = Value.Integer 0 := by
  refine ⟨?_, ?_, ?_, ?_, ?_, ?_, ?_⟩ <;> decide

end CanSimulator
